import Mathlib

/-! # MiniPython interpreter: lexer, parser and evaluator

A shallow embedding of the C++ sources (`token.hpp`, `lexer.cpp`, `parser.cpp`,
`ast.hpp`, `environment.hpp`, `interpreter.cpp`) and theorems about them.

Conventions of the embedding.
* `long long` is `Int`, reduced to the signed 64-bit range by `wrap64` after
  every arithmetic operation.
* `double` is the type `Double` below: every finite value is an integer
  multiple of `2^-1074`, next to a separate negative zero, the two infinities
  and NaN; arithmetic is exact arithmetic followed by rounding to nearest-even
  on 53 bits.
* C++ exceptions are the type `Exn`; the evaluator returns the interpreter
  state together with either a value or the exception that is propagating.
* Heap-allocated `Environment` objects live in a list; the position of an
  object, counted from the oldest, is its address.
-/

namespace MiniPython

/-! ## token.hpp -/

/-- The enumeration `TokenType`. -/
inductive TokenType
  | INTEGER | FLOAT | IDENTIFIER | STRING
  | PLUS | MINUS | STAR | SLASH | DOUBLE_SLASH | PERCENT | DOUBLE_STAR
  | EQ | NE | LT | LE | GT | GE
  | ASSIGN | PLUS_ASSIGN | MINUS_ASSIGN | STAR_ASSIGN | SLASH_ASSIGN
  | LPAREN | RPAREN | COLON | COMMA | NEWLINE | INDENT | DEDENT
  | DEF | RETURN | IF | ELIF | ELSE | WHILE | FOR | IN | AND | OR | NOT
  | TRUE | FALSE | NONE | PRINT | ASSERT
  | END_OF_FILE | INVALID
  deriving DecidableEq, Repr

/-! ## The type `double` -/

/-- A value of the C++ type `double` (IEEE-754 binary64). A finite value is
held as the integer `k` for which the value is `k * 2^-1074`: every finite
binary64 number is such a multiple of the smallest subnormal. -/
inductive Double
  | nan
  | inf (negative : Bool)
  | negZero
  | fin (k : Int)
  deriving DecidableEq

namespace Double

/-- The number of units `2^-1074` in `1.0`. -/
def one : Nat := 2 ^ 1074

/-- The integer part of the base-2 logarithm of `x`, by repeated halving; the
first argument bounds the number of halvings. -/
def log2Aux : Nat → Nat → Nat
  | 0, _ => 0
  | f + 1, x => if x ≤ 1 then 0 else log2Aux f (x / 2) + 1

/-- The integer part of the base-2 logarithm of a positive natural number. -/
def log2 (x : Nat) : Nat := log2Aux x x

/-- The integer part of the base-2 logarithm of `n / d`, for positive `n`, `d`. -/
def ilog2 (n d : Nat) : Int :=
  let e0 : Int := (log2 n : Int) - (log2 d : Int)
  if 0 ≤ e0 then (if d * 2 ^ e0.toNat ≤ n then e0 else e0 - 1)
  else (if d ≤ n * 2 ^ (-e0).toNat then e0 else e0 - 1)

/-- The integer nearest to `n / d`, ties to even. -/
def roundHalfEven (n d : Nat) : Nat :=
  let q := n / d
  let r := n % d
  if 2 * r < d then q
  else if d < 2 * r then q + 1
  else if q % 2 = 0 then q else q + 1

/-- Rounding to binary64 of the exact result `± n / d`, counted in units of
`2^-1074`: nearest with ties to even on 53 significant bits, gradual underflow
(no unit is ever split), overflow to infinity from `2^1024`. The arguments are
positive. -/
def round (negative : Bool) (n d : Nat) : Double :=
  let p : Nat := (ilog2 n d - 52).toNat
  let r := roundHalfEven n (d * 2 ^ p) * 2 ^ p
  if r = 0 then (if negative then negZero else fin 0)
  else if 2 ^ 1024 * one ≤ r then inf negative
  else fin (if negative then -(r : Int) else (r : Int))

/-- Rounding of the exact result `n / d` (in units of `2^-1074`) for a signed,
non-zero numerator. -/
def roundFrac (n : Int) (d : Nat) : Double :=
  round (decide (n < 0)) n.natAbs d

/-- The conversion `static_cast<double>(long long)`. -/
def ofInt (i : Int) : Double :=
  if i.natAbs ≤ 2 ^ 53 then fin (i * one) else roundFrac (i * one) 1

/-- The sign bit. -/
def signBit : Double → Bool
  | nan => false
  | inf b => b
  | negZero => true
  | fin k => decide (k < 0)

/-- The exact value of a finite double, in units of `2^-1074`. -/
def units : Double → Int
  | fin k => k
  | _ => 0

/-- A zero of the given sign. -/
def zero (negative : Bool) : Double := if negative then negZero else fin 0

/-- Whether the value is `+0.0` or `-0.0`: the C++ test `r == 0.0`. -/
def isZero : Double → Bool
  | negZero => true
  | fin k => decide (k = 0)
  | _ => false

/-- Unary minus. -/
def neg : Double → Double
  | nan => nan
  | inf b => inf (!b)
  | negZero => fin 0
  | fin k => if k = 0 then negZero else fin (-k)

/-- The operator `+` of doubles. -/
def add (x y : Double) : Double :=
  match x, y with
  | nan, _ => nan
  | _, nan => nan
  | inf a, inf b => if a = b then inf a else nan
  | inf a, _ => inf a
  | _, inf b => inf b
  | x, y =>
    let s := x.units + y.units
    if s = 0 then zero (x.signBit && y.signBit) else roundFrac s 1

/-- The operator `-` of doubles. -/
def sub (x y : Double) : Double := add x (neg y)

/-- The operator `*` of doubles. -/
def mul (x y : Double) : Double :=
  match x, y with
  | nan, _ => nan
  | _, nan => nan
  | inf a, y => if y.isZero then nan else inf (xor a y.signBit)
  | x, inf b => if x.isZero then nan else inf (xor x.signBit b)
  | x, y =>
    let p := x.units * y.units
    if p = 0 then zero (xor x.signBit y.signBit) else roundFrac p one

/-- The operator `/` of doubles. -/
def div (x y : Double) : Double :=
  match x, y with
  | nan, _ => nan
  | _, nan => nan
  | inf _, inf _ => nan
  | inf a, y => inf (xor a y.signBit)
  | x, inf b => zero (xor x.signBit b)
  | x, y =>
    if y.isZero then (if x.isZero then nan else inf (xor x.signBit y.signBit))
    else if x.isZero then zero (xor x.signBit y.signBit)
    else round (xor x.signBit y.signBit) (x.units.natAbs * one) y.units.natAbs

/-- The library function `std::floor`. -/
def floor : Double → Double
  | fin k => fin (k / (one : Int) * one)
  | x => x

/-- The library function `std::fmod`: the remainder of the division truncated
toward zero; it has the sign of `x`. -/
def fmod (x y : Double) : Double :=
  match x, y with
  | nan, _ => nan
  | _, nan => nan
  | inf _, _ => nan
  | x, inf _ => x
  | x, y =>
    if y.isZero then nan
    else
      let r := Int.tmod x.units y.units
      if r = 0 then zero x.signBit else fin r

/-- The operator `==` of doubles. -/
def eq (x y : Double) : Bool :=
  match x, y with
  | nan, _ => false
  | _, nan => false
  | inf a, inf b => a = b
  | inf _, _ => false
  | _, inf _ => false
  | x, y => decide (x.units = y.units)

/-- The operator `<` of doubles. -/
def lt (x y : Double) : Bool :=
  match x, y with
  | nan, _ => false
  | _, nan => false
  | inf a, inf b => a && !b
  | inf a, _ => a
  | _, inf b => !b
  | x, y => decide (x.units < y.units)

/-- The operator `<=` of doubles. -/
def le (x y : Double) : Bool := lt x y || eq x y

/-- The conversion `static_cast<long long>(double)`: truncation toward zero;
`none` where the C++ standard leaves the conversion undefined (NaN, infinities
and values outside the range of `long long`). -/
def toInt : Double → Option Int
  | fin k =>
    let t : Int := Int.tdiv k one
    if -(2 : Int) ^ 63 ≤ t ∧ t < (2 : Int) ^ 63 then some t else none
  | negZero => some 0
  | _ => none

/-- The position of the leading bit of a positive real number given by its
comparison with the rationals, searched downward from the first argument. -/
def leadingBit (cmp : Nat → Nat → Ordering) : Nat → Nat
  | 0 => 0
  | e + 1 => if cmp (2 ^ (e + 1)) 1 != .gt then e + 1 else leadingBit cmp e

/-- The largest number `acc + j` with `j < 2^i` for which `(acc + j) * 2^p` is
not above the real number given by `cmp`, found bit by bit. -/
def mantissaBits (cmp : Nat → Nat → Ordering) (p : Nat) : Nat → Nat → Nat
  | 0, acc => acc
  | i + 1, acc =>
    if cmp ((acc + 2 ^ i) * 2 ^ p) 1 != .gt then mantissaBits cmp p i (acc + 2 ^ i)
    else mantissaBits cmp p i acc

/-- Rounding to binary64 of a positive real number `v`, counted in units of
`2^-1074` and given by its comparison with the rationals: `cmp n d` is the
ordering of `n / d` relative to `v`. Nearest, ties to even, as `round`. -/
def roundCut (negative : Bool) (cmp : Nat → Nat → Ordering) : Double :=
  let p := leadingBit cmp 2200 - 52
  let k := mantissaBits cmp p 53 0
  let k1 : Nat :=
    match cmp ((2 * k + 1) * 2 ^ p) 2 with
    | Ordering.lt => k + 1
    | Ordering.gt => k
    | Ordering.eq => if k % 2 = 1 then k + 1 else k
  let r := k1 * 2 ^ p
  if r = 0 then (if negative then negZero else fin 0)
  else if 2 ^ 1024 * one ≤ r then inf negative
  else fin (if negative then -(r : Int) else (r : Int))

/-- Whether a finite double is an odd integer. -/
def isOddInteger : Double → Bool
  | fin k => k % one = 0 && (k / one) % 2 = 1
  | _ => false

/-- Whether a finite double is an integer. -/
def isInteger : Double → Bool
  | fin k => k % one = 0
  | negZero => true
  | _ => false

/-- The library function `std::pow`, with the special cases of IEEE 754 and
the real power rounded to nearest. -/
def pow (x y : Double) : Double :=
  if y.isZero then fin one
  else if x = fin one then fin one
  else
    match x, y with
    | nan, _ => nan
    | _, nan => nan
    | inf _, inf b => if b then fin 0 else inf false
    | x, inf b =>
      if x.units.natAbs = one then fin one
      else if decide (x.units.natAbs < one) = b then inf false else fin 0
    | inf a, y =>
      if y.signBit then zero (a && y.isOddInteger) else inf (a && y.isOddInteger)
    | x, y =>
      if x.isZero then
        if y.signBit then inf (x.signBit && y.isOddInteger)
        else zero (x.signBit && y.isOddInteger)
      else if x.signBit && !y.isInteger then nan
      else
        let n := x.units.natAbs
        let g := Nat.gcd y.units.natAbs one
        let a := y.units.natAbs / g
        let b := one / g
        -- the ordering of (num / den) * 2^-1074 relative to (n * 2^-1074) ^ (± a / b)
        let cmp : Nat → Nat → Ordering := fun num den =>
          if y.signBit then compare (num ^ b * n ^ a) (one ^ a * (den * one) ^ b)
          else compare (num ^ b * one ^ a) (n ^ a * (den * one) ^ b)
        roundCut (x.signBit && y.isOddInteger) cmp

end Double

/-- Reduction of an integer to the range of `long long` (two's complement). -/
def wrap64 (i : Int) : Int := (i + 2 ^ 63) % 2 ^ 64 - 2 ^ 63

/-- The payload of a token: `std::variant<std::monostate, long long, double, std::string>`. -/
inductive Literal
  | monostate
  | integer (value : Int)
  | float (value : Double)
  | string (value : String)
  deriving DecidableEq

/-- The record `Token`. -/
structure Token where
  type : TokenType
  lexeme : String
  literal : Literal
  line : Nat
  column : Nat
  deriving DecidableEq

/-! ## ast.hpp -/

/-- The runtime values `PyValue`. A function value is a `shared_ptr<PyFunction>`:
the address of a `PyFunction` object (see `Interpreter.functions`). -/
inductive PyValue
  | none
  | bool (b : Bool)
  | int (i : Int)
  | float (d : Double)
  | str (s : String)
  | function (ptr : Nat)
  deriving DecidableEq

mutual
/-- The expression nodes. -/
inductive Expr
  | binaryExpr (left : Expr) (op : Token) (right : Expr)
  | unaryExpr (op : Token) (operand : Expr)
  | literalExpr (value : PyValue)
  | variableExpr (name : Token)
  | assignExpr (name : Token) (value : Expr)
  | callExpr (callee : Expr) (paren : Token) (arguments : List Expr)
  | groupingExpr (expression : Expr)
/-- The statement nodes. -/
inductive Stmt
  | expressionStmt (expression : Expr)
  | printStmt (expressions : List Expr)
  | varStmt (name : Token) (initializer : Expr)
  | blockStmt (statements : List Stmt)
  | ifStmt (condition : Expr) (thenBranch : Stmt) (elifBranches : List (Expr × Stmt))
      (elseBranch : Option Stmt)
  | whileStmt (condition : Expr) (body : Stmt)
  | functionStmt (name : Token) (params : List Token) (body : List Stmt)
  | returnStmt (keyword : Token) (value : Option Expr)
  | assertStmt (keyword : Token) (condition : Expr) (message : Option Expr)
end

/-- The runtime object `PyFunction`; `declaration` holds the body of the
`FunctionStmt` node that the C++ field of that name points to. -/
structure PyFunction where
  name : String
  params : List String
  declaration : List Stmt

/-- Dereference of an address in a list of heap objects (newest first). -/
def deref {α : Type} (heap : List α) (ptr : Nat) : Option α :=
  if ptr < heap.length then heap[heap.length - 1 - ptr]? else none

/-- Decimal digits of a natural number, least significant first; the first
argument bounds the number of digits. -/
def digitsRev : Nat → Nat → List Char
  | 0, _ => []
  | f + 1, n => Char.ofNat (48 + n % 10) :: (if n < 10 then [] else digitsRev f (n / 10))

/-- The function `std::to_string(long long)`. -/
def intToString (i : Int) : String :=
  let ds := String.mk (digitsRev (i.natAbs + 1) i.natAbs).reverse
  if i < 0 then "-" ++ ds else ds

/-- The function `std::to_string(double)`, that is `printf` with `%f`: six
fractional digits, the exact value rounded to nearest, ties to even. -/
def Double.toString : Double → String
  | .nan => "nan"
  | .inf b => if b then "-inf" else "inf"
  | .negZero => "-0.000000"
  | .fin k =>
    let n := Double.roundHalfEven (k.natAbs * 10 ^ 6) Double.one
    let frac := (digitsRev 6 (n % 10 ^ 6 + 10 ^ 6)).reverse
    (if k < 0 then "-" else "") ++ intToString (n / 10 ^ 6) ++ "." ++ String.mk frac

/-- The trimming of trailing zeros in `pyValueToString` for a `double`:
`find('.')`, `find_last_not_of('0')` and the two `substr` calls. -/
def trimFloat (s : List Char) : List Char :=
  match s.indexOf? '.' with
  | Option.none => s
  | some dot =>
    match s.reverse.findIdx? (fun c => c != '0') with
    | Option.none => s.take (dot + 2)
    | some fromEnd =>
      let last := s.length - 1 - fromEnd
      if dot < last then s.take (last + 1) else s.take (dot + 2)

/-- The helper `pyValueToString`. -/
def pyValueToString (functions : List PyFunction) : PyValue → String
  | .none => "None"
  | .bool b => if b then "True" else "False"
  | .int i => intToString i
  | .float d => String.mk (trimFloat (Double.toString d).data)
  | .str s => s
  | .function ptr =>
    match deref functions ptr with
    | some f => "<function " ++ f.name ++ ">"
    | Option.none => "<function >"

/-- The helper `isTruthy`. -/
def isTruthy : PyValue → Bool
  | .none => false
  | .bool b => b
  | .int i => i != 0
  | .float d => !d.isZero
  | .str s => s != ""
  | .function _ => true

/-! ## environment.hpp -/

/-- What a C++ evaluation can end with instead of a value: the exception
classes of the program (`RuntimeError`, `AssertionError`, `ReturnException`),
the library exception `std::bad_variant_access` thrown by `std::get`, an
operation whose behaviour the C++ standard leaves undefined, and the exhaustion
of the step budget of this embedding. -/
inductive Exn
  | RuntimeError (msg : String) (line : Nat)
  | AssertionError (msg : String) (line : Nat)
  | ReturnException (value : PyValue)
  | bad_variant_access
  | undefinedBehaviour
  | outOfFuel
  deriving DecidableEq

deriving instance DecidableEq for Except

/-- The map `std::unordered_map<std::string, PyValue>` of one environment. -/
abbrev Values := List (String × PyValue)

/-- The call `values.find(name)`. -/
def Values.find : Values → String → Option PyValue
  | [], _ => Option.none
  | (k, v) :: rest, name => if k = name then some v else Values.find rest name

/-- The statement `values[name] = value`. -/
def Values.set : Values → String → PyValue → Values
  | [], name, value => [(name, value)]
  | (k, v) :: rest, name, value =>
    if k = name then (k, value) :: rest else (k, v) :: Values.set rest name value

/-- An object of class `Environment`: its map and the address of the enclosing
environment (`none` for a null pointer). -/
structure Environment where
  values : Values
  enclosing : Option Nat
  deriving DecidableEq

/-- The heap of `Environment` objects, newest first: the object at address `a`
is the head of the suffix of length `a + 1`. An environment is constructed
with the address of an older object as `enclosing`, or with none. -/
abbrev EnvHeap := List Environment

/-- The method `Environment::define`, on the object at address `env`. -/
def Environment.define : EnvHeap → Nat → String → PyValue → EnvHeap
  | [], _, _, _ => []
  | o :: rest, env, name, value =>
    if env = rest.length then { o with values := o.values.set name value } :: rest
    else o :: Environment.define rest env name value

/-- The method `Environment::get`, on the object at address `env`. -/
def Environment.get : EnvHeap → Nat → String → Except Exn PyValue
  | [], _, _ => .error .undefinedBehaviour
  | o :: rest, env, name =>
    if env = rest.length then
      match o.values.find name with
      | some v => .ok v
      | Option.none =>
        match o.enclosing with
        | some up => Environment.get rest up name
        | Option.none => .error (.RuntimeError ("Undefined variable '" ++ name ++ "'") 0)
    else Environment.get rest env name

/-- The method `Environment::assign`, on the object at address `env`. -/
def Environment.assign : EnvHeap → Nat → String → PyValue → EnvHeap
  | [], _, _, _ => []
  | o :: rest, env, name, value =>
    if env = rest.length then
      match o.values.find name with
      | some _ => { o with values := o.values.set name value } :: rest
      | Option.none =>
        match o.enclosing with
        | some up => o :: Environment.assign rest up name value
        | Option.none => { o with values := o.values.set name value } :: rest
    else o :: Environment.assign rest env name value

/-- The method `Environment::contains`, on the object at address `env`. -/
def Environment.contains : EnvHeap → Nat → String → Bool
  | [], _, _ => false
  | o :: rest, env, name =>
    if env = rest.length then
      match o.values.find name with
      | some _ => true
      | Option.none =>
        match o.enclosing with
        | some up => Environment.contains rest up name
        | Option.none => false
    else Environment.contains rest env name

/-! ## interpreter.cpp -/

/-- The test `std::holds_alternative<double>`. -/
def PyValue.holdsDouble : PyValue → Bool
  | .float _ => true
  | _ => false

/-- The test `std::holds_alternative<long long>`. -/
def PyValue.holdsInt : PyValue → Bool
  | .int _ => true
  | _ => false

/-- The test `std::holds_alternative<std::string>`. -/
def PyValue.holdsString : PyValue → Bool
  | .str _ => true
  | _ => false

/-- The call `std::get<long long>`. -/
def PyValue.getInt : PyValue → Except Exn Int
  | .int i => .ok i
  | _ => .error .bad_variant_access

/-- The call `std::get<std::string>`. -/
def PyValue.getString : PyValue → Except Exn String
  | .str s => .ok s
  | _ => .error .bad_variant_access

/-- The recurring expression
`holds_alternative<double>(v) ? get<double>(v) : static_cast<double>(get<long long>(v))`. -/
def PyValue.asDouble : PyValue → Except Exn Double
  | .float d => .ok d
  | v => do
    let i ← v.getInt
    pure (Double.ofInt i)

/-- The loop of string repetition: `times` appends of `s` to an empty string. -/
def repeatString (s : String) : Nat → String
  | 0 => ""
  | n + 1 => repeatString s n ++ s

/-- The conversion `static_cast<long long>(double)` inside an evaluation. -/
def castToInt (d : Double) : Except Exn PyValue :=
  match d.toInt with
  | some i => .ok (.int i)
  | Option.none => .error .undefinedBehaviour

/-- The `switch (expr.op.type)` of `Interpreter::visitBinaryExpr`, applied to
the values of the two operands. -/
def binarySwitch (op : Token) (left right : PyValue) : Except Exn PyValue :=
  match op.type with
  | .PLUS =>
    if left.holdsString && right.holdsString then do
      let a ← left.getString
      let b ← right.getString
      pure (.str (a ++ b))
    else if left.holdsDouble || right.holdsDouble then do
      let l ← left.asDouble
      let r ← right.asDouble
      pure (.float (l.add r))
    else if left.holdsInt && right.holdsInt then do
      let a ← left.getInt
      let b ← right.getInt
      pure (.int (wrap64 (a + b)))
    else .error (.RuntimeError "Operands must be numbers or strings" op.line)
  | .MINUS =>
    if left.holdsDouble || right.holdsDouble then do
      let l ← left.asDouble
      let r ← right.asDouble
      pure (.float (l.sub r))
    else if left.holdsInt && right.holdsInt then do
      let a ← left.getInt
      let b ← right.getInt
      pure (.int (wrap64 (a - b)))
    else .error (.RuntimeError "Operands must be numbers" op.line)
  | .STAR =>
    if left.holdsString && right.holdsInt then do
      let times ← right.getInt
      let s ← left.getString
      pure (.str (repeatString s times.toNat))
    else if left.holdsDouble || right.holdsDouble then do
      let l ← left.asDouble
      let r ← right.asDouble
      pure (.float (l.mul r))
    else if left.holdsInt && right.holdsInt then do
      let a ← left.getInt
      let b ← right.getInt
      pure (.int (wrap64 (a * b)))
    else .error (.RuntimeError "Operands must be numbers" op.line)
  | .SLASH => do
    let l ← left.asDouble
    let r ← right.asDouble
    if r.isZero then .error (.RuntimeError "Division by zero" op.line)
    else pure (.float (l.div r))
  | .DOUBLE_SLASH => do
    let l ← left.asDouble
    let r ← right.asDouble
    if r.isZero then .error (.RuntimeError "Division by zero" op.line)
    else
      let result := (l.div r).floor
      if left.holdsInt && right.holdsInt then castToInt result
      else pure (.float result)
  | .PERCENT =>
    if left.holdsInt && right.holdsInt then do
      let r ← right.getInt
      if r = 0 then .error (.RuntimeError "Modulo by zero" op.line)
      else do
        let l ← left.getInt
        if l = -2 ^ 63 ∧ r = -1 then .error .undefinedBehaviour
        else pure (.int (Int.tmod l r))
    else do
      let l ← left.asDouble
      let r ← right.asDouble
      if r.isZero then .error (.RuntimeError "Modulo by zero" op.line)
      else pure (.float (l.fmod r))
  | .DOUBLE_STAR => do
    let l ← left.asDouble
    let r ← right.asDouble
    let result := l.pow r
    if left.holdsInt && right.holdsInt then do
      let e ← right.getInt
      if 0 ≤ e ∧ result.eq result.floor = true then castToInt result
      else pure (.float result)
    else pure (.float result)
  | .EQ =>
    match left, right with
    | .none, .none => pure (.bool true)
    | .bool a, .bool b => pure (.bool (a == b))
    | .str a, .str b => pure (.bool (a == b))
    | .function a, .function b => pure (.bool (a == b))
    | _, _ =>
      if (left.holdsInt || left.holdsDouble) && (right.holdsInt || right.holdsDouble) then do
        let l ← left.asDouble
        let r ← right.asDouble
        pure (.bool (l.eq r))
      else pure (.bool false)
  | .NE =>
    match left, right with
    | .none, .none => pure (.bool false)
    | .bool a, .bool b => pure (.bool (a != b))
    | .str a, .str b => pure (.bool (a != b))
    | .function a, .function b => pure (.bool (a != b))
    | _, _ =>
      if (left.holdsInt || left.holdsDouble) && (right.holdsInt || right.holdsDouble) then do
        let l ← left.asDouble
        let r ← right.asDouble
        pure (.bool (!(l.eq r)))
      else pure (.bool true)
  | .LT | .LE | .GT | .GE =>
    if !(left.holdsInt || left.holdsDouble) then
      .error (.RuntimeError "Operands must be numbers" op.line)
    else if !(right.holdsInt || right.holdsDouble) then
      .error (.RuntimeError "Operands must be numbers" op.line)
    else do
      let l ← left.asDouble
      let r ← right.asDouble
      match op.type with
      | .LT => pure (.bool (l.lt r))
      | .LE => pure (.bool (l.le r))
      | .GT => pure (.bool (r.lt l))
      | .GE => pure (.bool (r.le l))
      | _ => pure (.bool false)
  | .AND => pure (if isTruthy left then right else left)
  | .OR => pure (if isTruthy left then left else right)
  | _ => .error (.RuntimeError "Unknown binary operator" op.line)

/-- The `switch (expr.op.type)` of `Interpreter::visitUnaryExpr`, applied to
the value of the operand. -/
def unarySwitch (op : Token) (operand : PyValue) : Except Exn PyValue :=
  match op.type with
  | .MINUS =>
    match operand with
    | .int i => pure (.int (wrap64 (-i)))
    | .float d => pure (.float d.neg)
    | _ => .error (.RuntimeError "Operand must be a number" op.line)
  | .NOT => pure (.bool (!isTruthy operand))
  | _ => .error (.RuntimeError "Unknown unary operator" op.line)

/-- The state of an `Interpreter` object together with the heap objects it
owns and the text written to standard output. -/
structure Interpreter where
  envs : EnvHeap
  functions : List PyFunction
  globalEnv : Nat
  currentEnv : Nat
  lastValue : PyValue
  lastValueSet : Bool
  stdout : String

/-- The constructor `Interpreter::Interpreter`. -/
def Interpreter.new : Interpreter :=
  { envs := [{ values := [], enclosing := Option.none }], functions := [],
    globalEnv := 0, currentEnv := 0, lastValue := .none, lastValueSet := false,
    stdout := "" }

/-- The result of running a piece of the evaluator: the state reached, and
the value returned or the exception thrown. -/
abbrev Res (α : Type) := Interpreter × Except Exn α

/-- The loop of `callFunction` that binds the parameters to the arguments. -/
def defineParams (heap : EnvHeap) (env : Nat) : List String → List PyValue → EnvHeap
  | p :: ps, a :: as => defineParams (Environment.define heap env p a) env ps as
  | _, _ => heap

mutual
/-- The method `Interpreter::evaluate` with the expression visitors it
dispatches to. The first argument bounds the depth of nested calls. -/
def evaluate : Nat → Interpreter → Expr → Res PyValue
  | 0, st, _ => (st, .error .outOfFuel)
  -- visitBinaryExpr
  | fuel + 1, st, .binaryExpr left op right =>
    match evaluate fuel st left with
    | (st1, .error e) => (st1, .error e)
    | (st1, .ok l) =>
      match evaluate fuel st1 right with
      | (st2, .error e) => (st2, .error e)
      | (st2, .ok r) => (st2, binarySwitch op l r)
  -- visitUnaryExpr
  | fuel + 1, st, .unaryExpr op operand =>
    match evaluate fuel st operand with
    | (st1, .error e) => (st1, .error e)
    | (st1, .ok v) => (st1, unarySwitch op v)
  -- visitLiteralExpr
  | _ + 1, st, .literalExpr value => (st, .ok value)
  -- visitVariableExpr
  | _ + 1, st, .variableExpr name => (st, Environment.get st.envs st.currentEnv name.lexeme)
  -- visitAssignExpr
  | fuel + 1, st, .assignExpr name value =>
    match evaluate fuel st value with
    | (st1, .error e) => (st1, .error e)
    | (st1, .ok v) =>
      ({ st1 with envs := Environment.assign st1.envs st1.currentEnv name.lexeme v }, .ok v)
  -- visitCallExpr
  | fuel + 1, st, .callExpr callee paren arguments =>
    match evaluate fuel st callee with
    | (st1, .error e) => (st1, .error e)
    | (st1, .ok c) =>
      match evaluateArguments fuel st1 arguments with
      | (st2, .error e) => (st2, .error e)
      | (st2, .ok args) =>
        match c with
        | .function ptr =>
          match deref st2.functions ptr with
          | some f => callFunction fuel st2 f args paren
          | Option.none => (st2, .error .undefinedBehaviour)
        | _ => (st2, .error (.RuntimeError "Can only call functions" paren.line))
  -- visitGroupingExpr
  | fuel + 1, st, .groupingExpr expression => evaluate fuel st expression

/-- The loop of `visitCallExpr` that evaluates the arguments in order. -/
def evaluateArguments : Nat → Interpreter → List Expr → Res (List PyValue)
  | 0, st, _ => (st, .error .outOfFuel)
  | _ + 1, st, [] => (st, .ok [])
  | fuel + 1, st, arg :: rest =>
    match evaluate fuel st arg with
    | (st1, .error e) => (st1, .error e)
    | (st1, .ok v) =>
      match evaluateArguments fuel st1 rest with
      | (st2, .error e) => (st2, .error e)
      | (st2, .ok vs) => (st2, .ok (v :: vs))

/-- The method `Interpreter::callFunction`. -/
def callFunction :
    Nat → Interpreter → PyFunction → List PyValue → Token → Res PyValue
  | 0, st, _, _, _ => (st, .error .outOfFuel)
  | fuel + 1, st, function, arguments, paren =>
    if arguments.length ≠ function.params.length then
      (st, .error (.RuntimeError ("Expected " ++ intToString function.params.length ++
        " arguments but got " ++ intToString arguments.length) paren.line))
    else
      let env := st.envs.length
      let heap := defineParams ({ values := [], enclosing := some st.globalEnv } :: st.envs)
        env function.params arguments
      match executeBlock fuel { st with envs := heap } function.declaration env with
      | (st1, .error (.ReturnException value)) => (st1, .ok value)
      | (st1, .error e) => (st1, .error e)
      | (st1, .ok _) => (st1, .ok .none)

/-- The method `Interpreter::executeBlock`. -/
def executeBlock : Nat → Interpreter → List Stmt → Nat → Res Unit
  | 0, st, _, _ => (st, .error .outOfFuel)
  | fuel + 1, st, statements, env =>
    let previous := st.currentEnv
    match executeStatements fuel { st with currentEnv := env } statements with
    | (st1, .error e) => ({ st1 with currentEnv := previous }, .error e)
    | (st1, .ok _) => ({ st1 with currentEnv := previous }, .ok ())

/-- The loop `for (const auto& stmt : statements) execute(stmt);`. -/
def executeStatements : Nat → Interpreter → List Stmt → Res Unit
  | 0, st, _ => (st, .error .outOfFuel)
  | _ + 1, st, [] => (st, .ok ())
  | fuel + 1, st, stmt :: rest =>
    match execute fuel st stmt with
    | (st1, .error e) => (st1, .error e)
    | (st1, .ok _) => executeStatements fuel st1 rest

/-- The loop of `visitPrintStmt` over the operands. -/
def printExpressions : Nat → Interpreter → List Expr → Bool → Res Unit
  | 0, st, _, _ => (st, .error .outOfFuel)
  | _ + 1, st, [], _ => (st, .ok ())
  | fuel + 1, st, expr :: rest, first =>
    let st0 := if first then st else { st with stdout := st.stdout ++ " " }
    match evaluate fuel st0 expr with
    | (st1, .error e) => (st1, .error e)
    | (st1, .ok value) =>
      printExpressions fuel
        { st1 with stdout := st1.stdout ++ pyValueToString st1.functions value } rest false

/-- The loop of `visitIfStmt` over the `elif` branches, followed by the
`else` branch. -/
def executeElifs :
    Nat → Interpreter → List (Expr × Stmt) → Option Stmt → Res Unit
  | 0, st, _, _ => (st, .error .outOfFuel)
  | _ + 1, st, [], Option.none => (st, .ok ())
  | fuel + 1, st, [], some elseBranch => execute fuel st elseBranch
  | fuel + 1, st, (condition, branch) :: rest, elseBranch =>
    match evaluate fuel st condition with
    | (st1, .error e) => (st1, .error e)
    | (st1, .ok c) =>
      if isTruthy c then execute fuel st1 branch
      else executeElifs fuel st1 rest elseBranch

/-- The loop of `visitWhileStmt`. -/
def executeWhile : Nat → Interpreter → Expr → Stmt → Res Unit
  | 0, st, _, _ => (st, .error .outOfFuel)
  | fuel + 1, st, condition, body =>
    match evaluate fuel st condition with
    | (st1, .error e) => (st1, .error e)
    | (st1, .ok c) =>
      if isTruthy c then
        match execute fuel st1 body with
        | (st2, .error e) => (st2, .error e)
        | (st2, .ok _) => executeWhile fuel st2 condition body
      else (st1, .ok ())

/-- The method `Interpreter::execute` with the statement visitors it
dispatches to. -/
def execute : Nat → Interpreter → Stmt → Res Unit
  | 0, st, _ => (st, .error .outOfFuel)
  -- visitExpressionStmt
  | fuel + 1, st, .expressionStmt expression =>
    match evaluate fuel st expression with
    | (st1, .error e) => (st1, .error e)
    | (st1, .ok v) => ({ st1 with lastValue := v, lastValueSet := true }, .ok ())
  -- visitPrintStmt
  | fuel + 1, st, .printStmt expressions =>
    match printExpressions fuel st expressions true with
    | (st1, .error e) => (st1, .error e)
    | (st1, .ok _) => ({ st1 with stdout := st1.stdout ++ "\n", lastValueSet := false }, .ok ())
  -- visitVarStmt
  | fuel + 1, st, .varStmt name initializer =>
    match evaluate fuel st initializer with
    | (st1, .error e) => (st1, .error e)
    | (st1, .ok v) =>
      ({ st1 with envs := Environment.define st1.envs st1.currentEnv name.lexeme v,
                  lastValueSet := false }, .ok ())
  -- visitBlockStmt
  | fuel + 1, st, .blockStmt statements =>
    executeBlock fuel
      { st with envs := { values := [], enclosing := some st.currentEnv } :: st.envs }
      statements st.envs.length
  -- visitIfStmt
  | fuel + 1, st, .ifStmt condition thenBranch elifBranches elseBranch =>
    match evaluate fuel st condition with
    | (st1, .error e) => (st1, .error e)
    | (st1, .ok c) =>
      if isTruthy c then execute fuel st1 thenBranch
      else executeElifs fuel st1 elifBranches elseBranch
  -- visitWhileStmt
  | fuel + 1, st, .whileStmt condition body => executeWhile fuel st condition body
  -- visitFunctionStmt
  | _ + 1, st, .functionStmt name params body =>
    let function : PyFunction :=
      { name := name.lexeme, params := params.map (fun p => p.lexeme), declaration := body }
    ({ st with functions := function :: st.functions,
               envs := Environment.define st.envs st.currentEnv name.lexeme
                 (.function st.functions.length),
               lastValueSet := false }, .ok ())
  -- visitReturnStmt
  | _ + 1, st, .returnStmt _ Option.none => (st, .error (.ReturnException .none))
  | fuel + 1, st, .returnStmt _ (some value) =>
    match evaluate fuel st value with
    | (st1, .error e) => (st1, .error e)
    | (st1, .ok v) => (st1, .error (.ReturnException v))
  -- visitAssertStmt
  | fuel + 1, st, .assertStmt keyword condition message =>
    match evaluate fuel st condition with
    | (st1, .error e) => (st1, .error e)
    | (st1, .ok c) =>
      if !isTruthy c then
        match message with
        | Option.none => (st1, .error (.AssertionError "AssertionError" keyword.line))
        | some m =>
          match evaluate fuel st1 m with
          | (st2, .error e) => (st2, .error e)
          | (st2, .ok msgValue) =>
            (st2, .error (.AssertionError
              ("AssertionError: " ++ pyValueToString st2.functions msgValue) keyword.line))
      else ({ st1 with lastValueSet := false }, .ok ())
end

/-- The method `Interpreter::interpret`. -/
def interpret (fuel : Nat) (st : Interpreter) (statements : List Stmt) :
    Res Unit :=
  executeStatements fuel st statements

/-! ## lexer.cpp -/

/-- What `Lexer::tokenize` can end with instead of a token vector: the
exception class `LexerError` of the program, the library exception
`std::out_of_range` thrown by `std::stoll` and `std::stod`, and the exhaustion
of the step budget of this embedding. -/
inductive LexExn
  | LexerError (msg : String) (line : Nat) (column : Nat)
  | out_of_range
  | outOfFuel
  deriving DecidableEq, Repr

/-- The table `Lexer::keywords`. -/
def keywords : List (String × TokenType) :=
  [("def", .DEF), ("return", .RETURN), ("if", .IF), ("elif", .ELIF), ("else", .ELSE),
   ("while", .WHILE), ("for", .FOR), ("in", .IN), ("and", .AND), ("or", .OR),
   ("not", .NOT), ("True", .TRUE), ("False", .FALSE), ("None", .NONE),
   ("print", .PRINT), ("assert", .ASSERT)]

/-- The call `keywords.find(text)`. -/
def keywordsFind (text : String) : Option TokenType :=
  (keywords.find? (fun kv => kv.1 = text)).map (fun kv => kv.2)

/-- The value of a run of decimal digits. -/
def digitsToNat (cs : List Char) : Nat :=
  cs.foldl (fun acc c => acc * 10 + (c.toNat - 48)) 0

/-- The call `std::stoll(numStr)` on a run of decimal digits: `none` when the
library throws `std::out_of_range`. -/
def stoll (numStr : List Char) : Option Int :=
  let n := digitsToNat numStr
  if n < 2 ^ 63 then some (n : Int) else Option.none

/-- The call `std::stod(numStr)` on the text of a float literal (digits, an
optional fraction, an optional exponent): the decimal value rounded to the
nearest double; `none` when the library throws `std::out_of_range` (the result
overflows, or it is below the normal range and inexact). -/
def stod (numStr : List Char) : Option Double :=
  let ip := numStr.takeWhile Char.isDigit
  let r1 := numStr.dropWhile Char.isDigit
  let fp := if r1.head? = some '.' then r1.tail.takeWhile Char.isDigit else []
  let r2 := if r1.head? = some '.' then r1.tail.dropWhile Char.isDigit else r1
  let r3 := r2.tail
  let negExp := decide (r3.head? = some '-')
  let ed := if r3.head? = some '-' ∨ r3.head? = some '+' then r3.tail else r3
  let e := digitsToNat ed
  let m := digitsToNat (ip ++ fp)
  -- the value is m * 10 ^ (± e - fp.length)
  let up : Nat := if negExp then 0 else e - fp.length
  let down : Nat := if negExp then e + fp.length else fp.length - e
  if m = 0 then some (.fin 0)
  else
    let n := m * 10 ^ up * Double.one
    let d := 10 ^ down
    match Double.round false n d with
    | .fin k => if k.natAbs < 2 ^ 52 ∧ k.natAbs * d ≠ n then Option.none else some (.fin k)
    | _ => Option.none

/-- The fields of a `Lexer` object. The source and the two cursors into it
are held as the unread part of the source, `rest = source[current..]`, and
the part from the start of the token being scanned, `startRest = source[start..]`.
The vector `indentStack` is held with its back first. -/
structure Lexer where
  rest : List Char
  startRest : List Char
  tokens : List Token
  line : Nat
  column : Nat
  startColumn : Nat
  indentStack : List Nat
  atLineStart : Bool
  deriving DecidableEq

namespace Lexer

/-- The constructor `Lexer::Lexer`. -/
def new (source : List Char) : Lexer :=
  { rest := source, startRest := source, tokens := [], line := 1, column := 1,
    startColumn := 1, indentStack := [0], atLineStart := true }

/-- The method `isAtEnd`. -/
def isAtEnd (lx : Lexer) : Bool := lx.rest.isEmpty

/-- The method `peek`. -/
def peek (lx : Lexer) : Char :=
  match lx.rest with
  | [] => Char.ofNat 0
  | c :: _ => c

/-- The method `peekNext`. -/
def peekNext (lx : Lexer) : Char :=
  match lx.rest with
  | _ :: c :: _ => c
  | _ => Char.ofNat 0

/-- The state change of the method `advance` (the character it returns is
`peek` of the state before). -/
def advance (lx : Lexer) : Lexer :=
  { lx with rest := lx.rest.tail, column := lx.column + 1 }

/-- A loop `while (p(peek())) advance();` for a test `p` that fails at the end
of the source. -/
def advanceWhile (p : Char → Bool) : List Char → Nat → List Char × Nat
  | [], column => ([], column)
  | c :: r, column => if p c then advanceWhile p r (column + 1) else (c :: r, column)

/-- The state after a loop `while (p(peek())) advance();`. -/
def skipWhile (p : Char → Bool) (lx : Lexer) : Lexer :=
  { lx with rest := (advanceWhile p lx.rest lx.column).1,
            column := (advanceWhile p lx.rest lx.column).2 }

/-- The text `source.substr(start, current - start)`. -/
def text (lx : Lexer) : List Char :=
  lx.startRest.take (lx.startRest.length - lx.rest.length)

/-- The overloads of the method `addToken`. -/
def addToken (lx : Lexer) (type : TokenType) (literal : Literal) : Lexer :=
  { lx with tokens := lx.tokens ++ [⟨type, String.mk lx.text, literal, lx.line, lx.startColumn⟩] }

/-- The exception thrown by the method `error`. -/
def error (lx : Lexer) (message : String) : LexExn :=
  .LexerError message lx.line lx.startColumn

/-- The first loop of `handleIndentation`: the rest of the source, the width
counted and the column after the leading spaces and tabs. -/
def countIndent : List Char → Nat → Nat → List Char × Nat × Nat
  | [], indent, column => ([], indent, column)
  | c :: r, indent, column =>
    if c = ' ' then countIndent r (indent + 1) (column + 1)
    else if c = '\t' then countIndent r (indent + 8) (column + 1)
    else (c :: r, indent, column)

/-- The loop of `handleIndentation` that pops the stack and emits one DEDENT
per pop: the stack and the tokens after it. -/
def popIndents (indent line column : Nat) : List Nat → List Token → List Nat × List Token
  | [], tokens => ([], tokens)
  | top :: below, tokens =>
    if indent < top then
      popIndents indent line column below (tokens ++ [⟨.DEDENT, "", .monostate, line, column⟩])
    else (top :: below, tokens)

/-- The method `handleIndentation`. -/
def handleIndentation (lx : Lexer) : Except LexExn Lexer :=
  let (rest, indent, column) := countIndent lx.rest 0 lx.column
  let lx1 := { lx with rest := rest, column := column }
  -- Skip blank lines and comment-only lines
  if lx1.isAtEnd || lx1.peek = '\n' || lx1.peek = '#' then .ok lx1
  else
    let currentIndent := lx1.indentStack.headD 0
    if currentIndent < indent then
      .ok { lx1 with indentStack := indent :: lx1.indentStack, startRest := lx1.rest,
                     startColumn := lx1.column,
                     tokens := lx1.tokens ++ [⟨.INDENT, "", .monostate, lx1.line, lx1.column⟩],
                     atLineStart := false }
    else if indent < currentIndent then
      let (stack, tokens) := popIndents indent lx1.line lx1.column lx1.indentStack lx1.tokens
      let lx2 := { lx1 with indentStack := stack, tokens := tokens, startRest := lx1.rest,
                            startColumn := lx1.column }
      if stack.isEmpty || stack.headD 0 ≠ indent then
        .error (lx2.error "Inconsistent indentation")
      else .ok { lx2 with atLineStart := false }
    else .ok { lx1 with atLineStart := false }

/-- The second half of the method `number`, after the digits and the
fraction: the exponent, and the conversion of the text into the payload. -/
def numberExponent (lx2 : Lexer) (hasFraction : Bool) : Except LexExn Lexer :=
  -- Check for exponent
  if lx2.peek = 'e' || lx2.peek = 'E' then
    let lx3 := lx2.advance
    let lx4 := if lx3.peek = '+' || lx3.peek = '-' then lx3.advance else lx3
    if !lx4.peek.isDigit then
      .error (lx4.error "Invalid number: expected digit after exponent")
    else
      let lx5 := lx4.skipWhile Char.isDigit
      match stod lx5.text with
      | some d => .ok (lx5.addToken .FLOAT (.float d))
      | Option.none => .error .out_of_range
  else if hasFraction then
    match stod lx2.text with
    | some d => .ok (lx2.addToken .FLOAT (.float d))
    | Option.none => .error .out_of_range
  else
    match stoll lx2.text with
    | some i => .ok (lx2.addToken .INTEGER (.integer i))
    | Option.none => .error .out_of_range

/-- The method `number`. -/
def number (lx : Lexer) : Except LexExn Lexer :=
  let lx1 := lx.skipWhile Char.isDigit
  -- Check for decimal point
  let hasFraction := lx1.peek = '.' && lx1.peekNext.isDigit
  let lx2 := if hasFraction then lx1.advance.skipWhile Char.isDigit else lx1
  numberExponent lx2 hasFraction

/-- The method `identifier`. -/
def identifier (lx : Lexer) : Lexer :=
  let lx1 := lx.skipWhile (fun c => c.isAlphanum || c = '_')
  match keywordsFind (String.mk lx1.text) with
  | some type => lx1.addToken type .monostate
  | Option.none => lx1.addToken .IDENTIFIER .monostate

/-- The character appended to the value of a string for an escape. -/
def unescape (escaped : Char) : Char :=
  if escaped = 'n' then '\n'
  else if escaped = 't' then '\t'
  else if escaped = 'r' then '\r'
  else escaped

/-- The loop of the method `string` and its exits: the rest of the source
after the closing quote, the value and the column, or the message of the
error raised. -/
def stringLoop (quote : Char) : List Char → List Char → Nat →
    Except String (List Char × List Char × Nat)
  | [], _, _ => .error "Unterminated string"
  | c :: r, value, column =>
    if c = quote then .ok (r, value, column + 1)
    else if c = '\n' then .error "Unterminated string"
    else if c = '\\' then
      match r with
      | [] => .error "Unterminated string"
      | escaped :: r2 => stringLoop quote r2 (value ++ [unescape escaped]) (column + 2)
    else stringLoop quote r (value ++ [c]) (column + 1)

/-- The method `string`. -/
def string (lx : Lexer) (quote : Char) : Except LexExn Lexer :=
  match stringLoop quote lx.rest [] lx.column with
  | .error message => .error (lx.error message)
  | .ok (rest, value, column) =>
    .ok ({ lx with rest := rest, column := column }.addToken .STRING (.string (String.mk value)))

/-- The method `skipComment`. -/
def skipComment (lx : Lexer) : Lexer :=
  lx.skipWhile (fun c => c != '\n')

/-- The method `match`: whether the next character is the expected one. -/
def matchChar (lx : Lexer) (expected : Char) : Bool :=
  match lx.rest with
  | [] => false
  | c :: _ => c = expected

/-- The conditional `addToken(TokenType::NEWLINE)` of the newline case of
`scanToken`: only add NEWLINE if there's meaningful content before it. -/
def addNewline (lx : Lexer) : Lexer :=
  match lx.tokens.getLast? with
  | Option.none => lx
  | some back =>
    if back.type ≠ .NEWLINE ∧ back.type ≠ .INDENT then lx.addToken .NEWLINE .monostate
    else lx

/-- The `switch (c)` of the method `scanToken`, on the state after the
character `c` has been read. -/
def scanSwitch (c : Char) (lx : Lexer) : Except LexExn Lexer :=
  if c = '(' then .ok (lx.addToken .LPAREN .monostate)
  else if c = ')' then .ok (lx.addToken .RPAREN .monostate)
  else if c = ':' then .ok (lx.addToken .COLON .monostate)
  else if c = ',' then .ok (lx.addToken .COMMA .monostate)
  else if c = '+' then
    if lx.matchChar '=' then .ok (lx.advance.addToken .PLUS_ASSIGN .monostate)
    else .ok (lx.addToken .PLUS .monostate)
  else if c = '-' then
    if lx.matchChar '=' then .ok (lx.advance.addToken .MINUS_ASSIGN .monostate)
    else .ok (lx.addToken .MINUS .monostate)
  else if c = '*' then
    if lx.matchChar '*' then .ok (lx.advance.addToken .DOUBLE_STAR .monostate)
    else if lx.matchChar '=' then .ok (lx.advance.addToken .STAR_ASSIGN .monostate)
    else .ok (lx.addToken .STAR .monostate)
  else if c = '/' then
    if lx.matchChar '/' then .ok (lx.advance.addToken .DOUBLE_SLASH .monostate)
    else if lx.matchChar '=' then .ok (lx.advance.addToken .SLASH_ASSIGN .monostate)
    else .ok (lx.addToken .SLASH .monostate)
  else if c = '%' then .ok (lx.addToken .PERCENT .monostate)
  else if c = '=' then
    if lx.matchChar '=' then .ok (lx.advance.addToken .EQ .monostate)
    else .ok (lx.addToken .ASSIGN .monostate)
  else if c = '!' then
    if lx.matchChar '=' then .ok (lx.advance.addToken .NE .monostate)
    else .error (lx.error "Unexpected character '!'")
  else if c = '<' then
    if lx.matchChar '=' then .ok (lx.advance.addToken .LE .monostate)
    else .ok (lx.addToken .LT .monostate)
  else if c = '>' then
    if lx.matchChar '=' then .ok (lx.advance.addToken .GE .monostate)
    else .ok (lx.addToken .GT .monostate)
  else if c = '#' then .ok lx.skipComment
  else if c = ' ' || c = '\t' || c = '\r' then .ok lx
  else if c = '\n' then
    let lx1 := lx.addNewline
    .ok { lx1 with line := lx1.line + 1, column := 1, atLineStart := true }
  else if c = '"' || c = '\'' then lx.string c
  else if c.isDigit then lx.number
  else if c.isAlpha || c = '_' then .ok lx.identifier
  else .error (lx.error "Unexpected character")

/-- The method `scanToken`: `start = current; startColumn = column;
char c = advance();` and the switch on `c`. -/
def scanToken (lx : Lexer) : Except LexExn Lexer :=
  scanSwitch lx.peek { lx.advance with startRest := lx.rest, startColumn := lx.column }

/-- One iteration of the loop `while (!isAtEnd())` of `tokenize`. The `break`
of the loop is taken with `isAtEnd()` true, where the loop condition ends the
loop as well: the state is returned as it is. -/
def loopBody (lx : Lexer) : Except LexExn Lexer :=
  if lx.atLineStart then
    match lx.handleIndentation with
    | .error e => .error e
    | .ok lx1 =>
      if lx1.isAtEnd then .ok lx1
      else if lx1.peek = '\n' || lx1.peek = '#' then
        -- Empty line or comment-only line
        let lx2 := if lx1.peek = '#' then lx1.skipComment else lx1
        let lx3 := if !lx2.isAtEnd && lx2.peek = '\n' then
            { lx2.advance with line := lx2.line + 1, column := 1 }
          else lx2
        .ok lx3
      else lx1.scanToken
  else lx.scanToken

/-- The main loop of `tokenize`; the first argument bounds the number of
iterations. -/
def tokenizeLoop : Nat → Lexer → Except LexExn Lexer
  | 0, lx => if lx.isAtEnd then .ok lx else .error .outOfFuel
  | fuel + 1, lx =>
    if lx.isAtEnd then .ok lx
    else
      match lx.loopBody with
      | .error e => .error e
      | .ok lx1 => tokenizeLoop fuel lx1

/-- The loop of `tokenize` that adds the remaining DEDENTs. -/
def remainingDedents (line column : Nat) : List Nat → List Token → List Token
  | _ :: b :: below, tokens =>
    remainingDedents line column (b :: below)
      (tokens ++ [⟨.DEDENT, "", .monostate, line, column⟩])
  | _, tokens => tokens

/-- The end of `tokenize`, after the main loop. -/
def finish (lx : Lexer) : List Token :=
  let tokens := remainingDedents lx.line lx.column lx.indentStack lx.tokens
  let tokens :=
    match tokens.getLast? with
    | Option.none => tokens
    | some back =>
      if back.type ≠ .NEWLINE then tokens ++ [⟨.NEWLINE, "", .monostate, lx.line, lx.column⟩]
      else tokens
  tokens ++ [⟨.END_OF_FILE, "", .monostate, lx.line, lx.column⟩]

/-- The method `Lexer::tokenize`, for a lexer constructed on `source`. -/
def tokenize (source : List Char) : Except LexExn (List Token) :=
  match tokenizeLoop source.length (Lexer.new source) with
  | .error e => .error e
  | .ok lx => .ok lx.finish

end Lexer

/-! ## parser.cpp -/

/-- What `Parser::parse` can end with instead of a statement vector: the
exception class `ParseError` of the program (its `what()` text and its token),
the library exception `std::bad_variant_access` thrown by `std::get` on the
payload of a token, a read of the token vector outside its bounds, and the
exhaustion of the step budget of this embedding. -/
inductive ParseExn
  | ParseError (what : String) (token : Token)
  | bad_variant_access
  | undefinedBehaviour
  | outOfFuel
  deriving DecidableEq

namespace Parser

/-- The method `peek`: the read `tokens[current]`. -/
def peek (tokens : List Token) (current : Nat) : Except ParseExn Token :=
  match tokens[current]? with
  | some t => .ok t
  | Option.none => .error .undefinedBehaviour

/-- The method `previous`: the read `tokens[current - 1]`. -/
def previous (tokens : List Token) (current : Nat) : Except ParseExn Token :=
  if current = 0 then .error .undefinedBehaviour else peek tokens (current - 1)

/-- The method `isAtEnd`. -/
def isAtEnd (tokens : List Token) (current : Nat) : Except ParseExn Bool := do
  let t ← peek tokens current
  pure (decide (t.type = .END_OF_FILE))

/-- The method `advance`. -/
def advance (tokens : List Token) (current : Nat) : Except ParseExn (Token × Nat) := do
  let atEnd ← isAtEnd tokens current
  let current := if atEnd then current else current + 1
  let t ← previous tokens current
  pure (t, current)

/-- The method `check`. -/
def check (tokens : List Token) (current : Nat) (type : TokenType) : Except ParseExn Bool := do
  let atEnd ← isAtEnd tokens current
  if atEnd then pure false
  else do
    let t ← peek tokens current
    pure (decide (t.type = type))

/-- The method `match` for one token type. -/
def matchType (tokens : List Token) (current : Nat) (type : TokenType) : Except ParseExn (Bool × Nat) := do
  let c ← check tokens current type
  if c then do
    let (_, current) ← advance tokens current
    pure (true, current)
  else pure (false, current)

/-- The variadic method `match`: the types are tried from left to right. -/
def matchAny (tokens : List Token) (current : Nat) : List TokenType → Except ParseExn (Bool × Nat)
  | [] => pure (false, current)
  | first :: rest => do
    let (m, current1) ← matchType tokens current first
    if m then pure (true, current1) else matchAny tokens current rest

/-- The method `error`. -/
def error (token : Token) (message : String) : ParseExn :=
  .ParseError ("[line " ++ intToString token.line ++ "] Error" ++
    (if token.type = .END_OF_FILE then " at end" else " at '" ++ token.lexeme ++ "'") ++
    ": " ++ message) token

/-- The method `consume`. -/
def consume (tokens : List Token) (current : Nat) (type : TokenType) (message : String) :
    Except ParseExn (Token × Nat) := do
  let c ← check tokens current type
  if c then advance tokens current
  else do
    let t ← peek tokens current
    .error (error t message)

/-- The method `skipNewlines`; the first argument bounds the number of
iterations. -/
def skipNewlines (tokens : List Token) : Nat → Nat → Except ParseExn (Unit × Nat)
  | 0, _ => .error .outOfFuel
  | fuel + 1, current => do
    let (m, current1) ← matchType tokens current .NEWLINE
    if m then skipNewlines tokens fuel current1 else pure ((), current)

/-- The loop of `functionDeclaration` over the parameter names. -/
def parameters (tokens : List Token) : Nat → Nat → List Token → Except ParseExn (List Token × Nat)
  | 0, _, _ => .error .outOfFuel
  | fuel + 1, current, params => do
    let (p, current1) ← consume tokens current .IDENTIFIER "Expected parameter name"
    let (m, current2) ← matchType tokens current1 .COMMA
    if m then parameters tokens fuel current2 (params ++ [p])
    else pure (params ++ [p], current2)

/-- The payload read `std::get<long long>(previous().literal)`. -/
def getInteger (t : Token) : Except ParseExn PyValue :=
  match t.literal with
  | .integer i => .ok (.int i)
  | _ => .error .bad_variant_access

/-- The payload read `std::get<double>(previous().literal)`. -/
def getDouble (t : Token) : Except ParseExn PyValue :=
  match t.literal with
  | .float d => .ok (.float d)
  | _ => .error .bad_variant_access

/-- The payload read `std::get<std::string>(previous().literal)`. -/
def getString (t : Token) : Except ParseExn PyValue :=
  match t.literal with
  | .string s => .ok (.str s)
  | _ => .error .bad_variant_access

/-- The test `std::holds_alternative<std::unique_ptr<VariableExpr>>(expr)`,
with the name token of the variable. -/
def asVariable : Expr → Option Token
  | .variableExpr name => some name
  | _ => Option.none

/-- The token type of the binary operator of a compound assignment. -/
def binOp : TokenType → TokenType
  | .PLUS_ASSIGN => .PLUS
  | .MINUS_ASSIGN => .MINUS
  | .STAR_ASSIGN => .STAR
  | .SLASH_ASSIGN => .SLASH
  | _ => .PLUS

mutual
/-- The method `expression`. -/
def expression (tokens : List Token) : Nat → Nat → Except ParseExn (Expr × Nat)
  | 0, _ => .error .outOfFuel
  | fuel + 1, current => assignment tokens fuel current

/-- The method `assignment`. -/
def assignment (tokens : List Token) : Nat → Nat → Except ParseExn (Expr × Nat)
  | 0, _ => .error .outOfFuel
  | fuel + 1, current => do
    let (expr, current1) ← orExpr tokens fuel current
    let (m, current2) ← matchType tokens current1 .ASSIGN
    if m then do
      let equals ← previous tokens current2
      let (value, current3) ← assignment tokens fuel current2
      match asVariable expr with
      | some name => pure (.assignExpr name value, current3)
      | Option.none => .error (error equals "Invalid assignment target")
    else pure (expr, current2)

/-- The method `orExpr`. -/
def orExpr (tokens : List Token) : Nat → Nat → Except ParseExn (Expr × Nat)
  | 0, _ => .error .outOfFuel
  | fuel + 1, current => do
    let (expr, current1) ← andExpr tokens fuel current
    orExprLoop tokens fuel expr current1

/-- The loop of `orExpr`. -/
def orExprLoop (tokens : List Token) : Nat → Expr → Nat → Except ParseExn (Expr × Nat)
  | 0, _, _ => .error .outOfFuel
  | fuel + 1, expr, current => do
    let (m, current1) ← matchType tokens current .OR
    if m then do
      let op ← previous tokens current1
      let (right, current2) ← andExpr tokens fuel current1
      orExprLoop tokens fuel (.binaryExpr expr op right) current2
    else pure (expr, current1)

/-- The method `andExpr`. -/
def andExpr (tokens : List Token) : Nat → Nat → Except ParseExn (Expr × Nat)
  | 0, _ => .error .outOfFuel
  | fuel + 1, current => do
    let (expr, current1) ← notExpr tokens fuel current
    andExprLoop tokens fuel expr current1

/-- The loop of `andExpr`. -/
def andExprLoop (tokens : List Token) : Nat → Expr → Nat → Except ParseExn (Expr × Nat)
  | 0, _, _ => .error .outOfFuel
  | fuel + 1, expr, current => do
    let (m, current1) ← matchType tokens current .AND
    if m then do
      let op ← previous tokens current1
      let (right, current2) ← notExpr tokens fuel current1
      andExprLoop tokens fuel (.binaryExpr expr op right) current2
    else pure (expr, current1)

/-- The method `notExpr`. -/
def notExpr (tokens : List Token) : Nat → Nat → Except ParseExn (Expr × Nat)
  | 0, _ => .error .outOfFuel
  | fuel + 1, current => do
    let (m, current1) ← matchType tokens current .NOT
    if m then do
      let op ← previous tokens current1
      let (operand, current2) ← notExpr tokens fuel current1
      pure (.unaryExpr op operand, current2)
    else comparison tokens fuel current1

/-- The method `comparison`. -/
def comparison (tokens : List Token) : Nat → Nat → Except ParseExn (Expr × Nat)
  | 0, _ => .error .outOfFuel
  | fuel + 1, current => do
    let (expr, current1) ← term tokens fuel current
    comparisonLoop tokens fuel expr current1

/-- The loop of `comparison`. -/
def comparisonLoop (tokens : List Token) : Nat → Expr → Nat → Except ParseExn (Expr × Nat)
  | 0, _, _ => .error .outOfFuel
  | fuel + 1, expr, current => do
    let (m, current1) ← matchAny tokens current [.LT, .LE, .GT, .GE, .EQ, .NE]
    if m then do
      let op ← previous tokens current1
      let (right, current2) ← term tokens fuel current1
      comparisonLoop tokens fuel (.binaryExpr expr op right) current2
    else pure (expr, current1)

/-- The method `term`. -/
def term (tokens : List Token) : Nat → Nat → Except ParseExn (Expr × Nat)
  | 0, _ => .error .outOfFuel
  | fuel + 1, current => do
    let (expr, current1) ← factor tokens fuel current
    termLoop tokens fuel expr current1

/-- The loop of `term`. -/
def termLoop (tokens : List Token) : Nat → Expr → Nat → Except ParseExn (Expr × Nat)
  | 0, _, _ => .error .outOfFuel
  | fuel + 1, expr, current => do
    let (m, current1) ← matchAny tokens current [.PLUS, .MINUS]
    if m then do
      let op ← previous tokens current1
      let (right, current2) ← factor tokens fuel current1
      termLoop tokens fuel (.binaryExpr expr op right) current2
    else pure (expr, current1)

/-- The method `factor`. -/
def factor (tokens : List Token) : Nat → Nat → Except ParseExn (Expr × Nat)
  | 0, _ => .error .outOfFuel
  | fuel + 1, current => do
    let (expr, current1) ← unary tokens fuel current
    factorLoop tokens fuel expr current1

/-- The loop of `factor`. -/
def factorLoop (tokens : List Token) : Nat → Expr → Nat → Except ParseExn (Expr × Nat)
  | 0, _, _ => .error .outOfFuel
  | fuel + 1, expr, current => do
    let (m, current1) ← matchAny tokens current [.STAR, .SLASH, .DOUBLE_SLASH, .PERCENT]
    if m then do
      let op ← previous tokens current1
      let (right, current2) ← unary tokens fuel current1
      factorLoop tokens fuel (.binaryExpr expr op right) current2
    else pure (expr, current1)

/-- The method `unary`. -/
def unary (tokens : List Token) : Nat → Nat → Except ParseExn (Expr × Nat)
  | 0, _ => .error .outOfFuel
  | fuel + 1, current => do
    let (m, current1) ← matchType tokens current .MINUS
    if m then do
      let op ← previous tokens current1
      let (operand, current2) ← unary tokens fuel current1
      pure (.unaryExpr op operand, current2)
    else power tokens fuel current1

/-- The method `power`. -/
def power (tokens : List Token) : Nat → Nat → Except ParseExn (Expr × Nat)
  | 0, _ => .error .outOfFuel
  | fuel + 1, current => do
    let (expr, current1) ← call tokens fuel current
    let (m, current2) ← matchType tokens current1 .DOUBLE_STAR
    if m then do
      let op ← previous tokens current2
      let (right, current3) ← unary tokens fuel current2 -- Right-associative
      pure (.binaryExpr expr op right, current3)
    else pure (expr, current2)

/-- The method `call`. -/
def call (tokens : List Token) : Nat → Nat → Except ParseExn (Expr × Nat)
  | 0, _ => .error .outOfFuel
  | fuel + 1, current => do
    let (expr, current1) ← primary tokens fuel current
    callLoop tokens fuel expr current1

/-- The loop of `call`. -/
def callLoop (tokens : List Token) : Nat → Expr → Nat → Except ParseExn (Expr × Nat)
  | 0, _, _ => .error .outOfFuel
  | fuel + 1, expr, current => do
    let (m, current1) ← matchType tokens current .LPAREN
    if m then do
      let (expr1, current2) ← finishCall tokens fuel expr current1
      callLoop tokens fuel expr1 current2
    else pure (expr, current1)

/-- The method `finishCall`. -/
def finishCall (tokens : List Token) : Nat → Expr → Nat → Except ParseExn (Expr × Nat)
  | 0, _, _ => .error .outOfFuel
  | fuel + 1, callee, current => do
    let c ← check tokens current .RPAREN
    let (arguments, current1) ←
      if !c then expressionList tokens fuel current [] else pure ([], current)
    let (paren, current2) ← consume tokens current1 .RPAREN "Expected ')' after arguments"
    pure (.callExpr callee paren arguments, current2)

/-- The loop `do { list.push_back(expression()); } while (match(COMMA));` of
`finishCall` and `printStatement`. -/
def expressionList (tokens : List Token) :
    Nat → Nat → List Expr → Except ParseExn (List Expr × Nat)
  | 0, _, _ => .error .outOfFuel
  | fuel + 1, current, list => do
    let (e, current1) ← expression tokens fuel current
    let (m, current2) ← matchType tokens current1 .COMMA
    if m then expressionList tokens fuel current2 (list ++ [e])
    else pure (list ++ [e], current2)

/-- The method `primary`. -/
def primary (tokens : List Token) : Nat → Nat → Except ParseExn (Expr × Nat)
  | 0, _ => .error .outOfFuel
  | fuel + 1, current => do
    let (m, current1) ← matchType tokens current .TRUE
    if m then pure (.literalExpr (.bool true), current1) else
    let (m, current1) ← matchType tokens current .FALSE
    if m then pure (.literalExpr (.bool false), current1) else
    let (m, current1) ← matchType tokens current .NONE
    if m then pure (.literalExpr .none, current1) else
    let (m, current1) ← matchType tokens current .INTEGER
    if m then do
      let t ← previous tokens current1
      let v ← getInteger t
      pure (.literalExpr v, current1)
    else
    let (m, current1) ← matchType tokens current .FLOAT
    if m then do
      let t ← previous tokens current1
      let v ← getDouble t
      pure (.literalExpr v, current1)
    else
    let (m, current1) ← matchType tokens current .STRING
    if m then do
      let t ← previous tokens current1
      let v ← getString t
      pure (.literalExpr v, current1)
    else
    let (m, current1) ← matchType tokens current .IDENTIFIER
    if m then do
      let t ← previous tokens current1
      pure (.variableExpr t, current1)
    else
    let (m, current1) ← matchType tokens current .LPAREN
    if m then do
      let (expr, current2) ← expression tokens fuel current1
      let (_, current3) ← consume tokens current2 .RPAREN "Expected ')' after expression"
      pure (.groupingExpr expr, current3)
    else do
      let t ← peek tokens current
      .error (error t "Expected expression")
end

/-- The method `expressionStatement`. -/
def expressionStatement (tokens : List Token) (fuel current : Nat) :
    Except ParseExn (Stmt × Nat) := do
  let (expr, current1) ← expression tokens fuel current
  -- Handle compound assignment
  let (m, current2) ← matchAny tokens current1
    [.PLUS_ASSIGN, .MINUS_ASSIGN, .STAR_ASSIGN, .SLASH_ASSIGN]
  if m then do
    let op ← previous tokens current2
    -- expr must be a variable
    match asVariable expr with
    | Option.none => .error (error op "Invalid assignment target")
    | some name => do
      let (value, current3) ← expression tokens fuel current2
      let binToken : Token :=
        ⟨binOp op.type, String.mk (op.lexeme.data.take 1), .monostate, op.line, op.column⟩
      let binExpr := Expr.binaryExpr (.variableExpr name) binToken value
      let assignExpr := Expr.assignExpr name binExpr
      let (_, current4) ← consume tokens current3 .NEWLINE "Expected newline after statement"
      pure (.expressionStmt assignExpr, current4)
  else do
    let (_, current3) ← consume tokens current2 .NEWLINE "Expected newline after expression"
    pure (.expressionStmt expr, current3)

/-- The method `printStatement`. -/
def printStatement (tokens : List Token) (fuel current : Nat) :
    Except ParseExn (Stmt × Nat) := do
  let (_, current1) ← consume tokens current .LPAREN "Expected '(' after 'print'"
  let c ← check tokens current1 .RPAREN
  let (expressions, current2) ←
    if !c then expressionList tokens fuel current1 [] else pure ([], current1)
  let (_, current3) ← consume tokens current2 .RPAREN "Expected ')' after print arguments"
  let (_, current4) ← consume tokens current3 .NEWLINE "Expected newline after print statement"
  pure (.printStmt expressions, current4)

/-- The method `returnStatement`. -/
def returnStatement (tokens : List Token) (fuel current : Nat) :
    Except ParseExn (Stmt × Nat) := do
  let keyword ← previous tokens current
  let c ← check tokens current .NEWLINE
  let (value, current1) ←
    if !c then do
      let (e, current1) ← expression tokens fuel current
      pure (some e, current1)
    else pure (Option.none, current)
  let (_, current2) ← consume tokens current1 .NEWLINE "Expected newline after return"
  pure (.returnStmt keyword value, current2)

/-- The method `assertStatement`. -/
def assertStatement (tokens : List Token) (fuel current : Nat) :
    Except ParseExn (Stmt × Nat) := do
  let keyword ← previous tokens current
  let (condition, current1) ← expression tokens fuel current
  let (m, current2) ← matchType tokens current1 .COMMA
  let (message, current3) ←
    if m then do
      let (e, current3) ← expression tokens fuel current2
      pure (some e, current3)
    else pure (Option.none, current2)
  let (_, current4) ← consume tokens current3 .NEWLINE "Expected newline after assert"
  pure (.assertStmt keyword condition message, current4)

mutual
/-- The method `declaration`. -/
def declaration (tokens : List Token) : Nat → Nat → Except ParseExn (Stmt × Nat)
  | 0, _ => .error .outOfFuel
  | fuel + 1, current => do
    let (m, current1) ← matchType tokens current .DEF
    if m then functionDeclaration tokens fuel current1
    else statement tokens fuel current1

/-- The method `statement`. -/
def statement (tokens : List Token) : Nat → Nat → Except ParseExn (Stmt × Nat)
  | 0, _ => .error .outOfFuel
  | fuel + 1, current => do
    let (m, current1) ← matchType tokens current .PRINT
    if m then printStatement tokens fuel current1 else
    let (m, current1) ← matchType tokens current .IF
    if m then ifStatement tokens fuel current1 else
    let (m, current1) ← matchType tokens current .WHILE
    if m then whileStatement tokens fuel current1 else
    let (m, current1) ← matchType tokens current .RETURN
    if m then returnStatement tokens fuel current1 else
    let (m, current1) ← matchType tokens current .ASSERT
    if m then assertStatement tokens fuel current1 else
    expressionStatement tokens fuel current

/-- The method `ifStatement`. -/
def ifStatement (tokens : List Token) : Nat → Nat → Except ParseExn (Stmt × Nat)
  | 0, _ => .error .outOfFuel
  | fuel + 1, current => do
    let (condition, current1) ← expression tokens fuel current
    let (_, current2) ← consume tokens current1 .COLON "Expected ':' after if condition"
    let (_, current3) ← consume tokens current2 .NEWLINE "Expected newline after ':'"
    let (_, current4) ← consume tokens current3 .INDENT "Expected indented block after if"
    let (thenStatements, current5) ← block tokens fuel current4
    let thenBranch := Stmt.blockStmt thenStatements
    let (elifBranches, current6) ← elifLoop tokens fuel current5 []
    let (m, current7) ← matchType tokens current6 .ELSE
    if m then do
      let (_, current8) ← consume tokens current7 .COLON "Expected ':' after else"
      let (_, current9) ← consume tokens current8 .NEWLINE "Expected newline after ':'"
      let (_, current10) ← consume tokens current9 .INDENT "Expected indented block after else"
      let (elseStatements, current11) ← block tokens fuel current10
      pure (.ifStmt condition thenBranch elifBranches (some (.blockStmt elseStatements)),
        current11)
    else pure (.ifStmt condition thenBranch elifBranches Option.none, current7)

/-- The loop of `ifStatement` over the `elif` clauses. -/
def elifLoop (tokens : List Token) :
    Nat → Nat → List (Expr × Stmt) → Except ParseExn (List (Expr × Stmt) × Nat)
  | 0, _, _ => .error .outOfFuel
  | fuel + 1, current, elifBranches => do
    let (m, current1) ← matchType tokens current .ELIF
    if m then do
      let (elifCondition, current2) ← expression tokens fuel current1
      let (_, current3) ← consume tokens current2 .COLON "Expected ':' after elif condition"
      let (_, current4) ← consume tokens current3 .NEWLINE "Expected newline after ':'"
      let (_, current5) ← consume tokens current4 .INDENT "Expected indented block after elif"
      let (elifStatements, current6) ← block tokens fuel current5
      elifLoop tokens fuel current6 (elifBranches ++ [(elifCondition, .blockStmt elifStatements)])
    else pure (elifBranches, current1)

/-- The method `whileStatement`. -/
def whileStatement (tokens : List Token) : Nat → Nat → Except ParseExn (Stmt × Nat)
  | 0, _ => .error .outOfFuel
  | fuel + 1, current => do
    let (condition, current1) ← expression tokens fuel current
    let (_, current2) ← consume tokens current1 .COLON "Expected ':' after while condition"
    let (_, current3) ← consume tokens current2 .NEWLINE "Expected newline after ':'"
    let (_, current4) ← consume tokens current3 .INDENT "Expected indented block after while"
    let (bodyStatements, current5) ← block tokens fuel current4
    pure (.whileStmt condition (.blockStmt bodyStatements), current5)

/-- The method `functionDeclaration`. -/
def functionDeclaration (tokens : List Token) : Nat → Nat → Except ParseExn (Stmt × Nat)
  | 0, _ => .error .outOfFuel
  | fuel + 1, current => do
    let (name, current1) ← consume tokens current .IDENTIFIER "Expected function name"
    let (_, current2) ← consume tokens current1 .LPAREN "Expected '(' after function name"
    let c ← check tokens current2 .RPAREN
    let (params, current3) ←
      if !c then parameters tokens fuel current2 [] else pure ([], current2)
    let (_, current4) ← consume tokens current3 .RPAREN "Expected ')' after parameters"
    let (_, current5) ← consume tokens current4 .COLON "Expected ':' after parameters"
    let (_, current6) ← consume tokens current5 .NEWLINE "Expected newline after ':'"
    let (_, current7) ← consume tokens current6 .INDENT
      "Expected indented block for function body"
    let (body, current8) ← block tokens fuel current7
    pure (.functionStmt name params body, current8)

/-- The method `block`. -/
def block (tokens : List Token) : Nat → Nat → Except ParseExn (List Stmt × Nat)
  | 0, _ => .error .outOfFuel
  | fuel + 1, current => do
    let (statements, current1) ← blockLoop tokens fuel current []
    let atEnd ← isAtEnd tokens current1
    if !atEnd then do
      let (_, current2) ← consume tokens current1 .DEDENT "Expected dedent at end of block"
      pure (statements, current2)
    else pure (statements, current1)

/-- The loop of `block`. -/
def blockLoop (tokens : List Token) :
    Nat → Nat → List Stmt → Except ParseExn (List Stmt × Nat)
  | 0, _, _ => .error .outOfFuel
  | fuel + 1, current, statements => do
    let c ← check tokens current .DEDENT
    let atEnd ← isAtEnd tokens current
    if !c && !atEnd then do
      let (_, current1) ← skipNewlines tokens fuel current
      let c1 ← check tokens current1 .DEDENT
      if c1 then pure (statements, current1)
      else do
        let (s, current2) ← declaration tokens fuel current1
        blockLoop tokens fuel current2 (statements ++ [s])
    else pure (statements, current)
end

/-- The loop of `parse`. -/
def parseLoop (tokens : List Token) :
    Nat → Nat → List Stmt → Except ParseExn (List Stmt × Nat)
  | 0, _, _ => .error .outOfFuel
  | fuel + 1, current, statements => do
    let atEnd ← isAtEnd tokens current
    if !atEnd then do
      let (s, current1) ← declaration tokens fuel current
      let (_, current2) ← skipNewlines tokens fuel current1
      parseLoop tokens fuel current2 (statements ++ [s])
    else pure (statements, current)

/-- The step budget given to `parse`; it grows with the number of tokens. -/
def parseFuel (tokens : List Token) : Nat := 40 * (tokens.length + 1)

/-- The method `Parser::parse`, for a parser constructed on `tokens`. -/
def parse (tokens : List Token) : Except ParseExn (List Stmt) := do
  let (_, current) ← skipNewlines tokens (parseFuel tokens) 0
  let (statements, _) ← parseLoop tokens (parseFuel tokens) current []
  pure statements

end Parser



/-! ## main.cpp -/

/-- How a call of `run` ends: it returns (also after it has caught and
reported a `LexerError`, a `ParseError` or a `RuntimeError`), it rethrows an
`AssertionError`, or an exception that none of its handlers catches leaves it. -/
inductive RunExit
  | returned
  | rethrown (what : String) (line : Nat)
  | uncaughtLexer (e : LexExn)
  | uncaughtParser (e : ParseExn)
  | uncaughtEvaluator (e : Exn)
  deriving DecidableEq

/-- The function `run` of the driver: the interpreter afterwards, the text
written to standard error, and how the call ends. -/
def run (fuel : Nat) (source : String) (interpreter : Interpreter)
    (isRepl : Bool) : Interpreter × String × RunExit :=
  match Lexer.tokenize source.data with
  | .error (.LexerError what line column) =>
    (interpreter, "Lexer Error [line " ++ intToString line ++ ", col " ++ intToString column ++
      "]: " ++ what ++ "\n", .returned)
  | .error e => (interpreter, "", .uncaughtLexer e)
  | .ok tokens =>
    match Parser.parse tokens with
    | .error (.ParseError what _) => (interpreter, what ++ "\n", .returned)
    | .error e => (interpreter, "", .uncaughtParser e)
    | .ok statements =>
      match interpret fuel { interpreter with lastValueSet := false } statements with
      | (st, .ok _) =>
        -- In REPL mode, print the result of expressions
        if isRepl && st.lastValueSet && st.lastValue != .none then
          ({ st with stdout := st.stdout ++ pyValueToString st.functions st.lastValue ++ "\n" },
            "", .returned)
        else (st, "", .returned)
      | (st, .error (.AssertionError what line)) =>
        (st, what ++ (if 0 < line then " (line " ++ intToString line ++ ")" else "") ++ "\n",
          .rethrown what line)
      | (st, .error (.RuntimeError what line)) =>
        (st, "Runtime Error" ++ (if 0 < line then " [line " ++ intToString line ++ "]" else "") ++
          ": " ++ what ++ "\n", .returned)
      | (st, .error e) => (st, "", .uncaughtEvaluator e)

/-! ## Predicates used in the theorems -/

namespace Lexer

/-- A token type that only `handleIndentation`, the newline case of `scanToken`
and the end of `tokenize` never emit. -/
def Plain (ty : TokenType) : Prop := ty ≠ .INDENT ∧ ty ≠ .DEDENT ∧ ty ≠ .NEWLINE

/-- The effect of a scanning step on the token vector and the indentation
stack: the stack is unchanged and at most one token is appended, which is
neither INDENT nor DEDENT and is NEWLINE only after a token that is neither
NEWLINE nor INDENT. -/
def Emits (lx lx1 : Lexer) : Prop :=
  lx1.indentStack = lx.indentStack ∧
  (lx1.tokens = lx.tokens ∨
    ∃ t, lx1.tokens = lx.tokens ++ [t] ∧ t.type ≠ .INDENT ∧ t.type ≠ .DEDENT ∧
      (t.type = .NEWLINE → ∃ b, lx.tokens.getLast? = some b ∧ b.type ≠ .NEWLINE))

/-- The number of tokens of a given type. -/
def countType (ty : TokenType) (tokens : List Token) : Nat :=
  tokens.countP (fun t => t.type = ty)

/-- No two adjacent tokens are both NEWLINE. -/
def NoDoubleNewline (tokens : List Token) : Prop :=
  tokens.Chain' (fun a b => ¬ (a.type = .NEWLINE ∧ b.type = .NEWLINE))

/-- The balance kept by the lexer: the stack is not empty and every INDENT
not yet closed by a DEDENT has its entry on the stack. -/
def Balanced (lx : Lexer) : Prop :=
  lx.indentStack ≠ [] ∧
  countType .INDENT lx.tokens + 1 = countType .DEDENT lx.tokens + lx.indentStack.length

/-- Both invariants of the token vector pass from one state to another. -/
def Keeps (lx lx1 : Lexer) : Prop :=
  (Balanced lx → Balanced lx1) ∧ (NoDoubleNewline lx.tokens → NoDoubleNewline lx1.tokens)

end Lexer

namespace Lexer

/-- The text ends with a newline character. -/
def EndsNL (r : List Char) : Prop := r.getLast? = some '\n'

/-- Nothing is appended to the source, or the part of the source looked at
ends with a newline. -/
def Cond (X r : List Char) : Prop := X = [] ∨ EndsNL r

/-- Two lexer states scan the same text, the second one with `X` appended to
the source: they agree on the indentation stack, the line-start flag and the
types of the tokens emitted; lines and columns are free. -/
def Sim (X : List Char) (a b : Lexer) : Prop :=
  b.rest = a.rest ++ X ∧ b.indentStack = a.indentStack ∧ b.atLineStart = a.atLineStart ∧
  b.tokens.map (fun t => t.type) = a.tokens.map (fun t => t.type)

/-- The relation `Sim` inside the scan of one token: the token starts at the
same place. -/
def SimTok (X : List Char) (a b : Lexer) : Prop :=
  Sim X a b ∧ b.startRest = a.startRest ++ X

/-- Two results of a scanning step correspond: both are states related by `P`,
or both are errors; an error of the first against a state of the second is
possible only when something was appended to the source. -/
def SimRes (X : List Char) (P : Lexer → Lexer → Prop) :
    Except LexExn Lexer → Except LexExn Lexer → Prop
  | .ok a1, .ok b1 => P a1 b1
  | .error _, .error _ => True
  | .error _, .ok _ => X ≠ []
  | .ok _, .error _ => False

/-- The invariant of the scan of one token in two related states. -/
def J (X : List Char) (a b : Lexer) : Prop := SimTok X a b ∧ Cond X a.rest

/-- The relation between the results of the loop of `string` on a text and on
the same text with `X` appended, whatever the start columns. -/
def StringRes (X : List Char) :
    Except String (List Char × List Char × Nat) → Except String (List Char × List Char × Nat) → Prop
  | .ok (r1, v1, _), .ok (r2, v2, _) => r2 = r1 ++ X ∧ v2 = v1
  | .error _, .error _ => True
  | .error _, .ok _ => X ≠ []
  | .ok _, .error _ => False

/-- The relation of two states between two iterations of the main loop: the
first state has not reached the end of its text, or it has and is at the start
of a line. -/
def K (X : List Char) (a b : Lexer) : Prop :=
  Sim X a b ∧ (Cond X a.rest ∨ (a.rest = [] ∧ a.atLineStart = true))

/-- The token types of a result of `tokenize`, and nothing for a failure. -/
def typesOf : Except LexExn (List Token) → Option (List TokenType)
  | .error _ => Option.none
  | .ok tokens => some (tokens.map (fun t => t.type))

end Lexer

namespace Parser

/-- The payload of a token fits its type: an INTEGER token carries an integer,
a FLOAT token a double and a STRING token a string, as the lexer builds them. -/
def payloadOk (t : Token) : Bool :=
  match t.type, t.literal with
  | .INTEGER, .integer _ => true
  | .INTEGER, _ => false
  | .FLOAT, .float _ => true
  | .FLOAT, _ => false
  | .STRING, .string _ => true
  | .STRING, _ => false
  | _, _ => true

/-- The token at index `N` is END_OF_FILE and every payload fits its type. -/
def WellFormed (tokens : List Token) (N : Nat) : Prop :=
  (∃ t, tokens[N]? = some t ∧ t.type = .END_OF_FILE) ∧ ∀ t ∈ tokens, payloadOk t = true

/-- Whether a result of a parsing method is an expression other than a bare
variable, with the cursor left at `current1`. -/
def nonVariableAt (r : Except ParseExn (Expr × Nat)) (current1 : Nat) : Bool :=
  match r with
  | .ok (expr, c) => (asVariable expr).isNone && c == current1
  | .error _ => false

/-- A result of a parsing method that is a `ParseError` or a value with a
cursor between `lo` and `N`. -/
def Fine {α : Type} (N lo : Nat) : Except ParseExn (α × Nat) → Prop
  | .ok (_, c) => lo ≤ c ∧ c ≤ N
  | .error (.ParseError _ _) => True
  | .error _ => False

/-- Every method of the expression grammar, run with `fuel` steps at a cursor
not behind `N`, ends with a `ParseError` or with a value and a cursor further
on and not behind `N`, when `fuel` is at least fifteen times the number of
tokens left plus the depth of the method in the grammar. -/
def Total (tokens : List Token) (N fuel : Nat) : Prop :=
  (∀ c, c ≤ N → 15 * (N - c) + 12 ≤ fuel → Fine N (c + 1) (expression tokens fuel c)) ∧
  (∀ c, c ≤ N → 15 * (N - c) + 11 ≤ fuel → Fine N (c + 1) (assignment tokens fuel c)) ∧
  (∀ c, c ≤ N → 15 * (N - c) + 10 ≤ fuel → Fine N (c + 1) (orExpr tokens fuel c)) ∧
  (∀ e c, c ≤ N → 15 * (N - c) + 1 ≤ fuel → Fine N c (orExprLoop tokens fuel e c)) ∧
  (∀ c, c ≤ N → 15 * (N - c) + 9 ≤ fuel → Fine N (c + 1) (andExpr tokens fuel c)) ∧
  (∀ e c, c ≤ N → 15 * (N - c) + 1 ≤ fuel → Fine N c (andExprLoop tokens fuel e c)) ∧
  (∀ c, c ≤ N → 15 * (N - c) + 8 ≤ fuel → Fine N (c + 1) (notExpr tokens fuel c)) ∧
  (∀ c, c ≤ N → 15 * (N - c) + 7 ≤ fuel → Fine N (c + 1) (comparison tokens fuel c)) ∧
  (∀ e c, c ≤ N → 15 * (N - c) + 1 ≤ fuel → Fine N c (comparisonLoop tokens fuel e c)) ∧
  (∀ c, c ≤ N → 15 * (N - c) + 6 ≤ fuel → Fine N (c + 1) (term tokens fuel c)) ∧
  (∀ e c, c ≤ N → 15 * (N - c) + 1 ≤ fuel → Fine N c (termLoop tokens fuel e c)) ∧
  (∀ c, c ≤ N → 15 * (N - c) + 5 ≤ fuel → Fine N (c + 1) (factor tokens fuel c)) ∧
  (∀ e c, c ≤ N → 15 * (N - c) + 1 ≤ fuel → Fine N c (factorLoop tokens fuel e c)) ∧
  (∀ c, c ≤ N → 15 * (N - c) + 4 ≤ fuel → Fine N (c + 1) (unary tokens fuel c)) ∧
  (∀ c, c ≤ N → 15 * (N - c) + 3 ≤ fuel → Fine N (c + 1) (power tokens fuel c)) ∧
  (∀ c, c ≤ N → 15 * (N - c) + 2 ≤ fuel → Fine N (c + 1) (call tokens fuel c)) ∧
  (∀ e c, c ≤ N → 15 * (N - c) + 1 ≤ fuel → Fine N c (callLoop tokens fuel e c)) ∧
  (∀ e c, c ≤ N → 15 * (N - c) + 14 ≤ fuel → Fine N (c + 1) (finishCall tokens fuel e c)) ∧
  (∀ c l, c ≤ N → 15 * (N - c) + 13 ≤ fuel → Fine N (c + 1) (expressionList tokens fuel c l)) ∧
  (∀ c, c ≤ N → 15 * (N - c) + 1 ≤ fuel → Fine N (c + 1) (primary tokens fuel c))

end Parser

namespace Lexer

/-- Every token of the vector carries a payload that fits its type. -/
def PayloadsOk (tokens : List Token) : Prop := ∀ t ∈ tokens, Parser.payloadOk t = true

end Lexer

namespace Parser

/-- A result `r1` of a run with more steps extends a result `r` of a run with
fewer: it is the same, unless the run with fewer steps ran out of steps. -/
structure Ext {α : Type} (r r1 : Except ParseExn α) : Prop where
  eq : r ≠ .error .outOfFuel → r1 = r

/-- The expression grammar: a run with one more step extends a run with fewer
steps. -/
def ExprExt (tokens : List Token) (fuel : Nat) : Prop :=
  (∀ a, Ext (expression tokens fuel a) (expression tokens (fuel + 1) a)) ∧
  (∀ a, Ext (assignment tokens fuel a) (assignment tokens (fuel + 1) a)) ∧
  (∀ a, Ext (orExpr tokens fuel a) (orExpr tokens (fuel + 1) a)) ∧
  (∀ a b, Ext (orExprLoop tokens fuel a b) (orExprLoop tokens (fuel + 1) a b)) ∧
  (∀ a, Ext (andExpr tokens fuel a) (andExpr tokens (fuel + 1) a)) ∧
  (∀ a b, Ext (andExprLoop tokens fuel a b) (andExprLoop tokens (fuel + 1) a b)) ∧
  (∀ a, Ext (notExpr tokens fuel a) (notExpr tokens (fuel + 1) a)) ∧
  (∀ a, Ext (comparison tokens fuel a) (comparison tokens (fuel + 1) a)) ∧
  (∀ a b, Ext (comparisonLoop tokens fuel a b) (comparisonLoop tokens (fuel + 1) a b)) ∧
  (∀ a, Ext (term tokens fuel a) (term tokens (fuel + 1) a)) ∧
  (∀ a b, Ext (termLoop tokens fuel a b) (termLoop tokens (fuel + 1) a b)) ∧
  (∀ a, Ext (factor tokens fuel a) (factor tokens (fuel + 1) a)) ∧
  (∀ a b, Ext (factorLoop tokens fuel a b) (factorLoop tokens (fuel + 1) a b)) ∧
  (∀ a, Ext (unary tokens fuel a) (unary tokens (fuel + 1) a)) ∧
  (∀ a, Ext (power tokens fuel a) (power tokens (fuel + 1) a)) ∧
  (∀ a, Ext (call tokens fuel a) (call tokens (fuel + 1) a)) ∧
  (∀ a b, Ext (callLoop tokens fuel a b) (callLoop tokens (fuel + 1) a b)) ∧
  (∀ a b, Ext (finishCall tokens fuel a b) (finishCall tokens (fuel + 1) a b)) ∧
  (∀ a b, Ext (expressionList tokens fuel a b) (expressionList tokens (fuel + 1) a b)) ∧
  (∀ a, Ext (primary tokens fuel a) (primary tokens (fuel + 1) a))

/-- The statement grammar: a run with one more step extends a run with fewer
steps. -/
def StmtExt (tokens : List Token) (fuel : Nat) : Prop :=
  (∀ a, Ext (declaration tokens fuel a) (declaration tokens (fuel + 1) a)) ∧
  (∀ a, Ext (statement tokens fuel a) (statement tokens (fuel + 1) a)) ∧
  (∀ a, Ext (ifStatement tokens fuel a) (ifStatement tokens (fuel + 1) a)) ∧
  (∀ a b, Ext (elifLoop tokens fuel a b) (elifLoop tokens (fuel + 1) a b)) ∧
  (∀ a, Ext (whileStatement tokens fuel a) (whileStatement tokens (fuel + 1) a)) ∧
  (∀ a, Ext (functionDeclaration tokens fuel a) (functionDeclaration tokens (fuel + 1) a)) ∧
  (∀ a, Ext (block tokens fuel a) (block tokens (fuel + 1) a)) ∧
  (∀ a b, Ext (blockLoop tokens fuel a b) (blockLoop tokens (fuel + 1) a b))

end Parser

/-- First-order codes of syntax trees, used to decide the equality of two
trees. -/
inductive Code
  | tok (t : Token)
  | val (v : PyValue)
  | nil
  | cons (a b : Code)
  | tag (n : Nat) (c : Code)
  deriving DecidableEq

/-- The code of a list of tokens. -/
def Code.ofTokens : List Token → Code
  | [] => .nil
  | t :: ts => .cons (.tok t) (Code.ofTokens ts)

mutual
/-- The code of an expression. -/
def Expr.code : Expr → Code
  | .binaryExpr l o r => .tag 0 (.cons (Expr.code l) (.cons (.tok o) (Expr.code r)))
  | .unaryExpr o e => .tag 1 (.cons (.tok o) (Expr.code e))
  | .literalExpr v => .tag 2 (.val v)
  | .variableExpr n => .tag 3 (.tok n)
  | .assignExpr n v => .tag 4 (.cons (.tok n) (Expr.code v))
  | .callExpr c p as => .tag 5 (.cons (Expr.code c) (.cons (.tok p) (Expr.codeList as)))
  | .groupingExpr e => .tag 6 (Expr.code e)
/-- The code of a list of expressions. -/
def Expr.codeList : List Expr → Code
  | [] => .nil
  | e :: es => .cons (Expr.code e) (Expr.codeList es)
/-- The code of an optional expression. -/
def Expr.codeOption : Option Expr → Code
  | Option.none => .nil
  | some e => .tag 0 (Expr.code e)
/-- The code of a statement. -/
def Stmt.code : Stmt → Code
  | .expressionStmt e => .tag 0 (Expr.code e)
  | .printStmt es => .tag 1 (Expr.codeList es)
  | .varStmt n e => .tag 2 (.cons (.tok n) (Expr.code e))
  | .blockStmt ss => .tag 3 (Stmt.codeList ss)
  | .ifStmt c t el els =>
    .tag 4 (.cons (Expr.code c) (.cons (Stmt.code t) (.cons (Stmt.codeElifs el)
      (Stmt.codeOption els))))
  | .whileStmt c b => .tag 5 (.cons (Expr.code c) (Stmt.code b))
  | .functionStmt n ps b => .tag 6 (.cons (.tok n) (.cons (Code.ofTokens ps) (Stmt.codeList b)))
  | .returnStmt k v => .tag 7 (.cons (.tok k) (Expr.codeOption v))
  | .assertStmt k c m => .tag 8 (.cons (.tok k) (.cons (Expr.code c) (Expr.codeOption m)))
/-- The code of a list of statements. -/
def Stmt.codeList : List Stmt → Code
  | [] => .nil
  | s :: ss => .cons (Stmt.code s) (Stmt.codeList ss)
/-- The code of the `elif` branches of an `if` statement. -/
def Stmt.codeElifs : List (Expr × Stmt) → Code
  | [] => .nil
  | (e, s) :: rest => .cons (.cons (Expr.code e) (Stmt.code s)) (Stmt.codeElifs rest)
/-- The code of an optional statement. -/
def Stmt.codeOption : Option Stmt → Code
  | Option.none => .nil
  | some s => .tag 0 (Stmt.code s)
end

namespace Parser

/-- The token is a numeric literal with the value `v`: an INTEGER token with
an integer payload or a FLOAT token with a double payload. -/
def NumericLiteral (t : Token) (v : PyValue) : Prop :=
  (t.type = .INTEGER ∧ ∃ i, t.literal = .integer i ∧ v = .int i) ∨
  (t.type = .FLOAT ∧ ∃ d, t.literal = .float d ∧ v = .float d)

/-- The token types that continue an expression behind a primary: `(`, the
binary operators and `=`. -/
def operatorTypes : List TokenType :=
  [.LPAREN, .DOUBLE_STAR, .STAR, .SLASH, .DOUBLE_SLASH, .PERCENT, .PLUS, .MINUS,
   .LT, .LE, .GT, .GE, .EQ, .NE, .AND, .OR, .ASSIGN]

/-- A chain of `elif` clauses in the token vector, from the cursor `c` to the
cursor `cEnd`: each clause is the keyword ELIF, a condition that `expression`
parses, the tokens COLON, NEWLINE, INDENT and a block that `block` parses; the
list holds the conditions and the blocks in the order of the source. -/
inductive ElifChain (tokens : List Token) (f0 : Nat) :
    Nat → List (Expr × Stmt) → Nat → Prop
  | nil (c : Nat) : ElifChain tokens f0 c [] c
  | cons (c c2 c6 cEnd : Nat) (kw colon nl ind : Token) (e : Expr) (ss : List Stmt)
      (rest : List (Expr × Stmt)) :
      tokens[c]? = some kw → kw.type = .ELIF →
      expression tokens f0 (c + 1) = .ok (e, c2) →
      tokens[c2]? = some colon → colon.type = .COLON →
      tokens[c2 + 1]? = some nl → nl.type = .NEWLINE →
      tokens[c2 + 2]? = some ind → ind.type = .INDENT →
      block tokens f0 (c2 + 3) = .ok (ss, c6) →
      ElifChain tokens f0 c6 rest cEnd →
      ElifChain tokens f0 c ((e, .blockStmt ss) :: rest) cEnd

end Parser

namespace Lexer

/-- One item of the body of a string literal: a character that stands for
itself, or a backslash with the character behind it. -/
inductive StringItem
  | plain (c : Char)
  | escape (x : Char)
  deriving DecidableEq

/-- The source text of an item. -/
def StringItem.source : StringItem → List Char
  | .plain c => [c]
  | .escape x => ['\\', x]

/-- The character that the specification gives for an item: `\n`, `\t`, `\r`
are newline, tab and carriage return; `\\`, `\'`, `\"` are backslash, single
quote and double quote; any other `\x` is `x`; every other character is copied
unchanged. -/
def StringItem.decoded : StringItem → Char
  | .plain c => c
  | .escape x =>
    if x = 'n' then '\n'
    else if x = 't' then '\t'
    else if x = 'r' then '\r'
    else if x = '\\' then '\\'
    else if x = '\'' then '\''
    else if x = '"' then '"'
    else x

/-- An item of the body of a literal delimited by `quote`: a character that
stands for itself is not the quote, a newline or a backslash, and no escaped
character is a raw newline. -/
def StringItem.valid (quote : Char) : StringItem → Bool
  | .plain c => c != quote && c != '\n' && c != '\\'
  | .escape x => x != '\n'

/-- The source text of the body of a string literal. -/
def bodySource : List StringItem → List Char
  | [] => []
  | i :: items => i.source ++ bodySource items

end Lexer

/-- The map that the parameter loop of `callFunction` builds in the frame of
the call: `values[p] = a` in the order of the declaration. -/
def bindParams : Values → List String → List PyValue → Values
  | vs, p :: ps, a :: as => bindParams (vs.set p a) ps as
  | vs, _, _ => vs

/-- The result is not the exception of a `return` statement. -/
structure ReturnFree {α : Type} (r : Except Exn α) : Prop where
  ne : ∀ v, r ≠ .error (.ReturnException v)

/-- The function objects of the first state are still there in the second
state, at the same addresses: the heap of functions has only grown. -/
structure Extends (st st1 : Interpreter) : Prop where
  suffix : ∃ l, st1.functions = l ++ st.functions

/-- Every piece of the evaluator, run with the given budget, only adds function
objects. -/
def ExtendsAll (fuel : Nat) : Prop :=
  (∀ (st : Interpreter) (e : Expr), Extends st (evaluate fuel st e).1) ∧
  (∀ (st : Interpreter) (es : List Expr), Extends st (evaluateArguments fuel st es).1) ∧
  (∀ (st : Interpreter) (fn : PyFunction) (args : List PyValue) (paren : Token),
    Extends st (callFunction fuel st fn args paren).1) ∧
  (∀ (st : Interpreter) (ss : List Stmt) (env : Nat), Extends st (executeBlock fuel st ss env).1) ∧
  (∀ (st : Interpreter) (ss : List Stmt), Extends st (executeStatements fuel st ss).1) ∧
  (∀ (st : Interpreter) (es : List Expr) (first : Bool),
    Extends st (printExpressions fuel st es first).1) ∧
  (∀ (st : Interpreter) (elifs : List (Expr × Stmt)) (els : Option Stmt),
    Extends st (executeElifs fuel st elifs els).1) ∧
  (∀ (st : Interpreter) (c : Expr) (body : Stmt), Extends st (executeWhile fuel st c body).1) ∧
  (∀ (st : Interpreter) (s : Stmt), Extends st (execute fuel st s).1)

namespace Lexer

/-- What holds of a layout token that the main loop of `tokenize` emits: an
INDENT or DEDENT token has the empty lexeme, a NEWLINE token has the newline
character as lexeme, and none of the three has a payload. -/
def LayoutOk (t : Token) : Prop :=
  (t.type = .INDENT ∨ t.type = .DEDENT → t.lexeme = "" ∧ t.literal = .monostate) ∧
  (t.type = .NEWLINE → t.lexeme = "\n" ∧ t.literal = .monostate)

/-- Every token of the vector satisfies `LayoutOk`. -/
def LayoutsOk (tokens : List Token) : Prop := ∀ t ∈ tokens, LayoutOk t

/-- The invariant of the indentation stack (its back is the head of the
list): it is not empty, its bottom entry is 0, and every entry is larger than
the one beneath it. -/
def StackOk (stack : List Nat) : Prop :=
  stack ≠ [] ∧ stack.getLast? = some 0 ∧ stack.Chain' (fun a b => b < a)

/-- The states that the lexer of `source` goes through: the state made by the
constructor, and from such a state the state after `handleIndentation`, after
`scanToken`, and after one iteration of the main loop of `tokenize`. -/
inductive Reachable (source : List Char) : Lexer → Prop
  | start : Reachable source (Lexer.new source)
  | indentation {lx lx1 : Lexer} :
      Reachable source lx → lx.handleIndentation = .ok lx1 → Reachable source lx1
  | token {lx lx1 : Lexer} :
      Reachable source lx → lx.scanToken = .ok lx1 → Reachable source lx1
  | iteration {lx lx1 : Lexer} :
      Reachable source lx → lx.loopBody = .ok lx1 → Reachable source lx1

end Lexer

/-- The fractional digits that the specification keeps: the digits without
their trailing zeros, and the first digit alone when nothing else is left. -/
def keptFraction (F : List Char) : List Char :=
  if (F.reverse.dropWhile (fun c => c == '0')).reverse = [] then F.take 1
  else (F.reverse.dropWhile (fun c => c == '0')).reverse

namespace Lexer

/-- The states at the head of the main loop of `tokenize` on `source`: the
state made by the constructor, and the state after an iteration that started
before the end of the source. -/
inductive Visits (source : List Char) : Lexer → Prop
  | start : Visits source (Lexer.new source)
  | step {lx lx1 : Lexer} :
      Visits source lx → lx.rest ≠ [] → lx.loopBody = .ok lx1 → Visits source lx1

/-- The state of the main loop of `tokenize` after `n` iterations from `lx`,
when the loop runs that long without an error. -/
def stateAfter : Nat → Lexer → Option Lexer
  | 0, lx => some lx
  | n + 1, lx =>
    if lx.rest = [] then Option.none
    else
      match lx.loopBody with
      | .ok lx1 => stateAfter n lx1
      | .error _ => Option.none

/-- No token of the vector is END_OF_FILE. -/
def NoEOF (tokens : List Token) : Prop := ∀ t ∈ tokens, t.type ≠ .END_OF_FILE

/-- The outcomes of the methods of the lexer when every read `source[current]`
is checked: the error `none` stands for a read at an index that is not below
`source.length()`, the error `some e` for the exception `e`. -/
abbrev Checked (α : Type) : Type := Except (Option LexExn) α

/-- The read `source[current]`. -/
def readChecked (lx : Lexer) : Checked Char :=
  match lx.rest with
  | [] => .error Option.none
  | c :: _ => .ok c

/-- The method `advance`, with its read checked. -/
def advanceChecked (lx : Lexer) : Checked Lexer := do
  let _ ← lx.readChecked
  pure lx.advance

/-- The method `match`, with its reads checked: whether the next character is
the expected one, and the state after the call. -/
def matchChecked (lx : Lexer) (expected : Char) : Checked (Bool × Lexer) :=
  if lx.isAtEnd then pure (false, lx)
  else do
    let c ← lx.readChecked
    if c ≠ expected then pure (false, lx)
    else pure (true, { lx with rest := lx.rest.tail, column := lx.column + 1 })

/-- A loop `while (cond) advance();`; the first argument bounds the number of
iterations. -/
def whileChecked (cond : Lexer → Bool) : Nat → Lexer → Checked Lexer
  | 0, _ => .error (some .outOfFuel)
  | fuel + 1, lx =>
    if cond lx then do
      let lx1 ← lx.advanceChecked
      whileChecked cond fuel lx1
    else pure lx

/-- The first loop of `handleIndentation`, with its reads checked: the state
and the width counted. -/
def countIndentChecked : Nat → Lexer → Nat → Checked (Lexer × Nat)
  | 0, _, _ => .error (some .outOfFuel)
  | fuel + 1, lx, indent =>
    if !lx.isAtEnd && (lx.peek = ' ' || lx.peek = '\t') then do
      let indent1 := if lx.peek = ' ' then indent + 1 else indent + 8
      let lx1 ← lx.advanceChecked
      countIndentChecked fuel lx1 indent1
    else pure (lx, indent)

/-- The method `handleIndentation`, with its reads checked. -/
def handleIndentationChecked (lx : Lexer) : Checked Lexer := do
  let (lx1, indent) ← countIndentChecked (lx.rest.length + 1) lx 0
  -- Skip blank lines and comment-only lines
  if lx1.isAtEnd || lx1.peek = '\n' || lx1.peek = '#' then pure lx1
  else
    let currentIndent := lx1.indentStack.headD 0
    if currentIndent < indent then
      pure { lx1 with indentStack := indent :: lx1.indentStack, startRest := lx1.rest,
                      startColumn := lx1.column,
                      tokens := lx1.tokens ++ [⟨.INDENT, "", .monostate, lx1.line, lx1.column⟩],
                      atLineStart := false }
    else if indent < currentIndent then
      let (stack, tokens) := popIndents indent lx1.line lx1.column lx1.indentStack lx1.tokens
      let lx2 := { lx1 with indentStack := stack, tokens := tokens, startRest := lx1.rest,
                            startColumn := lx1.column }
      if stack.isEmpty || stack.headD 0 ≠ indent then
        .error (some (lx2.error "Inconsistent indentation"))
      else pure { lx2 with atLineStart := false }
    else pure { lx1 with atLineStart := false }

/-- The second half of the method `number`, with its reads checked. -/
def numberExponentChecked (lx2 : Lexer) (hasFraction : Bool) : Checked Lexer :=
  -- Check for exponent
  if lx2.peek = 'e' || lx2.peek = 'E' then do
    let lx3 ← lx2.advanceChecked
    let lx4 ← if lx3.peek = '+' || lx3.peek = '-' then lx3.advanceChecked else pure lx3
    if !lx4.peek.isDigit then
      .error (some (lx4.error "Invalid number: expected digit after exponent"))
    else do
      let lx5 ← whileChecked (fun l => l.peek.isDigit) (lx4.rest.length + 1) lx4
      match stod lx5.text with
      | some d => pure (lx5.addToken .FLOAT (.float d))
      | Option.none => .error (some .out_of_range)
  else if hasFraction then
    match stod lx2.text with
    | some d => pure (lx2.addToken .FLOAT (.float d))
    | Option.none => .error (some .out_of_range)
  else
    match stoll lx2.text with
    | some i => pure (lx2.addToken .INTEGER (.integer i))
    | Option.none => .error (some .out_of_range)

/-- The method `number`, with its reads checked. -/
def numberChecked (lx : Lexer) : Checked Lexer := do
  let lx1 ← whileChecked (fun l => l.peek.isDigit) (lx.rest.length + 1) lx
  -- Check for decimal point
  let hasFraction := lx1.peek = '.' && lx1.peekNext.isDigit
  let lx2 ←
    if hasFraction then do
      let lx11 ← lx1.advanceChecked
      whileChecked (fun l => l.peek.isDigit) (lx11.rest.length + 1) lx11
    else pure lx1
  numberExponentChecked lx2 hasFraction

/-- The method `identifier`, with its reads checked. -/
def identifierChecked (lx : Lexer) : Checked Lexer := do
  let lx1 ← whileChecked (fun l => l.peek.isAlphanum || l.peek = '_') (lx.rest.length + 1) lx
  match keywordsFind (String.mk lx1.text) with
  | some type => pure (lx1.addToken type .monostate)
  | Option.none => pure (lx1.addToken .IDENTIFIER .monostate)

/-- The loop of the method `string`, with its reads checked: the state and
the value at the end of the loop. -/
def stringLoopChecked (quote : Char) : Nat → Lexer → List Char → Checked (Lexer × List Char)
  | 0, _, _ => .error (some .outOfFuel)
  | fuel + 1, lx, value =>
    if !lx.isAtEnd && lx.peek ≠ quote then
      if lx.peek = '\n' then .error (some (lx.error "Unterminated string"))
      else if lx.peek = '\\' then do
        let lx1 ← lx.advanceChecked -- consume backslash
        if lx1.isAtEnd then .error (some (lx1.error "Unterminated string"))
        else do
          let lx2 ← lx1.advanceChecked
          stringLoopChecked quote fuel lx2 (value ++ [unescape lx1.peek])
      else do
        let lx1 ← lx.advanceChecked
        stringLoopChecked quote fuel lx1 (value ++ [lx.peek])
    else pure (lx, value)

/-- The method `string`, with its reads checked. -/
def stringChecked (lx : Lexer) (quote : Char) : Checked Lexer := do
  let (lx1, value) ← stringLoopChecked quote (lx.rest.length + 1) lx []
  if lx1.isAtEnd then .error (some (lx1.error "Unterminated string"))
  else do
    let lx2 ← lx1.advanceChecked -- closing quote
    pure (lx2.addToken .STRING (.string (String.mk value)))

/-- The method `skipComment`, with its reads checked. -/
def skipCommentChecked (lx : Lexer) : Checked Lexer :=
  whileChecked (fun l => !l.isAtEnd && l.peek ≠ '\n') (lx.rest.length + 1) lx

/-- A case `if (match(expected)) addToken(yes); else addToken(no);` of the
switch of `scanToken`; without `no` the case ends with the error `message`. -/
def matchCase (lx : Lexer) (expected : Char) (yes : TokenType) : Checked Lexer → Checked Lexer :=
  fun otherwise => do
    let (m, lx1) ← lx.matchChecked expected
    if m then pure (lx1.addToken yes .monostate) else otherwise

/-- The `switch (c)` of the method `scanToken`, with the reads checked. -/
def scanSwitchChecked (c : Char) (lx : Lexer) : Checked Lexer :=
  if c = '(' then pure (lx.addToken .LPAREN .monostate)
  else if c = ')' then pure (lx.addToken .RPAREN .monostate)
  else if c = ':' then pure (lx.addToken .COLON .monostate)
  else if c = ',' then pure (lx.addToken .COMMA .monostate)
  else if c = '+' then
    matchCase lx '=' .PLUS_ASSIGN (pure (lx.addToken .PLUS .monostate))
  else if c = '-' then
    matchCase lx '=' .MINUS_ASSIGN (pure (lx.addToken .MINUS .monostate))
  else if c = '*' then
    matchCase lx '*' .DOUBLE_STAR
      (matchCase lx '=' .STAR_ASSIGN (pure (lx.addToken .STAR .monostate)))
  else if c = '/' then
    matchCase lx '/' .DOUBLE_SLASH
      (matchCase lx '=' .SLASH_ASSIGN (pure (lx.addToken .SLASH .monostate)))
  else if c = '%' then pure (lx.addToken .PERCENT .monostate)
  else if c = '=' then
    matchCase lx '=' .EQ (pure (lx.addToken .ASSIGN .monostate))
  else if c = '!' then
    matchCase lx '=' .NE (.error (some (lx.error "Unexpected character '!'")))
  else if c = '<' then
    matchCase lx '=' .LE (pure (lx.addToken .LT .monostate))
  else if c = '>' then
    matchCase lx '=' .GE (pure (lx.addToken .GT .monostate))
  else if c = '#' then lx.skipCommentChecked
  else if c = ' ' || c = '\t' || c = '\r' then pure lx
  else if c = '\n' then
    let lx1 := lx.addNewline
    pure { lx1 with line := lx1.line + 1, column := 1, atLineStart := true }
  else if c = '"' || c = '\'' then lx.stringChecked c
  else if c.isDigit then lx.numberChecked
  else if c.isAlpha || c = '_' then lx.identifierChecked
  else .error (some (lx.error "Unexpected character"))

/-- The method `scanToken`, with its reads checked. -/
def scanTokenChecked (lx : Lexer) : Checked Lexer := do
  let c ← lx.readChecked
  let lx1 ← lx.advanceChecked
  scanSwitchChecked c { lx1 with startRest := lx.rest, startColumn := lx.column }

/-- One iteration of the loop of `tokenize`, with the reads checked. -/
def loopBodyChecked (lx : Lexer) : Checked Lexer :=
  if lx.atLineStart then do
    let lx1 ← lx.handleIndentationChecked
    if lx1.isAtEnd then pure lx1
    else if lx1.peek = '\n' || lx1.peek = '#' then do
      -- Empty line or comment-only line
      let lx2 ← if lx1.peek = '#' then lx1.skipCommentChecked else pure lx1
      if !lx2.isAtEnd && lx2.peek = '\n' then do
        let lx3 ← lx2.advanceChecked
        pure { lx3 with line := lx3.line + 1, column := 1 }
      else pure lx2
    else lx1.scanTokenChecked
  else lx.scanTokenChecked

/-- The main loop of `tokenize`, with the reads checked. -/
def tokenizeLoopChecked : Nat → Lexer → Checked Lexer
  | 0, lx => if lx.isAtEnd then pure lx else .error (some .outOfFuel)
  | fuel + 1, lx =>
    if lx.isAtEnd then pure lx
    else do
      let lx1 ← lx.loopBodyChecked
      tokenizeLoopChecked fuel lx1

/-- The method `Lexer::tokenize`, with the reads checked. -/
def tokenizeChecked (source : List Char) : Checked (List Token) := do
  let lx ← tokenizeLoopChecked source.length (Lexer.new source)
  pure lx.finish

/-- The outcome of a method in the terms of the checked methods. -/
def lift {α : Type} (r : Except LexExn α) : Checked α :=
  match r with
  | .error e => .error (some e)
  | .ok a => .ok a

/-- The end of the method `string`, after its loop. -/
def stringClose (r : Lexer × List Char) : Checked Lexer :=
  if r.1.isAtEnd then .error (some (r.1.error "Unterminated string"))
  else do
    let lx2 ← r.1.advanceChecked
    pure (lx2.addToken .STRING (.string (String.mk r.2)))

end Lexer

namespace Parser

/-- Every method of the statement grammar, run with `fuel` steps at a cursor
not behind `N`, ends with a `ParseError` or with a value and a cursor not
behind `N` (further on, for a declaration or a statement), when `fuel` is at
least fifteen times the number of tokens left plus the depth of the method in
the grammar. -/
def StmtTotal (tokens : List Token) (N fuel : Nat) : Prop :=
  (∀ c, c ≤ N → 15 * (N - c) + 14 ≤ fuel → Fine N (c + 1) (declaration tokens fuel c)) ∧
  (∀ c, c ≤ N → 15 * (N - c) + 13 ≤ fuel → Fine N (c + 1) (statement tokens fuel c)) ∧
  (∀ c, c ≤ N → 15 * (N - c) + 13 ≤ fuel → Fine N (c + 1) (ifStatement tokens fuel c)) ∧
  (∀ c l, c ≤ N → 15 * (N - c) + 1 ≤ fuel → Fine N c (elifLoop tokens fuel c l)) ∧
  (∀ c, c ≤ N → 15 * (N - c) + 13 ≤ fuel → Fine N (c + 1) (whileStatement tokens fuel c)) ∧
  (∀ c, c ≤ N → 15 * (N - c) + 1 ≤ fuel →
    Fine N (c + 1) (functionDeclaration tokens fuel c)) ∧
  (∀ c, c ≤ N → 15 * (N - c) + 16 ≤ fuel → Fine N c (block tokens fuel c)) ∧
  (∀ c l, c ≤ N → 15 * (N - c) + 15 ≤ fuel → Fine N c (blockLoop tokens fuel c l))

/-- The method `Parser::parse` with a given step budget. -/
def parseWith (fuel : Nat) (tokens : List Token) : Except ParseExn (List Stmt) := do
  let (_, current) ← skipNewlines tokens fuel 0
  let (statements, _) ← parseLoop tokens fuel current []
  pure statements

end Parser

/-- The factorial program of the specification, with the literal `n` in its
last line. -/
def factSource (n : Nat) : String :=
  "def fact(n):\n    if n <= 1:\n        return 1\n    return n * fact(n - 1)\nprint(fact(" ++
    intToString n ++ "))\n"

/-- Whether the stages of `run` on the factorial program end as expected: the
lexer returns tokens, the parser returns statements within 40 steps, and the
interpreter returns within 200 steps, with the decimal text of `n!` and a
newline written to the output. -/
def factCheck (n : Nat) : Bool :=
  match Lexer.tokenize (factSource n).data with
  | .ok tokens =>
    decide (40 ≤ Parser.parseFuel tokens) &&
    match Parser.parseWith 40 tokens with
    | .ok statements =>
      match interpret 200 { Interpreter.new with lastValueSet := false } statements with
      | (st, .ok _) => st.stdout == intToString n.factorial ++ "\n"
      | (_, .error _) => false
    | .error _ => false
  | .error _ => false

/-- The part of `run` after the parser: the statements are interpreted and
the exceptions are handled. -/
def runParsed (fuel : Nat) (interpreter : Interpreter) (isRepl : Bool)
    (parsed : Except ParseExn (List Stmt)) : Interpreter × String × RunExit :=
  match parsed with
  | .error (.ParseError what _) => (interpreter, what ++ "\n", .returned)
  | .error e => (interpreter, "", .uncaughtParser e)
  | .ok statements =>
    match interpret fuel { interpreter with lastValueSet := false } statements with
    | (st, .ok _) =>
      -- In REPL mode, print the result of expressions
      if isRepl && st.lastValueSet && st.lastValue != .none then
        ({ st with stdout := st.stdout ++ pyValueToString st.functions st.lastValue ++ "\n" },
          "", .returned)
      else (st, "", .returned)
    | (st, .error (.AssertionError what line)) =>
      (st, what ++ (if 0 < line then " (line " ++ intToString line ++ ")" else "") ++ "\n",
        .rethrown what line)
    | (st, .error (.RuntimeError what line)) =>
      (st, "Runtime Error" ++ (if 0 < line then " [line " ++ intToString line ++ "]" else "") ++
        ": " ++ what ++ "\n", .returned)
    | (st, .error e) => (st, "", .uncaughtEvaluator e)

/-- The function `run` with the parser run with `steps` steps: `none` when
the parser does not end within these steps, or they are more than the budget
of `parse`. -/
def runWithin (steps fuel : Nat) (source : String) (interpreter : Interpreter)
    (isRepl : Bool) : Option (Interpreter × String × RunExit) :=
  match Lexer.tokenize source.data with
  | .error (.LexerError what line column) =>
    some (interpreter, "Lexer Error [line " ++ intToString line ++ ", col " ++
      intToString column ++ "]: " ++ what ++ "\n", .returned)
  | .error e => some (interpreter, "", .uncaughtLexer e)
  | .ok tokens =>
    if steps ≤ Parser.parseFuel tokens then
      match Parser.parseWith steps tokens with
      | .error .outOfFuel => Option.none
      | parsed => some (runParsed fuel interpreter isRepl parsed)
    else Option.none

/-! # Theorems -/

/-! ## The evaluator at inputs where it departs from the specification -/

/-- C1 (the code evaluates both operands of `and` before it looks at the
operator): on the source `False and 1/0` the driver reports the runtime error
`Division by zero` raised by the right operand, although the left operand is
falsey. -/
theorem C1_and_evaluates_right_operand :
    (run 100 "False and 1/0\n" Interpreter.new false).2 =
      ("Runtime Error [line 1]: Division by zero\n", .returned) := by
  decide!

/-- C2 (an assignment to a name that no environment of the chain defines is
created in the outermost environment of the chain, not in the current one):
with the current environment at address 1, an empty block environment whose
enclosing environment is the global environment at address 0, `assign` leaves
the current environment empty and binds the name in the global one. -/
theorem C2_assign_creates_in_outermost (name : String) (value : PyValue) :
    Environment.assign [⟨[], some 0⟩, ⟨[], Option.none⟩] 1 name value =
      [⟨[], some 0⟩, ⟨[(name, value)], Option.none⟩] := by
  simp [Environment.assign, Values.find, Values.set]

/-- C5 (`+` reads a `long long` out of any operand that is not a `double` as
soon as the other operand is a `double`): for every string `s` and every
float `d`, `s + d` ends with `std::bad_variant_access`, not with a runtime
error. -/
theorem C5_plus_string_float_bad_variant_access (op : Token) (s : String) (d : Double)
    (h : op.type = .PLUS) :
    binarySwitch op (.str s) (.float d) = .error .bad_variant_access := by
  simp [binarySwitch, h, PyValue.holdsString, PyValue.holdsDouble, PyValue.asDouble,
    PyValue.getInt, bind, Except.bind]

/-- Witness of C5 at the operands `"a"` and `1.5`. -/
theorem C5_plus_string_float_bad_variant_access_witness :
    (⟨.PLUS, "+", .monostate, 1, 5⟩ : Token).type = .PLUS ∧
    binarySwitch ⟨.PLUS, "+", .monostate, 1, 5⟩ (.str "a")
      (.float (Double.div (Double.ofInt 3) (Double.ofInt 2))) = .error .bad_variant_access :=
  ⟨rfl, C5_plus_string_float_bad_variant_access _ _ _ rfl⟩

/-- C6 (`std::stoll` throws `std::out_of_range`, which is no `LexerError` and
which the driver does not catch): on the digits of `2^63` tokenization ends
with that exception and it leaves `run` uncaught. -/
theorem C6_integer_literal_out_of_range :
    Lexer.tokenize "9223372036854775808".data = .error .out_of_range ∧
    (run 100 "9223372036854775808" Interpreter.new false).2 =
      ("", .uncaughtLexer .out_of_range) := by
  decide!

/-! ## The lexer -/

namespace Lexer

@[simp]
theorem advance_tokens (lx : Lexer) : lx.advance.tokens = lx.tokens := rfl

@[simp]
theorem advance_indentStack (lx : Lexer) : lx.advance.indentStack = lx.indentStack := rfl

@[simp]
theorem skipWhile_tokens (p : Char → Bool) (lx : Lexer) :
    (lx.skipWhile p).tokens = lx.tokens := rfl

@[simp]
theorem skipWhile_indentStack (p : Char → Bool) (lx : Lexer) :
    (lx.skipWhile p).indentStack = lx.indentStack := rfl

@[simp]
theorem skipComment_tokens (lx : Lexer) : lx.skipComment.tokens = lx.tokens := rfl

@[simp]
theorem skipComment_indentStack (lx : Lexer) :
    lx.skipComment.indentStack = lx.indentStack := rfl

@[simp]
theorem addToken_indentStack (lx : Lexer) (ty : TokenType) (lit : Literal) :
    (lx.addToken ty lit).indentStack = lx.indentStack := rfl

theorem emits_addToken (lx lx0 : Lexer) (ty : TokenType) (lit : Literal)
    (hs : lx.indentStack = lx0.indentStack) (ht : lx.tokens = lx0.tokens) (hp : Plain ty) :
    Emits lx0 (lx.addToken ty lit) := by
  refine ⟨hs, Or.inr ⟨⟨ty, String.mk lx.text, lit, lx.line, lx.startColumn⟩, ?_, hp.1, hp.2.1,
    fun h => absurd h hp.2.2⟩⟩
  simp [addToken, ht]

theorem keywordsFind_plain (s : String) (ty : TokenType) (h : keywordsFind s = some ty) :
    Plain ty := by
  simp only [keywordsFind, keywords, List.find?] at h
  repeat' split at h
  all_goals first
    | (simp at h; subst h; simp [Plain])
    | simp at h

theorem emits_identifier (lx lx0 : Lexer)
    (hs : lx.indentStack = lx0.indentStack) (ht : lx.tokens = lx0.tokens) :
    Emits lx0 lx.identifier := by
  simp only [identifier]
  split
  · next ty h => exact emits_addToken _ _ _ _ (by simpa using hs) (by simpa using ht) (keywordsFind_plain _ _ h)
  · exact emits_addToken _ _ _ _ (by simpa using hs) (by simpa using ht) (by simp [Plain])

/-- What the second half of `number` does when it returns: it adds one
INTEGER or FLOAT token, with a payload of that kind, to a state that differs
from the state before in the cursor only. -/
theorem numberExponent_spec (lx2 lx1 : Lexer) (b : Bool) (h : numberExponent lx2 b = .ok lx1) :
    ∃ (lx3 : Lexer) (ty : TokenType) (lit : Literal), lx1 = lx3.addToken ty lit ∧
      lx3.tokens = lx2.tokens ∧ lx3.indentStack = lx2.indentStack ∧
      ((ty = .INTEGER ∧ ∃ i, lit = .integer i) ∨ (ty = .FLOAT ∧ ∃ d, lit = .float d)) := by
  unfold numberExponent at h
  simp only at h
  repeat' split at h
  all_goals first
    | (simp at h; done)
    | (simp only [Except.ok.injEq] at h
       refine ⟨_, _, _, h.symm, ?_, ?_, ?_⟩ <;> simp)

theorem number_spec (lx lx1 : Lexer) (h : lx.number = .ok lx1) :
    ∃ (lx3 : Lexer) (ty : TokenType) (lit : Literal), lx1 = lx3.addToken ty lit ∧
      lx3.tokens = lx.tokens ∧ lx3.indentStack = lx.indentStack ∧
      ((ty = .INTEGER ∧ ∃ i, lit = .integer i) ∨ (ty = .FLOAT ∧ ∃ d, lit = .float d)) := by
  unfold number at h
  obtain ⟨lx3, ty, lit, h1, h2, h3, h5⟩ := numberExponent_spec _ _ _ h
  refine ⟨lx3, ty, lit, h1, ?_, ?_, h5⟩
  · rw [h2]; split <;> simp
  · rw [h3]; split <;> simp

theorem number_plain {ty : TokenType} {lit : Literal}
    (h : (ty = .INTEGER ∧ ∃ i, lit = .integer i) ∨ (ty = .FLOAT ∧ ∃ d, lit = .float d)) :
    Plain ty := by
  rcases h with ⟨h, _⟩ | ⟨h, _⟩ <;> subst h <;> simp [Plain]

theorem emits_number (lx lx0 lx1 : Lexer)
    (hs : lx.indentStack = lx0.indentStack) (ht : lx.tokens = lx0.tokens)
    (h : lx.number = .ok lx1) : Emits lx0 lx1 := by
  obtain ⟨lx3, ty, lit, h1, h2, h3, h5⟩ := number_spec _ _ h
  subst h1
  exact emits_addToken _ _ _ _ (h3.trans hs) (h2.trans ht) (number_plain h5)

theorem emits_string (lx lx0 lx1 : Lexer) (q : Char)
    (hs : lx.indentStack = lx0.indentStack) (ht : lx.tokens = lx0.tokens)
    (h : lx.string q = .ok lx1) : Emits lx0 lx1 := by
  unfold string at h
  split at h
  · simp at h
  · simp only [Except.ok.injEq] at h; subst h
    exact emits_addToken _ _ _ _ hs ht (by simp [Plain])

theorem emits_refl (lx lx0 : Lexer)
    (hs : lx.indentStack = lx0.indentStack) (ht : lx.tokens = lx0.tokens) :
    Emits lx0 lx := ⟨hs, Or.inl ht⟩

theorem ite_ok {α ε : Type} {c : Prop} [Decidable c] {a b : Except ε α} (P : α → Prop)
    (ha : ∀ x, a = .ok x → P x) (hb : ∀ x, b = .ok x → P x) :
    ∀ x, (if c then a else b) = .ok x → P x := by
  intro x h
  by_cases hc : c
  · rw [if_pos hc] at h; exact ha x h
  · rw [if_neg hc] at h; exact hb x h

theorem ite_ok_cond {α ε : Type} {c : Prop} [Decidable c] {a b : Except ε α} (P : α → Prop)
    (ha : c → ∀ x, a = .ok x → P x) (hb : ¬ c → ∀ x, b = .ok x → P x) :
    ∀ x, (if c then a else b) = .ok x → P x := by
  intro x h
  by_cases hc : c
  · rw [if_pos hc] at h; exact ha hc x h
  · rw [if_neg hc] at h; exact hb hc x h

theorem emits_newline (lx : Lexer) : Emits lx lx.addNewline := by
  unfold addNewline
  cases hb : lx.tokens.getLast? with
  | none => exact emits_refl _ _ rfl rfl
  | some back =>
    simp only
    by_cases hc : back.type ≠ .NEWLINE ∧ back.type ≠ .INDENT
    · rw [if_pos hc]
      refine ⟨rfl, Or.inr ⟨⟨.NEWLINE, String.mk lx.text, .monostate, lx.line, lx.startColumn⟩,
        rfl, by simp, by simp, fun _ => ⟨back, hb, hc.1⟩⟩⟩
    · rw [if_neg hc]; exact emits_refl _ _ rfl rfl

theorem emits_scanSwitch (c : Char) (lx : Lexer) :
    ∀ lx1, scanSwitch c lx = .ok lx1 → Emits lx lx1 := by
  unfold scanSwitch
  repeat' with_reducible apply ite_ok
  all_goals intro x h
  all_goals first
    | (simp at h; done)
    | exact emits_string _ _ _ _ rfl rfl h
    | exact emits_number _ _ _ rfl rfl h
    | (simp only [Except.ok.injEq] at h; subst h
       first
        | exact emits_addToken _ _ _ _ rfl rfl (by simp [Plain])
        | exact emits_refl _ _ rfl rfl
        | exact emits_identifier _ _ rfl rfl
        | exact ⟨(emits_newline lx).1, (emits_newline lx).2⟩)

theorem emits_scanToken (lx lx1 : Lexer) (h : lx.scanToken = .ok lx1) : Emits lx lx1 :=
  emits_scanSwitch lx.peek
    { lx.advance with startRest := lx.rest, startColumn := lx.column } lx1 h

/-! ### The effect of `handleIndentation` -/

theorem countType_append (ty : TokenType) (l : List Token) (t : Token) :
    countType ty (l ++ [t]) = countType ty l + (if t.type = ty then 1 else 0) := by
  simp [countType, List.countP_append, List.countP_cons]

theorem noDoubleNewline_append (l : List Token) (t : Token) (h : NoDoubleNewline l)
    (ht : t.type = .NEWLINE → ∀ b, l.getLast? = some b → b.type ≠ .NEWLINE) :
    NoDoubleNewline (l ++ [t]) := by
  unfold NoDoubleNewline at *
  rw [List.chain'_append]
  refine ⟨h, List.chain'_singleton _, ?_⟩
  intro x hx y hy
  simp at hy
  subst hy
  rintro ⟨h1, h2⟩
  exact ht h2 x hx h1

theorem balanced_of_emits (lx lx1 : Lexer) (h : Emits lx lx1) (hb : Balanced lx) :
    Balanced lx1 := by
  obtain ⟨hs, ht⟩ := h
  unfold Balanced at *
  rw [hs]
  refine ⟨hb.1, ?_⟩
  rcases ht with ht | ⟨t, ht, h1, h2, _⟩
  · rw [ht]; exact hb.2
  · rw [ht, countType_append, countType_append, if_neg h1, if_neg h2]; exact hb.2

theorem noDoubleNewline_of_emits (lx lx1 : Lexer) (h : Emits lx lx1)
    (hb : NoDoubleNewline lx.tokens) : NoDoubleNewline lx1.tokens := by
  obtain ⟨_, ht⟩ := h
  rcases ht with ht | ⟨t, ht, _, _, h3⟩
  · rw [ht]; exact hb
  · rw [ht]
    apply noDoubleNewline_append _ _ hb
    intro hn b hb'
    obtain ⟨b', hb2, hb3⟩ := h3 hn
    rw [hb2] at hb'
    cases hb'
    exact hb3

theorem popIndents_spec (indent line column : Nat) :
    ∀ (stack : List Nat) (tokens : List Token),
      countType .INDENT (popIndents indent line column stack tokens).2 = countType .INDENT tokens ∧
      countType .DEDENT (popIndents indent line column stack tokens).2 +
          (popIndents indent line column stack tokens).1.length =
        countType .DEDENT tokens + stack.length ∧
      (NoDoubleNewline tokens → NoDoubleNewline (popIndents indent line column stack tokens).2)
  | [], tokens => by simp [popIndents]
  | top :: below, tokens => by
    unfold popIndents
    by_cases h : indent < top
    · rw [if_pos h]
      have ih := popIndents_spec indent line column below
        (tokens ++ [⟨.DEDENT, "", .monostate, line, column⟩])
      refine ⟨?_, ?_, ?_⟩
      · rw [ih.1, countType_append]; simp
      · rw [ih.2.1, countType_append]; simp; omega
      · intro hn
        exact ih.2.2 (noDoubleNewline_append _ _ hn (by simp))
    · rw [if_neg h]; simp

theorem handleIndentation_spec (lx lx1 : Lexer) (h : lx.handleIndentation = .ok lx1) :
    Keeps lx lx1 := by
  unfold handleIndentation at h
  simp only at h
  revert h
  refine ite_ok (Keeps lx) ?_ (ite_ok _ ?_ (ite_ok _ ?_ ?_)) lx1
  all_goals intro x h
  · simp only [Except.ok.injEq] at h; subst h
    exact ⟨fun hb => hb, fun hn => hn⟩
  · simp only [Except.ok.injEq] at h; subst h
    constructor
    · intro hb
      refine ⟨by simp, ?_⟩
      simp only [countType_append, List.length_cons]
      have := hb.2
      simp; omega
    · intro hn
      exact noDoubleNewline_append _ _ hn (by simp)
  · revert h
    refine ite_ok_cond (Keeps lx) ?_ ?_ x
    all_goals intro hc y h
    · simp at h
    · simp only [Except.ok.injEq] at h; subst h
      have hp := popIndents_spec (countIndent lx.rest 0 lx.column).2.1 lx.line
        (countIndent lx.rest 0 lx.column).2.2 lx.indentStack lx.tokens
      constructor
      · intro hb
        refine ⟨?_, ?_⟩
        · intro he
          apply hc
          simp only [] at he
          simp [he]
        · show countType .INDENT (popIndents _ _ _ _ _).2 + 1 =
            countType .DEDENT (popIndents _ _ _ _ _).2 + (popIndents _ _ _ _ _).1.length
          rw [hp.1, hp.2.1]; exact hb.2
      · intro hn
        exact hp.2.2 hn
  · simp only [Except.ok.injEq] at h; subst h
    exact ⟨fun hb => hb, fun hn => hn⟩

/-! ### The main loop and the end of `tokenize` -/

theorem keeps_refl (lx : Lexer) : Keeps lx lx := ⟨id, id⟩

theorem keeps_trans {a b c : Lexer} (h1 : Keeps a b) (h2 : Keeps b c) : Keeps a c :=
  ⟨fun h => h2.1 (h1.1 h), fun h => h2.2 (h1.2 h)⟩

theorem keeps_of_emits {a b : Lexer} (h : Emits a b) : Keeps a b :=
  ⟨balanced_of_emits _ _ h, noDoubleNewline_of_emits _ _ h⟩

theorem loopBody_spec (lx lx1 : Lexer) (h : lx.loopBody = .ok lx1) : Keeps lx lx1 := by
  unfold loopBody at h
  revert h
  refine ite_ok (Keeps lx) ?_ ?_ lx1
  · intro x h
    cases hh : lx.handleIndentation with
    | error e => rw [hh] at h; simp at h
    | ok lx2 =>
      rw [hh] at h
      simp only at h
      have h2 := handleIndentation_spec lx lx2 hh
      revert h
      refine ite_ok (Keeps lx) ?_ (ite_ok _ ?_ ?_) x
      · intro y h
        simp only [Except.ok.injEq] at h; subst h; exact h2
      · intro y h
        simp only [Except.ok.injEq] at h; subst h
        refine keeps_trans h2 ⟨fun hb => ?_, fun hn => ?_⟩
        · split <;> split <;> exact hb
        · split <;> split <;> exact hn
      · intro y h
        exact keeps_trans h2 (keeps_of_emits (emits_scanToken _ _ h))
  · intro x h
    exact keeps_of_emits (emits_scanToken _ _ h)

theorem tokenizeLoop_spec : ∀ (fuel : Nat) (lx lx1 : Lexer), tokenizeLoop fuel lx = .ok lx1 →
    Keeps lx lx1
  | 0, lx, lx1, h => by
    unfold tokenizeLoop at h
    split at h
    · simp only [Except.ok.injEq] at h; subst h; exact keeps_refl _
    · simp at h
  | fuel + 1, lx, lx1, h => by
    unfold tokenizeLoop at h
    revert h
    refine ite_ok (Keeps lx) ?_ ?_ lx1
    · intro x h
      simp only [Except.ok.injEq] at h; subst h; exact keeps_refl _
    · intro x h
      cases hb : lx.loopBody with
      | error e => rw [hb] at h; simp at h
      | ok lx2 =>
        rw [hb] at h
        exact keeps_trans (loopBody_spec _ _ hb) (tokenizeLoop_spec fuel lx2 x h)

theorem remainingDedents_spec (line column : Nat) :
    ∀ (stack : List Nat) (tokens : List Token), stack ≠ [] →
      countType .INDENT (remainingDedents line column stack tokens) = countType .INDENT tokens ∧
      countType .DEDENT (remainingDedents line column stack tokens) + 1 =
        countType .DEDENT tokens + stack.length ∧
      (NoDoubleNewline tokens → NoDoubleNewline (remainingDedents line column stack tokens))
  | [], _, h => absurd rfl h
  | [_], tokens, _ => by simp [remainingDedents]
  | _ :: b :: below, tokens, _ => by
    unfold remainingDedents
    have ih := remainingDedents_spec line column (b :: below)
      (tokens ++ [⟨.DEDENT, "", .monostate, line, column⟩]) (by simp)
    refine ⟨?_, ?_, ?_⟩
    · rw [ih.1, countType_append]; simp
    · rw [ih.2.1, countType_append]; simp; omega
    · intro hn
      exact ih.2.2 (noDoubleNewline_append _ _ hn (by simp))

theorem remainingDedents_noDoubleNewline (line column : Nat) :
    ∀ (stack : List Nat) (tokens : List Token), NoDoubleNewline tokens →
      NoDoubleNewline (remainingDedents line column stack tokens)
  | [], _, h => by simpa [remainingDedents] using h
  | [_], _, h => by simpa [remainingDedents] using h
  | _ :: b :: below, tokens, h => by
    unfold remainingDedents
    exact remainingDedents_noDoubleNewline line column (b :: below) _
      (noDoubleNewline_append _ _ h (by simp))

theorem finish_counts (lx : Lexer) (hb : Balanced lx) :
    countType .INDENT lx.finish = countType .DEDENT lx.finish := by
  have hr := remainingDedents_spec lx.line lx.column lx.indentStack lx.tokens hb.1
  have h2 := hb.2
  unfold finish
  simp only
  rw [countType_append, countType_append]
  simp only [reduceCtorEq, if_false, Nat.add_zero]
  split
  · omega
  · split
    · rw [countType_append, countType_append]; simp; omega
    · omega

theorem finish_noDoubleNewline (lx : Lexer) (hn : NoDoubleNewline lx.tokens) :
    NoDoubleNewline lx.finish := by
  have hr := remainingDedents_noDoubleNewline lx.line lx.column lx.indentStack lx.tokens hn
  · unfold finish
    simp only
    apply noDoubleNewline_append _ _ _ (by simp)
    split
    · exact hr
    · next back hback =>
      split
      · next hc =>
        apply noDoubleNewline_append _ _ hr
        intro _ b hb
        rw [hback] at hb
        cases hb
        exact hc
      · exact hr

theorem chain_get {α : Type} (R : α → α → Prop) :
    ∀ (l : List α), l.Chain' R → ∀ (i : Nat) (a b : α), l[i]? = some a → l[i + 1]? = some b → R a b
  | [], _, i, a, b, h, _ => by simp at h
  | [_], _, i, a, b, _, h => by simp at h
  | x :: y :: l, hc, 0, a, b, ha, hb => by
    simp at ha hb
    subst ha hb
    exact (List.chain'_cons.mp hc).1
  | x :: y :: l, hc, i + 1, a, b, ha, hb => by
    rw [List.getElem?_cons_succ] at ha hb
    exact chain_get R (y :: l) (List.chain'_cons.mp hc).2 i a b ha hb

theorem tokenize_invariants (source : List Char) (tokens : List Token)
    (h : tokenize source = .ok tokens) :
    countType .INDENT tokens = countType .DEDENT tokens ∧ NoDoubleNewline tokens := by
  unfold tokenize at h
  cases hl : tokenizeLoop source.length (Lexer.new source) with
  | error e => rw [hl] at h; simp at h
  | ok lx =>
    rw [hl] at h
    simp only [Except.ok.injEq] at h
    subst h
    have hk := tokenizeLoop_spec _ _ _ hl
    exact ⟨finish_counts lx (hk.1 ⟨by simp [Lexer.new], by simp [Lexer.new, countType]⟩),
      finish_noDoubleNewline lx (hk.2 (by simp [Lexer.new, NoDoubleNewline]))⟩

end Lexer

/-- C7: for every source on which `tokenize` succeeds, the output has as many
INDENT tokens as DEDENT tokens. -/
theorem C7_indent_dedent_counts (source : List Char) (tokens : List Token)
    (h : Lexer.tokenize source = .ok tokens) :
    Lexer.countType .INDENT tokens = Lexer.countType .DEDENT tokens :=
  (Lexer.tokenize_invariants source tokens h).1

/-- Witness of C7 on a source whose only line is indented: one INDENT and one
DEDENT. -/
theorem C7_indent_dedent_counts_witness :
    Lexer.tokenize "  x".data = .ok
      [⟨.INDENT, "", .monostate, 1, 3⟩, ⟨.IDENTIFIER, "x", .monostate, 1, 3⟩,
       ⟨.DEDENT, "", .monostate, 1, 4⟩, ⟨.NEWLINE, "", .monostate, 1, 4⟩,
       ⟨.END_OF_FILE, "", .monostate, 1, 4⟩] ∧
    Lexer.countType .INDENT
      [⟨.INDENT, "", .monostate, 1, 3⟩, ⟨.IDENTIFIER, "x", .monostate, 1, 3⟩,
       ⟨.DEDENT, "", .monostate, 1, 4⟩, ⟨.NEWLINE, "", .monostate, 1, 4⟩,
       ⟨.END_OF_FILE, "", .monostate, 1, 4⟩] =
    Lexer.countType .DEDENT
      [⟨.INDENT, "", .monostate, 1, 3⟩, ⟨.IDENTIFIER, "x", .monostate, 1, 3⟩,
       ⟨.DEDENT, "", .monostate, 1, 4⟩, ⟨.NEWLINE, "", .monostate, 1, 4⟩,
       ⟨.END_OF_FILE, "", .monostate, 1, 4⟩] :=
  ⟨by decide!, C7_indent_dedent_counts "  x".data _ (by decide!)⟩

/-- C8: for every source on which `tokenize` succeeds, no two adjacent tokens
of the output are both NEWLINE. -/
theorem C8_no_consecutive_newlines (source : List Char) (tokens : List Token)
    (h : Lexer.tokenize source = .ok tokens) (i : Nat) (a b : Token)
    (ha : tokens[i]? = some a) (hb : tokens[i + 1]? = some b) :
    ¬ (a.type = .NEWLINE ∧ b.type = .NEWLINE) :=
  Lexer.chain_get _ tokens (Lexer.tokenize_invariants source tokens h).2 i a b ha hb

/-- Witness of C8 on a source with blank lines: the second and third tokens of
the output are not both NEWLINE. -/
theorem C8_no_consecutive_newlines_witness :
    Lexer.tokenize "x\n\n\ny".data = .ok
      [⟨.IDENTIFIER, "x", .monostate, 1, 1⟩, ⟨.NEWLINE, "\n", .monostate, 1, 2⟩,
       ⟨.IDENTIFIER, "y", .monostate, 4, 1⟩, ⟨.NEWLINE, "", .monostate, 4, 2⟩,
       ⟨.END_OF_FILE, "", .monostate, 4, 2⟩] ∧
    ¬ ((⟨.NEWLINE, "\n", .monostate, 1, 2⟩ : Token).type = .NEWLINE ∧
       (⟨.IDENTIFIER, "y", .monostate, 4, 1⟩ : Token).type = .NEWLINE) :=
  ⟨by decide!, C8_no_consecutive_newlines "x\n\n\ny".data
    [⟨.IDENTIFIER, "x", .monostate, 1, 1⟩, ⟨.NEWLINE, "\n", .monostate, 1, 2⟩,
     ⟨.IDENTIFIER, "y", .monostate, 4, 1⟩, ⟨.NEWLINE, "", .monostate, 4, 2⟩,
     ⟨.END_OF_FILE, "", .monostate, 4, 2⟩] (by decide!) 1 _ _ rfl rfl⟩

namespace Lexer

theorem endsNL_ne_nil {r : List Char} (h : EndsNL r) : r ≠ [] := by
  intro h0; subst h0; simp [EndsNL] at h

theorem endsNL_tail {c : Char} {r : List Char} (h : EndsNL (c :: r)) (hc : c ≠ '\n') :
    EndsNL r := by
  cases r with
  | nil => simp [EndsNL] at h; exact absurd h hc
  | cons d r => simpa [EndsNL, List.getLast?_cons_cons] using h

theorem cond_tail {X : List Char} {c : Char} {r : List Char} (h : Cond X (c :: r))
    (hc : c ≠ '\n') : Cond X r :=
  h.elim Or.inl (fun h => Or.inr (endsNL_tail h hc))

theorem cond_ne_nil {X r : List Char} (h : Cond X r) (hx : r = []) : X = [] := by
  rcases h with h | h
  · exact h
  · exact absurd hx (endsNL_ne_nil h)

/-- The head of `r ++ X` is the head of `r` when `Cond X r` holds, also at
the end of `r`. -/
theorem peek_append {X r : List Char} (h : Cond X r) (a b : Lexer) (ha : a.rest = r)
    (hb : b.rest = r ++ X) : b.peek = a.peek := by
  unfold peek
  rw [ha, hb]
  cases r with
  | nil => rw [cond_ne_nil h rfl]; rfl
  | cons c r => rfl

theorem isAtEnd_append {X r : List Char} (h : Cond X r) (a b : Lexer) (ha : a.rest = r)
    (hb : b.rest = r ++ X) : b.isAtEnd = a.isAtEnd := by
  unfold isAtEnd
  rw [ha, hb]
  cases r with
  | nil => rw [cond_ne_nil h rfl]; rfl
  | cons c r => rfl

theorem matchChar_append {X r : List Char} (h : Cond X r) (a b : Lexer) (ha : a.rest = r)
    (hb : b.rest = r ++ X) (e : Char) : b.matchChar e = a.matchChar e := by
  unfold matchChar
  rw [ha, hb]
  cases r with
  | nil => rw [cond_ne_nil h rfl]; rfl
  | cons c r => rfl

theorem advanceWhile_fst (p : Char → Bool) :
    ∀ (r : List Char) (c c1 : Nat), (advanceWhile p r c).1 = (advanceWhile p r c1).1
  | [], _, _ => rfl
  | ch :: r, c, c1 => by
    unfold advanceWhile
    split
    · exact advanceWhile_fst p r _ _
    · rfl

/-- The loop `while (p(peek())) advance()` stops at the same place when text
is appended behind a newline, which `p` rejects. -/
theorem advanceWhile_append (p : Char → Bool) (X : List Char) :
    ∀ (r : List Char) (c : Nat), X = [] ∨ (EndsNL r ∧ p '\n' = false) →
      (advanceWhile p (r ++ X) c).1 = (advanceWhile p r c).1 ++ X
  | [], c, h => by
    rcases h with h | h
    · subst h; simp
    · exact absurd rfl (endsNL_ne_nil h.1)
  | ch :: r, c, h => by
    simp only [List.cons_append]
    unfold advanceWhile
    by_cases hp : p ch = true
    · rw [if_pos hp, if_pos hp]
      apply advanceWhile_append p X r
      rcases h with h | h
      · exact Or.inl h
      · refine Or.inr ⟨endsNL_tail h.1 ?_, h.2⟩
        intro hc; subst hc; rw [h.2] at hp; exact absurd hp (by simp)
    · rw [if_neg hp, if_neg hp]; rfl

theorem advanceWhile_endsNL (p : Char → Bool) (hp : p '\n' = false) :
    ∀ (r : List Char) (c : Nat), EndsNL r → EndsNL (advanceWhile p r c).1
  | [], c, h => absurd rfl (endsNL_ne_nil h)
  | ch :: r, c, h => by
    unfold advanceWhile
    by_cases hc : p ch = true
    · rw [if_pos hc]
      apply advanceWhile_endsNL p hp r
      apply endsNL_tail h
      intro he; subst he; rw [hp] at hc; exact absurd hc (by simp)
    · rw [if_neg hc]; exact h

/-! ### Progress of the main loop -/

theorem countIndent_length :
    ∀ (r : List Char) (i c : Nat), (countIndent r i c).1.length ≤ r.length
  | [], i, c => by simp [countIndent]
  | ch :: r, i, c => by
    unfold countIndent
    split
    · exact Nat.le_succ_of_le (countIndent_length r _ _)
    · split
      · exact Nat.le_succ_of_le (countIndent_length r _ _)
      · exact Nat.le_refl _

theorem advanceWhile_length (p : Char → Bool) :
    ∀ (r : List Char) (c : Nat), (advanceWhile p r c).1.length ≤ r.length
  | [], c => by simp [advanceWhile]
  | ch :: r, c => by
    unfold advanceWhile
    split
    · exact Nat.le_succ_of_le (advanceWhile_length p r _)
    · exact Nat.le_refl _

theorem skipWhile_length (p : Char → Bool) (lx : Lexer) :
    (lx.skipWhile p).rest.length ≤ lx.rest.length :=
  advanceWhile_length p _ _

theorem advance_length (lx : Lexer) : lx.advance.rest.length ≤ lx.rest.length := by
  simp [advance]

@[simp]
theorem addToken_rest (lx : Lexer) (ty : TokenType) (lit : Literal) :
    (lx.addToken ty lit).rest = lx.rest := rfl

theorem stringLoop_length (q : Char) : ∀ (n : Nat) (r v : List Char) (c : Nat)
    (r1 v1 : List Char) (c1 : Nat), r.length ≤ n → stringLoop q r v c = .ok (r1, v1, c1) →
    r1.length < r.length
  | _, [], v, c, r1, v1, c1, _, h => by simp [stringLoop] at h
  | 0, ch :: r, v, c, r1, v1, c1, hn, _ => by simp at hn
  | n + 1, ch :: r, v, c, r1, v1, c1, hn, h => by
    unfold stringLoop at h
    split at h
    · simp only [Except.ok.injEq, Prod.mk.injEq] at h
      rw [← h.1]; simp
    · split at h
      · simp at h
      · split at h
        · cases r with
          | nil => simp at h
          | cons e r2 =>
            simp only at h
            have := stringLoop_length q n r2 _ _ r1 v1 c1 (by simp at hn; omega) h
            simp; omega
        · have := stringLoop_length q n r _ _ r1 v1 c1 (by simp at hn; omega) h
          simp; omega

theorem string_length (lx lx1 : Lexer) (q : Char) (h : lx.string q = .ok lx1) :
    lx1.rest.length ≤ lx.rest.length := by
  unfold string at h
  split at h
  · simp at h
  · next r v c hs =>
    simp only [Except.ok.injEq] at h; subst h
    exact Nat.le_of_lt (stringLoop_length q _ _ _ _ _ _ _ (Nat.le_refl _) hs)

theorem numberExponent_length (lx2 lx1 : Lexer) (b : Bool)
    (h : numberExponent lx2 b = .ok lx1) : lx1.rest.length ≤ lx2.rest.length := by
  unfold numberExponent at h
  simp only at h
  repeat' split at h
  all_goals first
    | (simp at h; done)
    | (simp only [Except.ok.injEq] at h; subst h
       simp only [addToken_rest]
       repeat (first
         | exact Nat.le_refl _
         | apply Nat.le_trans (skipWhile_length _ _)
         | apply Nat.le_trans (advance_length _)
         | split))

theorem number_length (lx lx1 : Lexer) (h : lx.number = .ok lx1) :
    lx1.rest.length ≤ lx.rest.length := by
  unfold number at h
  refine Nat.le_trans (numberExponent_length _ _ _ h) ?_
  split
  · exact Nat.le_trans (skipWhile_length _ _)
      (Nat.le_trans (advance_length _) (skipWhile_length _ _))
  · exact skipWhile_length _ _

@[simp]
theorem addNewline_rest (lx : Lexer) : lx.addNewline.rest = lx.rest := by
  unfold addNewline
  split
  · rfl
  · split <;> rfl

theorem identifier_length (lx : Lexer) : lx.identifier.rest.length ≤ lx.rest.length := by
  simp only [identifier]
  split <;> exact skipWhile_length _ _

theorem scanSwitch_length (c : Char) (lx : Lexer) :
    ∀ lx1, scanSwitch c lx = .ok lx1 → lx1.rest.length ≤ lx.rest.length := by
  unfold scanSwitch
  repeat' with_reducible apply ite_ok
  all_goals intro x h
  all_goals first
    | (simp at h; done)
    | exact string_length _ _ _ h
    | exact number_length _ _ h
    | (simp only [Except.ok.injEq] at h; subst h
       first
        | exact Nat.le_refl _
        | exact advance_length _
        | exact identifier_length _
        | exact skipWhile_length _ _
        | exact Nat.le_of_eq (congrArg List.length (addNewline_rest lx)))

theorem scanToken_length (lx lx1 : Lexer) (h : lx.scanToken = .ok lx1) (hne : lx.rest ≠ []) :
    lx1.rest.length < lx.rest.length := by
  have := scanSwitch_length lx.peek
    { lx.advance with startRest := lx.rest, startColumn := lx.column } lx1 h
  cases hr : lx.rest with
  | nil => exact absurd hr hne
  | cons c r =>
    simp [advance, hr] at this
    simp; omega

theorem handleIndentation_rest (lx : Lexer) : ∀ lx1, lx.handleIndentation = .ok lx1 →
    lx1.rest = (countIndent lx.rest 0 lx.column).1 := by
  unfold handleIndentation
  simp only
  repeat' with_reducible apply ite_ok
  all_goals intro x h
  all_goals first
    | (simp at h; done)
    | (simp only [Except.ok.injEq] at h; subst h; rfl)

theorem skipComment_length_lt (lx : Lexer) (h : lx.peek = '#') :
    lx.skipComment.rest.length < lx.rest.length ∨ lx.rest = [] := by
  cases hr : lx.rest with
  | nil => exact Or.inr rfl
  | cons c r =>
    left
    simp only [peek, hr] at h
    subst h
    simp only [skipComment, skipWhile, hr]
    unfold advanceWhile
    rw [if_pos (by decide)]
    exact Nat.lt_succ_of_le (advanceWhile_length _ _ _)

theorem loopBody_length (lx : Lexer) (hne : lx.rest ≠ []) :
    ∀ lx1, lx.loopBody = .ok lx1 → lx1.rest.length < lx.rest.length := by
  have hpos : 0 < lx.rest.length := List.length_pos.mpr hne
  unfold loopBody
  with_reducible apply ite_ok
  · intro x h
    cases hh : lx.handleIndentation with
    | error e => rw [hh] at h; simp at h
    | ok lx2 =>
      rw [hh] at h
      simp only at h
      have h2 : lx2.rest.length ≤ lx.rest.length := by
        rw [handleIndentation_rest lx lx2 hh]; exact countIndent_length _ _ _
      revert x
      with_reducible apply ite_ok_cond
      · intro hend y h
        simp only [Except.ok.injEq] at h; subst h
        simp only [isAtEnd, List.isEmpty_iff] at hend
        rw [hend]; exact hpos
      · intro hend
        simp only [isAtEnd, List.isEmpty_iff] at hend
        with_reducible apply ite_ok_cond
        · intro hp y h
          simp only [Except.ok.injEq] at h; subst h
          by_cases hc : lx2.peek = '#'
          · have h3 := (skipComment_length_lt lx2 hc).resolve_right hend
            rw [if_pos hc]
            split
            · exact Nat.lt_of_le_of_lt (advance_length _) (Nat.lt_of_lt_of_le h3 h2)
            · omega
          · rw [if_neg hc]
            have hn : lx2.peek = '\n' := by simpa [hc] using hp
            have : (!lx2.isAtEnd && decide (lx2.peek = '\n')) = true := by
              simp [isAtEnd, hend, hn]
            rw [if_pos this]
            cases hr : lx2.rest with
            | nil => exact absurd hr hend
            | cons c r =>
              rw [hr] at h2
              simp [advance, hr]
              simp at h2; omega
        · intro _ y h
          exact Nat.lt_of_lt_of_le (scanToken_length _ _ h hend) h2
  · intro x h
    exact scanToken_length _ _ h hne

/-! ### The number of iterations -/

theorem tokenizeLoop_atEnd (f : Nat) (lx : Lexer) (h : lx.rest = []) :
    tokenizeLoop f lx = .ok lx := by
  cases f <;> simp [tokenizeLoop, isAtEnd, h]

theorem tokenizeLoop_succ (f : Nat) (lx : Lexer) (h : lx.rest ≠ []) :
    tokenizeLoop (f + 1) lx =
      match lx.loopBody with
      | .error e => .error e
      | .ok lx1 => tokenizeLoop f lx1 := by
  rw [tokenizeLoop]
  simp only [isAtEnd, List.isEmpty_iff, h, if_false]

theorem tokenizeLoop_fuel : ∀ (n : Nat) (lx : Lexer) (f : Nat), lx.rest.length ≤ n → n ≤ f →
    tokenizeLoop f lx = tokenizeLoop n lx
  | 0, lx, f, h, _ => by
    have : lx.rest = [] := List.length_eq_zero.mp (Nat.le_zero.mp h)
    rw [tokenizeLoop_atEnd f lx this, tokenizeLoop_atEnd 0 lx this]
  | n + 1, lx, 0, _, hf => by omega
  | n + 1, lx, f + 1, h, hf => by
    by_cases he : lx.rest = []
    · rw [tokenizeLoop_atEnd _ lx he, tokenizeLoop_atEnd _ lx he]
    · rw [tokenizeLoop_succ f lx he, tokenizeLoop_succ n lx he]
      cases hb : lx.loopBody with
      | error e => rfl
      | ok lx1 =>
        have := loopBody_length lx he lx1 hb
        exact tokenizeLoop_fuel n lx1 f (by omega) (by omega)

/-! ### Scanning the same text in two states -/

theorem J_peek {X : List Char} {a b : Lexer} (h : J X a b) : b.peek = a.peek :=
  peek_append h.2 a b rfl h.1.1.1

theorem J_matchChar {X : List Char} {a b : Lexer} (h : J X a b) (e : Char) :
    b.matchChar e = a.matchChar e :=
  matchChar_append h.2 a b rfl h.1.1.1 e

theorem J_peekNext {X : List Char} {a b : Lexer} (h : J X a b) (hc : a.peek ≠ '\n') :
    b.peekNext = a.peekNext := by
  obtain ⟨⟨⟨hr, _⟩, _⟩, hcond⟩ := h
  unfold peekNext
  rw [hr]
  cases ha : a.rest with
  | nil => rw [cond_ne_nil hcond ha]; rfl
  | cons c r =>
    simp only [peek, ha] at hc
    rw [ha] at hcond
    have h2 := cond_tail hcond hc
    cases r with
    | nil => rw [cond_ne_nil h2 rfl]; rfl
    | cons d r => rfl

theorem J_text {X : List Char} {a b : Lexer} (h : J X a b) : b.text = a.text := by
  obtain ⟨⟨⟨hr, _⟩, hs⟩, _⟩ := h
  unfold text
  rw [hr, hs, List.length_append, List.length_append, Nat.add_sub_add_right]
  exact List.take_append_of_le_length (Nat.sub_le _ _)

theorem J_advance {X : List Char} {a b : Lexer} (h : J X a b) (hc : a.peek ≠ '\n') :
    J X a.advance b.advance := by
  obtain ⟨⟨⟨hr, h1, h2, h3⟩, hs⟩, hcond⟩ := h
  cases ha : a.rest with
  | nil =>
    have hx := cond_ne_nil hcond ha
    subst hx
    refine ⟨⟨⟨?_, h1, h2, h3⟩, hs⟩, Or.inl rfl⟩
    simp [advance, hr, ha]
  | cons c r =>
    simp only [peek, ha] at hc
    rw [ha] at hcond
    refine ⟨⟨⟨?_, h1, h2, h3⟩, hs⟩, ?_⟩
    · simp [advance, hr, ha]
    · simpa [advance, ha] using cond_tail hcond hc

theorem J_skipWhile {X : List Char} {a b : Lexer} (h : J X a b) (p : Char → Bool)
    (hp : p '\n' = false) : J X (a.skipWhile p) (b.skipWhile p) := by
  obtain ⟨⟨⟨hr, h1, h2, h3⟩, hs⟩, hcond⟩ := h
  refine ⟨⟨⟨?_, h1, h2, h3⟩, hs⟩, ?_⟩
  · show (advanceWhile p b.rest b.column).1 = (advanceWhile p a.rest a.column).1 ++ X
    rw [hr, advanceWhile_fst p _ b.column a.column]
    exact advanceWhile_append p X a.rest a.column (hcond.imp id (fun h => ⟨h, hp⟩))
  · exact hcond.imp id (fun h => advanceWhile_endsNL p hp _ _ h)

theorem J_addToken {X : List Char} {a b : Lexer} (h : J X a b) (ty : TokenType)
    (la lb : Literal) : J X (a.addToken ty la) (b.addToken ty lb) := by
  obtain ⟨⟨⟨hr, h1, h2, h3⟩, hs⟩, hcond⟩ := h
  refine ⟨⟨⟨hr, h1, h2, ?_⟩, hs⟩, hcond⟩
  simp [addToken, h3]

theorem simRes_ite {X : List Char} {P : Lexer → Lexer → Prop} {c d : Prop} [Decidable c]
    [Decidable d] {x y u v : Except LexExn Lexer} (hcd : d ↔ c)
    (h1 : c → SimRes X P x u) (h2 : ¬ c → SimRes X P y v) :
    SimRes X P (if c then x else y) (if d then u else v) := by
  by_cases hc : c
  · rw [if_pos hc, if_pos (hcd.mpr hc)]; exact h1 hc
  · rw [if_neg hc, if_neg (fun h => hc (hcd.mp h))]; exact h2 hc

theorem simRes_ok {X : List Char} {P : Lexer → Lexer → Prop} {a b : Lexer} (h : P a b) :
    SimRes X P (.ok a) (.ok b) := h

theorem simRes_error {X : List Char} {P : Lexer → Lexer → Prop} (e f : LexExn) :
    SimRes X P (.error e) (.error f) := trivial

theorem sim_identifier {X : List Char} {a b : Lexer} (h : J X a b) :
    J X a.identifier b.identifier := by
  have h1 := J_skipWhile h (fun c => c.isAlphanum || c = '_') (by decide)
  simp only [identifier]
  rw [J_text h1]
  split <;> exact J_addToken h1 _ _ _

theorem endsNL_tail_of_ne_nil {c : Char} {r : List Char} (h : EndsNL (c :: r)) (hr : r ≠ []) :
    EndsNL r := by
  cases r with
  | nil => exact absurd rfl hr
  | cons d r => simpa [EndsNL, List.getLast?_cons_cons] using h

theorem stringRes_error_left (X : List Char) (hx : X ≠ []) (m : String)
    (y : Except String (List Char × List Char × Nat)) : StringRes X (.error m) y := by
  cases y with
  | error _ => trivial
  | ok _ => exact hx

theorem stringLoop_append (q : Char) (X : List Char) : ∀ (n : Nat) (r v : List Char)
    (ca cb : Nat), r.length ≤ n →
    StringRes X (stringLoop q r v ca) (stringLoop q (r ++ X) v cb)
  | _, [], v, ca, cb, _ => by
    by_cases hx : X = []
    · subst hx; exact trivial
    · have : stringLoop q [] v ca = .error "Unterminated string" := rfl
      rw [this]; exact stringRes_error_left X hx _ _
  | 0, ch :: r, v, ca, cb, hn => by simp at hn
  | n + 1, ch :: r, v, ca, cb, hn => by
    simp only [List.cons_append]
    unfold stringLoop
    by_cases h1 : ch = q
    · simp only [h1, if_true]; exact ⟨rfl, rfl⟩
    · simp only [h1, if_false]
      by_cases h2 : ch = '\n'
      · simp only [h2, if_true]; trivial
      · simp only [h2, if_false]
        by_cases h3 : ch = '\\'
        · simp only [h3, if_true]
          cases r with
          | nil =>
            by_cases hx : X = []
            · subst hx; simp [StringRes]
            · exact stringRes_error_left X hx _ _
          | cons e r2 =>
            simp only [List.cons_append]
            exact stringLoop_append q X n r2 _ _ _ (by simp at hn; omega)
        · simp only [h3, if_false]
          exact stringLoop_append q X n r _ _ _ (by simp at hn; omega)

theorem stringLoop_endsNL (q : Char) (hq : q ≠ '\n') : ∀ (n : Nat) (r v : List Char) (c : Nat)
    (r1 v1 : List Char) (c1 : Nat), r.length ≤ n → stringLoop q r v c = .ok (r1, v1, c1) →
    EndsNL r → EndsNL r1
  | _, [], v, c, r1, v1, c1, _, h, _ => by simp [stringLoop] at h
  | 0, ch :: r, v, c, r1, v1, c1, hn, _, _ => by simp at hn
  | n + 1, ch :: r, v, c, r1, v1, c1, hn, h, he => by
    unfold stringLoop at h
    by_cases h1 : ch = q
    · simp only [h1, if_true, Except.ok.injEq, Prod.mk.injEq] at h
      rw [← h.1]; exact endsNL_tail he (h1 ▸ hq)
    · simp only [h1, if_false] at h
      by_cases h2 : ch = '\n'
      · simp [h2] at h
      · simp only [h2, if_false] at h
        by_cases h3 : ch = '\\'
        · simp only [h3, if_true] at h
          cases r with
          | nil => simp at h
          | cons e r2 =>
            simp only at h
            have hne : r2 ≠ [] := by
              intro h0; subst h0; simp [stringLoop] at h
            exact stringLoop_endsNL q hq n r2 _ _ r1 v1 c1 (by simp at hn; omega) h
              (endsNL_tail_of_ne_nil (endsNL_tail he h2) hne)
        · simp only [h3, if_false] at h
          exact stringLoop_endsNL q hq n r _ _ r1 v1 c1 (by simp at hn; omega) h
            (endsNL_tail he h2)

theorem sim_string {X : List Char} {a b : Lexer} (h : J X a b) (q : Char) (hq : q ≠ '\n') :
    SimRes X (J X) (a.string q) (b.string q) := by
  obtain ⟨⟨⟨hr, h1, h2, h3⟩, hs⟩, hcond⟩ := h
  have hl := stringLoop_append q X a.rest.length a.rest [] a.column b.column (Nat.le_refl _)
  have he := stringLoop_endsNL q hq a.rest.length a.rest [] a.column
  unfold string
  rw [hr]
  cases ha : stringLoop q a.rest [] a.column with
  | error m =>
    rw [ha] at hl
    cases hb : stringLoop q (a.rest ++ X) [] b.column with
    | error m2 => trivial
    | ok t => rw [hb] at hl; obtain ⟨r2, v2, c2⟩ := t; exact hl
  | ok t =>
    obtain ⟨r1, v1, c1⟩ := t
    rw [ha] at hl
    cases hb : stringLoop q (a.rest ++ X) [] b.column with
    | error m2 => rw [hb] at hl; exact hl
    | ok t2 =>
      obtain ⟨r2, v2, c2⟩ := t2
      rw [hb] at hl
      obtain ⟨hl1, hl2⟩ := hl
      subst hl1 hl2
      refine J_addToken (a := { a with rest := r1, column := c1 })
        (b := { b with rest := r1 ++ X, column := c2 }) ⟨⟨⟨rfl, h1, h2, h3⟩, hs⟩, ?_⟩ _ _ _
      exact hcond.imp id (fun hc => he r1 v2 c1 (Nat.le_refl _) ha hc)

theorem char_ne_of_eq {c d e : Char} (h : c = d) (hd : d ≠ e) : c ≠ e := h ▸ hd

theorem sim_numberExponent {X : List Char} {a b : Lexer} (h : J X a b) (frac : Bool) :
    SimRes X (J X) (a.numberExponent frac) (b.numberExponent frac) := by
  unfold numberExponent
  simp only
  rw [J_text h, J_peek h]
  by_cases he : (decide (a.peek = 'e') || decide (a.peek = 'E')) = true
  · rw [if_pos he, if_pos he]
    have hne : a.peek ≠ '\n' := by
      intro h0; rw [h0] at he; exact absurd he (by decide)
    have h3 := J_advance h hne
    rw [J_peek h3]
    have h4 : J X (if (decide (a.advance.peek = '+') || decide (a.advance.peek = '-')) = true
        then a.advance.advance else a.advance)
      (if (decide (a.advance.peek = '+') || decide (a.advance.peek = '-')) = true
        then b.advance.advance else b.advance) := by
      split
      · next hs =>
        apply J_advance h3
        intro h0; rw [h0] at hs; exact absurd hs (by decide)
      · exact h3
    revert h4
    generalize (if (decide (a.advance.peek = '+') || decide (a.advance.peek = '-')) = true
        then a.advance.advance else a.advance) = a4
    generalize (if (decide (a.advance.peek = '+') || decide (a.advance.peek = '-')) = true
        then b.advance.advance else b.advance) = b4
    intro h4
    rw [J_peek h4]
    split
    · exact simRes_error _ _
    · have h5 := J_skipWhile h4 Char.isDigit (by decide)
      rw [J_text h5]
      split
      · exact J_addToken h5 _ _ _
      · exact simRes_error _ _
  · rw [if_neg he, if_neg he]
    split
    · split
      · exact J_addToken h _ _ _
      · exact simRes_error _ _
    · split
      · exact J_addToken h _ _ _
      · exact simRes_error _ _

theorem sim_number {X : List Char} {a b : Lexer} (h : J X a b) :
    SimRes X (J X) a.number b.number := by
  have h1 := J_skipWhile h Char.isDigit (by decide)
  unfold number
  simp only
  rw [J_peek h1]
  by_cases hp : (a.skipWhile Char.isDigit).peek = '.'
  · have hne : (a.skipWhile Char.isDigit).peek ≠ '\n' := by rw [hp]; decide
    rw [J_peekNext h1 hne]
    split
    · exact sim_numberExponent (J_skipWhile (J_advance h1 hne) Char.isDigit (by decide)) _
    · exact sim_numberExponent h1 _
  · simp only [hp, decide_False, Bool.false_and, Bool.false_eq_true, if_false]
    exact sim_numberExponent h1 _

theorem simRes_ite_same {X : List Char} {P : Lexer → Lexer → Prop} {c : Prop} [Decidable c]
    {x y u v : Except LexExn Lexer}
    (h1 : c → SimRes X P x u) (h2 : ¬ c → SimRes X P y v) :
    SimRes X P (if c then x else y) (if c then u else v) :=
  simRes_ite Iff.rfl h1 h2

theorem J_advance_match {X : List Char} {a b : Lexer} (h : J X a b) (e : Char)
    (he : e ≠ '\n') (hm : a.matchChar e = true) : J X a.advance b.advance := by
  apply J_advance h
  unfold matchChar at hm
  unfold peek
  cases hr : a.rest with
  | nil => rw [hr] at hm; simp at hm
  | cons c r =>
    rw [hr] at hm
    simp only [decide_eq_true_eq] at hm
    subst hm; exact he

theorem sim_scanSwitch {X : List Char} {a b : Lexer} (h : J X a b) (c : Char)
    (hc : c ≠ '\n') : SimRes X (J X) (scanSwitch c a) (scanSwitch c b) := by
  unfold scanSwitch
  simp only [J_matchChar h]
  repeat' (first | (with_reducible apply simRes_ite_same) | intro _)
  all_goals first
    | exact J_addToken h _ _ _
    | exact simRes_error _ _
    | exact J_skipWhile h _ (by decide)
    | exact h
    | exact absurd (by assumption) hc
    | exact sim_string h c hc
    | exact sim_number h
    | exact sim_identifier h
    | exact J_addToken (J_advance_match h '=' (by decide) (by assumption)) _ _ _
    | exact J_addToken (J_advance_match h '*' (by decide) (by assumption)) _ _ _
    | exact J_addToken (J_advance_match h '/' (by decide) (by assumption)) _ _ _

theorem simRes_mono {X : List Char} {P Q : Lexer → Lexer → Prop}
    (hPQ : ∀ a b, P a b → Q a b) {x y : Except LexExn Lexer} (h : SimRes X P x y) :
    SimRes X Q x y := by
  cases x <;> cases y <;> first | exact h | exact hPQ _ _ h

theorem K_of_J {X : List Char} (a b : Lexer) (h : J X a b) : K X a b :=
  ⟨h.1.1, Or.inl h.2⟩

theorem scanSwitch_newline (lx : Lexer) :
    scanSwitch '\n' lx = .ok { lx.addNewline with
      line := lx.addNewline.line + 1, column := 1, atLineStart := true } := by
  unfold scanSwitch
  repeat rw [if_neg (by decide)]
  rw [if_pos rfl]

theorem getLast_map_type (l m : List Token)
    (h : l.map (fun t => t.type) = m.map (fun t => t.type)) :
    l.getLast?.map (fun t => t.type) = m.getLast?.map (fun t => t.type) := by
  rw [← List.getLast?_map, ← List.getLast?_map, h]

theorem sim_addNewline {X : List Char} {a b : Lexer} (h : Sim X a b) :
    Sim X a.addNewline b.addNewline := by
  obtain ⟨hr, h1, h2, h3⟩ := h
  have hl := getLast_map_type _ _ h3
  unfold addNewline
  cases ha : a.tokens.getLast? with
  | none =>
    rw [ha] at hl
    cases hb : b.tokens.getLast? with
    | none => exact ⟨hr, h1, h2, h3⟩
    | some tb => rw [hb] at hl; simp at hl
  | some ta =>
    rw [ha] at hl
    cases hb : b.tokens.getLast? with
    | none => rw [hb] at hl; simp at hl
    | some tb =>
      rw [hb] at hl
      simp only [Option.map_some', Option.some.injEq] at hl
      simp only [hl]
      split
      · exact ⟨hr, h1, h2, by simp [addToken, h3]⟩
      · exact ⟨hr, h1, h2, h3⟩

theorem sim_scanToken {X : List Char} {a b : Lexer} (h : Sim X a b) (hcond : Cond X a.rest)
    (hne : a.rest ≠ []) : SimRes X (K X) a.scanToken b.scanToken := by
  obtain ⟨hr, h1, h2, h3⟩ := h
  cases ha : a.rest with
  | nil => exact absurd ha hne
  | cons c r =>
    have hpa : a.peek = c := by simp [peek, ha]
    have hpb : b.peek = c := by simp [peek, hr, ha]
    have hs : Sim X { a.advance with startRest := a.rest, startColumn := a.column }
        { b.advance with startRest := b.rest, startColumn := b.column } :=
      ⟨by simp [advance, hr, ha], h1, h2, h3⟩
    unfold scanToken
    rw [hpa, hpb]
    by_cases hc : c = '\n'
    · subst hc
      rw [scanSwitch_newline, scanSwitch_newline]
      have hn := sim_addNewline hs
      refine ⟨⟨?_, hn.2.1, rfl, hn.2.2.2⟩, ?_⟩
      · simpa using hn.1
      · show Cond X (addNewline _).rest ∨ ((addNewline _).rest = [] ∧ true = true)
        rw [addNewline_rest]
        simp only [advance, ha, List.tail_cons, and_true]
        by_cases hr0 : r = []
        · exact Or.inr hr0
        · left
          rw [ha] at hcond
          exact hcond.imp id (fun he => endsNL_tail_of_ne_nil he hr0)
    · have hj : J X { a.advance with startRest := a.rest, startColumn := a.column }
          { b.advance with startRest := b.rest, startColumn := b.column } := by
        refine ⟨⟨hs, hr⟩, ?_⟩
        rw [ha] at hcond
        simpa [advance, ha] using cond_tail hcond hc
      exact simRes_mono K_of_J (sim_scanSwitch hj c hc)

/-! ### `handleIndentation` in two related states -/

theorem countIndent_col : ∀ (r : List Char) (i c c1 : Nat),
    (countIndent r i c).1 = (countIndent r i c1).1 ∧
    (countIndent r i c).2.1 = (countIndent r i c1).2.1
  | [], _, _, _ => ⟨rfl, rfl⟩
  | ch :: r, i, c, c1 => by
    unfold countIndent
    split
    · exact countIndent_col r _ _ _
    · split
      · exact countIndent_col r _ _ _
      · exact ⟨rfl, rfl⟩

theorem countIndent_append (X : List Char) : ∀ (r : List Char) (i c : Nat), Cond X r →
    (countIndent (r ++ X) i c).1 = (countIndent r i c).1 ++ X ∧
    (countIndent (r ++ X) i c).2.1 = (countIndent r i c).2.1 ∧
    Cond X (countIndent r i c).1
  | [], i, c, h => by
    have := cond_ne_nil h rfl
    subst this
    exact ⟨by simp, by simp, Or.inl rfl⟩
  | ch :: r, i, c, h => by
    simp only [List.cons_append]
    unfold countIndent
    by_cases h1 : ch = ' '
    · rw [if_pos h1, if_pos h1]
      exact countIndent_append X r _ _ (cond_tail h (by rw [h1]; decide))
    · rw [if_neg h1, if_neg h1]
      by_cases h2 : ch = '\t'
      · rw [if_pos h2, if_pos h2]
        exact countIndent_append X r _ _ (cond_tail h (by rw [h2]; decide))
      · rw [if_neg h2, if_neg h2]
        exact ⟨rfl, rfl, h⟩

theorem popIndents_sim (indent la ca lb cb : Nat) : ∀ (stack : List Nat) (ta tb : List Token),
    tb.map (fun t => t.type) = ta.map (fun t => t.type) →
    (popIndents indent lb cb stack tb).1 = (popIndents indent la ca stack ta).1 ∧
    (popIndents indent lb cb stack tb).2.map (fun t => t.type) =
      (popIndents indent la ca stack ta).2.map (fun t => t.type)
  | [], ta, tb, h => ⟨rfl, h⟩
  | top :: below, ta, tb, h => by
    unfold popIndents
    by_cases ht : indent < top
    · rw [if_pos ht, if_pos ht]
      exact popIndents_sim indent la ca lb cb below _ _ (by simp [h])
    · rw [if_neg ht, if_neg ht]
      exact ⟨rfl, h⟩

theorem sim_handleIndentation {X : List Char} {a b : Lexer} (h : Sim X a b)
    (hcond : Cond X a.rest) :
    SimRes X (fun a1 b1 => Sim X a1 b1 ∧ Cond X a1.rest)
      a.handleIndentation b.handleIndentation := by
  obtain ⟨hr, h1, h2, h3⟩ := h
  have hca := countIndent_append X a.rest 0 a.column hcond
  have hcol := countIndent_col (a.rest ++ X) 0 b.column a.column
  have hb1 : (countIndent b.rest 0 b.column).1 = (countIndent a.rest 0 a.column).1 ++ X := by
    rw [hr, hcol.1, hca.1]
  have hb2 : (countIndent b.rest 0 b.column).2.1 = (countIndent a.rest 0 a.column).2.1 := by
    rw [hr, hcol.2, hca.2.1]
  have hc := hca.2.2
  have hpop := popIndents_sim (countIndent a.rest 0 a.column).2.1 a.line
    (countIndent a.rest 0 a.column).2.2 b.line (countIndent b.rest 0 b.column).2.2
    a.indentStack a.tokens b.tokens h3
  unfold handleIndentation
  simp only
  have he : Lexer.isAtEnd
        { b with rest := (countIndent b.rest 0 b.column).fst,
                 column := (countIndent b.rest 0 b.column).snd.snd } =
      Lexer.isAtEnd
        { a with rest := (countIndent a.rest 0 a.column).fst,
                 column := (countIndent a.rest 0 a.column).snd.snd } :=
    isAtEnd_append hc _ _ rfl hb1
  have hp : Lexer.peek
        { b with rest := (countIndent b.rest 0 b.column).fst,
                 column := (countIndent b.rest 0 b.column).snd.snd } =
      Lexer.peek
        { a with rest := (countIndent a.rest 0 a.column).fst,
                 column := (countIndent a.rest 0 a.column).snd.snd } :=
    peek_append hc _ _ rfl hb1
  rw [he, hp, hb2, h1]
  apply simRes_ite_same
  · intro _
    exact ⟨⟨hb1, rfl, h2, h3⟩, hc⟩
  · intro _
    apply simRes_ite_same
    · intro _
      exact ⟨⟨hb1, by simp, rfl, by simp [h3]⟩, hc⟩
    · intro _
      apply simRes_ite_same
      · intro _
        rw [hpop.1]
        apply simRes_ite_same
        · intro _; exact simRes_error _ _
        · intro _
          exact ⟨⟨hb1, hpop.1 ▸ rfl, rfl, hpop.2⟩, hc⟩
      · intro _
        exact ⟨⟨hb1, rfl, rfl, h3⟩, hc⟩

/-! ### One iteration of the main loop in two related states -/

theorem simRes_error_left {X : List Char} {P : Lexer → Lexer → Prop} (hx : X ≠ [])
    (e : LexExn) (y : Except LexExn Lexer) : SimRes X P (.error e) y := by
  cases y with
  | error f => trivial
  | ok b => exact hx

theorem sim_skipWhile {X : List Char} {a b : Lexer} (h : Sim X a b) (hcond : Cond X a.rest)
    (p : Char → Bool) (hp : p '\n' = false) :
    Sim X (a.skipWhile p) (b.skipWhile p) ∧ Cond X (a.skipWhile p).rest := by
  obtain ⟨hr, h1, h2, h3⟩ := h
  refine ⟨⟨?_, h1, h2, h3⟩, ?_⟩
  · show (advanceWhile p b.rest b.column).1 = (advanceWhile p a.rest a.column).1 ++ X
    rw [hr, advanceWhile_fst p _ b.column a.column]
    exact advanceWhile_append p X a.rest a.column (hcond.imp id (fun h => ⟨h, hp⟩))
  · exact hcond.imp id (fun h => advanceWhile_endsNL p hp _ _ h)

/-- A state that `handleIndentation` returns in front of a blank line, a
comment or the end of the source is the state after the leading blanks. -/
theorem handleIndentation_blank (lx lx1 : Lexer) (h : lx.handleIndentation = .ok lx1)
    (hb : (lx1.isAtEnd || decide (lx1.peek = '\n') || decide (lx1.peek = '#')) = true) :
    lx1 = { lx with rest := (countIndent lx.rest 0 lx.column).1,
                    column := (countIndent lx.rest 0 lx.column).2.2 } := by
  unfold handleIndentation at h
  simp only at h
  split at h
  · simp only [Except.ok.injEq] at h; exact h.symm
  · rename_i hc
    exfalso
    split at h
    · simp only [Except.ok.injEq] at h; subst h; exact hc hb
    · split at h
      · split at h
        · simp at h
        · simp only [Except.ok.injEq] at h; subst h; exact hc hb
      · simp only [Except.ok.injEq] at h; subst h; exact hc hb

theorem sim_newlineStep {X : List Char} {a b : Lexer} (h : Sim X a b) (hcond : Cond X a.rest)
    (hat : a.atLineStart = true) :
    K X (if (!a.isAtEnd && decide (a.peek = '\n')) = true then
          { a.advance with line := a.line + 1, column := 1 } else a)
        (if (!b.isAtEnd && decide (b.peek = '\n')) = true then
          { b.advance with line := b.line + 1, column := 1 } else b) := by
  rw [isAtEnd_append hcond a b rfl h.1, peek_append hcond a b rfl h.1]
  obtain ⟨hr, h1, h2, h3⟩ := h
  split
  · rename_i hc
    cases ha : a.rest with
    | nil => simp [isAtEnd, ha] at hc
    | cons c r =>
      have hcn : c = '\n' := by simpa [isAtEnd, peek, ha] using hc
      subst hcn
      refine ⟨⟨?_, h1, h2, h3⟩, ?_⟩
      · simp [advance, hr, ha]
      · show Cond X a.rest.tail ∨ (a.rest.tail = [] ∧ a.atLineStart = true)
        rw [ha, List.tail_cons]
        by_cases hr0 : r = []
        · exact Or.inr ⟨hr0, hat⟩
        · left
          rw [ha] at hcond
          exact hcond.imp id (fun he => endsNL_tail_of_ne_nil he hr0)
  · exact ⟨⟨hr, h1, h2, h3⟩, Or.inl hcond⟩

theorem sim_loopBody {X : List Char} {a b : Lexer} (h : Sim X a b) (hcond : Cond X a.rest)
    (hne : a.rest ≠ []) : SimRes X (K X) a.loopBody b.loopBody := by
  unfold loopBody
  rw [h.2.2.1]
  by_cases hat : a.atLineStart = true
  · rw [if_pos hat, if_pos hat]
    have hh := sim_handleIndentation h hcond
    cases ha : a.handleIndentation with
    | error e =>
      rw [ha] at hh
      cases hb : b.handleIndentation with
      | error f => trivial
      | ok b1 =>
        rw [hb] at hh
        exact simRes_error_left hh _ _
    | ok a1 =>
      rw [ha] at hh
      cases hb : b.handleIndentation with
      | error f => rw [hb] at hh; exact hh.elim
      | ok b1 =>
        rw [hb] at hh
        obtain ⟨hs, hc1⟩ := hh
        simp only
        rw [isAtEnd_append hc1 a1 b1 rfl hs.1, peek_append hc1 a1 b1 rfl hs.1]
        apply simRes_ite_same
        · intro _
          exact ⟨hs, Or.inl hc1⟩
        · intro hend
          apply simRes_ite_same
          · intro hp
            have hbl := handleIndentation_blank a a1 ha (by
              rw [Bool.or_assoc, hp, Bool.or_true])
            have hat1 : a1.atLineStart = true := by rw [hbl]; exact hat
            by_cases hcm : a1.peek = '#'
            · rw [if_pos hcm, if_pos hcm]
              have hk := sim_skipWhile hs hc1 (fun c => c != '\n') (by decide)
              exact sim_newlineStep hk.1 hk.2 hat1
            · rw [if_neg hcm, if_neg hcm]
              exact sim_newlineStep hs hc1 hat1
          · intro _
            have hne1 : a1.rest ≠ [] := by
              simpa [isAtEnd] using hend
            exact sim_scanToken hs hc1 hne1
  · rw [if_neg hat, if_neg hat]
    exact sim_scanToken h hcond hne

/-! ### The end of `tokenize` in two related states -/

theorem remainingDedents_types (la ca lb cb : Nat) :
    ∀ (stack : List Nat) (ta tb : List Token),
      tb.map (fun t => t.type) = ta.map (fun t => t.type) →
      (remainingDedents lb cb stack tb).map (fun t => t.type) =
        (remainingDedents la ca stack ta).map (fun t => t.type)
  | [], _, _, h => by simpa [remainingDedents] using h
  | [_], _, _, h => by simpa [remainingDedents] using h
  | _ :: b :: below, ta, tb, h => by
    unfold remainingDedents
    apply remainingDedents_types la ca lb cb (b :: below)
    simp [h]

theorem finish_types {a b : Lexer} (h1 : b.indentStack = a.indentStack)
    (h3 : b.tokens.map (fun t => t.type) = a.tokens.map (fun t => t.type)) :
    b.finish.map (fun t => t.type) = a.finish.map (fun t => t.type) := by
  have hrd := remainingDedents_types a.line a.column b.line b.column a.indentStack
    a.tokens b.tokens h3
  have hl := getLast_map_type _ _ hrd
  unfold finish
  simp only
  rw [h1]
  cases ha : (remainingDedents a.line a.column a.indentStack a.tokens).getLast? with
  | none =>
    rw [ha] at hl
    cases hb : (remainingDedents b.line b.column a.indentStack b.tokens).getLast? with
    | none => simp [hrd]
    | some tb => rw [hb] at hl; simp at hl
  | some ta =>
    rw [ha] at hl
    cases hb : (remainingDedents b.line b.column a.indentStack b.tokens).getLast? with
    | none => rw [hb] at hl; simp at hl
    | some tb =>
      rw [hb] at hl
      simp only [Option.map_some', Option.some.injEq] at hl
      simp only [hl]
      split <;> simp [hrd]

/-! ### The main loop in two related states -/

theorem sim_tokenizeLoop_nil : ∀ (n : Nat) (a b : Lexer), Sim [] a b →
    SimRes [] (Sim []) (tokenizeLoop n a) (tokenizeLoop n b)
  | 0, a, b, h => by
    have hr : b.rest = a.rest := by simpa using h.1
    simp only [tokenizeLoop, isAtEnd, hr]
    split
    · exact h
    · trivial
  | n + 1, a, b, h => by
    have hr : b.rest = a.rest := by simpa using h.1
    by_cases he : a.rest = []
    · rw [tokenizeLoop_atEnd _ a he, tokenizeLoop_atEnd _ b (hr.trans he)]
      exact h
    · rw [tokenizeLoop_succ n a he, tokenizeLoop_succ n b (hr ▸ he)]
      have hh := sim_loopBody h (Or.inl rfl) he
      cases ha : a.loopBody with
      | error e =>
        rw [ha] at hh
        cases hb : b.loopBody with
        | error f => trivial
        | ok b1 => rw [hb] at hh; exact absurd rfl hh
      | ok a1 =>
        rw [ha] at hh
        cases hb : b.loopBody with
        | error f => rw [hb] at hh; exact hh.elim
        | ok b1 =>
          rw [hb] at hh
          exact sim_tokenizeLoop_nil n a1 b1 hh.1

/-- The scan of a text `A ++ X` whose part `A` is scanned to its end alone
reaches the end of `A` in a related state, at the start of a line when `X` is
not empty. -/
theorem tokenizeLoop_prefix {X : List Char} : ∀ (n : Nat) (a b a1 : Lexer), K X a b →
    tokenizeLoop n a = .ok a1 →
    ∃ b1, Sim X a1 b1 ∧ a1.rest = [] ∧ (X = [] ∨ a1.atLineStart = true) ∧
      ∀ f, b.rest.length ≤ f → tokenizeLoop f b = tokenizeLoop f b1 := by
  have base : ∀ (a b : Lexer), K X a b → a.rest = [] →
      ∃ b1, Sim X a b1 ∧ a.rest = [] ∧ (X = [] ∨ a.atLineStart = true) ∧
        ∀ f, b.rest.length ≤ f → tokenizeLoop f b = tokenizeLoop f b1 := by
    intro a b hk he
    refine ⟨b, hk.1, he, ?_, fun _ _ => rfl⟩
    rcases hk.2 with hc | hc
    · exact Or.inl (cond_ne_nil hc he)
    · exact Or.inr hc.2
  intro n
  induction n with
  | zero =>
    intro a b a1 hk h
    by_cases he : a.rest = []
    · rw [tokenizeLoop_atEnd _ a he] at h
      simp only [Except.ok.injEq] at h
      subst h
      exact base a b hk he
    · simp [tokenizeLoop, isAtEnd, he] at h
  | succ n ih =>
    intro a b a1 hk h
    by_cases he : a.rest = []
    · rw [tokenizeLoop_atEnd _ a he] at h
      simp only [Except.ok.injEq] at h
      subst h
      exact base a b hk he
    · rw [tokenizeLoop_succ n a he] at h
      have hcond : Cond X a.rest := hk.2.resolve_right (fun hc => he hc.1)
      have hh := sim_loopBody hk.1 hcond he
      cases ha : a.loopBody with
      | error e => rw [ha] at h; simp at h
      | ok a2 =>
        rw [ha] at h hh
        cases hb : b.loopBody with
        | error f => rw [hb] at hh; exact hh.elim
        | ok b2 =>
          rw [hb] at hh
          obtain ⟨b1, hs, h0, hat, hf⟩ := ih a2 b2 a1 hh h
          refine ⟨b1, hs, h0, hat, ?_⟩
          have hbne : b.rest ≠ [] := by
            rw [hk.1.1]; simp [he]
          have hlt := loopBody_length b hbne b2 hb
          have hb1 : b1.rest.length ≤ b2.rest.length := by
            rw [hs.1, h0, hh.1.1]; simp
          intro f hfl
          cases f with
          | zero =>
            have : b.rest.length = 0 := Nat.le_zero.mp hfl
            omega
          | succ g =>
            rw [tokenizeLoop_succ g b hbne, hb]
            simp only
            rw [hf g (by omega)]
            exact (tokenizeLoop_fuel g b1 (g + 1) (by omega) (by omega)).symm

/-! ### A blank line at the start of a line -/

theorem countIndent_blank (r : List Char) (hr : r.head? ≠ some ' ' ∧ r.head? ≠ some '\t') :
    ∀ (ws : List Char) (i c : Nat), (∀ x ∈ ws, x = ' ' ∨ x = '\t') →
      (countIndent (ws ++ r) i c).1 = r
  | [], i, c, _ => by
    cases r with
    | nil => rfl
    | cons d r =>
      simp only [List.head?_cons, ne_eq, Option.some.injEq] at hr
      simp only [List.nil_append]
      unfold countIndent
      rw [if_neg hr.1, if_neg hr.2]
  | w :: ws, i, c, h => by
    have hw := h w (List.mem_cons_self _ _)
    have ih := fun i c => countIndent_blank r hr ws i c
      (fun x hx => h x (List.mem_cons_of_mem _ hx))
    simp only [List.cons_append]
    unfold countIndent
    rcases hw with hw | hw
    · rw [if_pos hw]; exact ih _ _
    · subst hw
      rw [if_neg (by decide), if_pos rfl]; exact ih _ _

theorem advanceWhile_comment (r : List Char) : ∀ (body : List Char) (c : Nat), '\n' ∉ body →
    (advanceWhile (fun c => c != '\n') (body ++ '\n' :: r) c).1 = '\n' :: r
  | [], c, _ => by
    simp only [List.nil_append]
    unfold advanceWhile
    rw [if_neg (by decide)]
  | d :: body, c, h => by
    have hd : d ≠ '\n' := fun e => h (e ▸ List.mem_cons_self _ _)
    simp only [List.cons_append]
    unfold advanceWhile
    rw [if_pos (by simpa using hd)]
    exact advanceWhile_comment r body _ (fun hm => h (List.mem_cons_of_mem _ hm))

/-- One iteration of the main loop at the start of a line that holds only
blanks and an optional comment consumes the line and nothing else changes. -/
theorem loopBody_blank (lx : Lexer) (ws c B : List Char) (hat : lx.atLineStart = true)
    (hr : lx.rest = ws ++ (c ++ '\n' :: B)) (hws : ∀ x ∈ ws, x = ' ' ∨ x = '\t')
    (hc : c = [] ∨ ∃ body, c = '#' :: body ∧ '\n' ∉ body) :
    ∃ lx1, lx.loopBody = .ok lx1 ∧ lx1.rest = B ∧ lx1.tokens = lx.tokens ∧
      lx1.indentStack = lx.indentStack ∧ lx1.atLineStart = true := by
  have hhead : (c ++ '\n' :: B).head? = some '\n' ∨ (c ++ '\n' :: B).head? = some '#' := by
    rcases hc with hc | ⟨body, hc, _⟩ <;> subst hc <;> simp
  have hci : (countIndent lx.rest 0 lx.column).1 = c ++ '\n' :: B := by
    rw [hr]
    apply countIndent_blank _ _ ws 0 lx.column hws
    rcases hhead with h | h <;> rw [h] <;> decide
  have hpk : ∀ l : Lexer, l.rest = c ++ '\n' :: B → l.isAtEnd = false ∧
      (l.peek = '\n' ∨ l.peek = '#') := by
    intro l hl
    rcases hc with hc | ⟨body, hc, _⟩ <;> subst hc <;> simp [isAtEnd, peek, hl]
  have hH : lx.handleIndentation = .ok { lx with
      rest := (countIndent lx.rest 0 lx.column).1,
      column := (countIndent lx.rest 0 lx.column).2.2 } := by
    have := hpk { lx with rest := (countIndent lx.rest 0 lx.column).1,
                          column := (countIndent lx.rest 0 lx.column).2.2 } hci
    unfold handleIndentation
    simp only
    rw [if_pos]
    rcases this.2 with h | h <;> simp [h]
  unfold loopBody
  rw [if_pos hat, hH]
  simp only
  generalize hl : ({ lx with rest := (countIndent lx.rest 0 lx.column).1,
                             column := (countIndent lx.rest 0 lx.column).2.2 } : Lexer) = l0
  have hl1 : l0.rest = c ++ '\n' :: B := by rw [← hl]; exact hci
  have hl2 : l0.tokens = lx.tokens := by rw [← hl]
  have hl3 : l0.indentStack = lx.indentStack := by rw [← hl]
  have hl4 : l0.atLineStart = true := by rw [← hl]; exact hat
  have h0 := hpk l0 hl1
  rw [if_neg (by simp [h0.1]), if_pos (by rcases h0.2 with h | h <;> simp [h])]
  rcases hc with hc | ⟨body, hc, hbody⟩
  · subst hc
    have hp : l0.peek = '\n' := by simp [peek, hl1]
    have hn : ¬ l0.peek = '#' := by rw [hp]; decide
    rw [if_neg hn, if_pos (show (!l0.isAtEnd && decide (l0.peek = '\n')) = true by
      simp [h0.1, hp])]
    exact ⟨_, rfl, by simp [advance, hl1], hl2, hl3, hl4⟩
  · subst hc
    have hp : l0.peek = '#' := by simp [peek, hl1]
    have hsk : l0.skipComment.rest = '\n' :: B := by
      show (advanceWhile _ l0.rest _).1 = _
      rw [hl1]
      simp only [List.cons_append]
      unfold advanceWhile
      rw [if_pos (by decide)]
      exact advanceWhile_comment B body _ hbody
    rw [if_pos hp, if_pos (show (!l0.skipComment.isAtEnd &&
      decide (l0.skipComment.peek = '\n')) = true by simp [isAtEnd, peek, hsk])]
    exact ⟨_, rfl, by simp [advance, hsk], hl2, hl3, hl4⟩

/-! ### Blank lines and the token types -/

theorem typesOf_tokenize_eq {s t : List Char} {a b : Lexer}
    (hs : ∀ f, s.length ≤ f → tokenizeLoop f (Lexer.new s) = tokenizeLoop f a)
    (ht : ∀ f, t.length ≤ f → tokenizeLoop f (Lexer.new t) = tokenizeLoop f b)
    (h : Sim [] a b) : typesOf (tokenize t) = typesOf (tokenize s) := by
  have hr : b.rest = a.rest := by simpa using h.1
  have e1 : tokenizeLoop s.length (Lexer.new s) = tokenizeLoop (max s.length t.length) a := by
    rw [← hs _ (le_max_left _ _)]
    exact (tokenizeLoop_fuel s.length (Lexer.new s) _ (le_refl _) (le_max_left _ _)).symm
  have e2 : tokenizeLoop t.length (Lexer.new t) = tokenizeLoop (max s.length t.length) b := by
    rw [← ht _ (le_max_right _ _)]
    exact (tokenizeLoop_fuel t.length (Lexer.new t) _ (le_refl _) (le_max_right _ _)).symm
  have hh := sim_tokenizeLoop_nil (max s.length t.length) a b h
  unfold tokenize
  rw [e1, e2]
  cases ha : tokenizeLoop (max s.length t.length) a with
  | error e =>
    rw [ha] at hh
    cases hb : tokenizeLoop (max s.length t.length) b with
    | error f => rfl
    | ok b1 => rw [hb] at hh; exact absurd rfl hh
  | ok a1 =>
    rw [ha] at hh
    cases hb : tokenizeLoop (max s.length t.length) b with
    | error f => rw [hb] at hh; exact hh.elim
    | ok b1 =>
      rw [hb] at hh
      simp only [typesOf]
      rw [finish_types hh.2.1 hh.2.2.2]

theorem tokenizeLoop_step (lx lx1 : Lexer) (hne : lx.rest ≠ []) (hb : lx.loopBody = .ok lx1) :
    ∀ f, lx.rest.length ≤ f → tokenizeLoop f lx = tokenizeLoop f lx1 := by
  have hlt := loopBody_length lx hne lx1 hb
  intro f hf
  cases f with
  | zero =>
    have : lx.rest.length = 0 := Nat.le_zero.mp hf
    omega
  | succ g =>
    rw [tokenizeLoop_succ g lx hne, hb]
    exact (tokenizeLoop_fuel g lx1 (g + 1) (by omega) (by omega)).symm

theorem typesOf_blank_line (A ws c B : List Char)
    (hA : A = [] ∨ (A.getLast? = some '\n' ∧ ∃ tokens, tokenize A = .ok tokens))
    (hws : ∀ x ∈ ws, x = ' ' ∨ x = '\t')
    (hc : c = [] ∨ ∃ body, c = '#' :: body ∧ '\n' ∉ body) :
    typesOf (tokenize (A ++ (ws ++ c ++ ['\n']) ++ B)) = typesOf (tokenize (A ++ B)) := by
  have hL : A ++ (ws ++ c ++ ['\n']) ++ B = A ++ (ws ++ (c ++ '\n' :: B)) := by simp
  rw [hL]
  rcases hA with hA | ⟨hnl, tokens, htok⟩
  · subst hA
    simp only [List.nil_append]
    obtain ⟨b1, hb, h1, h2, h3, h4⟩ := loopBody_blank (Lexer.new (ws ++ (c ++ '\n' :: B)))
      ws c B rfl rfl hws hc
    refine typesOf_tokenize_eq (a := Lexer.new B) (b := b1) (fun _ _ => rfl) ?_ ?_
    · exact tokenizeLoop_step _ b1 (by simp [Lexer.new]) hb
    · exact ⟨by simp [h1, Lexer.new], h3, h4, by rw [h2]; rfl⟩
  · obtain ⟨lxA, hrun⟩ : ∃ lxA, tokenizeLoop A.length (Lexer.new A) = .ok lxA := by
      unfold tokenize at htok
      cases hr : tokenizeLoop A.length (Lexer.new A) with
      | error e => rw [hr] at htok; simp at htok
      | ok lxA => exact ⟨lxA, rfl⟩
    have hk : ∀ X : List Char, K X (Lexer.new A) (Lexer.new (A ++ X)) :=
      fun X => ⟨⟨rfl, rfl, rfl, rfl⟩, Or.inl (Or.inr hnl)⟩
    obtain ⟨b1, hs1, he1, hat1, hf1⟩ := tokenizeLoop_prefix A.length (Lexer.new A)
      (Lexer.new (A ++ (ws ++ (c ++ '\n' :: B)))) lxA (hk _) hrun
    obtain ⟨b2, hs2, _, _, hf2⟩ := tokenizeLoop_prefix A.length (Lexer.new A)
      (Lexer.new (A ++ B)) lxA (hk _) hrun
    have hat : lxA.atLineStart = true := hat1.resolve_left (by simp)
    have hr1 : b1.rest = ws ++ (c ++ '\n' :: B) := by rw [hs1.1, he1]; rfl
    obtain ⟨b3, hb, h1, h2, h3, h4⟩ := loopBody_blank b1 ws c B (hs1.2.2.1.trans hat) hr1 hws hc
    refine typesOf_tokenize_eq (a := b2) (b := b3) hf2 ?_ ?_
    · intro f hf
      rw [hf1 f hf]
      apply tokenizeLoop_step b1 b3 (by rw [hr1]; simp) hb
      have : b1.rest.length ≤ (A ++ (ws ++ (c ++ '\n' :: B))).length := by
        rw [hr1, List.length_append A]; omega
      exact this.trans hf
    · refine ⟨?_, ?_, ?_, ?_⟩
      · rw [h1, hs2.1, he1]; simp
      · rw [h3, hs1.2.1, hs2.2.1]
      · rw [h4, hs2.2.2.1, hat]
      · rw [h2, hs1.2.2.2, hs2.2.2.2]

end Lexer

/-- C9: a line of spaces and tabs with an optional `#` comment, inserted at the
start of the source or behind a part of it that is scanned alone without error
and ends with a newline, changes neither whether `tokenize` fails nor the
sequence of token types it returns. -/
theorem C9_blank_lines_invisible (A ws c B : List Char)
    (hA : A = [] ∨ (A.getLast? = some '\n' ∧ ∃ tokens, Lexer.tokenize A = .ok tokens))
    (hws : ∀ x ∈ ws, x = ' ' ∨ x = '\t')
    (hc : c = [] ∨ ∃ body, c = '#' :: body ∧ '\n' ∉ body) :
    Lexer.typesOf (Lexer.tokenize (A ++ (ws ++ c ++ ['\n']) ++ B)) =
      Lexer.typesOf (Lexer.tokenize (A ++ B)) :=
  Lexer.typesOf_blank_line A ws c B hA hws hc

/-- Witness of C9: a comment line indented by eight columns between two lines
of a block indented by two. -/
theorem C9_blank_lines_invisible_witness :
    Lexer.typesOf (Lexer.tokenize ("if x:\n  y\n".data ++ "  z\n".data)) =
      some [.IF, .IDENTIFIER, .COLON, .NEWLINE, .INDENT, .IDENTIFIER, .NEWLINE,
        .IDENTIFIER, .NEWLINE, .DEDENT, .NEWLINE, .END_OF_FILE] ∧
    Lexer.typesOf (Lexer.tokenize
        ("if x:\n  y\n".data ++ ("        ".data ++ "# c".data ++ ['\n']) ++ "  z\n".data)) =
      Lexer.typesOf (Lexer.tokenize ("if x:\n  y\n".data ++ "  z\n".data)) :=
  ⟨by decide!, C9_blank_lines_invisible "if x:\n  y\n".data "        ".data "# c".data
    "  z\n".data
    (Or.inr ⟨by decide!, [⟨.IF, "if", .monostate, 1, 1⟩, ⟨.IDENTIFIER, "x", .monostate, 1, 4⟩,
      ⟨.COLON, ":", .monostate, 1, 5⟩, ⟨.NEWLINE, "\n", .monostate, 1, 6⟩,
      ⟨.INDENT, "", .monostate, 2, 3⟩, ⟨.IDENTIFIER, "y", .monostate, 2, 3⟩,
      ⟨.NEWLINE, "\n", .monostate, 2, 4⟩, ⟨.DEDENT, "", .monostate, 3, 1⟩,
      ⟨.NEWLINE, "", .monostate, 3, 1⟩, ⟨.END_OF_FILE, "", .monostate, 3, 1⟩], by decide!⟩)
    (by decide!) (Or.inr ⟨" c".data, by decide!, by decide!⟩)⟩

namespace Parser

/-! ## The parser -/

/-! ### Every run of the expression grammar ends -/

theorem ok_bind {ε α β : Type} (a : α) (f : α → Except ε β) :
    (Except.ok a >>= f) = f a := rfl

theorem error_bind {ε α β : Type} (e : ε) (f : α → Except ε β) :
    ((Except.error e : Except ε α) >>= f) = .error e := rfl

theorem fine_mono {α : Type} {N lo lo1 : Nat} {r : Except ParseExn (α × Nat)}
    (h : Fine N lo r) (hl : lo1 ≤ lo) : Fine N lo1 r := by
  cases r with
  | error e => cases e <;> exact h
  | ok p => exact ⟨hl.trans h.1, h.2⟩

theorem fine_bind {α β : Type} {N lo lo1 : Nat} {x : Except ParseExn (α × Nat)}
    {f : α × Nat → Except ParseExn (β × Nat)} (hx : Fine N lo x)
    (hf : ∀ a c, lo ≤ c → c ≤ N → Fine N lo1 (f (a, c))) : Fine N lo1 (x >>= f) := by
  cases x with
  | error e => cases e <;> first | exact hx.elim | trivial
  | ok p => exact hf p.1 p.2 hx.1 hx.2

theorem peek_ok {tokens : List Token} {N : Nat} (hw : WellFormed tokens N) {c : Nat}
    (hc : c ≤ N) : ∃ t, tokens[c]? = some t ∧ peek tokens c = .ok t := by
  obtain ⟨⟨t, ht, _⟩, _⟩ := hw
  have hN : N < tokens.length := by
    by_contra h
    rw [List.getElem?_eq_none (Nat.le_of_not_lt h)] at ht
    cases ht
  have hlt : c < tokens.length := Nat.lt_of_le_of_lt hc hN
  refine ⟨tokens[c], List.getElem?_eq_getElem hlt, ?_⟩
  simp [peek, List.getElem?_eq_getElem hlt]

theorem check_cases {tokens : List Token} {N : Nat} (hw : WellFormed tokens N) {c : Nat}
    (hc : c ≤ N) (ty : TokenType) :
    check tokens c ty = .ok false ∨
      (c < N ∧ check tokens c ty = .ok true ∧
        ∃ t, tokens[c]? = some t ∧ t.type = ty ∧ t.type ≠ .END_OF_FILE) := by
  obtain ⟨t, ht, hp⟩ := peek_ok hw hc
  unfold check isAtEnd
  rw [hp]
  simp only [ok_bind, pure, Except.pure]
  by_cases he : t.type = .END_OF_FILE
  · left; simp [he]
  · simp only [he, decide_False, Bool.false_eq_true, if_false]
    by_cases hy : t.type = ty
    · right
      refine ⟨?_, by simp [hy], t, ht, hy, he⟩
      apply Nat.lt_of_le_of_ne hc
      intro hcn
      subst hcn
      obtain ⟨⟨t1, ht1, he1⟩, _⟩ := hw
      rw [ht] at ht1
      cases ht1
      exact he he1
    · left; simp [hy]

theorem previous_succ {tokens : List Token} {c : Nat} {t : Token} (ht : tokens[c]? = some t) :
    previous tokens (c + 1) = .ok t := by
  simp [previous, peek, ht]

theorem advance_ok {tokens : List Token} {c : Nat} {t : Token} (ht : tokens[c]? = some t)
    (he : t.type ≠ .END_OF_FILE) : advance tokens c = .ok (t, c + 1) := by
  unfold advance isAtEnd
  simp [peek, ht, ok_bind, he, pure, Except.pure, previous]

theorem matchType_cases {tokens : List Token} {N : Nat} (hw : WellFormed tokens N) {c : Nat}
    (hc : c ≤ N) (ty : TokenType) :
    matchType tokens c ty = .ok (false, c) ∨
      (c < N ∧ matchType tokens c ty = .ok (true, c + 1) ∧
        ∃ t, tokens[c]? = some t ∧ t.type = ty) := by
  unfold matchType
  rcases check_cases hw hc ty with h | ⟨hlt, h, t, ht, hy, he⟩
  · left; rw [h]; rfl
  · right
    refine ⟨hlt, ?_, t, ht, hy⟩
    rw [h, ok_bind, if_pos rfl, advance_ok ht he]
    rfl

theorem matchAny_cases {tokens : List Token} {N : Nat} (hw : WellFormed tokens N) {c : Nat}
    (hc : c ≤ N) : ∀ tys : List TokenType,
    matchAny tokens c tys = .ok (false, c) ∨
      (c < N ∧ matchAny tokens c tys = .ok (true, c + 1) ∧
        ∃ t, tokens[c]? = some t ∧ t.type ∈ tys)
  | [] => Or.inl rfl
  | ty :: tys => by
    unfold matchAny
    rcases matchType_cases hw hc ty with h | ⟨hlt, h, t, ht, hy⟩
    · rw [h, ok_bind]
      simp only [Bool.false_eq_true, if_false]
      rcases matchAny_cases hw hc tys with h1 | ⟨hlt, h1, t, ht, hy⟩
      · exact Or.inl h1
      · exact Or.inr ⟨hlt, h1, t, ht, List.mem_cons_of_mem _ hy⟩
    · right
      rw [h, ok_bind]
      exact ⟨hlt, rfl, t, ht, hy ▸ List.mem_cons_self _ _⟩

theorem consume_fine {tokens : List Token} {N : Nat} (hw : WellFormed tokens N) {c : Nat}
    (hc : c ≤ N) (ty : TokenType) (message : String) :
    Fine N (c + 1) (consume tokens c ty message) := by
  unfold consume
  rcases check_cases hw hc ty with h | ⟨hlt, h, t, ht, hy, he⟩
  · obtain ⟨t, _, hp⟩ := peek_ok hw hc
    rw [h, ok_bind, hp]
    trivial
  · rw [h, ok_bind, if_pos rfl, advance_ok ht he]
    exact ⟨le_refl _, hlt⟩

theorem payload_of_getElem {tokens : List Token} {N : Nat} (hw : WellFormed tokens N)
    {c : Nat} {t : Token} (ht : tokens[c]? = some t) : payloadOk t = true :=
  hw.2 t (by
    obtain ⟨hlt, he⟩ := List.getElem?_eq_some.mp ht
    exact he ▸ List.getElem_mem hlt)

theorem getInteger_ok {t : Token} (hp : payloadOk t = true) (hy : t.type = .INTEGER) :
    ∃ v, getInteger t = .ok v := by
  unfold payloadOk at hp
  unfold getInteger
  rw [hy] at hp
  cases hl : t.literal <;> rw [hl] at hp <;> simp at hp ⊢

theorem getDouble_ok {t : Token} (hp : payloadOk t = true) (hy : t.type = .FLOAT) :
    ∃ v, getDouble t = .ok v := by
  unfold payloadOk at hp
  unfold getDouble
  rw [hy] at hp
  cases hl : t.literal <;> rw [hl] at hp <;> simp at hp ⊢

theorem getString_ok {t : Token} (hp : payloadOk t = true) (hy : t.type = .STRING) :
    ∃ v, getString t = .ok v := by
  unfold payloadOk at hp
  unfold getString
  rw [hy] at hp
  cases hl : t.literal <;> rw [hl] at hp <;> simp at hp ⊢

theorem total_all {tokens : List Token} {N : Nat} (hw : WellFormed tokens N) :
    ∀ fuel, Total tokens N fuel := by
  intro fuel
  induction fuel with
  | zero =>
    unfold Total
    refine ⟨?_, ?_, ?_, ?_, ?_, ?_, ?_, ?_, ?_, ?_, ?_, ?_, ?_, ?_, ?_, ?_, ?_, ?_, ?_, ?_⟩ <;>
      intros <;> omega
  | succ fuel ih =>
    obtain ⟨iExpression, iAssignment, iOrExpr, iOrExprLoop, iAndExpr, iAndExprLoop, iNotExpr,
      iComparison, iComparisonLoop, iTerm, iTermLoop, iFactor, iFactorLoop, iUnary, iPower,
      iCall, iCallLoop, iFinishCall, iExpressionList, iPrimary⟩ := ih
    refine ⟨?_, ?_, ?_, ?_, ?_, ?_, ?_, ?_, ?_, ?_, ?_, ?_, ?_, ?_, ?_, ?_, ?_, ?_, ?_, ?_⟩
    · -- expression
      intro c hc hf
      rw [expression]
      exact iAssignment c hc (by omega)
    · -- assignment
      intro c hc hf
      rw [assignment]
      apply fine_bind (iOrExpr c hc (by omega))
      intro e c1 h1 h2
      rcases matchType_cases hw h2 .ASSIGN with h | ⟨hlt, h, t, ht, _⟩
      · simp only [h, ok_bind, Bool.false_eq_true, if_false]
        exact ⟨h1, h2⟩
      · simp only [h, ok_bind, if_true, previous_succ ht]
        apply fine_bind (iAssignment (c1 + 1) hlt (by omega))
        intro v c3 h3 h4
        cases asVariable e with
        | none => trivial
        | some name => exact ⟨by omega, h4⟩
    · -- orExpr
      intro c hc hf
      rw [orExpr]
      apply fine_bind (iAndExpr c hc (by omega))
      intro e c1 h1 h2
      exact fine_mono (iOrExprLoop e c1 h2 (by omega)) h1
    · -- orExprLoop
      intro e c hc hf
      rw [orExprLoop]
      rcases matchType_cases hw hc .OR with h | ⟨hlt, h, t, ht, _⟩
      · simp only [h, ok_bind, Bool.false_eq_true, if_false]
        exact ⟨le_refl _, hc⟩
      · simp only [h, ok_bind, if_true, previous_succ ht]
        apply fine_bind (iAndExpr (c + 1) hlt (by omega))
        intro r c2 h1 h2
        exact fine_mono (iOrExprLoop _ c2 h2 (by omega)) (by omega)
    · -- andExpr
      intro c hc hf
      rw [andExpr]
      apply fine_bind (iNotExpr c hc (by omega))
      intro e c1 h1 h2
      exact fine_mono (iAndExprLoop e c1 h2 (by omega)) h1
    · -- andExprLoop
      intro e c hc hf
      rw [andExprLoop]
      rcases matchType_cases hw hc .AND with h | ⟨hlt, h, t, ht, _⟩
      · simp only [h, ok_bind, Bool.false_eq_true, if_false]
        exact ⟨le_refl _, hc⟩
      · simp only [h, ok_bind, if_true, previous_succ ht]
        apply fine_bind (iNotExpr (c + 1) hlt (by omega))
        intro r c2 h1 h2
        exact fine_mono (iAndExprLoop _ c2 h2 (by omega)) (by omega)
    · -- notExpr
      intro c hc hf
      rw [notExpr]
      rcases matchType_cases hw hc .NOT with h | ⟨hlt, h, t, ht, _⟩
      · simp only [h, ok_bind, Bool.false_eq_true, if_false]
        exact iComparison c hc (by omega)
      · simp only [h, ok_bind, if_true, previous_succ ht]
        apply fine_bind (iNotExpr (c + 1) hlt (by omega))
        intro r c2 h1 h2
        exact ⟨by omega, h2⟩
    · -- comparison
      intro c hc hf
      rw [comparison]
      apply fine_bind (iTerm c hc (by omega))
      intro e c1 h1 h2
      exact fine_mono (iComparisonLoop e c1 h2 (by omega)) h1
    · -- comparisonLoop
      intro e c hc hf
      rw [comparisonLoop]
      rcases matchAny_cases hw hc [.LT, .LE, .GT, .GE, .EQ, .NE] with h | ⟨hlt, h, t, ht, _⟩
      · simp only [h, ok_bind, Bool.false_eq_true, if_false]
        exact ⟨le_refl _, hc⟩
      · simp only [h, ok_bind, if_true, previous_succ ht]
        apply fine_bind (iTerm (c + 1) hlt (by omega))
        intro r c2 h1 h2
        exact fine_mono (iComparisonLoop _ c2 h2 (by omega)) (by omega)
    · -- term
      intro c hc hf
      rw [term]
      apply fine_bind (iFactor c hc (by omega))
      intro e c1 h1 h2
      exact fine_mono (iTermLoop e c1 h2 (by omega)) h1
    · -- termLoop
      intro e c hc hf
      rw [termLoop]
      rcases matchAny_cases hw hc [.PLUS, .MINUS] with h | ⟨hlt, h, t, ht, _⟩
      · simp only [h, ok_bind, Bool.false_eq_true, if_false]
        exact ⟨le_refl _, hc⟩
      · simp only [h, ok_bind, if_true, previous_succ ht]
        apply fine_bind (iFactor (c + 1) hlt (by omega))
        intro r c2 h1 h2
        exact fine_mono (iTermLoop _ c2 h2 (by omega)) (by omega)
    · -- factor
      intro c hc hf
      rw [factor]
      apply fine_bind (iUnary c hc (by omega))
      intro e c1 h1 h2
      exact fine_mono (iFactorLoop e c1 h2 (by omega)) h1
    · -- factorLoop
      intro e c hc hf
      rw [factorLoop]
      rcases matchAny_cases hw hc [.STAR, .SLASH, .DOUBLE_SLASH, .PERCENT] with h | ⟨hlt, h, t, ht, _⟩
      · simp only [h, ok_bind, Bool.false_eq_true, if_false]
        exact ⟨le_refl _, hc⟩
      · simp only [h, ok_bind, if_true, previous_succ ht]
        apply fine_bind (iUnary (c + 1) hlt (by omega))
        intro r c2 h1 h2
        exact fine_mono (iFactorLoop _ c2 h2 (by omega)) (by omega)
    · -- unary
      intro c hc hf
      rw [unary]
      rcases matchType_cases hw hc .MINUS with h | ⟨hlt, h, t, ht, _⟩
      · simp only [h, ok_bind, Bool.false_eq_true, if_false]
        exact iPower c hc (by omega)
      · simp only [h, ok_bind, if_true, previous_succ ht]
        apply fine_bind (iUnary (c + 1) hlt (by omega))
        intro r c2 h1 h2
        exact ⟨by omega, h2⟩
    · -- power
      intro c hc hf
      rw [power]
      apply fine_bind (iCall c hc (by omega))
      intro e c1 h1 h2
      rcases matchType_cases hw h2 .DOUBLE_STAR with h | ⟨hlt, h, t, ht, _⟩
      · simp only [h, ok_bind, Bool.false_eq_true, if_false]
        exact ⟨h1, h2⟩
      · simp only [h, ok_bind, if_true, previous_succ ht]
        apply fine_bind (iUnary (c1 + 1) hlt (by omega))
        intro r c3 h3 h4
        exact ⟨by omega, h4⟩
    · -- call
      intro c hc hf
      rw [call]
      apply fine_bind (iPrimary c hc (by omega))
      intro e c1 h1 h2
      exact fine_mono (iCallLoop e c1 h2 (by omega)) h1
    · -- callLoop
      intro e c hc hf
      rw [callLoop]
      rcases matchType_cases hw hc .LPAREN with h | ⟨hlt, h, t, ht, _⟩
      · simp only [h, ok_bind, Bool.false_eq_true, if_false]
        exact ⟨le_refl _, hc⟩
      · simp only [h, ok_bind, if_true]
        apply fine_bind (iFinishCall e (c + 1) hlt (by omega))
        intro r c2 h1 h2
        exact fine_mono (iCallLoop _ c2 h2 (by omega)) (by omega)
    · -- finishCall
      intro e c hc hf
      rw [finishCall]
      rcases check_cases hw hc .RPAREN with h | ⟨hlt, h, _⟩
      · simp only [h, ok_bind, Bool.not_false, if_true]
        apply fine_bind (iExpressionList c [] hc (by omega))
        intro l c1 h1 h2
        apply fine_bind (consume_fine hw h2 .RPAREN _)
        intro p c2 h3 h4
        exact ⟨by omega, h4⟩
      · simp only [h, ok_bind, Bool.not_true, Bool.false_eq_true, if_false]
        apply fine_bind (consume_fine hw hc .RPAREN _)
        intro p c2 h3 h4
        exact ⟨h3, h4⟩
    · -- expressionList
      intro c l hc hf
      rw [expressionList]
      apply fine_bind (iExpression c hc (by omega))
      intro e c1 h1 h2
      rcases matchType_cases hw h2 .COMMA with h | ⟨hlt, h, t, ht, _⟩
      · simp only [h, ok_bind, Bool.false_eq_true, if_false]
        exact ⟨h1, h2⟩
      · simp only [h, ok_bind, if_true]
        exact fine_mono (iExpressionList (c1 + 1) _ hlt (by omega)) (by omega)
    · -- primary
      intro c hc hf
      rw [primary]
      rcases matchType_cases hw hc .TRUE with h | ⟨hlt, h, t, ht, hy⟩
      rotate_left
      · simp only [h, ok_bind, if_true]
        exact ⟨le_refl _, hlt⟩
      simp only [h, ok_bind, Bool.false_eq_true, if_false]
      rcases matchType_cases hw hc .FALSE with h | ⟨hlt, h, t, ht, hy⟩
      rotate_left
      · simp only [h, ok_bind, if_true]
        exact ⟨le_refl _, hlt⟩
      simp only [h, ok_bind, Bool.false_eq_true, if_false]
      rcases matchType_cases hw hc .NONE with h | ⟨hlt, h, t, ht, hy⟩
      rotate_left
      · simp only [h, ok_bind, if_true]
        exact ⟨le_refl _, hlt⟩
      simp only [h, ok_bind, Bool.false_eq_true, if_false]
      rcases matchType_cases hw hc .INTEGER with h | ⟨hlt, h, t, ht, hy⟩
      rotate_left
      · obtain ⟨v, hv⟩ := getInteger_ok (payload_of_getElem hw ht) hy
        simp only [h, ok_bind, if_true, previous_succ ht, hv]
        exact ⟨le_refl _, hlt⟩
      simp only [h, ok_bind, Bool.false_eq_true, if_false]
      rcases matchType_cases hw hc .FLOAT with h | ⟨hlt, h, t, ht, hy⟩
      rotate_left
      · obtain ⟨v, hv⟩ := getDouble_ok (payload_of_getElem hw ht) hy
        simp only [h, ok_bind, if_true, previous_succ ht, hv]
        exact ⟨le_refl _, hlt⟩
      simp only [h, ok_bind, Bool.false_eq_true, if_false]
      rcases matchType_cases hw hc .STRING with h | ⟨hlt, h, t, ht, hy⟩
      rotate_left
      · obtain ⟨v, hv⟩ := getString_ok (payload_of_getElem hw ht) hy
        simp only [h, ok_bind, if_true, previous_succ ht, hv]
        exact ⟨le_refl _, hlt⟩
      simp only [h, ok_bind, Bool.false_eq_true, if_false]
      rcases matchType_cases hw hc .IDENTIFIER with h | ⟨hlt, h, t, ht, hy⟩
      rotate_left
      · simp only [h, ok_bind, if_true, previous_succ ht]
        exact ⟨le_refl _, hlt⟩
      simp only [h, ok_bind, Bool.false_eq_true, if_false]
      rcases matchType_cases hw hc .LPAREN with h | ⟨hlt, h, t, ht, hy⟩
      rotate_left
      · simp only [h, ok_bind, if_true]
        apply fine_bind (iExpression (c + 1) hlt (by omega))
        intro e c2 h1 h2
        apply fine_bind (consume_fine hw h2 .RPAREN _)
        intro p c3 h3 h4
        exact ⟨by omega, h4⟩
      simp only [h, ok_bind, Bool.false_eq_true, if_false]
      obtain ⟨t, _, hp⟩ := peek_ok hw hc
      rw [hp]
      trivial

/-! ### The target of an assignment -/

theorem nonVariableAt_ok {r : Except ParseExn (Expr × Nat)} {c1 : Nat}
    (h : nonVariableAt r c1 = true) : ∃ e, r = .ok (e, c1) ∧ asVariable e = Option.none := by
  cases r with
  | error e => simp [nonVariableAt] at h
  | ok p =>
    obtain ⟨e, c⟩ := p
    simp only [nonVariableAt, Bool.and_eq_true, Option.isNone_iff_eq_none, beq_iff_eq] at h
    exact ⟨e, by rw [h.2], h.1⟩

theorem matchType_true {tokens : List Token} {c : Nat} {t : Token} (ht : tokens[c]? = some t)
    (he : t.type ≠ .END_OF_FILE) : matchType tokens c t.type = .ok (true, c + 1) := by
  unfold matchType check isAtEnd
  simp [peek, ht, ok_bind, he, pure, Except.pure, advance_ok ht he]

theorem matchType_false {tokens : List Token} {c : Nat} {t : Token} (ht : tokens[c]? = some t)
    (ty : TokenType) (hy : t.type ≠ ty) : matchType tokens c ty = .ok (false, c) := by
  unfold matchType check isAtEnd
  by_cases he : t.type = .END_OF_FILE <;>
    simp [peek, ht, ok_bind, he, hy, pure, Except.pure]

theorem matchAny_compound {tokens : List Token} {c : Nat} {t : Token}
    (ht : tokens[c]? = some t)
    (hy : t.type ∈ [TokenType.PLUS_ASSIGN, .MINUS_ASSIGN, .STAR_ASSIGN, .SLASH_ASSIGN]) :
    matchAny tokens c [.PLUS_ASSIGN, .MINUS_ASSIGN, .STAR_ASSIGN, .SLASH_ASSIGN] =
      .ok (true, c + 1) := by
  simp only [List.mem_cons, List.mem_singleton, List.not_mem_nil, or_false] at hy
  rcases hy with hy | hy | hy | hy
  · have h1 := matchType_true ht (by rw [hy]; decide)
    rw [hy] at h1
    simp only [matchAny, h1, ok_bind, if_true]
    rfl
  · have h1 := matchType_true ht (by rw [hy]; decide)
    rw [hy] at h1
    have h2 := matchType_false ht .PLUS_ASSIGN (by rw [hy]; decide)
    simp only [matchAny, h1, h2, ok_bind, if_true, Bool.false_eq_true, if_false]
    rfl
  · have h1 := matchType_true ht (by rw [hy]; decide)
    rw [hy] at h1
    have h2 := matchType_false ht .PLUS_ASSIGN (by rw [hy]; decide)
    have h3 := matchType_false ht .MINUS_ASSIGN (by rw [hy]; decide)
    simp only [matchAny, h1, h2, h3, ok_bind, if_true, Bool.false_eq_true, if_false]
    rfl
  · have h1 := matchType_true ht (by rw [hy]; decide)
    rw [hy] at h1
    have h2 := matchType_false ht .PLUS_ASSIGN (by rw [hy]; decide)
    have h3 := matchType_false ht .MINUS_ASSIGN (by rw [hy]; decide)
    have h4 := matchType_false ht .STAR_ASSIGN (by rw [hy]; decide)
    simp only [matchAny, h1, h2, h3, h4, ok_bind, if_true, Bool.false_eq_true, if_false]
    rfl

/-- The run of `assignment` on a target that is not a variable, in front of
`=`: the value is parsed and the result is an error. -/
theorem assignment_nonVariable {tokens : List Token} {fuel current current1 : Nat}
    {op : Token} (hop : tokens[current1]? = some op) (hy : op.type = .ASSIGN)
    (h : nonVariableAt (orExpr tokens fuel current) current1 = true) :
    assignment tokens (fuel + 1) current =
      (assignment tokens fuel (current1 + 1) >>= fun _ =>
        .error (error op "Invalid assignment target")) := by
  obtain ⟨e, he, hv⟩ := nonVariableAt_ok h
  have hm := matchType_true hop (by rw [hy]; decide)
  rw [hy] at hm
  rw [assignment, he]
  simp only [ok_bind, hm, if_true, previous_succ hop, hv]

theorem expressionStatement_nonVariable {tokens : List Token} {fuel current current1 : Nat}
    {op : Token} (hop : tokens[current1]? = some op)
    (hy : op.type ∈ [TokenType.PLUS_ASSIGN, .MINUS_ASSIGN, .STAR_ASSIGN, .SLASH_ASSIGN])
    (h : nonVariableAt (expression tokens fuel current) current1 = true) :
    expressionStatement tokens fuel current = .error (error op "Invalid assignment target") := by
  obtain ⟨e, he, hv⟩ := nonVariableAt_ok h
  unfold expressionStatement
  rw [he]
  simp only [ok_bind, matchAny_compound hop hy, if_true, previous_succ hop, hv]

theorem wellFormed_of_last {tokens : List Token}
    (hEnd : ∃ t, tokens.getLast? = some t ∧ t.type = .END_OF_FILE)
    (hPay : ∀ t ∈ tokens, payloadOk t = true) : WellFormed tokens (tokens.length - 1) := by
  obtain ⟨t, ht, he⟩ := hEnd
  rw [List.getLast?_eq_getElem?] at ht
  exact ⟨⟨t, ht, he⟩, hPay⟩

end Parser

namespace Lexer

/-! ### The payloads of the tokens that the lexer builds -/

theorem payloadsOk_append {l : List Token} {x : Token} (h : PayloadsOk l)
    (hx : Parser.payloadOk x = true) : PayloadsOk (l ++ [x]) := by
  intro t ht
  rcases List.mem_append.mp ht with h1 | h1
  · exact h t h1
  · rw [List.mem_singleton.mp h1]; exact hx

theorem payloadsOk_addToken (lx : Lexer) (ty : TokenType) (lit : Literal)
    (hp : ∀ s l c, Parser.payloadOk ⟨ty, s, lit, l, c⟩ = true) (h : PayloadsOk lx.tokens) :
    PayloadsOk (lx.addToken ty lit).tokens :=
  payloadsOk_append h (hp _ _ _)

theorem keywordsFind_payload (s : String) (ty : TokenType) (h : keywordsFind s = some ty) :
    ∀ x l c, Parser.payloadOk ⟨ty, x, .monostate, l, c⟩ = true := by
  simp only [keywordsFind, keywords, List.find?] at h
  repeat' split at h
  all_goals first
    | (simp at h; subst h; intro x l c; rfl)
    | simp at h

theorem payloadsOk_identifier (lx : Lexer) (h : PayloadsOk lx.tokens) :
    PayloadsOk lx.identifier.tokens := by
  simp only [identifier]
  split
  · next ty hk => exact payloadsOk_addToken _ _ _ (keywordsFind_payload _ _ hk) h
  · exact payloadsOk_addToken _ _ _ (fun _ _ _ => rfl) h

theorem payloadsOk_number (lx lx1 : Lexer) (hn : lx.number = .ok lx1)
    (h : PayloadsOk lx.tokens) : PayloadsOk lx1.tokens := by
  obtain ⟨lx3, ty, lit, h1, h2, _, h5⟩ := number_spec _ _ hn
  subst h1
  apply payloadsOk_addToken
  · rcases h5 with ⟨h5, i, hi⟩ | ⟨h5, d, hd⟩ <;> subst h5 <;> intro _ _ _
    · rw [hi]; rfl
    · rw [hd]; rfl
  · rw [h2]; exact h

theorem payloadsOk_string (lx lx1 : Lexer) (q : Char) (hs : lx.string q = .ok lx1)
    (h : PayloadsOk lx.tokens) : PayloadsOk lx1.tokens := by
  unfold string at hs
  split at hs
  · simp at hs
  · simp only [Except.ok.injEq] at hs; subst hs
    exact payloadsOk_addToken _ _ _ (fun _ _ _ => rfl) h

theorem payloadsOk_newline (lx : Lexer) (h : PayloadsOk lx.tokens) :
    PayloadsOk lx.addNewline.tokens := by
  unfold addNewline
  split
  · exact h
  · split
    · exact payloadsOk_addToken _ _ _ (fun _ _ _ => rfl) h
    · exact h

theorem payloadsOk_scanSwitch (c : Char) (lx : Lexer) (h : PayloadsOk lx.tokens) :
    ∀ lx1, scanSwitch c lx = .ok lx1 → PayloadsOk lx1.tokens := by
  unfold scanSwitch
  repeat' with_reducible apply ite_ok
  all_goals intro x hx
  all_goals first
    | (simp at hx; done)
    | exact payloadsOk_string _ _ _ hx h
    | exact payloadsOk_number _ _ hx h
    | (simp only [Except.ok.injEq] at hx; subst hx
       first
        | exact payloadsOk_addToken _ _ _ (fun _ _ _ => rfl) h
        | exact h
        | exact payloadsOk_identifier _ h
        | exact payloadsOk_newline _ h)

theorem payloadsOk_scanToken (lx lx1 : Lexer) (hs : lx.scanToken = .ok lx1)
    (h : PayloadsOk lx.tokens) : PayloadsOk lx1.tokens :=
  payloadsOk_scanSwitch lx.peek
    { lx.advance with startRest := lx.rest, startColumn := lx.column } h lx1 hs

theorem payloadsOk_popIndents (indent line column : Nat) :
    ∀ (stack : List Nat) (tokens : List Token), PayloadsOk tokens →
      PayloadsOk (popIndents indent line column stack tokens).2
  | [], _, h => h
  | top :: below, tokens, h => by
    unfold popIndents
    split
    · exact payloadsOk_popIndents indent line column below _ (payloadsOk_append h rfl)
    · exact h

theorem payloadsOk_handleIndentation (lx : Lexer) (h : PayloadsOk lx.tokens) :
    ∀ lx1, lx.handleIndentation = .ok lx1 → PayloadsOk lx1.tokens := by
  unfold handleIndentation
  simp only
  repeat' with_reducible apply ite_ok
  all_goals intro x hx
  all_goals first
    | (simp at hx; done)
    | (simp only [Except.ok.injEq] at hx; subst hx
       first
        | exact h
        | exact payloadsOk_append h rfl
        | exact payloadsOk_popIndents _ _ _ _ _ h)

theorem payloadsOk_loopBody (lx : Lexer) (h : PayloadsOk lx.tokens) :
    ∀ lx1, lx.loopBody = .ok lx1 → PayloadsOk lx1.tokens := by
  unfold loopBody
  with_reducible apply ite_ok
  · intro x hx
    cases hh : lx.handleIndentation with
    | error e => rw [hh] at hx; simp at hx
    | ok lx2 =>
      rw [hh] at hx
      simp only at hx
      have h2 := payloadsOk_handleIndentation lx h lx2 hh
      revert x
      with_reducible apply ite_ok
      · intro y hy
        simp only [Except.ok.injEq] at hy; subst hy; exact h2
      · with_reducible apply ite_ok
        · intro y hy
          simp only [Except.ok.injEq] at hy; subst hy
          split <;> split <;> exact h2
        · intro y hy
          exact payloadsOk_scanToken _ _ hy h2
  · intro x hx
    exact payloadsOk_scanToken _ _ hx h

theorem payloadsOk_tokenizeLoop : ∀ (fuel : Nat) (lx : Lexer), PayloadsOk lx.tokens →
    ∀ lx1, tokenizeLoop fuel lx = .ok lx1 → PayloadsOk lx1.tokens
  | 0, lx, h => by
    unfold tokenizeLoop
    with_reducible apply ite_ok
    · intro x hx
      simp only [Except.ok.injEq] at hx; subst hx; exact h
    · intro x hx
      simp at hx
  | fuel + 1, lx, h => by
    unfold tokenizeLoop
    with_reducible apply ite_ok
    · intro x hx
      simp only [Except.ok.injEq] at hx; subst hx; exact h
    · intro x hx
      cases hb : lx.loopBody with
      | error e => rw [hb] at hx; simp at hx
      | ok lx2 =>
        rw [hb] at hx
        exact payloadsOk_tokenizeLoop fuel lx2 (payloadsOk_loopBody _ h _ hb) x hx

theorem payloadsOk_remainingDedents (line column : Nat) :
    ∀ (stack : List Nat) (tokens : List Token), PayloadsOk tokens →
      PayloadsOk (remainingDedents line column stack tokens)
  | [], _, h => by simpa [remainingDedents] using h
  | [_], _, h => by simpa [remainingDedents] using h
  | _ :: b :: below, tokens, h => by
    unfold remainingDedents
    exact payloadsOk_remainingDedents line column (b :: below) _ (payloadsOk_append h rfl)

/-- The token vector that `tokenize` returns ends with END_OF_FILE and the
payload of each of its tokens fits the type of the token. -/
theorem tokenize_wellFormed (source : List Char) (tokens : List Token)
    (h : tokenize source = .ok tokens) :
    (∃ t, tokens.getLast? = some t ∧ t.type = .END_OF_FILE) ∧
      ∀ t ∈ tokens, Parser.payloadOk t = true := by
  unfold tokenize at h
  cases hl : tokenizeLoop source.length (Lexer.new source) with
  | error e => rw [hl] at h; simp at h
  | ok lx =>
    rw [hl] at h
    simp only [Except.ok.injEq] at h
    subst h
    have hp : PayloadsOk lx.tokens :=
      payloadsOk_tokenizeLoop _ _ (fun t ht => by simp [Lexer.new] at ht) _ hl
    have hr := payloadsOk_remainingDedents lx.line lx.column lx.indentStack lx.tokens hp
    unfold finish
    simp only
    refine ⟨⟨_, List.getLast?_concat _, rfl⟩, ?_⟩
    refine payloadsOk_append ?_ ?_
    rotate_left
    · rfl
    split
    · exact hr
    · split
      · exact payloadsOk_append hr rfl
      · exact hr

end Lexer

/-- C10: when the expression parsed to the left of `=` is not a bare variable,
`assignment` returns no expression, and on a token vector that ends with
END_OF_FILE and whose payloads fit their types it throws a `ParseError`, given
fifteen steps per token; when the expression parsed to the left of `+=`, `-=`,
`*=` or `/=` is not a bare variable, `expressionStatement` throws the
`ParseError` "Invalid assignment target" at the operator. -/
theorem C10_invalid_assignment_target (tokens : List Token) (fuel current current1 : Nat)
    (op : Token) (hop : tokens[current1]? = some op) :
    (op.type = .ASSIGN →
      Parser.nonVariableAt (Parser.orExpr tokens fuel current) current1 = true →
      (∀ r, Parser.assignment tokens (fuel + 1) current ≠ .ok r) ∧
      ((∃ t, tokens.getLast? = some t ∧ t.type = .END_OF_FILE) →
        (∀ t ∈ tokens, Parser.payloadOk t = true) → 15 * tokens.length ≤ fuel →
        ∃ what token,
          Parser.assignment tokens (fuel + 1) current = .error (.ParseError what token))) ∧
    (op.type ∈ [TokenType.PLUS_ASSIGN, .MINUS_ASSIGN, .STAR_ASSIGN, .SLASH_ASSIGN] →
      Parser.nonVariableAt (Parser.expression tokens fuel current) current1 = true →
      Parser.expressionStatement tokens fuel current =
        .error (Parser.error op "Invalid assignment target")) := by
  refine ⟨fun hy h => ?_, fun hy h => Parser.expressionStatement_nonVariable hop hy h⟩
  have hrun := Parser.assignment_nonVariable hop hy h
  refine ⟨?_, ?_⟩
  · intro r hr
    rw [hrun] at hr
    cases hv : Parser.assignment tokens fuel (current1 + 1) with
    | error e => rw [hv] at hr; cases hr
    | ok p => rw [hv] at hr; cases hr
  · intro hEnd hPay hf
    have hw := Parser.wellFormed_of_last hEnd hPay
    have hlt : current1 < tokens.length := (List.getElem?_eq_some.mp hop).1
    have hne : current1 ≠ tokens.length - 1 := by
      intro hc
      obtain ⟨t, ht, he⟩ := hw.1
      rw [← hc, hop] at ht
      cases ht
      rw [hy] at he
      cases he
    have htot := (Parser.total_all hw fuel).2.1 (current1 + 1) (by omega) (by omega)
    rw [hrun]
    cases hv : Parser.assignment tokens fuel (current1 + 1) with
    | error e =>
      rw [hv] at htot
      cases e with
      | ParseError what token => exact ⟨what, token, rfl⟩
      | bad_variant_access => exact htot.elim
      | undefinedBehaviour => exact htot.elim
      | outOfFuel => exact htot.elim
    | ok p => exact ⟨_, _, rfl⟩

namespace Parser

theorem ext_refl {α : Type} (r : Except ParseExn α) : Ext r r := ⟨fun _ => rfl⟩

theorem ext_bind {α β : Type} {x x1 : Except ParseExn α} {f f1 : α → Except ParseExn β}
    (hx : Ext x x1) (hf : ∀ a, Ext (f a) (f1 a)) : Ext (x >>= f) (x1 >>= f1) := by
  constructor
  intro h
  cases x with
  | error e =>
    have he : (Except.error e : Except ParseExn α) ≠ .error .outOfFuel := by
      intro hc
      rw [hc] at h
      exact h rfl
    rw [hx.eq he]
    rfl
  | ok a =>
    rw [hx.eq (by simp)]
    exact (hf a).eq h

theorem ext_ite {α : Type} {c : Prop} [Decidable c] {a a1 b b1 : Except ParseExn α}
    (ha : Ext a a1) (hb : Ext b b1) : Ext (if c then a else b) (if c then a1 else b1) := by
  split
  · exact ha
  · exact hb

theorem ext_oof {α : Type} (r1 : Except ParseExn α) : Ext (.error .outOfFuel) r1 :=
  ⟨fun h => absurd rfl h⟩

theorem expression_ext (tokens : List Token) : ∀ fuel, ExprExt tokens fuel := by
  intro fuel
  induction fuel with
  | zero =>
    refine ⟨?_, ?_, ?_, ?_, ?_, ?_, ?_, ?_, ?_, ?_, ?_, ?_, ?_, ?_, ?_, ?_, ?_, ?_, ?_, ?_⟩
    · intros; rw [expression]; exact ext_oof _
    · intros; rw [assignment]; exact ext_oof _
    · intros; rw [orExpr]; exact ext_oof _
    · intros; rw [orExprLoop]; exact ext_oof _
    · intros; rw [andExpr]; exact ext_oof _
    · intros; rw [andExprLoop]; exact ext_oof _
    · intros; rw [notExpr]; exact ext_oof _
    · intros; rw [comparison]; exact ext_oof _
    · intros; rw [comparisonLoop]; exact ext_oof _
    · intros; rw [term]; exact ext_oof _
    · intros; rw [termLoop]; exact ext_oof _
    · intros; rw [factor]; exact ext_oof _
    · intros; rw [factorLoop]; exact ext_oof _
    · intros; rw [unary]; exact ext_oof _
    · intros; rw [power]; exact ext_oof _
    · intros; rw [call]; exact ext_oof _
    · intros; rw [callLoop]; exact ext_oof _
    · intros; rw [finishCall]; exact ext_oof _
    · intros; rw [expressionList]; exact ext_oof _
    · intros; rw [primary]; exact ext_oof _
  | succ fuel ih =>
    obtain ⟨iexpression, iassignment, iorExpr, iorExprLoop, iandExpr, iandExprLoop, inotExpr, icomparison, icomparisonLoop, iterm, itermLoop, ifactor, ifactorLoop, iunary, ipower, icall, icallLoop, ifinishCall, iexpressionList, iprimary⟩ := ih
    refine ⟨?_, ?_, ?_, ?_, ?_, ?_, ?_, ?_, ?_, ?_, ?_, ?_, ?_, ?_, ?_, ?_, ?_, ?_, ?_, ?_⟩
    · intros
      rw [expression, expression]
      exact iassignment _
    · intros
      rw [assignment, assignment]
      repeat' first
      | exact ext_refl _
      | apply_assumption
      | apply ext_bind
      | apply ext_ite
      | intro _
    · intros
      rw [orExpr, orExpr]
      repeat' first
      | exact ext_refl _
      | apply_assumption
      | apply ext_bind
      | apply ext_ite
      | intro _
    · intros
      rw [orExprLoop, orExprLoop]
      repeat' first
      | exact ext_refl _
      | apply_assumption
      | apply ext_bind
      | apply ext_ite
      | intro _
    · intros
      rw [andExpr, andExpr]
      repeat' first
      | exact ext_refl _
      | apply_assumption
      | apply ext_bind
      | apply ext_ite
      | intro _
    · intros
      rw [andExprLoop, andExprLoop]
      repeat' first
      | exact ext_refl _
      | apply_assumption
      | apply ext_bind
      | apply ext_ite
      | intro _
    · intros
      rw [notExpr, notExpr]
      repeat' first
      | exact ext_refl _
      | apply_assumption
      | apply ext_bind
      | apply ext_ite
      | intro _
    · intros
      rw [comparison, comparison]
      repeat' first
      | exact ext_refl _
      | apply_assumption
      | apply ext_bind
      | apply ext_ite
      | intro _
    · intros
      rw [comparisonLoop, comparisonLoop]
      repeat' first
      | exact ext_refl _
      | apply_assumption
      | apply ext_bind
      | apply ext_ite
      | intro _
    · intros
      rw [term, term]
      repeat' first
      | exact ext_refl _
      | apply_assumption
      | apply ext_bind
      | apply ext_ite
      | intro _
    · intros
      rw [termLoop, termLoop]
      repeat' first
      | exact ext_refl _
      | apply_assumption
      | apply ext_bind
      | apply ext_ite
      | intro _
    · intros
      rw [factor, factor]
      repeat' first
      | exact ext_refl _
      | apply_assumption
      | apply ext_bind
      | apply ext_ite
      | intro _
    · intros
      rw [factorLoop, factorLoop]
      repeat' first
      | exact ext_refl _
      | apply_assumption
      | apply ext_bind
      | apply ext_ite
      | intro _
    · intros
      rw [unary, unary]
      repeat' first
      | exact ext_refl _
      | apply_assumption
      | apply ext_bind
      | apply ext_ite
      | intro _
    · intros
      rw [power, power]
      repeat' first
      | exact ext_refl _
      | apply_assumption
      | apply ext_bind
      | apply ext_ite
      | intro _
    · intros
      rw [call, call]
      repeat' first
      | exact ext_refl _
      | apply_assumption
      | apply ext_bind
      | apply ext_ite
      | intro _
    · intros
      rw [callLoop, callLoop]
      repeat' first
      | exact ext_refl _
      | apply_assumption
      | apply ext_bind
      | apply ext_ite
      | intro _
    · intros
      rw [finishCall, finishCall]
      repeat' first
      | exact ext_refl _
      | apply_assumption
      | apply ext_bind
      | apply ext_ite
      | intro _
    · intros
      rw [expressionList, expressionList]
      repeat' first
      | exact ext_refl _
      | apply_assumption
      | apply ext_bind
      | apply ext_ite
      | intro _
    · intros
      rw [primary, primary]
      repeat' first
      | exact ext_refl _
      | apply_assumption
      | apply ext_bind
      | apply ext_ite
      | intro _

theorem skipNewlines_ext (tokens : List Token) : ∀ fuel a,
    Ext (skipNewlines tokens fuel a) (skipNewlines tokens (fuel + 1) a)
  | 0, _ => by rw [skipNewlines]; exact ext_oof _
  | fuel + 1, a => by
    have ih := skipNewlines_ext tokens fuel
    rw [skipNewlines, skipNewlines]
    repeat' first
      | exact ext_refl _
      | apply_assumption
      | apply ext_bind
      | apply ext_ite
      | intro _

theorem parameters_ext (tokens : List Token) : ∀ fuel a b,
    Ext (parameters tokens fuel a b) (parameters tokens (fuel + 1) a b)
  | 0, _, _ => by rw [parameters]; exact ext_oof _
  | fuel + 1, a, b => by
    have ih := parameters_ext tokens fuel
    rw [parameters, parameters]
    repeat' first
      | exact ext_refl _
      | apply_assumption
      | apply ext_bind
      | apply ext_ite
      | intro _

theorem expressionStatement_ext (tokens : List Token) (fuel a : Nat) :
    Ext (expressionStatement tokens fuel a) (expressionStatement tokens (fuel + 1) a) := by
  have h := (expression_ext tokens fuel).1
  unfold expressionStatement
  repeat' first
    | exact ext_refl _
    | apply_assumption
    | apply ext_bind
    | apply ext_ite
    | intro _
    | split

theorem printStatement_ext (tokens : List Token) (fuel a : Nat) :
    Ext (printStatement tokens fuel a) (printStatement tokens (fuel + 1) a) := by
  have h := (expression_ext tokens fuel).2.2.2.2.2.2.2.2.2.2.2.2.2.2.2.2.2.2.1
  unfold printStatement
  repeat' first
    | exact ext_refl _
    | apply_assumption
    | apply ext_bind
    | apply ext_ite
    | intro _

theorem returnStatement_ext (tokens : List Token) (fuel a : Nat) :
    Ext (returnStatement tokens fuel a) (returnStatement tokens (fuel + 1) a) := by
  have h := (expression_ext tokens fuel).1
  unfold returnStatement
  repeat' first
    | exact ext_refl _
    | apply_assumption
    | apply ext_bind
    | apply ext_ite
    | intro _

theorem assertStatement_ext (tokens : List Token) (fuel a : Nat) :
    Ext (assertStatement tokens fuel a) (assertStatement tokens (fuel + 1) a) := by
  have h := (expression_ext tokens fuel).1
  unfold assertStatement
  repeat' first
    | exact ext_refl _
    | apply_assumption
    | apply ext_bind
    | apply ext_ite
    | intro _

theorem statement_ext (tokens : List Token) : ∀ fuel, StmtExt tokens fuel := by
  intro fuel
  induction fuel with
  | zero =>
    refine ⟨?_, ?_, ?_, ?_, ?_, ?_, ?_, ?_⟩
    · intros; rw [declaration]; exact ext_oof _
    · intros; rw [statement]; exact ext_oof _
    · intros; rw [ifStatement]; exact ext_oof _
    · intros; rw [elifLoop]; exact ext_oof _
    · intros; rw [whileStatement]; exact ext_oof _
    · intros; rw [functionDeclaration]; exact ext_oof _
    · intros; rw [block]; exact ext_oof _
    · intros; rw [blockLoop]; exact ext_oof _
  | succ fuel ih =>
    have hExpression := (expression_ext tokens fuel).1
    have hSkip := skipNewlines_ext tokens fuel
    have hParameters := parameters_ext tokens fuel
    have hExpressionStatement := expressionStatement_ext tokens fuel
    have hPrint := printStatement_ext tokens fuel
    have hReturn := returnStatement_ext tokens fuel
    have hAssert := assertStatement_ext tokens fuel
    obtain ⟨ideclaration, istatement, iifStatement, ielifLoop, iwhileStatement, ifunctionDeclaration, iblock, iblockLoop⟩ := ih
    refine ⟨?_, ?_, ?_, ?_, ?_, ?_, ?_, ?_⟩
    · intros
      rw [declaration, declaration]
      repeat' first
      | exact ext_refl _
      | apply_assumption
      | apply ext_bind
      | apply ext_ite
      | intro _
    · intros
      rw [statement, statement]
      repeat' first
      | exact ext_refl _
      | apply_assumption
      | apply ext_bind
      | apply ext_ite
      | intro _
    · intros
      rw [ifStatement, ifStatement]
      repeat' first
      | exact ext_refl _
      | apply_assumption
      | apply ext_bind
      | apply ext_ite
      | intro _
    · intros
      rw [elifLoop, elifLoop]
      repeat' first
      | exact ext_refl _
      | apply_assumption
      | apply ext_bind
      | apply ext_ite
      | intro _
    · intros
      rw [whileStatement, whileStatement]
      repeat' first
      | exact ext_refl _
      | apply_assumption
      | apply ext_bind
      | apply ext_ite
      | intro _
    · intros
      rw [functionDeclaration, functionDeclaration]
      repeat' first
      | exact ext_refl _
      | apply_assumption
      | apply ext_bind
      | apply ext_ite
      | intro _
    · intros
      rw [block, block]
      repeat' first
      | exact ext_refl _
      | apply_assumption
      | apply ext_bind
      | apply ext_ite
      | intro _
    · intros
      rw [blockLoop, blockLoop]
      repeat' first
      | exact ext_refl _
      | apply_assumption
      | apply ext_bind
      | apply ext_ite
      | intro _

theorem ext_le {α : Type} (g : Nat → Except ParseExn α) (h : ∀ n, Ext (g n) (g (n + 1)))
    {f0 : Nat} {r : α} (hr : g f0 = .ok r) : ∀ fuel, f0 ≤ fuel → g fuel = .ok r := by
  intro fuel hle
  induction fuel with
  | zero =>
    have : f0 = 0 := Nat.le_zero.mp hle
    rw [← this]; exact hr
  | succ n ih =>
    by_cases hn : f0 = n + 1
    · rw [← hn]; exact hr
    · have h1 := ih (by omega)
      rw [← h1]
      exact (h n).eq (by rw [h1]; simp)

theorem parse_eq_parseWith (tokens : List Token) :
    parse tokens = parseWith (parseFuel tokens) tokens := rfl

theorem parseLoop_ext (tokens : List Token) : ∀ fuel a b,
    Ext (parseLoop tokens fuel a b) (parseLoop tokens (fuel + 1) a b)
  | 0, _, _ => by rw [parseLoop]; exact ext_oof _
  | fuel + 1, a, b => by
    have ih := parseLoop_ext tokens fuel
    have hDeclaration := (statement_ext tokens fuel).1
    have hSkip := skipNewlines_ext tokens fuel
    rw [parseLoop, parseLoop]
    repeat' first
      | exact ext_refl _
      | apply_assumption
      | apply ext_bind
      | apply ext_ite
      | intro _

theorem parseWith_ext (tokens : List Token) (fuel : Nat) :
    Ext (parseWith fuel tokens) (parseWith (fuel + 1) tokens) := by
  have hLoop := parseLoop_ext tokens fuel
  have hSkip := skipNewlines_ext tokens fuel
  unfold parseWith
  repeat' first
    | exact ext_refl _
    | apply_assumption
    | apply ext_bind
    | apply ext_ite
    | intro _

theorem ext_ge {α : Type} (g : Nat → Except ParseExn α) (h : ∀ n, Ext (g n) (g (n + 1)))
    {f0 : Nat} (hr : g f0 ≠ .error .outOfFuel) : ∀ fuel, f0 ≤ fuel → g fuel = g f0 := by
  intro fuel hle
  induction fuel with
  | zero =>
    have : f0 = 0 := Nat.le_zero.mp hle
    rw [← this]
  | succ n ih =>
    by_cases hn : f0 = n + 1
    · rw [← hn]
    · have h1 := ih (by omega)
      rw [← h1]
      exact (h n).eq (by rw [h1]; exact hr)

/-- The result of `parse` is the result of a run with any smaller step budget
that is enough. -/
theorem parse_of_parseWith (tokens : List Token) (f0 : Nat)
    (hr : parseWith f0 tokens ≠ .error .outOfFuel) (hle : f0 ≤ parseFuel tokens) :
    parse tokens = parseWith f0 tokens :=
  ext_ge (fun n => parseWith n tokens) (parseWith_ext tokens) hr _ hle

theorem declaration_mono {tokens : List Token} {f0 c : Nat} {r : Stmt × Nat}
    (h : declaration tokens f0 c = .ok r) :
    ∀ fuel, f0 ≤ fuel → declaration tokens fuel c = .ok r :=
  ext_le (fun n => declaration tokens n c) (fun n => (statement_ext tokens n).1 c) h

end Parser

theorem run_of_runWithin {steps fuel : Nat} {source : String} {interpreter : Interpreter}
    {isRepl : Bool} {r : Interpreter × String × RunExit}
    (h : runWithin steps fuel source interpreter isRepl = some r) :
    run fuel source interpreter isRepl = r := by
  unfold runWithin at h
  unfold run
  cases ht : Lexer.tokenize source.data with
  | error e =>
    rw [ht] at h
    cases e <;> simpa using h
  | ok tokens =>
    rw [ht] at h
    simp only at h ⊢
    by_cases hle : steps ≤ Parser.parseFuel tokens
    · rw [if_pos hle] at h
      have hne : Parser.parseWith steps tokens ≠ .error .outOfFuel := by
        intro he
        rw [he] at h
        cases h
      have hp := Parser.parse_of_parseWith tokens steps hne hle
      rw [hp]
      have h2 : some (runParsed fuel interpreter isRepl (Parser.parseWith steps tokens)) =
          some r := by
        rw [← h]
        split
        · exact absurd ‹_› hne
        · rfl
      simp only [Option.some.injEq] at h2
      rw [← h2]
      unfold runParsed
      rfl
    · rw [if_neg hle] at h
      cases h

/-- A property of the result of `run`, decided on a run of the parser with
`steps` steps. -/
theorem run_within (steps fuel : Nat) (source : String) (interpreter : Interpreter)
    (isRepl : Bool) (P : Interpreter × String × RunExit → Prop) [DecidablePred P]
    (h : (runWithin steps fuel source interpreter isRepl).any (fun r => decide (P r)) = true) :
    P (run fuel source interpreter isRepl) := by
  cases hr : runWithin steps fuel source interpreter isRepl with
  | none => rw [hr] at h; cases h
  | some r =>
    rw [hr] at h
    rw [run_of_runWithin hr]
    simpa using h

/-- C3 (a name first assigned inside a function body is bound in the global
environment and stays bound after the call): the program defines `f` whose
body assigns `y = 5`, calls `f()` and then prints `y` at top level; the run
writes `5` and ends without any error. -/
theorem C3_function_local_leaks :
    (run 100 "def f():\n    y = 5\n    return y\nf()\nprint(y)\n" Interpreter.new false).1.stdout
        = "5\n" ∧
    (run 100 "def f():\n    y = 5\n    return y\nf()\nprint(y)\n" Interpreter.new false).2
        = ("", .returned) :=
  ⟨run_within 40 100 _ _ _ (fun r => r.1.stdout = "5\n") (by decide!),
   run_within 40 100 _ _ _ (fun r => r.2 = ("", .returned)) (by decide!)⟩

/-- C4 (`//` rounds toward minus infinity while `%` is the remainder of the
division truncated toward zero): for `a = -7` and `b = 2` the program prints
`(a // b) * b + (a % b)`, `a // b` and `a % b` as `-9`, `-4` and `-1`. -/
theorem C4_floor_division_truncated_remainder :
    (run 100 "print((-7 // 2) * 2 + (-7 % 2), -7 // 2, -7 % 2)\n" Interpreter.new false).1.stdout
      = "-9 -4 -1\n" :=
  run_within 40 100 _ _ _ (fun r => r.1.stdout = "-9 -4 -1\n") (by decide!)

/-- Witness of C10 on the token vectors of the lines `(x) = 5` and
`f(1) += 2`, with the messages that the driver prints for these lines. -/
theorem C10_invalid_assignment_target_witness :
    (∃ what token, Parser.assignment
      [⟨.LPAREN, "(", .monostate, 1, 1⟩, ⟨.IDENTIFIER, "x", .monostate, 1, 2⟩,
        ⟨.RPAREN, ")", .monostate, 1, 3⟩, ⟨.ASSIGN, "=", .monostate, 1, 5⟩,
        ⟨.INTEGER, "5", .integer 5, 1, 7⟩, ⟨.NEWLINE, "\n", .monostate, 1, 8⟩,
        ⟨.END_OF_FILE, "", .monostate, 2, 1⟩] 201 0 =
        .error (.ParseError what token)) ∧
    Parser.expressionStatement
      [⟨.IDENTIFIER, "f", .monostate, 1, 1⟩, ⟨.LPAREN, "(", .monostate, 1, 2⟩,
        ⟨.INTEGER, "1", .integer 1, 1, 3⟩, ⟨.RPAREN, ")", .monostate, 1, 4⟩,
        ⟨.PLUS_ASSIGN, "+=", .monostate, 1, 6⟩, ⟨.INTEGER, "2", .integer 2, 1, 9⟩,
        ⟨.NEWLINE, "\n", .monostate, 1, 10⟩, ⟨.END_OF_FILE, "", .monostate, 2, 1⟩] 200 0 =
        .error (Parser.error ⟨.PLUS_ASSIGN, "+=", .monostate, 1, 6⟩
          "Invalid assignment target") ∧
    (run 100 "(x) = 5\n" Interpreter.new false).2 =
      ("[line 1] Error at '=': Invalid assignment target\n", .returned) ∧
    (run 100 "f(1) += 2\n" Interpreter.new false).2 =
      ("[line 1] Error at '+=': Invalid assignment target\n", .returned) :=
  ⟨((C10_invalid_assignment_target
      [⟨.LPAREN, "(", .monostate, 1, 1⟩, ⟨.IDENTIFIER, "x", .monostate, 1, 2⟩,
        ⟨.RPAREN, ")", .monostate, 1, 3⟩, ⟨.ASSIGN, "=", .monostate, 1, 5⟩,
        ⟨.INTEGER, "5", .integer 5, 1, 7⟩, ⟨.NEWLINE, "\n", .monostate, 1, 8⟩,
        ⟨.END_OF_FILE, "", .monostate, 2, 1⟩] 200 0 3
      ⟨.ASSIGN, "=", .monostate, 1, 5⟩ (by decide!)).1 (by decide!) (by decide!)).2
      ⟨⟨.END_OF_FILE, "", .monostate, 2, 1⟩, by decide!, by decide!⟩ (by decide!) (by decide!),
    (C10_invalid_assignment_target
      [⟨.IDENTIFIER, "f", .monostate, 1, 1⟩, ⟨.LPAREN, "(", .monostate, 1, 2⟩,
        ⟨.INTEGER, "1", .integer 1, 1, 3⟩, ⟨.RPAREN, ")", .monostate, 1, 4⟩,
        ⟨.PLUS_ASSIGN, "+=", .monostate, 1, 6⟩, ⟨.INTEGER, "2", .integer 2, 1, 9⟩,
        ⟨.NEWLINE, "\n", .monostate, 1, 10⟩, ⟨.END_OF_FILE, "", .monostate, 2, 1⟩] 200 0 4
      ⟨.PLUS_ASSIGN, "+=", .monostate, 1, 6⟩ (by decide!)).2 (by decide!) (by decide!),
   run_within 40 100 _ _ _
     (fun r => r.2 = ("[line 1] Error at '=': Invalid assignment target\n", .returned)) (by decide!),
   run_within 40 100 _ _ _
     (fun r => r.2 = ("[line 1] Error at '+=': Invalid assignment target\n", .returned)) (by decide!)⟩

theorem Code.ofTokens_inj : ∀ a b : List Token, Code.ofTokens a = Code.ofTokens b → a = b
  | [], b, h => by cases b <;> simp [Code.ofTokens] at h; rfl
  | t :: ts, b, h => by
    cases b <;> simp [Code.ofTokens] at h
    rw [h.1, Code.ofTokens_inj _ _ h.2]

mutual
theorem Expr.code_inj : ∀ a b : Expr, Expr.code a = Expr.code b → a = b
  | .binaryExpr l o r, b, h => by
    cases b <;> simp [Expr.code] at h
    rw [Expr.code_inj _ _ h.1, h.2.1, Expr.code_inj _ _ h.2.2]
  | .unaryExpr o e, b, h => by
    cases b <;> simp [Expr.code] at h
    rw [h.1, Expr.code_inj _ _ h.2]
  | .literalExpr v, b, h => by
    cases b <;> simp [Expr.code] at h
    rw [h]
  | .variableExpr n, b, h => by
    cases b <;> simp [Expr.code] at h
    rw [h]
  | .assignExpr n v, b, h => by
    cases b <;> simp [Expr.code] at h
    rw [h.1, Expr.code_inj _ _ h.2]
  | .callExpr c p as, b, h => by
    cases b <;> simp [Expr.code] at h
    rw [Expr.code_inj _ _ h.1, h.2.1, Expr.codeList_inj _ _ h.2.2]
  | .groupingExpr e, b, h => by
    cases b <;> simp [Expr.code] at h
    rw [Expr.code_inj _ _ h]
theorem Expr.codeList_inj : ∀ a b : List Expr, Expr.codeList a = Expr.codeList b → a = b
  | [], b, h => by cases b <;> simp [Expr.codeList] at h; rfl
  | e :: es, b, h => by
    cases b <;> simp [Expr.codeList] at h
    rw [Expr.code_inj _ _ h.1, Expr.codeList_inj _ _ h.2]
theorem Expr.codeOption_inj : ∀ a b : Option Expr, Expr.codeOption a = Expr.codeOption b → a = b
  | Option.none, b, h => by cases b <;> simp [Expr.codeOption] at h; rfl
  | some e, b, h => by
    cases b <;> simp [Expr.codeOption] at h
    rw [Expr.code_inj _ _ h]
theorem Stmt.stmtCode_inj : ∀ a b : Stmt, Stmt.code a = Stmt.code b → a = b
  | .expressionStmt e, b, h => by
    cases b <;> simp [Stmt.code] at h
    rw [Expr.code_inj _ _ h]
  | .printStmt es, b, h => by
    cases b <;> simp [Stmt.code] at h
    rw [Expr.codeList_inj _ _ h]
  | .varStmt n e, b, h => by
    cases b <;> simp [Stmt.code] at h
    rw [h.1, Expr.code_inj _ _ h.2]
  | .blockStmt ss, b, h => by
    cases b <;> simp [Stmt.code] at h
    rw [Stmt.stmtCodeList_inj _ _ h]
  | .ifStmt c t el els, b, h => by
    cases b <;> simp [Stmt.code] at h
    rw [Expr.code_inj _ _ h.1, Stmt.stmtCode_inj _ _ h.2.1, Stmt.codeElifs_inj _ _ h.2.2.1,
      Stmt.stmtCodeOption_inj _ _ h.2.2.2]
  | .whileStmt c s, b, h => by
    cases b <;> simp [Stmt.code] at h
    rw [Expr.code_inj _ _ h.1, Stmt.stmtCode_inj _ _ h.2]
  | .functionStmt n ps s, b, h => by
    cases b <;> simp [Stmt.code] at h
    rw [h.1, Code.ofTokens_inj _ _ h.2.1, Stmt.stmtCodeList_inj _ _ h.2.2]
  | .returnStmt k v, b, h => by
    cases b <;> simp [Stmt.code] at h
    rw [h.1, Expr.codeOption_inj _ _ h.2]
  | .assertStmt k c m, b, h => by
    cases b <;> simp [Stmt.code] at h
    rw [h.1, Expr.code_inj _ _ h.2.1, Expr.codeOption_inj _ _ h.2.2]
theorem Stmt.stmtCodeList_inj : ∀ a b : List Stmt, Stmt.codeList a = Stmt.codeList b → a = b
  | [], b, h => by cases b <;> simp [Stmt.codeList] at h; rfl
  | s :: ss, b, h => by
    cases b <;> simp [Stmt.codeList] at h
    rw [Stmt.stmtCode_inj _ _ h.1, Stmt.stmtCodeList_inj _ _ h.2]
theorem Stmt.codeElifs_inj :
    ∀ a b : List (Expr × Stmt), Stmt.codeElifs a = Stmt.codeElifs b → a = b
  | [], b, h => by cases b <;> simp [Stmt.codeElifs] at h; rfl
  | (e, s) :: rest, b, h => by
    cases b with
    | nil => simp [Stmt.codeElifs] at h
    | cons p rest1 =>
      obtain ⟨e1, s1⟩ := p
      simp [Stmt.codeElifs] at h
      rw [Expr.code_inj _ _ h.1.1, Stmt.stmtCode_inj _ _ h.1.2, Stmt.codeElifs_inj _ _ h.2]
theorem Stmt.stmtCodeOption_inj : ∀ a b : Option Stmt, Stmt.codeOption a = Stmt.codeOption b → a = b
  | Option.none, b, h => by cases b <;> simp [Stmt.codeOption] at h; rfl
  | some s, b, h => by
    cases b <;> simp [Stmt.codeOption] at h
    rw [Stmt.stmtCode_inj _ _ h]
end

namespace Parser

/-! ### The grammar, level by level -/

theorem matchAny_mem {tokens : List Token} {c : Nat} {t : Token} (ht : tokens[c]? = some t)
    (he : t.type ≠ .END_OF_FILE) : ∀ tys : List TokenType, t.type ∈ tys →
    matchAny tokens c tys = .ok (true, c + 1)
  | [], h => by simp at h
  | ty :: tys, h => by
    unfold matchAny
    by_cases hy : t.type = ty
    · have h1 := matchType_true ht he
      rw [hy] at h1
      rw [h1]
      rfl
    · rw [matchType_false ht ty hy]
      simp only [ok_bind, Bool.false_eq_true, if_false]
      exact matchAny_mem ht he tys ((List.mem_cons.mp h).resolve_left hy)

theorem matchAny_not_mem {tokens : List Token} {c : Nat} {t : Token}
    (ht : tokens[c]? = some t) : ∀ tys : List TokenType, t.type ∉ tys →
    matchAny tokens c tys = .ok (false, c)
  | [], _ => rfl
  | ty :: tys, h => by
    unfold matchAny
    rw [matchType_false ht ty (fun hy => h (hy ▸ List.mem_cons_self _ _))]
    simp only [ok_bind, Bool.false_eq_true, if_false]
    exact matchAny_not_mem ht tys (fun hm => h (List.mem_cons_of_mem _ hm))

theorem consume_ok {tokens : List Token} {c : Nat} {t : Token} (ht : tokens[c]? = some t)
    (he : t.type ≠ .END_OF_FILE) (message : String) :
    consume tokens c t.type message = .ok (t, c + 1) := by
  unfold consume check isAtEnd
  simp [peek, ht, ok_bind, he, pure, Except.pure, advance_ok ht he]

theorem orExprLoop_stop {tokens : List Token} {c : Nat} {t : Token}
    (ht : tokens[c]? = some t) (hy : t.type ≠ .OR) (e : Expr) :
    ∀ fuel, 1 ≤ fuel → orExprLoop tokens fuel e c = .ok (e, c) := by
  intro fuel hle
  obtain ⟨n, rfl⟩ : ∃ n, fuel = n + 1 := ⟨fuel - 1, by omega⟩
  rw [orExprLoop, matchType_false ht .OR hy]
  rfl

theorem orExpr_stop {tokens : List Token} {c c1 f1 : Nat} {e : Expr} {t : Token}
    (h : ∀ fuel, f1 ≤ fuel → andExpr tokens fuel c = .ok (e, c1))
    (ht : tokens[c1]? = some t) (hy : t.type ≠ .OR) :
    ∀ fuel, f1 + 2 ≤ fuel → orExpr tokens fuel c = .ok (e, c1) := by
  intro fuel hle
  obtain ⟨n, rfl⟩ : ∃ n, fuel = n + 1 := ⟨fuel - 1, by omega⟩
  rw [orExpr, h n (by omega)]
  exact orExprLoop_stop ht hy e n (by omega)

theorem orExpr_binary {tokens : List Token} {c c1 c2 f1 f2 : Nat} {a b : Expr} {op t : Token}
    (h1 : ∀ fuel, f1 ≤ fuel → andExpr tokens fuel c = .ok (a, c1))
    (ho : tokens[c1]? = some op) (hop : op.type = .OR)
    (h2 : ∀ fuel, f2 ≤ fuel → andExpr tokens fuel (c1 + 1) = .ok (b, c2))
    (ht : tokens[c2]? = some t) (hy : t.type ≠ .OR) :
    ∀ fuel, f1 + f2 + 3 ≤ fuel → orExpr tokens fuel c = .ok (.binaryExpr a op b, c2) := by
  intro fuel hle
  obtain ⟨n, rfl⟩ : ∃ n, fuel = n + 2 := ⟨fuel - 2, by omega⟩
  have hm := matchType_true ho (by rw [hop]; decide)
  rw [hop] at hm
  rw [orExpr, h1 (n + 1) (by omega)]
  simp only [ok_bind]
  rw [orExprLoop, hm]
  simp only [ok_bind, if_true, previous_succ ho, h2 n (by omega)]
  exact orExprLoop_stop ht hy _ n (by omega)

theorem andExprLoop_stop {tokens : List Token} {c : Nat} {t : Token}
    (ht : tokens[c]? = some t) (hy : t.type ≠ .AND) (e : Expr) :
    ∀ fuel, 1 ≤ fuel → andExprLoop tokens fuel e c = .ok (e, c) := by
  intro fuel hle
  obtain ⟨n, rfl⟩ : ∃ n, fuel = n + 1 := ⟨fuel - 1, by omega⟩
  rw [andExprLoop, matchType_false ht .AND hy]
  rfl

theorem andExpr_stop {tokens : List Token} {c c1 f1 : Nat} {e : Expr} {t : Token}
    (h : ∀ fuel, f1 ≤ fuel → notExpr tokens fuel c = .ok (e, c1))
    (ht : tokens[c1]? = some t) (hy : t.type ≠ .AND) :
    ∀ fuel, f1 + 2 ≤ fuel → andExpr tokens fuel c = .ok (e, c1) := by
  intro fuel hle
  obtain ⟨n, rfl⟩ : ∃ n, fuel = n + 1 := ⟨fuel - 1, by omega⟩
  rw [andExpr, h n (by omega)]
  exact andExprLoop_stop ht hy e n (by omega)

theorem andExpr_binary {tokens : List Token} {c c1 c2 f1 f2 : Nat} {a b : Expr} {op t : Token}
    (h1 : ∀ fuel, f1 ≤ fuel → notExpr tokens fuel c = .ok (a, c1))
    (ho : tokens[c1]? = some op) (hop : op.type = .AND)
    (h2 : ∀ fuel, f2 ≤ fuel → notExpr tokens fuel (c1 + 1) = .ok (b, c2))
    (ht : tokens[c2]? = some t) (hy : t.type ≠ .AND) :
    ∀ fuel, f1 + f2 + 3 ≤ fuel → andExpr tokens fuel c = .ok (.binaryExpr a op b, c2) := by
  intro fuel hle
  obtain ⟨n, rfl⟩ : ∃ n, fuel = n + 2 := ⟨fuel - 2, by omega⟩
  have hm := matchType_true ho (by rw [hop]; decide)
  rw [hop] at hm
  rw [andExpr, h1 (n + 1) (by omega)]
  simp only [ok_bind]
  rw [andExprLoop, hm]
  simp only [ok_bind, if_true, previous_succ ho, h2 n (by omega)]
  exact andExprLoop_stop ht hy _ n (by omega)

theorem comparisonLoop_stop {tokens : List Token} {c : Nat} {t : Token}
    (ht : tokens[c]? = some t) (hy : t.type ∉ [.LT, .LE, .GT, .GE, .EQ, .NE]) (e : Expr) :
    ∀ fuel, 1 ≤ fuel → comparisonLoop tokens fuel e c = .ok (e, c) := by
  intro fuel hle
  obtain ⟨n, rfl⟩ : ∃ n, fuel = n + 1 := ⟨fuel - 1, by omega⟩
  rw [comparisonLoop, matchAny_not_mem ht _ hy]
  rfl

theorem comparison_stop {tokens : List Token} {c c1 f1 : Nat} {e : Expr} {t : Token}
    (h : ∀ fuel, f1 ≤ fuel → term tokens fuel c = .ok (e, c1))
    (ht : tokens[c1]? = some t) (hy : t.type ∉ [.LT, .LE, .GT, .GE, .EQ, .NE]) :
    ∀ fuel, f1 + 2 ≤ fuel → comparison tokens fuel c = .ok (e, c1) := by
  intro fuel hle
  obtain ⟨n, rfl⟩ : ∃ n, fuel = n + 1 := ⟨fuel - 1, by omega⟩
  rw [comparison, h n (by omega)]
  exact comparisonLoop_stop ht hy e n (by omega)

theorem comparison_binary {tokens : List Token} {c c1 c2 f1 f2 : Nat} {a b : Expr} {op t : Token}
    (h1 : ∀ fuel, f1 ≤ fuel → term tokens fuel c = .ok (a, c1))
    (ho : tokens[c1]? = some op) (hop : op.type ∈ [.LT, .LE, .GT, .GE, .EQ, .NE])
    (h2 : ∀ fuel, f2 ≤ fuel → term tokens fuel (c1 + 1) = .ok (b, c2))
    (ht : tokens[c2]? = some t) (hy : t.type ∉ [.LT, .LE, .GT, .GE, .EQ, .NE]) :
    ∀ fuel, f1 + f2 + 3 ≤ fuel → comparison tokens fuel c = .ok (.binaryExpr a op b, c2) := by
  intro fuel hle
  obtain ⟨n, rfl⟩ : ∃ n, fuel = n + 2 := ⟨fuel - 2, by omega⟩
  have hm := matchAny_mem ho (by
    intro he; rw [he] at hop; revert hop; decide) _ hop
  rw [comparison, h1 (n + 1) (by omega)]
  simp only [ok_bind]
  rw [comparisonLoop, hm]
  simp only [ok_bind, if_true, previous_succ ho, h2 n (by omega)]
  exact comparisonLoop_stop ht hy _ n (by omega)

theorem termLoop_stop {tokens : List Token} {c : Nat} {t : Token}
    (ht : tokens[c]? = some t) (hy : t.type ∉ [.PLUS, .MINUS]) (e : Expr) :
    ∀ fuel, 1 ≤ fuel → termLoop tokens fuel e c = .ok (e, c) := by
  intro fuel hle
  obtain ⟨n, rfl⟩ : ∃ n, fuel = n + 1 := ⟨fuel - 1, by omega⟩
  rw [termLoop, matchAny_not_mem ht _ hy]
  rfl

theorem term_stop {tokens : List Token} {c c1 f1 : Nat} {e : Expr} {t : Token}
    (h : ∀ fuel, f1 ≤ fuel → factor tokens fuel c = .ok (e, c1))
    (ht : tokens[c1]? = some t) (hy : t.type ∉ [.PLUS, .MINUS]) :
    ∀ fuel, f1 + 2 ≤ fuel → term tokens fuel c = .ok (e, c1) := by
  intro fuel hle
  obtain ⟨n, rfl⟩ : ∃ n, fuel = n + 1 := ⟨fuel - 1, by omega⟩
  rw [term, h n (by omega)]
  exact termLoop_stop ht hy e n (by omega)

theorem term_binary {tokens : List Token} {c c1 c2 f1 f2 : Nat} {a b : Expr} {op t : Token}
    (h1 : ∀ fuel, f1 ≤ fuel → factor tokens fuel c = .ok (a, c1))
    (ho : tokens[c1]? = some op) (hop : op.type ∈ [.PLUS, .MINUS])
    (h2 : ∀ fuel, f2 ≤ fuel → factor tokens fuel (c1 + 1) = .ok (b, c2))
    (ht : tokens[c2]? = some t) (hy : t.type ∉ [.PLUS, .MINUS]) :
    ∀ fuel, f1 + f2 + 3 ≤ fuel → term tokens fuel c = .ok (.binaryExpr a op b, c2) := by
  intro fuel hle
  obtain ⟨n, rfl⟩ : ∃ n, fuel = n + 2 := ⟨fuel - 2, by omega⟩
  have hm := matchAny_mem ho (by
    intro he; rw [he] at hop; revert hop; decide) _ hop
  rw [term, h1 (n + 1) (by omega)]
  simp only [ok_bind]
  rw [termLoop, hm]
  simp only [ok_bind, if_true, previous_succ ho, h2 n (by omega)]
  exact termLoop_stop ht hy _ n (by omega)

theorem factorLoop_stop {tokens : List Token} {c : Nat} {t : Token}
    (ht : tokens[c]? = some t) (hy : t.type ∉ [.STAR, .SLASH, .DOUBLE_SLASH, .PERCENT]) (e : Expr) :
    ∀ fuel, 1 ≤ fuel → factorLoop tokens fuel e c = .ok (e, c) := by
  intro fuel hle
  obtain ⟨n, rfl⟩ : ∃ n, fuel = n + 1 := ⟨fuel - 1, by omega⟩
  rw [factorLoop, matchAny_not_mem ht _ hy]
  rfl

theorem factor_stop {tokens : List Token} {c c1 f1 : Nat} {e : Expr} {t : Token}
    (h : ∀ fuel, f1 ≤ fuel → unary tokens fuel c = .ok (e, c1))
    (ht : tokens[c1]? = some t) (hy : t.type ∉ [.STAR, .SLASH, .DOUBLE_SLASH, .PERCENT]) :
    ∀ fuel, f1 + 2 ≤ fuel → factor tokens fuel c = .ok (e, c1) := by
  intro fuel hle
  obtain ⟨n, rfl⟩ : ∃ n, fuel = n + 1 := ⟨fuel - 1, by omega⟩
  rw [factor, h n (by omega)]
  exact factorLoop_stop ht hy e n (by omega)

theorem factor_binary {tokens : List Token} {c c1 c2 f1 f2 : Nat} {a b : Expr} {op t : Token}
    (h1 : ∀ fuel, f1 ≤ fuel → unary tokens fuel c = .ok (a, c1))
    (ho : tokens[c1]? = some op) (hop : op.type ∈ [.STAR, .SLASH, .DOUBLE_SLASH, .PERCENT])
    (h2 : ∀ fuel, f2 ≤ fuel → unary tokens fuel (c1 + 1) = .ok (b, c2))
    (ht : tokens[c2]? = some t) (hy : t.type ∉ [.STAR, .SLASH, .DOUBLE_SLASH, .PERCENT]) :
    ∀ fuel, f1 + f2 + 3 ≤ fuel → factor tokens fuel c = .ok (.binaryExpr a op b, c2) := by
  intro fuel hle
  obtain ⟨n, rfl⟩ : ∃ n, fuel = n + 2 := ⟨fuel - 2, by omega⟩
  have hm := matchAny_mem ho (by
    intro he; rw [he] at hop; revert hop; decide) _ hop
  rw [factor, h1 (n + 1) (by omega)]
  simp only [ok_bind]
  rw [factorLoop, hm]
  simp only [ok_bind, if_true, previous_succ ho, h2 n (by omega)]
  exact factorLoop_stop ht hy _ n (by omega)

theorem notExpr_stop {tokens : List Token} {c c1 f1 : Nat} {e : Expr} {t0 : Token}
    (h0 : tokens[c]? = some t0) (hn : t0.type ≠ .NOT)
    (h : ∀ fuel, f1 ≤ fuel → comparison tokens fuel c = .ok (e, c1)) :
    ∀ fuel, f1 + 1 ≤ fuel → notExpr tokens fuel c = .ok (e, c1) := by
  intro fuel hle
  obtain ⟨n, rfl⟩ : ∃ n, fuel = n + 1 := ⟨fuel - 1, by omega⟩
  rw [notExpr, matchType_false h0 .NOT hn]
  simp only [ok_bind, Bool.false_eq_true, if_false]
  exact h n (by omega)

theorem unary_stop {tokens : List Token} {c c1 f1 : Nat} {e : Expr} {t0 : Token}
    (h0 : tokens[c]? = some t0) (hn : t0.type ≠ .MINUS)
    (h : ∀ fuel, f1 ≤ fuel → power tokens fuel c = .ok (e, c1)) :
    ∀ fuel, f1 + 1 ≤ fuel → unary tokens fuel c = .ok (e, c1) := by
  intro fuel hle
  obtain ⟨n, rfl⟩ : ∃ n, fuel = n + 1 := ⟨fuel - 1, by omega⟩
  rw [unary, matchType_false h0 .MINUS hn]
  simp only [ok_bind, Bool.false_eq_true, if_false]
  exact h n (by omega)

theorem unary_minus {tokens : List Token} {c c2 f1 : Nat} {e : Expr} {op : Token}
    (ho : tokens[c]? = some op) (hop : op.type = .MINUS)
    (h : ∀ fuel, f1 ≤ fuel → unary tokens fuel (c + 1) = .ok (e, c2)) :
    ∀ fuel, f1 + 1 ≤ fuel → unary tokens fuel c = .ok (.unaryExpr op e, c2) := by
  intro fuel hle
  obtain ⟨n, rfl⟩ : ∃ n, fuel = n + 1 := ⟨fuel - 1, by omega⟩
  have hm := matchType_true ho (by rw [hop]; decide)
  rw [hop] at hm
  rw [unary, hm]
  simp only [ok_bind, if_true, previous_succ ho, h n (by omega)]
  rfl

theorem power_stop {tokens : List Token} {c c1 f1 : Nat} {e : Expr} {t : Token}
    (h : ∀ fuel, f1 ≤ fuel → call tokens fuel c = .ok (e, c1))
    (ht : tokens[c1]? = some t) (hy : t.type ≠ .DOUBLE_STAR) :
    ∀ fuel, f1 + 1 ≤ fuel → power tokens fuel c = .ok (e, c1) := by
  intro fuel hle
  obtain ⟨n, rfl⟩ : ∃ n, fuel = n + 1 := ⟨fuel - 1, by omega⟩
  rw [power, h n (by omega)]
  simp only [ok_bind, matchType_false ht .DOUBLE_STAR hy, Bool.false_eq_true, if_false]
  rfl

theorem power_binary {tokens : List Token} {c c1 c2 f1 f2 : Nat} {a b : Expr} {op : Token}
    (h1 : ∀ fuel, f1 ≤ fuel → call tokens fuel c = .ok (a, c1))
    (ho : tokens[c1]? = some op) (hop : op.type = .DOUBLE_STAR)
    (h2 : ∀ fuel, f2 ≤ fuel → unary tokens fuel (c1 + 1) = .ok (b, c2)) :
    ∀ fuel, f1 + f2 + 1 ≤ fuel → power tokens fuel c = .ok (.binaryExpr a op b, c2) := by
  intro fuel hle
  obtain ⟨n, rfl⟩ : ∃ n, fuel = n + 1 := ⟨fuel - 1, by omega⟩
  have hm := matchType_true ho (by rw [hop]; decide)
  rw [hop] at hm
  rw [power, h1 n (by omega)]
  simp only [ok_bind, hm, if_true, previous_succ ho, h2 n (by omega)]
  rfl

theorem callLoop_stop {tokens : List Token} {c : Nat} {t : Token}
    (ht : tokens[c]? = some t) (hy : t.type ≠ .LPAREN) (e : Expr) :
    ∀ fuel, 1 ≤ fuel → callLoop tokens fuel e c = .ok (e, c) := by
  intro fuel hle
  obtain ⟨n, rfl⟩ : ∃ n, fuel = n + 1 := ⟨fuel - 1, by omega⟩
  rw [callLoop, matchType_false ht .LPAREN hy]
  rfl

theorem call_stop {tokens : List Token} {c c1 f1 : Nat} {e : Expr} {t : Token}
    (h : ∀ fuel, f1 ≤ fuel → primary tokens fuel c = .ok (e, c1))
    (ht : tokens[c1]? = some t) (hy : t.type ≠ .LPAREN) :
    ∀ fuel, f1 + 2 ≤ fuel → call tokens fuel c = .ok (e, c1) := by
  intro fuel hle
  obtain ⟨n, rfl⟩ : ∃ n, fuel = n + 1 := ⟨fuel - 1, by omega⟩
  rw [call, h n (by omega)]
  exact callLoop_stop ht hy e n (by omega)

theorem assignment_stop {tokens : List Token} {c c1 f1 : Nat} {e : Expr} {t : Token}
    (h : ∀ fuel, f1 ≤ fuel → orExpr tokens fuel c = .ok (e, c1))
    (ht : tokens[c1]? = some t) (hy : t.type ≠ .ASSIGN) :
    ∀ fuel, f1 + 1 ≤ fuel → assignment tokens fuel c = .ok (e, c1) := by
  intro fuel hle
  obtain ⟨n, rfl⟩ : ∃ n, fuel = n + 1 := ⟨fuel - 1, by omega⟩
  rw [assignment, h n (by omega)]
  simp only [ok_bind, matchType_false ht .ASSIGN hy, Bool.false_eq_true, if_false]
  rfl

theorem expression_of_assignment {tokens : List Token} {c c1 f1 : Nat} {e : Expr}
    (h : ∀ fuel, f1 ≤ fuel → assignment tokens fuel c = .ok (e, c1)) :
    ∀ fuel, f1 + 1 ≤ fuel → expression tokens fuel c = .ok (e, c1) := by
  intro fuel hle
  obtain ⟨n, rfl⟩ : ∃ n, fuel = n + 1 := ⟨fuel - 1, by omega⟩
  rw [expression]
  exact h n (by omega)

/-- An expression of the level of `term` in front of a token that is no
comparison operator, `and`, `or` or `=` is a whole expression. -/
theorem expression_of_term {tokens : List Token} {c c1 f1 : Nat} {e : Expr} {t0 t : Token}
    (h0 : tokens[c]? = some t0) (hn : t0.type ≠ .NOT)
    (h : ∀ fuel, f1 ≤ fuel → term tokens fuel c = .ok (e, c1))
    (ht : tokens[c1]? = some t)
    (hy : t.type ∉ [TokenType.LT, .LE, .GT, .GE, .EQ, .NE, .AND, .OR, .ASSIGN]) :
    ∀ fuel, f1 + 9 ≤ fuel → expression tokens fuel c = .ok (e, c1) := by
  have hc := comparison_stop h ht (fun hm => hy (by
    revert hm; generalize t.type = x; revert x; decide))
  have hnot := notExpr_stop h0 hn hc
  have hand := andExpr_stop hnot ht (fun hm => hy (by rw [hm]; decide))
  have hor := orExpr_stop hand ht (fun hm => hy (by rw [hm]; decide))
  have has := assignment_stop hor ht (fun hm => hy (by rw [hm]; decide))
  intro fuel hle
  exact expression_of_assignment has fuel (by omega)

/-- An expression of the level of `unary` in front of a token that is no
operator of `factor` or `term` is an expression of the level of `term`. -/
theorem term_of_unary {tokens : List Token} {c c1 f1 : Nat} {e : Expr} {t : Token}
    (h : ∀ fuel, f1 ≤ fuel → unary tokens fuel c = .ok (e, c1))
    (ht : tokens[c1]? = some t)
    (hy : t.type ∉ [TokenType.STAR, .SLASH, .DOUBLE_SLASH, .PERCENT, .PLUS, .MINUS]) :
    ∀ fuel, f1 + 4 ≤ fuel → term tokens fuel c = .ok (e, c1) := by
  have hf := factor_stop h ht (fun hm => hy (by
    revert hm; generalize t.type = x; revert x; decide))
  have htm := term_stop hf ht (fun hm => hy (by
    revert hm; generalize t.type = x; revert x; decide))
  intro fuel hle
  exact htm fuel (by omega)

/-- A primary in front of a token that is neither `(` nor `**` is an
expression of the level of `unary`. -/
theorem unary_of_primary {tokens : List Token} {c c1 f1 : Nat} {e : Expr} {t0 t : Token}
    (h0 : tokens[c]? = some t0) (hn : t0.type ≠ .MINUS)
    (h : ∀ fuel, f1 ≤ fuel → primary tokens fuel c = .ok (e, c1))
    (ht : tokens[c1]? = some t) (hy : t.type ∉ [TokenType.LPAREN, .DOUBLE_STAR]) :
    ∀ fuel, f1 + 4 ≤ fuel → unary tokens fuel c = .ok (e, c1) := by
  have hc := call_stop h ht (fun hm => hy (by rw [hm]; decide))
  have hp := power_stop hc ht (fun hm => hy (by rw [hm]; decide))
  have hu := unary_stop h0 hn hp
  intro fuel hle
  exact hu fuel (by omega)

/-! ### Primaries -/

theorem primary_numeric {tokens : List Token} {c : Nat} {t : Token} {v : PyValue}
    (ht : tokens[c]? = some t) (hv : NumericLiteral t v) :
    ∀ fuel, 1 ≤ fuel → primary tokens fuel c = .ok (.literalExpr v, c + 1) := by
  intro fuel hle
  obtain ⟨n, rfl⟩ : ∃ n, fuel = n + 1 := ⟨fuel - 1, by omega⟩
  rcases hv with ⟨hy, i, hl, rfl⟩ | ⟨hy, d, hl, rfl⟩
  · have hm := matchType_true ht (by rw [hy]; decide)
    rw [hy] at hm
    rw [primary]
    simp only [matchType_false ht .TRUE (by rw [hy]; decide),
      matchType_false ht .FALSE (by rw [hy]; decide),
      matchType_false ht .NONE (by rw [hy]; decide), hm, ok_bind, Bool.false_eq_true, if_false,
      if_true, previous_succ ht, getInteger, hl]
    rfl
  · have hm := matchType_true ht (by rw [hy]; decide)
    rw [hy] at hm
    rw [primary]
    simp only [matchType_false ht .TRUE (by rw [hy]; decide),
      matchType_false ht .FALSE (by rw [hy]; decide),
      matchType_false ht .NONE (by rw [hy]; decide),
      matchType_false ht .INTEGER (by rw [hy]; decide), hm, ok_bind, Bool.false_eq_true,
      if_false, if_true, previous_succ ht, getDouble, hl]
    rfl

theorem primary_identifier {tokens : List Token} {c : Nat} {t : Token}
    (ht : tokens[c]? = some t) (hy : t.type = .IDENTIFIER) :
    ∀ fuel, 1 ≤ fuel → primary tokens fuel c = .ok (.variableExpr t, c + 1) := by
  intro fuel hle
  obtain ⟨n, rfl⟩ : ∃ n, fuel = n + 1 := ⟨fuel - 1, by omega⟩
  have hm := matchType_true ht (by rw [hy]; decide)
  rw [hy] at hm
  rw [primary]
  simp only [matchType_false ht .TRUE (by rw [hy]; decide),
    matchType_false ht .FALSE (by rw [hy]; decide),
    matchType_false ht .NONE (by rw [hy]; decide),
    matchType_false ht .INTEGER (by rw [hy]; decide),
    matchType_false ht .FLOAT (by rw [hy]; decide),
    matchType_false ht .STRING (by rw [hy]; decide), hm, ok_bind, Bool.false_eq_true,
    if_false, if_true, previous_succ ht]
  rfl

theorem primary_grouping {tokens : List Token} {c c2 f1 : Nat} {e : Expr} {t r : Token}
    (ht : tokens[c]? = some t) (hy : t.type = .LPAREN)
    (h : ∀ fuel, f1 ≤ fuel → expression tokens fuel (c + 1) = .ok (e, c2))
    (hr : tokens[c2]? = some r) (hry : r.type = .RPAREN) :
    ∀ fuel, f1 + 1 ≤ fuel → primary tokens fuel c = .ok (.groupingExpr e, c2 + 1) := by
  intro fuel hle
  obtain ⟨n, rfl⟩ : ∃ n, fuel = n + 1 := ⟨fuel - 1, by omega⟩
  have hm := matchType_true ht (by rw [hy]; decide)
  rw [hy] at hm
  have hc := consume_ok hr (by rw [hry]; decide) "Expected ')' after expression"
  rw [hry] at hc
  rw [primary]
  simp only [matchType_false ht .TRUE (by rw [hy]; decide),
    matchType_false ht .FALSE (by rw [hy]; decide),
    matchType_false ht .NONE (by rw [hy]; decide),
    matchType_false ht .INTEGER (by rw [hy]; decide),
    matchType_false ht .FLOAT (by rw [hy]; decide),
    matchType_false ht .STRING (by rw [hy]; decide),
    matchType_false ht .IDENTIFIER (by rw [hy]; decide), hm, ok_bind, Bool.false_eq_true,
    if_false, if_true, h n (by omega), hc]
  rfl

/-- A primary never starts with `-` or `not`. -/
theorem primary_first {tokens : List Token} {fuel c : Nat} {r : Expr × Nat}
    (h : primary tokens fuel c = .ok r) :
    ∃ t, tokens[c]? = some t ∧ t.type ≠ .MINUS ∧ t.type ≠ .NOT := by
  cases fuel with
  | zero => rw [primary] at h; cases h
  | succ n =>
    cases ht : tokens[c]? with
    | none =>
      rw [primary] at h
      simp [matchType, check, isAtEnd, peek, ht, bind, Except.bind] at h
    | some t =>
      refine ⟨t, rfl, ?_, ?_⟩ <;>
      · intro hy
        rw [primary] at h
        simp only [matchType_false ht .TRUE (by rw [hy]; decide),
          matchType_false ht .FALSE (by rw [hy]; decide),
          matchType_false ht .NONE (by rw [hy]; decide),
          matchType_false ht .INTEGER (by rw [hy]; decide),
          matchType_false ht .FLOAT (by rw [hy]; decide),
          matchType_false ht .STRING (by rw [hy]; decide),
          matchType_false ht .IDENTIFIER (by rw [hy]; decide),
          matchType_false ht .LPAREN (by rw [hy]; decide), ok_bind, Bool.false_eq_true,
          if_false, peek, ht] at h
        cases h

/-! ### More steps, same result -/

theorem expression_mono {tokens : List Token} {f0 c : Nat} {r : Expr × Nat}
    (h : expression tokens f0 c = .ok r) : ∀ fuel, f0 ≤ fuel → expression tokens fuel c = .ok r :=
  ext_le (fun n => expression tokens n c) (fun n => (expression_ext tokens n).1 c) h

theorem primary_mono {tokens : List Token} {f0 c : Nat} {r : Expr × Nat}
    (h : primary tokens f0 c = .ok r) : ∀ fuel, f0 ≤ fuel → primary tokens fuel c = .ok r :=
  ext_le (fun n => primary tokens n c)
    (fun n => (expression_ext tokens n).2.2.2.2.2.2.2.2.2.2.2.2.2.2.2.2.2.2.2 c) h

theorem block_mono {tokens : List Token} {f0 c : Nat} {r : List Stmt × Nat}
    (h : block tokens f0 c = .ok r) : ∀ fuel, f0 ≤ fuel → block tokens fuel c = .ok r :=
  ext_le (fun n => block tokens n c) (fun n => (statement_ext tokens n).2.2.2.2.2.2.1 c) h

/-! ### Results compared through their codes -/

theorem ok_of_code {r : Except ParseExn (Expr × Nat)} {e : Expr} {c : Nat}
    (h : r.map (fun p => (p.1.code, p.2)) = .ok (e.code, c)) : r = .ok (e, c) := by
  cases r with
  | error x => cases h
  | ok p =>
    obtain ⟨e1, c1⟩ := p
    simp only [Except.map, Except.ok.injEq, Prod.mk.injEq] at h
    rw [Expr.code_inj _ _ h.1, h.2]

theorem ok_of_codeList {r : Except ParseExn (List Stmt × Nat)} {ss : List Stmt} {c : Nat}
    (h : r.map (fun p => (Stmt.codeList p.1, p.2)) = .ok (Stmt.codeList ss, c)) :
    r = .ok (ss, c) := by
  cases r with
  | error x => cases h
  | ok p =>
    obtain ⟨e1, c1⟩ := p
    simp only [Except.map, Except.ok.injEq, Prod.mk.injEq] at h
    rw [Stmt.stmtCodeList_inj _ _ h.1, h.2]

/-! ### Compound assignment -/

theorem statement_of_identifier {tokens : List Token} {c : Nat} {x : Token}
    (hx : tokens[c]? = some x) (hxy : x.type = .IDENTIFIER) (fuel : Nat) :
    statement tokens (fuel + 1) c = expressionStatement tokens fuel c := by
  rw [statement]
  simp only [matchType_false hx .PRINT (by rw [hxy]; decide),
    matchType_false hx .IF (by rw [hxy]; decide),
    matchType_false hx .WHILE (by rw [hxy]; decide),
    matchType_false hx .RETURN (by rw [hxy]; decide),
    matchType_false hx .ASSERT (by rw [hxy]; decide), ok_bind, Bool.false_eq_true, if_false]

theorem expression_identifier {tokens : List Token} {c : Nat} {x t : Token}
    (hx : tokens[c]? = some x) (hxy : x.type = .IDENTIFIER)
    (ht : tokens[c + 1]? = some t) (hy : t.type ∉ operatorTypes) :
    ∀ fuel, 18 ≤ fuel → expression tokens fuel c = .ok (.variableExpr x, c + 1) := by
  have hu := unary_of_primary hx (by rw [hxy]; decide) (primary_identifier hx hxy) ht
    (fun hm => hy (by revert hm; generalize t.type = y; revert y; decide))
  have htm := term_of_unary hu ht
    (fun hm => hy (by revert hm; generalize t.type = y; revert y; decide))
  have he := expression_of_term hx (by rw [hxy]; decide) htm ht
    (fun hm => hy (by revert hm; generalize t.type = y; revert y; decide))
  intro fuel hle
  exact he fuel (by omega)

theorem expressionStatement_compound {tokens : List Token} {c c3 f1 : Nat}
    {x op nl : Token} {E : Expr}
    (hx : tokens[c]? = some x) (hxy : x.type = .IDENTIFIER)
    (hop : tokens[c + 1]? = some op)
    (hoy : op.type ∈ [TokenType.PLUS_ASSIGN, .MINUS_ASSIGN, .STAR_ASSIGN, .SLASH_ASSIGN])
    (hE : expression tokens f1 (c + 2) = .ok (E, c3))
    (hnl : tokens[c3]? = some nl) (hny : nl.type = .NEWLINE) :
    ∀ fuel, f1 + 18 ≤ fuel → expressionStatement tokens fuel c =
      .ok (.expressionStmt (.assignExpr x (.binaryExpr (.variableExpr x)
        ⟨binOp op.type, String.mk (op.lexeme.data.take 1), .monostate, op.line, op.column⟩ E)),
        c3 + 1) := by
  intro fuel hle
  have h1 := expression_identifier hx hxy hop (by
    revert hoy; generalize op.type = y; revert y; decide) fuel (by omega)
  have h2 := expression_mono hE fuel (by omega)
  have hc := consume_ok hnl (by rw [hny]; decide) "Expected newline after statement"
  rw [hny] at hc
  unfold expressionStatement
  simp only [h1, ok_bind, matchAny_compound hop hoy, if_true, previous_succ hop, asVariable,
    h2, hc]
  rfl

theorem numericLiteral_type {t : Token} {v : PyValue} (h : NumericLiteral t v) :
    t.type ≠ .MINUS ∧ t.type ≠ .NOT := by
  rcases h with ⟨hy, _⟩ | ⟨hy, _⟩ <;> rw [hy] <;> decide

theorem unary_numeric {tokens : List Token} {c : Nat} {a t : Token} {v : PyValue}
    (ha : tokens[c]? = some a) (hv : NumericLiteral a v) (ht : tokens[c + 1]? = some t)
    (hy : t.type ∉ [TokenType.LPAREN, .DOUBLE_STAR]) :
    ∀ fuel, 5 ≤ fuel → unary tokens fuel c = .ok (.literalExpr v, c + 1) :=
  unary_of_primary ha (numericLiteral_type hv).1 (primary_numeric ha hv) ht hy

end Parser

/-- C11: a statement made of an identifier `x`, a compound operator `op` and an
expression that `expression` parses to `E` in front of a NEWLINE is parsed by
`expressionStatement`, and by `statement`, to the expression statement of
`Assign(x, Binary(Variable x, t, E))`, where `t` has the type PLUS, MINUS, STAR
or SLASH that belongs to `+=`, `-=`, `*=` or `/=`, and the line and column of
`op`. -/
theorem C11_compound_assignment_desugars (tokens : List Token) (c c3 f1 : Nat)
    (x op nl : Token) (ty : TokenType) (E : Expr)
    (hx : tokens[c]? = some x) (hxy : x.type = .IDENTIFIER)
    (hop : tokens[c + 1]? = some op)
    (hoy : (op.type, ty) ∈ [(TokenType.PLUS_ASSIGN, TokenType.PLUS), (.MINUS_ASSIGN, .MINUS),
      (.STAR_ASSIGN, .STAR), (.SLASH_ASSIGN, .SLASH)])
    (hE : Parser.expression tokens f1 (c + 2) = .ok (E, c3))
    (hnl : tokens[c3]? = some nl) (hny : nl.type = .NEWLINE)
    (fuel : Nat) (hf : f1 + 18 ≤ fuel) :
    Parser.expressionStatement tokens fuel c =
      .ok (.expressionStmt (.assignExpr x (.binaryExpr (.variableExpr x)
        ⟨ty, String.mk (op.lexeme.data.take 1), .monostate, op.line, op.column⟩ E)),
        c3 + 1) ∧
    Parser.statement tokens (fuel + 1) c = Parser.expressionStatement tokens fuel c := by
  have hb : op.type ∈ [TokenType.PLUS_ASSIGN, .MINUS_ASSIGN, .STAR_ASSIGN, .SLASH_ASSIGN] ∧
      Parser.binOp op.type = ty := by
    simp only [List.mem_cons, Prod.mk.injEq, List.mem_singleton, List.not_mem_nil,
      or_false] at hoy
    rcases hoy with ⟨h1, h2⟩ | ⟨h1, h2⟩ | ⟨h1, h2⟩ | ⟨h1, h2⟩ <;>
      · rw [h1, h2]
        exact ⟨by decide, rfl⟩
  have h := Parser.expressionStatement_compound hx hxy hop hb.1 hE hnl hny fuel hf
  rw [hb.2] at h
  exact ⟨h, Parser.statement_of_identifier hx hxy fuel⟩

/-- Witness of C11 on the tokens of the line `x *= a + b`: the value is the
whole sum, and a program that runs the statement prints 14 for `x = 2`,
`x *= 3 + 4`. -/
theorem C11_compound_assignment_desugars_witness :
    Lexer.tokenize "x *= a + b\n".data = .ok
      [⟨.IDENTIFIER, "x", .monostate, 1, 1⟩, ⟨.STAR_ASSIGN, "*=", .monostate, 1, 3⟩,
       ⟨.IDENTIFIER, "a", .monostate, 1, 6⟩, ⟨.PLUS, "+", .monostate, 1, 8⟩,
       ⟨.IDENTIFIER, "b", .monostate, 1, 10⟩, ⟨.NEWLINE, "\n", .monostate, 1, 11⟩,
       ⟨.END_OF_FILE, "", .monostate, 2, 1⟩] ∧
    Parser.expressionStatement
      [⟨.IDENTIFIER, "x", .monostate, 1, 1⟩, ⟨.STAR_ASSIGN, "*=", .monostate, 1, 3⟩,
       ⟨.IDENTIFIER, "a", .monostate, 1, 6⟩, ⟨.PLUS, "+", .monostate, 1, 8⟩,
       ⟨.IDENTIFIER, "b", .monostate, 1, 10⟩, ⟨.NEWLINE, "\n", .monostate, 1, 11⟩,
       ⟨.END_OF_FILE, "", .monostate, 2, 1⟩] 40 0 =
      .ok (.expressionStmt (.assignExpr ⟨.IDENTIFIER, "x", .monostate, 1, 1⟩
        (.binaryExpr (.variableExpr ⟨.IDENTIFIER, "x", .monostate, 1, 1⟩)
          ⟨.STAR, "*", .monostate, 1, 3⟩
          (.binaryExpr (.variableExpr ⟨.IDENTIFIER, "a", .monostate, 1, 6⟩)
            ⟨.PLUS, "+", .monostate, 1, 8⟩
            (.variableExpr ⟨.IDENTIFIER, "b", .monostate, 1, 10⟩)))), 6) ∧
    (run 100 "x = 2\nx *= 3 + 4\nprint(x)\n" Interpreter.new false).1.stdout = "14\n" :=
  ⟨by decide!,
   (C11_compound_assignment_desugars
      [⟨.IDENTIFIER, "x", .monostate, 1, 1⟩, ⟨.STAR_ASSIGN, "*=", .monostate, 1, 3⟩,
       ⟨.IDENTIFIER, "a", .monostate, 1, 6⟩, ⟨.PLUS, "+", .monostate, 1, 8⟩,
       ⟨.IDENTIFIER, "b", .monostate, 1, 10⟩, ⟨.NEWLINE, "\n", .monostate, 1, 11⟩,
       ⟨.END_OF_FILE, "", .monostate, 2, 1⟩] 0 5 20
      ⟨.IDENTIFIER, "x", .monostate, 1, 1⟩ ⟨.STAR_ASSIGN, "*=", .monostate, 1, 3⟩
      ⟨.NEWLINE, "\n", .monostate, 1, 11⟩ .STAR
      (.binaryExpr (.variableExpr ⟨.IDENTIFIER, "a", .monostate, 1, 6⟩)
        ⟨.PLUS, "+", .monostate, 1, 8⟩ (.variableExpr ⟨.IDENTIFIER, "b", .monostate, 1, 10⟩))
      (by decide!) (by decide!) (by decide!) (by decide!)
      (Parser.ok_of_code (by decide!)) (by decide!) (by decide!) 40 (by decide)).1,
   run_within 40 100 _ _ _ (fun r => r.1.stdout = "14\n") (by decide!)⟩

/-- C12: five tokens `a + b * c` with numeric literals `a`, `b`, `c`, in front
of a token that does not continue an expression, are parsed by `expression` to
the PLUS node of the literal `a` and the STAR node of the literals `b` and
`c`. -/
theorem C12_star_binds_tighter_than_plus (tokens : List Token) (c : Nat)
    (a plus b star d t : Token) (va vb vd : PyValue)
    (ha : tokens[c]? = some a) (hva : Parser.NumericLiteral a va)
    (hp : tokens[c + 1]? = some plus) (hpy : plus.type = .PLUS)
    (hb : tokens[c + 2]? = some b) (hvb : Parser.NumericLiteral b vb)
    (hs : tokens[c + 3]? = some star) (hsy : star.type = .STAR)
    (hd : tokens[c + 4]? = some d) (hvd : Parser.NumericLiteral d vd)
    (ht : tokens[c + 5]? = some t) (hty : t.type ∉ Parser.operatorTypes)
    (fuel : Nat) (hf : 32 ≤ fuel) :
    Parser.expression tokens fuel c =
      .ok (.binaryExpr (.literalExpr va) plus
        (.binaryExpr (.literalExpr vb) star (.literalExpr vd)), c + 5) := by
  have hua := Parser.unary_numeric ha hva hp (by rw [hpy]; decide)
  have hfa := Parser.factor_stop hua hp (by rw [hpy]; decide)
  have hub := Parser.unary_numeric hb hvb hs (by rw [hsy]; decide)
  have hud := Parser.unary_numeric hd hvd ht
    (fun hm => hty (by revert hm; generalize t.type = y; revert y; decide))
  have hfb := Parser.factor_binary hub hs (by rw [hsy]; decide) hud ht
    (fun hm => hty (by revert hm; generalize t.type = y; revert y; decide))
  have hta := Parser.term_binary hfa hp (by rw [hpy]; decide) hfb ht
    (fun hm => hty (by revert hm; generalize t.type = y; revert y; decide))
  exact Parser.expression_of_term ha (Parser.numericLiteral_type hva).2 hta ht
    (fun hm => hty (by revert hm; generalize t.type = y; revert y; decide)) fuel (by omega)

/-- Witness of C12 on the tokens of the line `1+2*3`, whose value the
evaluator prints as 7. -/
theorem C12_star_binds_tighter_than_plus_witness :
    Lexer.tokenize "1+2*3\n".data = .ok
      [⟨.INTEGER, "1", .integer 1, 1, 1⟩, ⟨.PLUS, "+", .monostate, 1, 2⟩,
       ⟨.INTEGER, "2", .integer 2, 1, 3⟩, ⟨.STAR, "*", .monostate, 1, 4⟩,
       ⟨.INTEGER, "3", .integer 3, 1, 5⟩, ⟨.NEWLINE, "\n", .monostate, 1, 6⟩,
       ⟨.END_OF_FILE, "", .monostate, 2, 1⟩] ∧
    Parser.expression
      [⟨.INTEGER, "1", .integer 1, 1, 1⟩, ⟨.PLUS, "+", .monostate, 1, 2⟩,
       ⟨.INTEGER, "2", .integer 2, 1, 3⟩, ⟨.STAR, "*", .monostate, 1, 4⟩,
       ⟨.INTEGER, "3", .integer 3, 1, 5⟩, ⟨.NEWLINE, "\n", .monostate, 1, 6⟩,
       ⟨.END_OF_FILE, "", .monostate, 2, 1⟩] 40 0 =
      .ok (.binaryExpr (.literalExpr (.int 1)) ⟨.PLUS, "+", .monostate, 1, 2⟩
        (.binaryExpr (.literalExpr (.int 2)) ⟨.STAR, "*", .monostate, 1, 4⟩
          (.literalExpr (.int 3))), 5) ∧
    (run 100 "print(1+2*3)\n" Interpreter.new false).1.stdout = "7\n" :=
  ⟨by decide!,
   C12_star_binds_tighter_than_plus
      [⟨.INTEGER, "1", .integer 1, 1, 1⟩, ⟨.PLUS, "+", .monostate, 1, 2⟩,
       ⟨.INTEGER, "2", .integer 2, 1, 3⟩, ⟨.STAR, "*", .monostate, 1, 4⟩,
       ⟨.INTEGER, "3", .integer 3, 1, 5⟩, ⟨.NEWLINE, "\n", .monostate, 1, 6⟩,
       ⟨.END_OF_FILE, "", .monostate, 2, 1⟩] 0
      ⟨.INTEGER, "1", .integer 1, 1, 1⟩ ⟨.PLUS, "+", .monostate, 1, 2⟩
      ⟨.INTEGER, "2", .integer 2, 1, 3⟩ ⟨.STAR, "*", .monostate, 1, 4⟩
      ⟨.INTEGER, "3", .integer 3, 1, 5⟩ ⟨.NEWLINE, "\n", .monostate, 1, 6⟩
      (.int 1) (.int 2) (.int 3)
      (by decide!) (Or.inl ⟨rfl, 1, rfl, rfl⟩) (by decide!) (by decide!)
      (by decide!) (Or.inl ⟨rfl, 2, rfl, rfl⟩) (by decide!) (by decide!)
      (by decide!) (Or.inl ⟨rfl, 3, rfl, rfl⟩) (by decide!) (by decide!) 40 (by decide),
   by decide!⟩

/-- C13: seven tokens `( a + b ) * c` with numeric literals `a`, `b`, `c`, in
front of a token that does not continue an expression, are parsed by
`expression` to the STAR node of the grouping of the PLUS node of the literals
`a` and `b`, and of the literal `c`. -/
theorem C13_parentheses_override_precedence (tokens : List Token) (c : Nat)
    (lp a plus b rp star d t : Token) (va vb vd : PyValue)
    (hl : tokens[c]? = some lp) (hly : lp.type = .LPAREN)
    (ha : tokens[c + 1]? = some a) (hva : Parser.NumericLiteral a va)
    (hp : tokens[c + 2]? = some plus) (hpy : plus.type = .PLUS)
    (hb : tokens[c + 3]? = some b) (hvb : Parser.NumericLiteral b vb)
    (hr : tokens[c + 4]? = some rp) (hry : rp.type = .RPAREN)
    (hs : tokens[c + 5]? = some star) (hsy : star.type = .STAR)
    (hd : tokens[c + 6]? = some d) (hvd : Parser.NumericLiteral d vd)
    (ht : tokens[c + 7]? = some t) (hty : t.type ∉ Parser.operatorTypes)
    (fuel : Nat) (hf : 60 ≤ fuel) :
    Parser.expression tokens fuel c =
      .ok (.binaryExpr (.groupingExpr (.binaryExpr (.literalExpr va) plus (.literalExpr vb)))
        star (.literalExpr vd), c + 7) := by
  have hua := Parser.unary_numeric ha hva hp (by rw [hpy]; decide)
  have hfa := Parser.factor_stop hua hp (by rw [hpy]; decide)
  have hub := Parser.unary_numeric hb hvb hr (by rw [hry]; decide)
  have hfb := Parser.factor_stop hub hr (by rw [hry]; decide)
  have hta := Parser.term_binary hfa hp (by rw [hpy]; decide) hfb hr (by rw [hry]; decide)
  have hin := Parser.expression_of_term ha (Parser.numericLiteral_type hva).2 hta hr
    (by rw [hry]; decide)
  have hg := Parser.primary_grouping hl hly hin hr hry
  have hug := Parser.unary_of_primary hl (by rw [hly]; decide) hg hs (by rw [hsy]; decide)
  have hud := Parser.unary_numeric hd hvd ht
    (fun hm => hty (by revert hm; generalize t.type = y; revert y; decide))
  have hf1 := Parser.factor_binary hug hs (by rw [hsy]; decide) hud ht
    (fun hm => hty (by revert hm; generalize t.type = y; revert y; decide))
  have ht1 := Parser.term_stop hf1 ht
    (fun hm => hty (by revert hm; generalize t.type = y; revert y; decide))
  exact Parser.expression_of_term hl (by rw [hly]; decide) ht1 ht
    (fun hm => hty (by revert hm; generalize t.type = y; revert y; decide)) fuel (by omega)

/-- Witness of C13 on the tokens of the line `(1+2)*3`, whose value the
evaluator prints as 9. -/
theorem C13_parentheses_override_precedence_witness :
    Lexer.tokenize "(1+2)*3\n".data = .ok
      [⟨.LPAREN, "(", .monostate, 1, 1⟩, ⟨.INTEGER, "1", .integer 1, 1, 2⟩,
       ⟨.PLUS, "+", .monostate, 1, 3⟩, ⟨.INTEGER, "2", .integer 2, 1, 4⟩,
       ⟨.RPAREN, ")", .monostate, 1, 5⟩, ⟨.STAR, "*", .monostate, 1, 6⟩,
       ⟨.INTEGER, "3", .integer 3, 1, 7⟩, ⟨.NEWLINE, "\n", .monostate, 1, 8⟩,
       ⟨.END_OF_FILE, "", .monostate, 2, 1⟩] ∧
    Parser.expression
      [⟨.LPAREN, "(", .monostate, 1, 1⟩, ⟨.INTEGER, "1", .integer 1, 1, 2⟩,
       ⟨.PLUS, "+", .monostate, 1, 3⟩, ⟨.INTEGER, "2", .integer 2, 1, 4⟩,
       ⟨.RPAREN, ")", .monostate, 1, 5⟩, ⟨.STAR, "*", .monostate, 1, 6⟩,
       ⟨.INTEGER, "3", .integer 3, 1, 7⟩, ⟨.NEWLINE, "\n", .monostate, 1, 8⟩,
       ⟨.END_OF_FILE, "", .monostate, 2, 1⟩] 60 0 =
      .ok (.binaryExpr (.groupingExpr (.binaryExpr (.literalExpr (.int 1))
          ⟨.PLUS, "+", .monostate, 1, 3⟩ (.literalExpr (.int 2))))
        ⟨.STAR, "*", .monostate, 1, 6⟩ (.literalExpr (.int 3)), 7) ∧
    (run 100 "print((1+2)*3)\n" Interpreter.new false).1.stdout = "9\n" :=
  ⟨by decide!,
   C13_parentheses_override_precedence
      [⟨.LPAREN, "(", .monostate, 1, 1⟩, ⟨.INTEGER, "1", .integer 1, 1, 2⟩,
       ⟨.PLUS, "+", .monostate, 1, 3⟩, ⟨.INTEGER, "2", .integer 2, 1, 4⟩,
       ⟨.RPAREN, ")", .monostate, 1, 5⟩, ⟨.STAR, "*", .monostate, 1, 6⟩,
       ⟨.INTEGER, "3", .integer 3, 1, 7⟩, ⟨.NEWLINE, "\n", .monostate, 1, 8⟩,
       ⟨.END_OF_FILE, "", .monostate, 2, 1⟩] 0
      ⟨.LPAREN, "(", .monostate, 1, 1⟩ ⟨.INTEGER, "1", .integer 1, 1, 2⟩
      ⟨.PLUS, "+", .monostate, 1, 3⟩ ⟨.INTEGER, "2", .integer 2, 1, 4⟩
      ⟨.RPAREN, ")", .monostate, 1, 5⟩ ⟨.STAR, "*", .monostate, 1, 6⟩
      ⟨.INTEGER, "3", .integer 3, 1, 7⟩ ⟨.NEWLINE, "\n", .monostate, 1, 8⟩
      (.int 1) (.int 2) (.int 3)
      (by decide!) (by decide!) (by decide!) (Or.inl ⟨rfl, 1, rfl, rfl⟩)
      (by decide!) (by decide!) (by decide!) (Or.inl ⟨rfl, 2, rfl, rfl⟩)
      (by decide!) (by decide!) (by decide!) (by decide!)
      (by decide!) (Or.inl ⟨rfl, 3, rfl, rfl⟩) (by decide!) (by decide!) 60 (by decide),
   run_within 40 100 _ _ _ (fun r => r.1.stdout = "9\n") (by decide!)⟩

/-- C14: with primaries `A`, `B`, `C` as `primary` parses them and a token
behind that does not continue an expression, `expression` parses `A ** B ** C`
to Binary(A, `**`, Binary(B, `**`, C)), `- A ** B` to
Unary(`-`, Binary(A, `**`, B)) and `A ** - B` to Binary(A, `**`, Unary(`-`, B)). -/
theorem C14_power_right_associative (tokens : List Token) :
    (∀ (c0 c1 c2 c3 fA fB fC : Nat) (A B C : Expr) (op1 op2 t : Token),
      Parser.primary tokens fA c0 = .ok (A, c1) →
      tokens[c1]? = some op1 → op1.type = .DOUBLE_STAR →
      Parser.primary tokens fB (c1 + 1) = .ok (B, c2) →
      tokens[c2]? = some op2 → op2.type = .DOUBLE_STAR →
      Parser.primary tokens fC (c2 + 1) = .ok (C, c3) →
      tokens[c3]? = some t → t.type ∉ Parser.operatorTypes →
      ∀ fuel, fA + fB + fC + 30 ≤ fuel →
        Parser.expression tokens fuel c0 =
          .ok (.binaryExpr A op1 (.binaryExpr B op2 C), c3)) ∧
    (∀ (c0 c1 c2 fA fB : Nat) (A B : Expr) (minus op t : Token),
      tokens[c0]? = some minus → minus.type = .MINUS →
      Parser.primary tokens fA (c0 + 1) = .ok (A, c1) →
      tokens[c1]? = some op → op.type = .DOUBLE_STAR →
      Parser.primary tokens fB (c1 + 1) = .ok (B, c2) →
      tokens[c2]? = some t → t.type ∉ Parser.operatorTypes →
      ∀ fuel, fA + fB + 30 ≤ fuel →
        Parser.expression tokens fuel c0 =
          .ok (.unaryExpr minus (.binaryExpr A op B), c2)) ∧
    (∀ (c0 c1 c2 fA fB : Nat) (A B : Expr) (minus op t : Token),
      Parser.primary tokens fA c0 = .ok (A, c1) →
      tokens[c1]? = some op → op.type = .DOUBLE_STAR →
      tokens[c1 + 1]? = some minus → minus.type = .MINUS →
      Parser.primary tokens fB (c1 + 2) = .ok (B, c2) →
      tokens[c2]? = some t → t.type ∉ Parser.operatorTypes →
      ∀ fuel, fA + fB + 30 ≤ fuel →
        Parser.expression tokens fuel c0 =
          .ok (.binaryExpr A op (.unaryExpr minus B), c2)) := by
  refine ⟨?_, ?_, ?_⟩
  · intro c0 c1 c2 c3 fA fB fC A B C op1 op2 t hA ho1 hy1 hB ho2 hy2 hC ht hty fuel hf
    obtain ⟨tA, hAt, hAm, hAn⟩ := Parser.primary_first hA
    obtain ⟨tB, hBt, hBm, _⟩ := Parser.primary_first hB
    obtain ⟨tC, hCt, hCm, _⟩ := Parser.primary_first hC
    have hcA := Parser.call_stop (Parser.primary_mono hA) ho1 (by rw [hy1]; decide)
    have hcB := Parser.call_stop (Parser.primary_mono hB) ho2 (by rw [hy2]; decide)
    have huC := Parser.unary_of_primary hCt hCm (Parser.primary_mono hC) ht
      (fun hm => hty (by revert hm; generalize t.type = y; revert y; decide))
    have hpB := Parser.power_binary hcB ho2 hy2 huC
    have huB := Parser.unary_stop hBt hBm hpB
    have hpA := Parser.power_binary hcA ho1 hy1 huB
    have huA := Parser.unary_stop hAt hAm hpA
    have htA := Parser.term_of_unary huA ht
      (fun hm => hty (by revert hm; generalize t.type = y; revert y; decide))
    exact Parser.expression_of_term hAt hAn htA ht
      (fun hm => hty (by revert hm; generalize t.type = y; revert y; decide)) fuel (by omega)
  · intro c0 c1 c2 fA fB A B minus op t hm hmy hA ho hy hB ht hty fuel hf
    obtain ⟨tA, hAt, hAm, _⟩ := Parser.primary_first hA
    obtain ⟨tB, hBt, hBm, _⟩ := Parser.primary_first hB
    have hcA := Parser.call_stop (Parser.primary_mono hA) ho (by rw [hy]; decide)
    have huB := Parser.unary_of_primary hBt hBm (Parser.primary_mono hB) ht
      (fun hm => hty (by revert hm; generalize t.type = y; revert y; decide))
    have hpA := Parser.power_binary hcA ho hy huB
    have huA := Parser.unary_stop hAt hAm hpA
    have hu := Parser.unary_minus hm hmy huA
    have htA := Parser.term_of_unary hu ht
      (fun hm => hty (by revert hm; generalize t.type = y; revert y; decide))
    exact Parser.expression_of_term hm (by rw [hmy]; decide) htA ht
      (fun hm => hty (by revert hm; generalize t.type = y; revert y; decide)) fuel (by omega)
  · intro c0 c1 c2 fA fB A B minus op t hA ho hy hm hmy hB ht hty fuel hf
    obtain ⟨tA, hAt, hAm, hAn⟩ := Parser.primary_first hA
    obtain ⟨tB, hBt, hBm, _⟩ := Parser.primary_first hB
    have hcA := Parser.call_stop (Parser.primary_mono hA) ho (by rw [hy]; decide)
    have huB := Parser.unary_of_primary hBt hBm (Parser.primary_mono hB) ht
      (fun hm => hty (by revert hm; generalize t.type = y; revert y; decide))
    have hu := Parser.unary_minus hm hmy huB
    have hpA := Parser.power_binary hcA ho hy hu
    have huA := Parser.unary_stop hAt hAm hpA
    have htA := Parser.term_of_unary huA ht
      (fun hm => hty (by revert hm; generalize t.type = y; revert y; decide))
    exact Parser.expression_of_term hAt hAn htA ht
      (fun hm => hty (by revert hm; generalize t.type = y; revert y; decide)) fuel (by omega)

/-- Witness of C14 on the tokens of the lines `a ** b ** c`, `-a ** b` and
`a ** -b`; the evaluator prints 512, -4 and 0.5 for `2 ** 3 ** 2`, `-2 ** 2`
and `2 ** -1`. -/
theorem C14_power_right_associative_witness :
    Parser.expression
      [⟨.IDENTIFIER, "a", .monostate, 1, 1⟩, ⟨.DOUBLE_STAR, "**", .monostate, 1, 3⟩,
       ⟨.IDENTIFIER, "b", .monostate, 1, 6⟩, ⟨.DOUBLE_STAR, "**", .monostate, 1, 8⟩,
       ⟨.IDENTIFIER, "c", .monostate, 1, 11⟩, ⟨.NEWLINE, "\n", .monostate, 1, 12⟩,
       ⟨.END_OF_FILE, "", .monostate, 2, 1⟩] 40 0 =
      .ok (.binaryExpr (.variableExpr ⟨.IDENTIFIER, "a", .monostate, 1, 1⟩)
        ⟨.DOUBLE_STAR, "**", .monostate, 1, 3⟩
        (.binaryExpr (.variableExpr ⟨.IDENTIFIER, "b", .monostate, 1, 6⟩)
          ⟨.DOUBLE_STAR, "**", .monostate, 1, 8⟩
          (.variableExpr ⟨.IDENTIFIER, "c", .monostate, 1, 11⟩)), 5) ∧
    Parser.expression
      [⟨.MINUS, "-", .monostate, 1, 1⟩, ⟨.IDENTIFIER, "a", .monostate, 1, 2⟩,
       ⟨.DOUBLE_STAR, "**", .monostate, 1, 4⟩, ⟨.IDENTIFIER, "b", .monostate, 1, 7⟩,
       ⟨.NEWLINE, "\n", .monostate, 1, 8⟩, ⟨.END_OF_FILE, "", .monostate, 2, 1⟩] 40 0 =
      .ok (.unaryExpr ⟨.MINUS, "-", .monostate, 1, 1⟩
        (.binaryExpr (.variableExpr ⟨.IDENTIFIER, "a", .monostate, 1, 2⟩)
          ⟨.DOUBLE_STAR, "**", .monostate, 1, 4⟩
          (.variableExpr ⟨.IDENTIFIER, "b", .monostate, 1, 7⟩)), 4) ∧
    Parser.expression
      [⟨.IDENTIFIER, "a", .monostate, 1, 1⟩, ⟨.DOUBLE_STAR, "**", .monostate, 1, 3⟩,
       ⟨.MINUS, "-", .monostate, 1, 6⟩, ⟨.IDENTIFIER, "b", .monostate, 1, 7⟩,
       ⟨.NEWLINE, "\n", .monostate, 1, 8⟩, ⟨.END_OF_FILE, "", .monostate, 2, 1⟩] 40 0 =
      .ok (.binaryExpr (.variableExpr ⟨.IDENTIFIER, "a", .monostate, 1, 1⟩)
        ⟨.DOUBLE_STAR, "**", .monostate, 1, 3⟩
        (.unaryExpr ⟨.MINUS, "-", .monostate, 1, 6⟩
          (.variableExpr ⟨.IDENTIFIER, "b", .monostate, 1, 7⟩)), 4) ∧
    (run 100 "print(2 ** 3 ** 2, -2 ** 2, 2 ** -1)\n" Interpreter.new false).1.stdout =
      "512 -4 0.5\n" :=
  ⟨(C14_power_right_associative
      [⟨.IDENTIFIER, "a", .monostate, 1, 1⟩, ⟨.DOUBLE_STAR, "**", .monostate, 1, 3⟩,
       ⟨.IDENTIFIER, "b", .monostate, 1, 6⟩, ⟨.DOUBLE_STAR, "**", .monostate, 1, 8⟩,
       ⟨.IDENTIFIER, "c", .monostate, 1, 11⟩, ⟨.NEWLINE, "\n", .monostate, 1, 12⟩,
       ⟨.END_OF_FILE, "", .monostate, 2, 1⟩]).1 0 1 3 5 1 1 1 _ _ _
      ⟨.DOUBLE_STAR, "**", .monostate, 1, 3⟩ ⟨.DOUBLE_STAR, "**", .monostate, 1, 8⟩
      ⟨.NEWLINE, "\n", .monostate, 1, 12⟩
      (Parser.ok_of_code (by decide!)) (by decide!) (by decide!)
      (Parser.ok_of_code (by decide!)) (by decide!) (by decide!)
      (Parser.ok_of_code (by decide!)) (by decide!) (by decide!) 40 (by decide),
   (C14_power_right_associative
      [⟨.MINUS, "-", .monostate, 1, 1⟩, ⟨.IDENTIFIER, "a", .monostate, 1, 2⟩,
       ⟨.DOUBLE_STAR, "**", .monostate, 1, 4⟩, ⟨.IDENTIFIER, "b", .monostate, 1, 7⟩,
       ⟨.NEWLINE, "\n", .monostate, 1, 8⟩, ⟨.END_OF_FILE, "", .monostate, 2, 1⟩]).2.1 0 2 4 1 1 _ _
      ⟨.MINUS, "-", .monostate, 1, 1⟩ ⟨.DOUBLE_STAR, "**", .monostate, 1, 4⟩
      ⟨.NEWLINE, "\n", .monostate, 1, 8⟩
      (by decide!) (by decide!) (Parser.ok_of_code (by decide!)) (by decide!) (by decide!)
      (Parser.ok_of_code (by decide!)) (by decide!) (by decide!) 40 (by decide),
   (C14_power_right_associative
      [⟨.IDENTIFIER, "a", .monostate, 1, 1⟩, ⟨.DOUBLE_STAR, "**", .monostate, 1, 3⟩,
       ⟨.MINUS, "-", .monostate, 1, 6⟩, ⟨.IDENTIFIER, "b", .monostate, 1, 7⟩,
       ⟨.NEWLINE, "\n", .monostate, 1, 8⟩, ⟨.END_OF_FILE, "", .monostate, 2, 1⟩]).2.2 0 1 4 1 1 _ _
      ⟨.MINUS, "-", .monostate, 1, 6⟩ ⟨.DOUBLE_STAR, "**", .monostate, 1, 3⟩
      ⟨.NEWLINE, "\n", .monostate, 1, 8⟩
      (Parser.ok_of_code (by decide!)) (by decide!) (by decide!) (by decide!) (by decide!)
      (Parser.ok_of_code (by decide!)) (by decide!) (by decide!) 40 (by decide),
   run_within 40 100 _ _ _ (fun r => r.1.stdout = "512 -4 0.5\n") (by decide!)⟩

namespace Parser

/-! ### The `if` statement -/

/-- The three tokens COLON, NEWLINE, INDENT in front of a block are consumed
one after the other. -/
theorem consume_header {tokens : List Token} {c : Nat} {colon nl ind : Token}
    (h1 : tokens[c]? = some colon) (hy1 : colon.type = .COLON)
    (h2 : tokens[c + 1]? = some nl) (hy2 : nl.type = .NEWLINE)
    (h3 : tokens[c + 2]? = some ind) (hy3 : ind.type = .INDENT) (m1 m2 m3 : String) :
    consume tokens c .COLON m1 = .ok (colon, c + 1) ∧
    consume tokens (c + 1) .NEWLINE m2 = .ok (nl, c + 1 + 1) ∧
    consume tokens (c + 1 + 1) .INDENT m3 = .ok (ind, c + 3) := by
  have e1 := consume_ok h1 (by rw [hy1]; decide) m1
  have e2 := consume_ok h2 (by rw [hy2]; decide) m2
  have e3 := consume_ok h3 (by rw [hy3]; decide) m3
  rw [hy1] at e1
  rw [hy2] at e2
  rw [hy3] at e3
  exact ⟨e1, e2, e3⟩

theorem elifLoop_chain {tokens : List Token} {f0 c cEnd : Nat} {branches : List (Expr × Stmt)}
    (h : ElifChain tokens f0 c branches cEnd) {t : Token} (ht : tokens[cEnd]? = some t)
    (hy : t.type ≠ .ELIF) :
    ∀ (acc : List (Expr × Stmt)) (fuel : Nat), f0 + branches.length + 1 ≤ fuel →
      elifLoop tokens fuel c acc = .ok (acc ++ branches, cEnd) := by
  induction h with
  | nil c =>
    intro acc fuel hf
    obtain ⟨n, rfl⟩ : ∃ n, fuel = n + 1 := ⟨fuel - 1, by omega⟩
    rw [elifLoop, matchType_false ht .ELIF hy]
    simp
    rfl
  | cons c c2 c6 cEnd kw colon nl ind e ss rest hk hky he hc hcy hn hny hi hiy hb _ ih =>
    intro acc fuel hf
    simp only [List.length_cons] at hf
    obtain ⟨n, rfl⟩ : ∃ n, fuel = n + 1 := ⟨fuel - 1, by omega⟩
    have hm := matchType_true hk (by rw [hky]; decide)
    rw [hky] at hm
    rw [elifLoop, hm]
    obtain ⟨e1, e2, e3⟩ := consume_header hc hcy hn hny hi hiy
      "Expected ':' after elif condition" "Expected newline after ':'"
      "Expected indented block after elif"
    simp only [ok_bind, if_true, expression_mono he n (by omega), e1, e2, e3,
      block_mono hb n (by omega)]
    rw [ih ht _ n (by omega)]
    simp

theorem ifStatement_chain {tokens : List Token} {f0 c c1 c5 c6 : Nat}
    {cond : Expr} {thenS : List Stmt} {branches : List (Expr × Stmt)} {colon nl ind t : Token}
    (hcond : expression tokens f0 c = .ok (cond, c1))
    (hc : tokens[c1]? = some colon) (hcy : colon.type = .COLON)
    (hn : tokens[c1 + 1]? = some nl) (hny : nl.type = .NEWLINE)
    (hi : tokens[c1 + 2]? = some ind) (hiy : ind.type = .INDENT)
    (hthen : block tokens f0 (c1 + 3) = .ok (thenS, c5))
    (hchain : ElifChain tokens f0 c5 branches c6)
    (ht : tokens[c6]? = some t) (hy : t.type ≠ .ELIF)
    (fuel : Nat) (hf : f0 + branches.length + 2 ≤ fuel) :
    ifStatement tokens fuel c =
      (do
        let (m, current7) ← matchType tokens c6 .ELSE
        if m then do
          let (_, current8) ← consume tokens current7 .COLON "Expected ':' after else"
          let (_, current9) ← consume tokens current8 .NEWLINE "Expected newline after ':'"
          let (_, current10) ← consume tokens current9 .INDENT
            "Expected indented block after else"
          let (elseStatements, current11) ← block tokens (fuel - 1) current10
          pure (.ifStmt cond (.blockStmt thenS) branches (some (.blockStmt elseStatements)),
            current11)
        else pure (.ifStmt cond (.blockStmt thenS) branches Option.none, current7)) := by
  obtain ⟨n, rfl⟩ : ∃ n, fuel = n + 1 := ⟨fuel - 1, by omega⟩
  obtain ⟨e1, e2, e3⟩ := consume_header hc hcy hn hny hi hiy
    "Expected ':' after if condition" "Expected newline after ':'"
    "Expected indented block after if"
  have hl := elifLoop_chain hchain ht hy [] n (by omega)
  rw [List.nil_append] at hl
  rw [ifStatement]
  simp only [ok_bind, expression_mono hcond n (by omega), e1, e2, e3,
    block_mono hthen n (by omega), hl, Nat.add_sub_cancel]

end Parser

/-- C15: for an `if` statement whose condition, block and chain of `elif`
clauses are parsed by `expression` and `block` as given, `ifStatement` returns
the IfStmt node with exactly the branches of the chain, in the order of the
source; without an ELSE token behind the chain the node has no else branch,
and with the tokens ELSE, COLON, NEWLINE, INDENT and a block it has that
block as else branch. -/
theorem C15_if_elif_else_branches (tokens : List Token) (f0 c c1 c5 c6 : Nat)
    (cond : Expr) (thenS : List Stmt) (branches : List (Expr × Stmt)) (colon nl ind t : Token)
    (hcond : Parser.expression tokens f0 c = .ok (cond, c1))
    (hc : tokens[c1]? = some colon) (hcy : colon.type = .COLON)
    (hn : tokens[c1 + 1]? = some nl) (hny : nl.type = .NEWLINE)
    (hi : tokens[c1 + 2]? = some ind) (hiy : ind.type = .INDENT)
    (hthen : Parser.block tokens f0 (c1 + 3) = .ok (thenS, c5))
    (hchain : Parser.ElifChain tokens f0 c5 branches c6)
    (ht : tokens[c6]? = some t) (hy : t.type ≠ .ELIF)
    (fuel : Nat) (hf : f0 + branches.length + 2 ≤ fuel) :
    (t.type ≠ .ELSE →
      Parser.ifStatement tokens fuel c =
        .ok (.ifStmt cond (.blockStmt thenS) branches Option.none, c6)) ∧
    (t.type = .ELSE →
      ∀ (colon1 nl1 ind1 : Token) (elseS : List Stmt) (c11 : Nat),
        tokens[c6 + 1]? = some colon1 → colon1.type = .COLON →
        tokens[c6 + 2]? = some nl1 → nl1.type = .NEWLINE →
        tokens[c6 + 3]? = some ind1 → ind1.type = .INDENT →
        Parser.block tokens f0 (c6 + 4) = .ok (elseS, c11) →
        Parser.ifStatement tokens fuel c =
          .ok (.ifStmt cond (.blockStmt thenS) branches (some (.blockStmt elseS)), c11)) := by
  have h := Parser.ifStatement_chain hcond hc hcy hn hny hi hiy hthen hchain ht hy fuel hf
  constructor
  · intro hne
    rw [h, Parser.matchType_false ht .ELSE hne]
    rfl
  · intro he colon1 nl1 ind1 elseS c11 h1 hy1 h2 hy2 h3 hy3 hb
    have hm := Parser.matchType_true ht (by rw [he]; decide)
    rw [he] at hm
    obtain ⟨e1, e2, e3⟩ := Parser.consume_header h1 hy1 h2 hy2 h3 hy3
      "Expected ':' after else" "Expected newline after ':'"
      "Expected indented block after else"
    rw [h, hm]
    simp only [Parser.ok_bind, if_true, e1, e2, e3, Parser.block_mono hb (fuel - 1) (by omega)]
    rfl

/-- Witness of C15 on the tokens of an `if` with two `elif` clauses and an
`else` clause, and on the tokens of an `if` without either. -/
theorem C15_if_elif_else_branches_witness :
    Parser.ifStatement
      [⟨.IF, "if", .monostate, 1, 1⟩, ⟨.IDENTIFIER, "a", .monostate, 1, 4⟩,
       ⟨.COLON, ":", .monostate, 1, 5⟩, ⟨.NEWLINE, "\n", .monostate, 1, 6⟩,
       ⟨.INDENT, "", .monostate, 2, 3⟩, ⟨.IDENTIFIER, "x", .monostate, 2, 3⟩,
       ⟨.NEWLINE, "\n", .monostate, 2, 4⟩, ⟨.DEDENT, "", .monostate, 3, 1⟩,
       ⟨.ELIF, "elif", .monostate, 3, 1⟩, ⟨.IDENTIFIER, "b", .monostate, 3, 6⟩,
       ⟨.COLON, ":", .monostate, 3, 7⟩, ⟨.NEWLINE, "\n", .monostate, 3, 8⟩,
       ⟨.INDENT, "", .monostate, 4, 3⟩, ⟨.IDENTIFIER, "y", .monostate, 4, 3⟩,
       ⟨.NEWLINE, "\n", .monostate, 4, 4⟩, ⟨.DEDENT, "", .monostate, 5, 1⟩,
       ⟨.ELIF, "elif", .monostate, 5, 1⟩, ⟨.IDENTIFIER, "c", .monostate, 5, 6⟩,
       ⟨.COLON, ":", .monostate, 5, 7⟩, ⟨.NEWLINE, "\n", .monostate, 5, 8⟩,
       ⟨.INDENT, "", .monostate, 6, 3⟩, ⟨.IDENTIFIER, "z", .monostate, 6, 3⟩,
       ⟨.NEWLINE, "\n", .monostate, 6, 4⟩, ⟨.DEDENT, "", .monostate, 7, 1⟩,
       ⟨.ELSE, "else", .monostate, 7, 1⟩, ⟨.COLON, ":", .monostate, 7, 5⟩,
       ⟨.NEWLINE, "\n", .monostate, 7, 6⟩, ⟨.INDENT, "", .monostate, 8, 3⟩,
       ⟨.IDENTIFIER, "w", .monostate, 8, 3⟩, ⟨.NEWLINE, "\n", .monostate, 8, 4⟩,
       ⟨.DEDENT, "", .monostate, 9, 1⟩, ⟨.NEWLINE, "", .monostate, 9, 1⟩,
       ⟨.END_OF_FILE, "", .monostate, 9, 1⟩] 40 1 =
      .ok (.ifStmt (.variableExpr ⟨.IDENTIFIER, "a", .monostate, 1, 4⟩)
        (.blockStmt [.expressionStmt (.variableExpr ⟨.IDENTIFIER, "x", .monostate, 2, 3⟩)])
        [((.variableExpr ⟨.IDENTIFIER, "b", .monostate, 3, 6⟩),
          (.blockStmt [.expressionStmt (.variableExpr ⟨.IDENTIFIER, "y", .monostate, 4, 3⟩)])),
         ((.variableExpr ⟨.IDENTIFIER, "c", .monostate, 5, 6⟩),
          (.blockStmt [.expressionStmt (.variableExpr ⟨.IDENTIFIER, "z", .monostate, 6, 3⟩)]))]
        (some (.blockStmt [.expressionStmt (.variableExpr ⟨.IDENTIFIER, "w", .monostate, 8, 3⟩)])), 31) ∧
    Parser.ifStatement
      [⟨.IF, "if", .monostate, 1, 1⟩, ⟨.IDENTIFIER, "a", .monostate, 1, 4⟩,
       ⟨.COLON, ":", .monostate, 1, 5⟩, ⟨.NEWLINE, "\n", .monostate, 1, 6⟩,
       ⟨.INDENT, "", .monostate, 2, 3⟩, ⟨.IDENTIFIER, "x", .monostate, 2, 3⟩,
       ⟨.NEWLINE, "\n", .monostate, 2, 4⟩, ⟨.DEDENT, "", .monostate, 3, 1⟩,
       ⟨.NEWLINE, "", .monostate, 3, 1⟩, ⟨.END_OF_FILE, "", .monostate, 3, 1⟩] 40 1 =
      .ok (.ifStmt (.variableExpr ⟨.IDENTIFIER, "a", .monostate, 1, 4⟩)
        (.blockStmt [.expressionStmt (.variableExpr ⟨.IDENTIFIER, "x", .monostate, 2, 3⟩)]) [] Option.none, 8) :=
  ⟨(C15_if_elif_else_branches _ 30 1 2 8 24 _ _ _ ⟨.COLON, ":", .monostate, 1, 5⟩
      ⟨.NEWLINE, "\n", .monostate, 1, 6⟩ ⟨.INDENT, "", .monostate, 2, 3⟩
      ⟨.ELSE, "else", .monostate, 7, 1⟩
      (Parser.ok_of_code (by decide!)) (by decide!) (by decide!) (by decide!) (by decide!)
      (by decide!) (by decide!) (Parser.ok_of_codeList (by decide!))
      (Parser.ElifChain.cons 8 10 16 24 ⟨.ELIF, "elif", .monostate, 3, 1⟩
        ⟨.COLON, ":", .monostate, 3, 7⟩ ⟨.NEWLINE, "\n", .monostate, 3, 8⟩
        ⟨.INDENT, "", .monostate, 4, 3⟩ _ _ _
        (by decide!) (by decide!) (Parser.ok_of_code (by decide!)) (by decide!) (by decide!)
        (by decide!) (by decide!) (by decide!) (by decide!)
        (Parser.ok_of_codeList (by decide!))
        (Parser.ElifChain.cons 16 18 24 24 ⟨.ELIF, "elif", .monostate, 5, 1⟩
          ⟨.COLON, ":", .monostate, 5, 7⟩ ⟨.NEWLINE, "\n", .monostate, 5, 8⟩
          ⟨.INDENT, "", .monostate, 6, 3⟩ _ _ _
          (by decide!) (by decide!) (Parser.ok_of_code (by decide!)) (by decide!) (by decide!)
          (by decide!) (by decide!) (by decide!) (by decide!)
          (Parser.ok_of_codeList (by decide!)) (Parser.ElifChain.nil 24)))
      (by decide!) (by decide!) 40 (by decide)).2 (by decide!)
      ⟨.COLON, ":", .monostate, 7, 5⟩ ⟨.NEWLINE, "\n", .monostate, 7, 6⟩
      ⟨.INDENT, "", .monostate, 8, 3⟩ _ 31
      (by decide!) (by decide!) (by decide!) (by decide!) (by decide!) (by decide!)
      (Parser.ok_of_codeList (by decide!)),
   (C15_if_elif_else_branches _ 30 1 2 8 8 _ _ _ ⟨.COLON, ":", .monostate, 1, 5⟩
      ⟨.NEWLINE, "\n", .monostate, 1, 6⟩ ⟨.INDENT, "", .monostate, 2, 3⟩
      ⟨.NEWLINE, "", .monostate, 3, 1⟩
      (Parser.ok_of_code (by decide!)) (by decide!) (by decide!) (by decide!) (by decide!)
      (by decide!) (by decide!) (Parser.ok_of_codeList (by decide!))
      (Parser.ElifChain.nil 8) (by decide!) (by decide!) 40 (by decide)).1 (by decide!)⟩

namespace Lexer

/-! ### Words -/

theorem loopBody_new {c : Char} (cs : List Char) (h1 : c ≠ ' ') (h2 : c ≠ '\t')
    (h3 : c ≠ '\n') (h4 : c ≠ '#') :
    (Lexer.new (c :: cs)).loopBody =
      scanToken { Lexer.new (c :: cs) with atLineStart := false } := by
  simp [loopBody, handleIndentation, countIndent, Lexer.new, isAtEnd, peek, h1, h2, h3, h4]

theorem isAlpha_not_isDigit {c : Char} (h : c.isAlpha = true) : c.isDigit = false := by
  simp only [Char.isAlpha, Char.isUpper, Char.isLower, Char.isDigit, Bool.or_eq_true,
    Bool.and_eq_true, decide_eq_true_eq, Bool.and_eq_false_imp, decide_eq_false_iff_not] at *
  simp only [UInt32.le_def, BitVec.le_def] at *
  generalize c.val.toBitVec.toNat = n at *
  change (65 ≤ n ∧ n ≤ 90 ∨ 97 ≤ n ∧ n ≤ 122) at h
  change 48 ≤ n → ¬ n ≤ 57
  omega

/-- A letter or an underscore is none of the characters that the switch of
`scanToken` lists. -/
theorem wordStart_ne {c : Char} (hc : c.isAlpha = true ∨ c = '_') (d : Char)
    (hd : d.isAlpha = false ∧ d ≠ '_') : c ≠ d := by
  intro h
  subst h
  rcases hc with h | h
  · rw [hd.1] at h; cases h
  · exact hd.2 h

theorem scanSwitch_identifier {c : Char} (hc : c.isAlpha = true ∨ c = '_') (lx : Lexer) :
    scanSwitch c lx = .ok lx.identifier := by
  have hdig : c.isDigit = false := by
    rcases hc with h | h
    · exact isAlpha_not_isDigit h
    · rw [h]; decide
  have hal : (c.isAlpha || decide (c = '_')) = true := by
    rcases hc with h | h
    · rw [h]; rfl
    · rw [h]; decide
  have hn := wordStart_ne hc
  unfold scanSwitch
  rw [if_neg (hn '(' (by decide)), if_neg (hn ')' (by decide)), if_neg (hn ':' (by decide)),
    if_neg (hn ',' (by decide)), if_neg (hn '+' (by decide)), if_neg (hn '-' (by decide)),
    if_neg (hn '*' (by decide)), if_neg (hn '/' (by decide)), if_neg (hn '%' (by decide)),
    if_neg (hn '=' (by decide)), if_neg (hn '!' (by decide)), if_neg (hn '<' (by decide)),
    if_neg (hn '>' (by decide)), if_neg (hn '#' (by decide))]
  rw [if_neg (by simp [hn ' ' (by decide), hn '\t' (by decide), hn '\r' (by decide)]),
    if_neg (hn '\n' (by decide)),
    if_neg (by simp [hn '"' (by decide), hn '\'' (by decide)]),
    if_neg (by simp [hdig]), if_pos hal]

theorem advanceWhile_all (p : Char → Bool) : ∀ (cs : List Char) (column : Nat),
    (∀ x ∈ cs, p x = true) → advanceWhile p cs column = ([], column + cs.length)
  | [], _, _ => rfl
  | x :: cs, column, h => by
    unfold advanceWhile
    rw [if_pos (h x (List.mem_cons_self _ _)),
      advanceWhile_all p cs _ (fun y hy => h y (List.mem_cons_of_mem _ hy))]
    simp only [List.length_cons, Prod.mk.injEq, true_and]
    omega

/-- The type of the token that `identifier` adds for a word. -/
theorem scanToken_word {c : Char} {cs : List Char} (hc : c.isAlpha = true ∨ c = '_')
    (hcs : ∀ x ∈ cs, (x.isAlphanum || decide (x = '_')) = true) (lx : Lexer)
    (hr : lx.rest = c :: cs) :
    lx.scanToken = .ok { lx with
      rest := [], startRest := c :: cs, startColumn := lx.column,
      column := lx.column + 1 + cs.length,
      tokens := lx.tokens ++ [⟨(keywordsFind (String.mk (c :: cs))).getD .IDENTIFIER,
        String.mk (c :: cs), .monostate, lx.line, lx.column⟩] } := by
  unfold scanToken
  have hp : lx.peek = c := by simp [peek, hr]
  rw [hp, scanSwitch_identifier hc]
  simp only [identifier, skipWhile, advance, hr, List.tail_cons, text,
    advanceWhile_all _ cs _ hcs, List.length_cons, List.length_nil, Nat.sub_zero,
    List.take_length]
  cases h : keywordsFind (String.mk (c :: cs)) <;> simp [addToken, text, h]

/-- The run of `tokenize` on a source whose first iteration leaves nothing to
scan and one token of a type other than NEWLINE: that token, NEWLINE and
END_OF_FILE. -/
theorem tokenize_single {src : List Char} {lx1 : Lexer} {t : Token} (hne : src ≠ [])
    (hb : (Lexer.new src).loopBody = .ok lx1) (hr : lx1.rest = [])
    (ht : lx1.tokens = [t]) (hty : t.type ≠ .NEWLINE) (hs : lx1.indentStack = [0]) :
    tokenize src = .ok [t, ⟨.NEWLINE, "", .monostate, lx1.line, lx1.column⟩,
      ⟨.END_OF_FILE, "", .monostate, lx1.line, lx1.column⟩] := by
  obtain ⟨n, hn⟩ : ∃ n, src.length = n + 1 :=
    ⟨src.length - 1, by have := List.length_pos.mpr hne; omega⟩
  unfold tokenize
  rw [hn, tokenizeLoop_succ n _ (by simpa [Lexer.new] using hne), hb]
  simp only
  rw [tokenizeLoop_atEnd n lx1 hr]
  simp [finish, remainingDedents, hs, ht, hty]

theorem tokenize_word {c : Char} {cs : List Char} (hc : c.isAlpha = true ∨ c = '_')
    (hcs : ∀ x ∈ cs, x.isAlphanum = true ∨ x = '_') :
    tokenize (c :: cs) = .ok
      [⟨(keywordsFind (String.mk (c :: cs))).getD .IDENTIFIER, String.mk (c :: cs),
        .monostate, 1, 1⟩,
       ⟨.NEWLINE, "", .monostate, 1, cs.length + 2⟩,
       ⟨.END_OF_FILE, "", .monostate, 1, cs.length + 2⟩] := by
  have hn := wordStart_ne hc
  have hcs1 : ∀ x ∈ cs, (x.isAlphanum || decide (x = '_')) = true := by
    intro x hx
    rcases hcs x hx with h | h
    · rw [h]; rfl
    · rw [h]; decide
  have hb := loopBody_new cs (hn ' ' (by decide)) (hn '\t' (by decide))
    (hn '\n' (by decide)) (hn '#' (by decide))
  rw [scanToken_word hc hcs1 _ rfl] at hb
  have hty : (keywordsFind (String.mk (c :: cs))).getD .IDENTIFIER ≠ .NEWLINE := by
    cases hk : keywordsFind (String.mk (c :: cs)) with
    | none => simp
    | some ty => exact (keywordsFind_plain _ _ hk).2.2
  have h := tokenize_single
    (t := ⟨(keywordsFind (String.mk (c :: cs))).getD .IDENTIFIER, String.mk (c :: cs),
      .monostate, 1, 1⟩) (by simp) hb rfl (by simp [Lexer.new]) hty (by simp [Lexer.new])
  rw [h]
  simp [Lexer.new]
  omega

theorem keywordsFind_none {s : String}
    (h : s ∉ ["def", "return", "if", "elif", "else", "while", "for", "in", "and", "or",
      "not", "True", "False", "None", "print", "assert"]) : keywordsFind s = Option.none := by
  unfold keywordsFind
  rw [Option.map_eq_none', List.find?_eq_none]
  intro kv hkv
  simp only [keywords, List.mem_cons, List.mem_singleton, List.not_mem_nil, or_false] at hkv
  simp only [List.mem_cons, List.mem_singleton, List.not_mem_nil, or_false, not_or] at h
  rcases hkv with r | r | r | r | r | r | r | r | r | r | r | r | r | r | r | r <;>
    · rw [r]
      simp only [decide_eq_true_eq]
      intro he
      simp [← he] at h

end Lexer

/-- C16: the source made of one of the sixteen keywords alone is tokenized to
the token of that keyword with the word as lexeme, followed by NEWLINE and
END_OF_FILE; the source made of any other word that starts with a letter or an
underscore and goes on with letters, digits and underscores is tokenized to an
IDENTIFIER token whose lexeme is the whole word. -/
theorem C16_keyword_recognition :
    (∀ kv ∈ [("def", TokenType.DEF), ("return", .RETURN), ("if", .IF), ("elif", .ELIF),
        ("else", .ELSE), ("while", .WHILE), ("for", .FOR), ("in", .IN), ("and", .AND),
        ("or", .OR), ("not", .NOT), ("True", .TRUE), ("False", .FALSE), ("None", .NONE),
        ("print", .PRINT), ("assert", .ASSERT)],
      Lexer.tokenize kv.1.data = .ok
        [⟨kv.2, kv.1, .monostate, 1, 1⟩,
         ⟨.NEWLINE, "", .monostate, 1, kv.1.length + 1⟩,
         ⟨.END_OF_FILE, "", .monostate, 1, kv.1.length + 1⟩]) ∧
    (∀ (c : Char) (cs : List Char), (c.isAlpha = true ∨ c = '_') →
      (∀ x ∈ cs, x.isAlphanum = true ∨ x = '_') →
      String.mk (c :: cs) ∉ ["def", "return", "if", "elif", "else", "while", "for", "in", "and", "or",
        "not", "True", "False", "None", "print", "assert"] →
      Lexer.tokenize (c :: cs) = .ok
        [⟨.IDENTIFIER, String.mk (c :: cs), .monostate, 1, 1⟩,
         ⟨.NEWLINE, "", .monostate, 1, cs.length + 2⟩,
         ⟨.END_OF_FILE, "", .monostate, 1, cs.length + 2⟩]) := by
  refine ⟨by decide!, ?_⟩
  intro c cs hc hcs hk
  rw [Lexer.tokenize_word hc hcs, Lexer.keywordsFind_none hk]
  rfl

/-- Witness of C16 on the word `iffy`, which extends the keyword `if`. -/
theorem C16_keyword_recognition_witness :
    Lexer.tokenize ['i', 'f', 'f', 'y'] = .ok
      [⟨.IDENTIFIER, "iffy", .monostate, 1, 1⟩, ⟨.NEWLINE, "", .monostate, 1, 5⟩,
       ⟨.END_OF_FILE, "", .monostate, 1, 5⟩] :=
  C16_keyword_recognition.2 'i' ['f', 'f', 'y'] (by decide!) (by decide!) (by decide!)

namespace Lexer

/-! ### String literals -/

theorem decoded_escape (x : Char) : (StringItem.escape x).decoded = unescape x := by
  simp only [StringItem.decoded, unescape]
  split_ifs <;> simp_all

theorem stringLoop_items {q : Char} (hq : q ≠ '\\') (rest : List Char) :
    ∀ (items : List StringItem), (∀ i ∈ items, i.valid q = true) →
    ∀ (v : List Char) (column : Nat),
      stringLoop q (bodySource items ++ q :: rest) v column =
        .ok (rest, v ++ items.map StringItem.decoded,
          column + (bodySource items).length + 1)
  | [], _, v, column => by
    simp only [bodySource, List.nil_append, List.map_nil, List.append_nil, List.length_nil,
      Nat.add_zero]
    unfold stringLoop
    rw [if_pos rfl]
  | .plain c :: items, h, v, column => by
    have hv := h (.plain c) (List.mem_cons_self _ _)
    simp only [StringItem.valid, Bool.and_eq_true, bne_iff_ne, ne_eq] at hv
    have ih := stringLoop_items hq rest items (fun i hi => h i (List.mem_cons_of_mem _ hi))
    simp only [bodySource, StringItem.source, List.cons_append, List.nil_append]
    unfold stringLoop
    rw [if_neg hv.1.1, if_neg hv.1.2, if_neg hv.2, ih]
    refine congrArg Except.ok (Prod.ext rfl (Prod.ext ?_ ?_))
    · simp [StringItem.decoded]
    · simp only [List.length_cons]; omega
  | .escape x :: items, h, v, column => by
    have ih := stringLoop_items hq rest items (fun i hi => h i (List.mem_cons_of_mem _ hi))
    simp only [bodySource, StringItem.source, List.cons_append, List.nil_append]
    unfold stringLoop
    rw [if_neg (Ne.symm hq), if_neg (by decide), if_pos rfl]
    simp only
    rw [ih]
    refine congrArg Except.ok (Prod.ext rfl (Prod.ext ?_ ?_))
    · simp [decoded_escape]
    · simp only [List.length_cons]; omega

theorem scanSwitch_string {q : Char} (hq : q = '"' ∨ q = '\'') (lx : Lexer) :
    scanSwitch q lx = lx.string q := by
  rcases hq with h | h <;> subst h <;> rfl

theorem tokenize_string {q : Char} (hq : q = '"' ∨ q = '\'') (items : List StringItem)
    (hv : ∀ i ∈ items, i.valid q = true) :
    tokenize (q :: (bodySource items ++ [q])) = .ok
      [⟨.STRING, String.mk (q :: (bodySource items ++ [q])),
        .string (String.mk (items.map StringItem.decoded)), 1, 1⟩,
       ⟨.NEWLINE, "", .monostate, 1, (bodySource items).length + 3⟩,
       ⟨.END_OF_FILE, "", .monostate, 1, (bodySource items).length + 3⟩] := by
  have hne : q ≠ ' ' ∧ q ≠ '\t' ∧ q ≠ '\n' ∧ q ≠ '#' ∧ q ≠ '\\' := by
    rcases hq with h | h <;> subst h <;> decide
  have hb := loopBody_new (bodySource items ++ [q]) hne.1 hne.2.1 hne.2.2.1 hne.2.2.2.1
  have hl := stringLoop_items hne.2.2.2.2 [] items hv [] 2
  unfold scanToken at hb
  simp only [peek, Lexer.new, scanSwitch_string hq, string, advance, List.tail_cons, hl] at hb
  have h := tokenize_single
    (t := ⟨.STRING, String.mk (q :: (bodySource items ++ [q])),
      .string (String.mk (items.map StringItem.decoded)), 1, 1⟩) (by simp) hb rfl
    (by
      simp only [addToken, text, List.nil_append, List.length_cons, List.length_append,
        List.length_nil, Nat.sub_zero, List.take_succ_cons]
      rw [List.take_of_length_le (by simp)])
    (by simp) rfl
  rw [h]
  simp [addToken]
  omega

end Lexer

/-- C17: the source made of one string literal, a quote `"` or `'`, a body of
characters other than that quote, newline and backslash and of backslash
pairs, and the same quote again, is tokenized to a STRING token whose payload
is the body with every backslash pair replaced by the character that the
specification gives and every other character copied, and whose lexeme is the
whole literal with both quotes; NEWLINE and END_OF_FILE follow. -/
theorem C17_string_literal_decoding (q : Char) (items : List Lexer.StringItem)
    (hq : q = '"' ∨ q = '\'') (hv : ∀ i ∈ items, i.valid q = true) :
    Lexer.tokenize (q :: (Lexer.bodySource items ++ [q])) = .ok
      [⟨.STRING, String.mk (q :: (Lexer.bodySource items ++ [q])),
        .string (String.mk (items.map Lexer.StringItem.decoded)), 1, 1⟩,
       ⟨.NEWLINE, "", .monostate, 1, (Lexer.bodySource items).length + 3⟩,
       ⟨.END_OF_FILE, "", .monostate, 1, (Lexer.bodySource items).length + 3⟩] :=
  Lexer.tokenize_string hq items hv

/-- Witness of C17 on the literal `"a\tb\"c\\\q'"`: the payload is `a`, a tab,
`b`, a double quote, `c`, a backslash, `q` and a single quote. -/
theorem C17_string_literal_decoding_witness :
    Lexer.tokenize "\"a\\tb\\\"c\\\\\\q'\"".data = .ok
      [⟨.STRING, "\"a\\tb\\\"c\\\\\\q'\"", .string "a\tb\"c\\q'", 1, 1⟩,
       ⟨.NEWLINE, "", .monostate, 1, 15⟩, ⟨.END_OF_FILE, "", .monostate, 1, 15⟩] :=
  C17_string_literal_decoding '"'
    [.plain 'a', .escape 't', .plain 'b', .escape '"', .plain 'c', .escape '\\', .escape 'q',
     .plain '\'']
    (Or.inl rfl) (by decide!)

theorem define_newest (o : Environment) (envs : EnvHeap) (name : String) (value : PyValue) :
    Environment.define (o :: envs) envs.length name value =
      { o with values := o.values.set name value } :: envs := by
  simp [Environment.define]

theorem defineParams_newest (envs : EnvHeap) (ps : List String) :
    ∀ (as : List PyValue) (o : Environment),
      defineParams (o :: envs) envs.length ps as =
        { values := bindParams o.values ps as, enclosing := o.enclosing } :: envs := by
  induction ps with
  | nil => intro as o; simp [defineParams, bindParams]
  | cons p ps ih =>
    intro as o
    cases as with
    | nil => simp [defineParams, bindParams]
    | cons a as => rw [defineParams, define_newest, ih, bindParams]

theorem get_newest (o : Environment) (envs : EnvHeap) (name : String) :
    Environment.get (o :: envs) envs.length name =
      match o.values.find name with
      | some v => .ok v
      | Option.none =>
        match o.enclosing with
        | some up => Environment.get envs up name
        | Option.none => .error (.RuntimeError ("Undefined variable '" ++ name ++ "'") 0) := by
  rw [Environment.get, if_pos rfl]

theorem find_set_same (vs : Values) (name : String) (value : PyValue) :
    (vs.set name value).find name = some value := by
  induction vs with
  | nil => simp [Values.set, Values.find]
  | cons kv rest ih =>
    obtain ⟨k, v⟩ := kv
    by_cases h : k = name
    · simp [Values.set, Values.find, h]
    · simp [Values.set, Values.find, h, ih]

theorem find_set_other (vs : Values) (name other : String) (value : PyValue)
    (h : name ≠ other) : (vs.set name value).find other = vs.find other := by
  induction vs with
  | nil => simp [Values.set, Values.find, h]
  | cons kv rest ih =>
    obtain ⟨k, v⟩ := kv
    by_cases hk : k = name
    · subst hk; simp [Values.set, Values.find, h]
    · by_cases ho : k = other
      · subst ho
        simp [Values.set, Values.find, hk]
      · simp [Values.set, Values.find, hk, ho, ih]

theorem find_bindParams_not_mem (name : String) (ps : List String) :
    ∀ (as : List PyValue) (vs : Values), name ∉ ps →
      (bindParams vs ps as).find name = vs.find name := by
  induction ps with
  | nil => intro as vs _; simp [bindParams]
  | cons p ps ih =>
    intro as vs hn
    cases as with
    | nil => simp [bindParams]
    | cons a as =>
      rw [bindParams, ih as _ (fun h => hn (List.mem_cons_of_mem _ h)),
        find_set_other _ _ _ _ (fun h : p = name => hn (by rw [h]; exact List.mem_cons_self _ _))]

theorem find_bindParams_nodup (ps : List String) :
    ∀ (as : List PyValue) (vs : Values), ps.Nodup → ∀ (i : Nat) (p : String) (a : PyValue),
      ps[i]? = some p → as[i]? = some a → (bindParams vs ps as).find p = some a := by
  induction ps with
  | nil => intro as vs _ i p a hp; simp at hp
  | cons q ps ih =>
    intro as vs hd i p a hp ha
    cases as with
    | nil => simp at ha
    | cons b as =>
      rw [List.nodup_cons] at hd
      rw [bindParams]
      cases i with
      | zero =>
        simp at hp ha
        subst hp ha
        rw [find_bindParams_not_mem _ _ _ _ hd.1, find_set_same]
      | succ i =>
        simp at hp ha
        exact ih as _ hd.2 i p a hp ha

theorem get_of_deref (name : String) :
    ∀ (envs : EnvHeap) (ptr : Nat) (g : Environment), deref envs ptr = some g →
      g.values.find name = Option.none → g.enclosing = Option.none →
      Environment.get envs ptr name =
        .error (.RuntimeError ("Undefined variable '" ++ name ++ "'") 0) := by
  intro envs
  induction envs with
  | nil => intro ptr g h; simp [deref] at h
  | cons o rest ih =>
    intro ptr g h hv he
    by_cases hp : ptr = rest.length
    · subst hp
      have : o = g := by simpa [deref] using h
      subst this
      rw [get_newest, hv, he]
    · have hd : deref rest ptr = some g := by
        unfold deref at h ⊢
        simp only [List.length_cons] at h
        split at h
        · rename_i hlt
          have hlt2 : ptr < rest.length := by omega
          rw [if_pos hlt2]
          have e : rest.length + 1 - 1 - ptr = (rest.length - 1 - ptr) + 1 := by omega
          rw [e, List.getElem?_cons_succ] at h
          exact h
        · cases h
      rw [Environment.get, if_neg hp]
      exact ih ptr g hd hv he

theorem deref_fresh {α : Type} (heap : List α) : deref heap heap.length = Option.none := by
  simp [deref]

theorem deref_newest {α : Type} (o : α) (heap : List α) :
    deref (o :: heap) heap.length = some o := by
  simp [deref]

theorem callFunction_frame (fuel : Nat) (st : Interpreter) (fn : PyFunction)
    (args : List PyValue) (paren : Token) (h : args.length = fn.params.length) :
    callFunction (fuel + 2) st fn args paren =
      match executeStatements fuel
          { st with
            envs := { values := bindParams [] fn.params args,
                      enclosing := some st.globalEnv } :: st.envs,
            currentEnv := st.envs.length } fn.declaration with
      | (st1, .error (.ReturnException value)) =>
        ({ st1 with currentEnv := st.currentEnv }, .ok value)
      | (st1, .error e) => ({ st1 with currentEnv := st.currentEnv }, .error e)
      | (st1, .ok _) => ({ st1 with currentEnv := st.currentEnv }, .ok .none) := by
  rw [callFunction, if_neg (by simpa using h)]
  simp only [defineParams_newest, executeBlock]
  split <;> rename_i hs <;> split at hs <;> rename_i hs2 <;> simp only [hs2] <;>
    simp_all

theorem evaluateArguments_length :
    ∀ (arguments : List Expr) (fuel : Nat) (st st2 : Interpreter) (args : List PyValue),
      evaluateArguments fuel st arguments = (st2, .ok args) →
      args.length = arguments.length := by
  intro arguments
  induction arguments with
  | nil =>
    intro fuel st st2 args h
    cases fuel with
    | zero => simp [evaluateArguments] at h
    | succ n =>
      simp only [evaluateArguments, Prod.mk.injEq, Except.ok.injEq] at h
      obtain ⟨_, rfl⟩ := h
      rfl
  | cons a rest ih =>
    intro fuel st st2 args h
    cases fuel with
    | zero => simp [evaluateArguments] at h
    | succ n =>
      rw [evaluateArguments] at h
      split at h
      · simp at h
      · rename_i st1 v _
        split at h
        · simp at h
        · rename_i st3 vs hr
          simp only [Prod.mk.injEq, Except.ok.injEq] at h
          rw [← h.2, List.length_cons, List.length_cons, ih n st1 st3 vs hr]

theorem executeBlock_currentEnv (fuel : Nat) (st : Interpreter) (statements : List Stmt)
    (env : Nat) : (executeBlock fuel st statements env).1.currentEnv = st.currentEnv := by
  cases fuel with
  | zero => rw [executeBlock]
  | succ n =>
    rw [executeBlock]
    split <;> rfl

theorem callFunction_currentEnv (fuel : Nat) (st : Interpreter) (fn : PyFunction)
    (args : List PyValue) (paren : Token) :
    (callFunction fuel st fn args paren).1.currentEnv = st.currentEnv := by
  cases fuel with
  | zero => rw [callFunction]
  | succ n =>
    rw [callFunction]
    split
    · rfl
    · have h := executeBlock_currentEnv n
        { st with envs := defineParams ({ values := [], enclosing := some st.globalEnv } :: st.envs)
                    st.envs.length fn.params args } fn.declaration st.envs.length
      revert h
      simp only
      split <;> rename_i hs <;> rw [hs] <;> exact id

/-- C18: a call with matching arity runs the body of the function with the
current environment set to a new heap object (its address is not in use
before the call) whose parent is the global environment and whose map is built
by binding the parameters to the arguments in declaration order; in that
frame a parameter (of a list without repetition) reads as its argument, every
other name reads exactly as in the global environment, whatever the frame of
the caller holds, and a variable expression naming something that is neither a
parameter nor in the global environment ends in the runtime error
`Undefined variable`. -/
theorem C18_call_frames_hang_off_global (fuel : Nat) (st : Interpreter) (fn : PyFunction)
    (args : List PyValue) (paren : Token) (h : args.length = fn.params.length) :
    let frame : Environment :=
      { values := bindParams [] fn.params args, enclosing := some st.globalEnv }
    let entry : Interpreter :=
      { st with envs := frame :: st.envs, currentEnv := st.envs.length }
    callFunction (fuel + 2) st fn args paren =
      (match executeStatements fuel entry fn.declaration with
       | (st1, .error (.ReturnException value)) =>
         ({ st1 with currentEnv := st.currentEnv }, .ok value)
       | (st1, .error e) => ({ st1 with currentEnv := st.currentEnv }, .error e)
       | (st1, .ok _) => ({ st1 with currentEnv := st.currentEnv }, .ok .none)) ∧
    deref st.envs entry.currentEnv = Option.none ∧
    deref entry.envs entry.currentEnv = some frame ∧
    (fn.params.Nodup → ∀ (i : Nat) (p : String) (a : PyValue),
      fn.params[i]? = some p → args[i]? = some a →
      Environment.get entry.envs entry.currentEnv p = .ok a) ∧
    (∀ name : String, name ∉ fn.params →
      Environment.get entry.envs entry.currentEnv name =
        Environment.get st.envs st.globalEnv name) ∧
    (∀ (name : Token) (g : Environment) (n : Nat), name.lexeme ∉ fn.params →
      deref st.envs st.globalEnv = some g → g.values.find name.lexeme = Option.none →
      g.enclosing = Option.none →
      evaluate (n + 1) entry (.variableExpr name) =
        (entry, .error (.RuntimeError ("Undefined variable '" ++ name.lexeme ++ "'") 0))) := by
  intro frame entry
  have hget : ∀ name : String, name ∉ fn.params →
      Environment.get entry.envs entry.currentEnv name =
        Environment.get st.envs st.globalEnv name := by
    intro name hn
    show Environment.get (frame :: st.envs) st.envs.length name = _
    rw [get_newest]
    show (match (bindParams [] fn.params args).find name with
      | some v => Except.ok v
      | Option.none => Environment.get st.envs st.globalEnv name) = _
    rw [find_bindParams_not_mem _ _ _ _ hn]
    rfl
  refine ⟨callFunction_frame fuel st fn args paren h, deref_fresh _, deref_newest _ _, ?_,
    hget, ?_⟩
  · intro hd i p a hp ha
    show Environment.get (frame :: st.envs) st.envs.length p = _
    rw [get_newest]
    show (match (bindParams [] fn.params args).find p with
      | some v => Except.ok v
      | Option.none => Environment.get st.envs st.globalEnv p) = _
    rw [find_bindParams_nodup _ _ _ hd i p a hp ha]
  · intro name g n hn hg hv he
    rw [evaluate, hget _ hn, get_of_deref _ _ _ _ hg hv he]

/-- C19: a call whose callee evaluates to a function of `n` parameters and
whose `k` argument expressions all evaluate hands exactly `k` values to
`callFunction`. If `k ≠ n` the call ends in the runtime error
`Expected n arguments but got k` with the line of the closing parenthesis, in
the very state that the evaluation of the callee and the arguments left, so
nothing of the body has run and no environment has changed; if `k = n` the
result of the call is that of executing the body as a block in the frame of
the call. -/
theorem C19_exact_arity (fuel : Nat) (st st1 st2 : Interpreter) (callee : Expr)
    (paren : Token) (arguments : List Expr) (ptr : Nat) (args : List PyValue)
    (fn : PyFunction)
    (hc : evaluate (fuel + 1) st callee = (st1, .ok (.function ptr)))
    (ha : evaluateArguments (fuel + 1) st1 arguments = (st2, .ok args))
    (hf : deref st2.functions ptr = some fn) :
    args.length = arguments.length ∧
    (arguments.length ≠ fn.params.length →
      evaluate (fuel + 2) st (.callExpr callee paren arguments) =
        (st2, .error (.RuntimeError ("Expected " ++ intToString fn.params.length ++
          " arguments but got " ++ intToString arguments.length) paren.line))) ∧
    (arguments.length = fn.params.length →
      evaluate (fuel + 2) st (.callExpr callee paren arguments) =
        (match executeBlock fuel
            { st2 with
              envs := defineParams
                        ({ values := [], enclosing := some st2.globalEnv } :: st2.envs)
                        st2.envs.length fn.params args }
            fn.declaration st2.envs.length with
         | (st3, .error (.ReturnException value)) => (st3, .ok value)
         | (st3, .error e) => (st3, .error e)
         | (st3, .ok _) => (st3, .ok .none))) := by
  have hl := evaluateArguments_length arguments _ _ _ _ ha
  refine ⟨hl, ?_, ?_⟩
  · intro hk
    rw [evaluate, hc]
    simp only [ha, hf]
    rw [callFunction, if_pos (by rw [hl]; exact hk), hl]
  · intro hk
    rw [evaluate, hc]
    simp only [ha, hf]
    rw [callFunction, if_neg (by rw [hl]; simpa using hk)]

/-- C20: whatever the statements, the state and the way the execution ends,
the current environment after `executeBlock` is the one from before the call;
the same holds for the execution of a block statement and for a function call
(`callFunction`, which runs the body through `executeBlock`). -/
theorem C20_block_restores_current_environment (fuel : Nat) (st : Interpreter)
    (statements : List Stmt) (env : Nat) :
    (executeBlock fuel st statements env).1.currentEnv = st.currentEnv ∧
    (execute fuel st (.blockStmt statements)).1.currentEnv = st.currentEnv ∧
    (∀ (fn : PyFunction) (args : List PyValue) (paren : Token),
      (callFunction fuel st fn args paren).1.currentEnv = st.currentEnv) := by
  refine ⟨executeBlock_currentEnv _ _ _ _, ?_, fun fn args paren =>
    callFunction_currentEnv _ _ _ _ _⟩
  cases fuel with
  | zero => rw [execute]
  | succ n =>
    rw [execute]
    exact executeBlock_currentEnv _ _ _ _

/-- Witness of C18 on the call of `g()` from inside `f(a)`: the frame of `g`
is the heap object 2 with parent 0, the name `a` of the frame of the caller
(object 1) is not found from it, and the program as a whole ends in the
runtime error; with a global `a` the callee reads the global value. -/
theorem C18_call_frames_hang_off_global_witness :
    evaluate 1
      { envs := [{ values := [], enclosing := some 0 },
                 { values := [("a", .int 1)], enclosing := some 0 },
                 { values := [("g", .function 0), ("f", .function 1)],
                   enclosing := Option.none }],
        functions := [], globalEnv := 0, currentEnv := 2, lastValue := .none,
        lastValueSet := false, stdout := "" }
      (.variableExpr ⟨.IDENTIFIER, "a", .monostate, 2, 12⟩) =
      ({ envs := [{ values := [], enclosing := some 0 },
                  { values := [("a", .int 1)], enclosing := some 0 },
                  { values := [("g", .function 0), ("f", .function 1)],
                    enclosing := Option.none }],
         functions := [], globalEnv := 0, currentEnv := 2, lastValue := .none,
         lastValueSet := false, stdout := "" },
       .error (.RuntimeError "Undefined variable 'a'" 0)) ∧
    (run 100 "def g():\n    return a\ndef f(a):\n    return g()\nprint(f(1))\n"
      Interpreter.new false).2.1 = "Runtime Error: Undefined variable 'a'\n" ∧
    (run 100 "a = 5\ndef g():\n    return a\ndef f(a):\n    return g()\nprint(f(1))\n"
      Interpreter.new false).1.stdout = "5\n" :=
  ⟨(C18_call_frames_hang_off_global 0
      { envs := [{ values := [("a", .int 1)], enclosing := some 0 },
                 { values := [("g", .function 0), ("f", .function 1)],
                   enclosing := Option.none }],
        functions := [], globalEnv := 0, currentEnv := 1, lastValue := .none,
        lastValueSet := false, stdout := "" }
      { name := "g", params := [], declaration := [] } [] ⟨.RPAREN, ")", .monostate, 4, 14⟩
      rfl).2.2.2.2.2 ⟨.IDENTIFIER, "a", .monostate, 2, 12⟩
      { values := [("g", .function 0), ("f", .function 1)], enclosing := Option.none } 0
      (by simp) rfl rfl rfl,
   run_within 40 100 _ _ _ (fun r => r.2.1 = "Runtime Error: Undefined variable 'a'\n") (by decide!),
   run_within 40 100 _ _ _ (fun r => r.1.stdout = "5\n") (by decide!)⟩

/-- Witness of C19 on the call `f(1, 2)` of a function of one parameter: the
error names both numbers and line 3, and the program prints nothing. -/
theorem C19_exact_arity_witness :
    evaluate 4
      { envs := [{ values := [("f", .function 0)], enclosing := Option.none }],
        functions := [{ name := "f", params := ["a"], declaration := [] }],
        globalEnv := 0, currentEnv := 0, lastValue := .none, lastValueSet := false,
        stdout := "" }
      (.callExpr (.variableExpr ⟨.IDENTIFIER, "f", .monostate, 3, 1⟩)
        ⟨.RPAREN, ")", .monostate, 3, 7⟩ [.literalExpr (.int 1), .literalExpr (.int 2)]) =
      ({ envs := [{ values := [("f", .function 0)], enclosing := Option.none }],
         functions := [{ name := "f", params := ["a"], declaration := [] }],
         globalEnv := 0, currentEnv := 0, lastValue := .none, lastValueSet := false,
         stdout := "" },
       .error (.RuntimeError "Expected 1 arguments but got 2" 3)) ∧
    (run 100 "def f(a):\n    print(a)\nf(1, 2)\n" Interpreter.new false).2.1 =
      "Runtime Error [line 3]: Expected 1 arguments but got 2\n" ∧
    (run 100 "def f(a):\n    print(a)\nf(1, 2)\n" Interpreter.new false).1.stdout = "" ∧
    (run 100 "def f(a):\n    print(a)\nf(7)\n" Interpreter.new false).1.stdout = "7\n" :=
  ⟨(C19_exact_arity 2
      { envs := [{ values := [("f", .function 0)], enclosing := Option.none }],
        functions := [{ name := "f", params := ["a"], declaration := [] }],
        globalEnv := 0, currentEnv := 0, lastValue := .none, lastValueSet := false,
        stdout := "" }
      { envs := [{ values := [("f", .function 0)], enclosing := Option.none }],
        functions := [{ name := "f", params := ["a"], declaration := [] }],
        globalEnv := 0, currentEnv := 0, lastValue := .none, lastValueSet := false,
        stdout := "" }
      { envs := [{ values := [("f", .function 0)], enclosing := Option.none }],
        functions := [{ name := "f", params := ["a"], declaration := [] }],
        globalEnv := 0, currentEnv := 0, lastValue := .none, lastValueSet := false,
        stdout := "" }
      (.variableExpr ⟨.IDENTIFIER, "f", .monostate, 3, 1⟩) ⟨.RPAREN, ")", .monostate, 3, 7⟩
      [.literalExpr (.int 1), .literalExpr (.int 2)] 0 [.int 1, .int 2]
      { name := "f", params := ["a"], declaration := [] } rfl rfl rfl).2.1 (by decide),
   run_within 40 100 _ _ _
     (fun r => r.2.1 = "Runtime Error [line 3]: Expected 1 arguments but got 2\n") (by decide!),
   run_within 40 100 _ _ _ (fun r => r.1.stdout = "") (by decide!),
   run_within 40 100 _ _ _ (fun r => r.1.stdout = "7\n") (by decide!)⟩

theorem evaluate_binary {fuel : Nat} {st st1 st2 : Interpreter} {left right : Expr}
    {l r : PyValue} (op : Token) (hl : evaluate fuel st left = (st1, .ok l))
    (hr : evaluate fuel st1 right = (st2, .ok r)) :
    evaluate (fuel + 1) st (.binaryExpr left op right) = (st2, binarySwitch op l r) := by
  rw [evaluate, hl]
  simp only [hr]

theorem evaluate_unary {fuel : Nat} {st st1 : Interpreter} {operand : Expr} {v : PyValue}
    (op : Token) (h : evaluate fuel st operand = (st1, .ok v)) :
    evaluate (fuel + 1) st (.unaryExpr op operand) = (st1, unarySwitch op v) := by
  rw [evaluate, h]

/-! ### String repetition -/

theorem repeatString_eq_join (s : String) (n : Nat) :
    repeatString s n = String.join (List.replicate n s) := by
  induction n with
  | zero => rfl
  | succ n ih =>
    rw [repeatString, ih, List.replicate_succ']
    simp [String.join, List.foldl_append]

theorem repeatString_length (s : String) (n : Nat) :
    (repeatString s n).length = s.length * n := by
  induction n with
  | zero => rfl
  | succ n ih => rw [repeatString, String.length_append, ih, Nat.mul_succ]

/-- C23: the STAR case applied to a string `s` and an integer `n` gives the
string made of `max n 0` copies of `s`; its length is `len(s) * n` for
`n ≥ 0`, and it is the empty string for `n < 0`. The same holds for the
evaluation of a binary node whose operands evaluate to `s` and `n`. -/
theorem C23_string_repetition (op : Token) (s : String) (n : Int) (h : op.type = .STAR) :
    binarySwitch op (.str s) (.int n) =
      .ok (.str (String.join (List.replicate (max n 0).toNat s))) ∧
    (0 ≤ n → ∃ r, binarySwitch op (.str s) (.int n) = .ok (.str r) ∧
      (r.length : Int) = s.length * n) ∧
    (n < 0 → binarySwitch op (.str s) (.int n) = .ok (.str "")) ∧
    (∀ (fuel : Nat) (st st1 st2 : Interpreter) (left right : Expr),
      evaluate fuel st left = (st1, .ok (.str s)) →
      evaluate fuel st1 right = (st2, .ok (.int n)) →
      evaluate (fuel + 1) st (.binaryExpr left op right) =
        (st2, .ok (.str (String.join (List.replicate (max n 0).toNat s))))) := by
  have hb : binarySwitch op (.str s) (.int n) = .ok (.str (repeatString s n.toNat)) := by
    simp [binarySwitch, h, PyValue.holdsString, PyValue.holdsInt, PyValue.getInt,
      PyValue.getString, bind, Except.bind, pure, Except.pure]
  have hm : (max n 0).toNat = n.toNat := by omega
  refine ⟨by rw [hb, hm, repeatString_eq_join], ?_, ?_, ?_⟩
  · intro h0
    refine ⟨_, hb, ?_⟩
    rw [repeatString_length]
    push_cast
    rw [Int.toNat_of_nonneg h0]
  · intro hn
    rw [hb, show n.toNat = 0 by omega]
    rfl
  · intro fuel st st1 st2 left right hl hr
    rw [evaluate_binary op hl hr, hb, hm, repeatString_eq_join]

/-- Witness of C23 for `"ab" * 3`, and the output of a program with the
counts 3, 0 and -2. -/
theorem C23_string_repetition_witness :
    binarySwitch ⟨.STAR, "*", .monostate, 1, 6⟩ (.str "ab") (.int 3) = .ok (.str "ababab") ∧
    (run 100 "print(\"ab\" * 3, \"ab\" * 0, \"ab\" * -2)\n" Interpreter.new false).1.stdout =
      "ababab  \n" :=
  ⟨(C23_string_repetition ⟨.STAR, "*", .monostate, 1, 6⟩ "ab" 3 rfl).1,
   run_within 40 100 _ _ _ (fun r => r.1.stdout = "ababab  \n") (by decide!)⟩

/-! ### Truthiness -/

/-- C24: for every value `x`, two NOT operators applied to `x` give the
boolean `isTruthy x`, also as the value of the expression `not not e` when `e`
evaluates to `x`; `isTruthy x` is false exactly for None, False, the integer
0, a float zero (`0.0` or `-0.0`, the floats equal to `0.0`) and the empty
string, so every function is truthy. -/
theorem C24_double_negation_truthiness (x : PyValue) :
    (∀ op1 op2 : Token, op1.type = .NOT → op2.type = .NOT →
      (unarySwitch op2 x >>= unarySwitch op1) = .ok (.bool (isTruthy x)) ∧
      ∀ (fuel : Nat) (st st1 : Interpreter) (e : Expr), evaluate fuel st e = (st1, .ok x) →
        evaluate (fuel + 2) st (.unaryExpr op1 (.unaryExpr op2 e)) =
          (st1, .ok (.bool (isTruthy x)))) ∧
    (isTruthy x = false ↔
      x = .none ∨ x = .bool false ∨ x = .int 0 ∨ x = .float (.fin 0) ∨ x = .float .negZero ∨
        x = .str "") ∧
    (∀ ptr, x = .function ptr → isTruthy x = true) := by
  refine ⟨?_, ?_, ?_⟩
  · intro op1 op2 h1 h2
    have hu : ∀ (op : Token) (v : PyValue), op.type = .NOT →
        unarySwitch op v = .ok (.bool (!isTruthy v)) := by
      intro op v ho
      simp [unarySwitch, ho, pure, Except.pure]
    refine ⟨?_, ?_⟩
    · rw [hu op2 x h2]
      simp only [bind, Except.bind]
      rw [hu op1 _ h1]
      simp [isTruthy]
    · intro fuel st st1 e he
      have h3 := evaluate_unary op2 he
      rw [hu op2 x h2] at h3
      rw [evaluate_unary op1 h3, hu op1 _ h1]
      simp [isTruthy]
  · cases x with
    | none => simp [isTruthy]
    | bool b => cases b <;> simp [isTruthy]
    | int i => simp [isTruthy]
    | float d => cases d <;> simp [isTruthy, Double.isZero]
    | str s => simp [isTruthy]
    | function p => simp [isTruthy]
  · intro ptr h
    rw [h]
    rfl

/-- Witness of C24: a function is truthy, and the output of `not not x` for
a float zero and a non-zero integer. -/
theorem C24_double_negation_truthiness_witness :
    isTruthy (.function 0) = true ∧
    (run 100 "print(not not 0.0, not not 2)\n" Interpreter.new false).1.stdout =
      "False True\n" :=
  ⟨(C24_double_negation_truthiness (.function 0)).2.2 0 rfl,
   run_within 40 100 _ _ _ (fun r => r.1.stdout = "False True\n") (by decide!)⟩

/-! ### Division by zero -/

namespace Double

theorem log2Aux_le : ∀ (f x : Nat), 1 ≤ x → 2 ^ log2Aux f x ≤ x
  | 0, x, h => by simpa [log2Aux] using h
  | f + 1, x, h => by
    rw [log2Aux]
    split
    · simpa using h
    · have ih := log2Aux_le f (x / 2) (by omega)
      rw [pow_succ]
      omega

theorem roundHalfEven_ge (n d : Nat) : n / d ≤ roundHalfEven n d := by
  unfold roundHalfEven
  simp only
  split
  · exact le_refl _
  · split
    · omega
    · split <;> omega

theorem round_isZero (negative : Bool) (n : Nat) (h : 1 ≤ n) :
    (round negative n 1).isZero = false := by
  have hp : 2 ^ (ilog2 n 1 - 52).toNat ≤ n := by
    have h1 : ilog2 n 1 ≤ (log2 n : Int) := by
      unfold ilog2
      have : log2 1 = 0 := rfl
      simp only [this]
      split
      · split <;> omega
      · split <;> omega
    have h2 : (ilog2 n 1 - 52).toNat ≤ log2 n := by omega
    exact le_trans (Nat.pow_le_pow_right (by decide) h2) (log2Aux_le n n h)
  have hq : 1 ≤ roundHalfEven n (1 * 2 ^ (ilog2 n 1 - 52).toNat) := by
    refine le_trans ?_ (roundHalfEven_ge _ _)
    rw [one_mul]
    exact (Nat.one_le_div_iff (by positivity)).mpr hp
  have hr : roundHalfEven n (1 * 2 ^ (ilog2 n 1 - 52).toNat) * 2 ^ (ilog2 n 1 - 52).toNat ≠ 0 := by
    have : 0 < 2 ^ (ilog2 n 1 - 52).toNat := by positivity
    exact Nat.ne_of_gt (Nat.mul_pos hq this)
  unfold round
  simp only [if_neg hr]
  split
  · rfl
  · cases negative
    · simp only [isZero, Bool.false_eq_true, if_false, decide_eq_false_iff_not]
      exact_mod_cast hr
    · simp only [isZero, if_true, decide_eq_false_iff_not]
      intro h0
      exact hr (by exact_mod_cast neg_eq_zero.mp h0)

theorem ofInt_isZero (i : Int) : (ofInt i).isZero = decide (i = 0) := by
  unfold ofInt
  have hone : (one : Int) ≠ 0 := by
    unfold one
    positivity
  split
  · simp only [isZero, decide_eq_decide]
    constructor
    · intro h
      rcases mul_eq_zero.mp h with h | h
      · exact h
      · exact absurd h hone
    · intro h
      rw [h, zero_mul]
  · rename_i hb
    have hi : i ≠ 0 := by
      intro h
      rw [h] at hb
      simp at hb
    unfold roundFrac
    rw [round_isZero]
    · simp [hi]
    · rw [Int.natAbs_mul]
      have h1 : 1 ≤ i.natAbs := Int.natAbs_pos.mpr hi
      have h2 : 1 ≤ (one : Int).natAbs := Int.natAbs_pos.mpr hone
      exact Nat.mul_le_mul h1 h2 |>.trans' (by norm_num)

end Double

theorem asDouble_int (i : Int) : PyValue.asDouble (.int i) = .ok (Double.ofInt i) := rfl

theorem asDouble_float (d : Double) : PyValue.asDouble (.float d) = .ok d := rfl

/-- C27: with a left operand that is an integer or a float and a right
operand that is the integer 0, the float `0.0` or the float `-0.0`, the cases
SLASH and DOUBLE_SLASH end in the runtime error `Division by zero` and the
case PERCENT in the runtime error `Modulo by zero`, at the line of the
operator; with any other integer or float as right operand the case SLASH
returns a float. -/
theorem C27_zero_divisors (op : Token) (l r : PyValue)
    (hl : (l.holdsInt || l.holdsDouble) = true) :
    (r = .int 0 ∨ r = .float (.fin 0) ∨ r = .float .negZero →
      (op.type = .SLASH ∨ op.type = .DOUBLE_SLASH →
        binarySwitch op l r = .error (.RuntimeError "Division by zero" op.line)) ∧
      (op.type = .PERCENT →
        binarySwitch op l r = .error (.RuntimeError "Modulo by zero" op.line))) ∧
    (op.type = .SLASH → (r.holdsInt || r.holdsDouble) = true →
      r ≠ .int 0 → r ≠ .float (.fin 0) → r ≠ .float .negZero →
      ∃ d, binarySwitch op l r = .ok (.float d)) := by
  obtain ⟨x, hx⟩ : ∃ x, l.asDouble = .ok x := by
    cases l <;> simp [PyValue.holdsInt, PyValue.holdsDouble] at hl
    · exact ⟨_, asDouble_int _⟩
    · exact ⟨_, asDouble_float _⟩
  refine ⟨?_, ?_⟩
  · intro hr
    obtain ⟨y, hy, hz⟩ : ∃ y, r.asDouble = .ok y ∧ y.isZero = true := by
      rcases hr with h | h | h <;> rw [h]
      · exact ⟨_, asDouble_int _, by rw [Double.ofInt_isZero]; rfl⟩
      · exact ⟨_, asDouble_float _, rfl⟩
      · exact ⟨_, asDouble_float _, rfl⟩
    refine ⟨?_, ?_⟩
    · intro ho
      rcases ho with ho | ho <;>
        simp [binarySwitch, ho, hx, hy, hz, bind, Except.bind]
    · intro ho
      by_cases hb : (l.holdsInt && r.holdsInt) = true
      · have hr0 : r = .int 0 := by
          rcases hr with h | h | h
          · exact h
          · rw [h] at hb; simp [PyValue.holdsInt] at hb
          · rw [h] at hb; simp [PyValue.holdsInt] at hb
        subst hr0
        have hli : l.holdsInt = true := by simpa [PyValue.holdsInt] using hb
        simp only [binarySwitch, ho]
        rw [if_pos (by rw [hli]; rfl)]
        rfl
      · simp [binarySwitch, ho, hb, hx, hy, hz, bind, Except.bind]
  · intro ho hr h1 h2 h3
    obtain ⟨y, hy, hz⟩ : ∃ y, r.asDouble = .ok y ∧ y.isZero = false := by
      cases r <;> simp [PyValue.holdsInt, PyValue.holdsDouble] at hr
      · rename_i i
        refine ⟨_, asDouble_int _, ?_⟩
        rw [Double.ofInt_isZero]
        simpa using h1
      · rename_i d
        refine ⟨_, asDouble_float _, ?_⟩
        cases d <;> simp [Double.isZero] at h2 h3 ⊢
        exact h2
    refine ⟨x.div y, ?_⟩
    simp [binarySwitch, ho, hx, hy, hz, bind, Except.bind, pure, Except.pure]

/-- Witness of C27 for the integer 1 as left operand of `/`: the error for
the divisor 0 and a float for the divisor 2; the output of runs with zero
divisors. -/
theorem C27_zero_divisors_witness :
    binarySwitch ⟨.SLASH, "/", .monostate, 7, 3⟩ (.int 1) (.int 0) =
      .error (.RuntimeError "Division by zero" 7) ∧
    (∃ d, binarySwitch ⟨.SLASH, "/", .monostate, 7, 3⟩ (.int 1) (.int 2) = .ok (.float d)) ∧
    (run 100 "print(1 // 0.0)\n" Interpreter.new false).2.1 =
      "Runtime Error [line 1]: Division by zero\n" ∧
    (run 100 "print(4 / 2)\n" Interpreter.new false).1.stdout = "2.0\n" :=
  ⟨((C27_zero_divisors ⟨.SLASH, "/", .monostate, 7, 3⟩ (.int 1) (.int 0) rfl).1
      (Or.inl rfl)).1 (Or.inl rfl),
   (C27_zero_divisors ⟨.SLASH, "/", .monostate, 7, 3⟩ (.int 1) (.int 2) rfl).2 rfl rfl
      (by decide) (by simp) (by simp),
   by decide!, by decide!⟩

/-! ### Ordering comparisons -/

theorem asDouble_numeric {v : PyValue} (h : (v.holdsInt || v.holdsDouble) = true) :
    ∃ x, v.asDouble = .ok x := by
  cases v <;> simp [PyValue.holdsInt, PyValue.holdsDouble] at h
  · exact ⟨_, asDouble_int _⟩
  · exact ⟨_, asDouble_float _⟩

theorem comparison_numeric (op : Token) (l r : PyValue)
    (h : op.type ∈ [TokenType.LT, .LE, .GT, .GE])
    (hl : (l.holdsInt || l.holdsDouble) = true) (hr : (r.holdsInt || r.holdsDouble) = true) :
    ∃ b, binarySwitch op l r = .ok (.bool b) := by
  obtain ⟨x, hx⟩ := asDouble_numeric hl
  obtain ⟨y, hy⟩ := asDouble_numeric hr
  simp only [List.mem_cons, List.mem_singleton, List.not_mem_nil, or_false] at h
  rcases h with h | h | h | h <;>
    simp [binarySwitch, h, hl, hr, hx, hy, bind, Except.bind, pure, Except.pure]

theorem comparison_not_numeric (op : Token) (l r : PyValue)
    (h : op.type ∈ [TokenType.LT, .LE, .GT, .GE])
    (hn : (l.holdsInt || l.holdsDouble) = false ∨ (r.holdsInt || r.holdsDouble) = false) :
    binarySwitch op l r = .error (.RuntimeError "Operands must be numbers" op.line) := by
  simp only [List.mem_cons, List.mem_singleton, List.not_mem_nil, or_false] at h
  by_cases hl : (l.holdsInt || l.holdsDouble) = true
  · have hr : (r.holdsInt || r.holdsDouble) = false := by
      rcases hn with hn | hn
      · rw [hl] at hn; cases hn
      · exact hn
    rcases h with h | h | h | h <;> simp [binarySwitch, h, hl, hr]
  · have hl1 : (l.holdsInt || l.holdsDouble) = false := by simpa using hl
    rcases h with h | h | h | h <;> simp [binarySwitch, h, hl1]

/-- C26: for an operator LT, LE, GT or GE and any two values, the comparison
ends in a runtime error exactly when one of the operands is neither an integer
nor a float, and the error is `Operands must be numbers` at the line of the
operator; with two numeric operands the result is a boolean. Hence comparing the
result of a comparison again (the left-associative `a < b < c`) is always a
runtime error. -/
theorem C26_ordering_numeric_only (op : Token) (l r : PyValue)
    (h : op.type ∈ [TokenType.LT, .LE, .GT, .GE]) :
    ((∃ msg line, binarySwitch op l r = .error (.RuntimeError msg line)) ↔
      ((l.holdsInt || l.holdsDouble) = false ∨ (r.holdsInt || r.holdsDouble) = false)) ∧
    ((l.holdsInt || l.holdsDouble) = false ∨ (r.holdsInt || r.holdsDouble) = false →
      binarySwitch op l r = .error (.RuntimeError "Operands must be numbers" op.line)) ∧
    ((l.holdsInt || l.holdsDouble) = true → (r.holdsInt || r.holdsDouble) = true →
      ∃ b, binarySwitch op l r = .ok (.bool b) ∧
        ∀ (op2 : Token) (c : PyValue), op2.type ∈ [TokenType.LT, .LE, .GT, .GE] →
          binarySwitch op2 (.bool b) c =
            .error (.RuntimeError "Operands must be numbers" op2.line)) ∧
    (∀ v : PyValue, (v.holdsInt || v.holdsDouble) = true ↔
      ((∃ i, v = .int i) ∨ ∃ d, v = .float d)) := by
  refine ⟨⟨?_, ?_⟩, comparison_not_numeric op l r h, ?_, ?_⟩
  · rintro ⟨msg, line, he⟩
    by_contra hc
    have hl : (l.holdsInt || l.holdsDouble) = true := by
      by_contra h1
      exact hc (Or.inl (by simpa using h1))
    have hr : (r.holdsInt || r.holdsDouble) = true := by
      by_contra h1
      exact hc (Or.inr (by simpa using h1))
    obtain ⟨b, hb⟩ := comparison_numeric op l r h hl hr
    rw [hb] at he
    cases he
  · intro hn
    exact ⟨_, _, comparison_not_numeric op l r h hn⟩
  · intro hl hr
    obtain ⟨b, hb⟩ := comparison_numeric op l r h hl hr
    exact ⟨b, hb, fun op2 c h2 => comparison_not_numeric op2 _ c h2 (Or.inl rfl)⟩
  · intro v
    cases v <;> simp [PyValue.holdsInt, PyValue.holdsDouble]

/-- Witness of C26: `1 < True` is a runtime error; the tokens of `1 < 2 < 3`
are parsed as `(1 < 2) < 3`, and the run of that line ends in the runtime
error. -/
theorem C26_ordering_numeric_only_witness :
    binarySwitch ⟨.LT, "<", .monostate, 4, 3⟩ (.int 1) (.bool true) =
      .error (.RuntimeError "Operands must be numbers" 4) ∧
    Parser.expression
      [⟨.INTEGER, "1", .integer 1, 1, 1⟩, ⟨.LT, "<", .monostate, 1, 3⟩,
       ⟨.INTEGER, "2", .integer 2, 1, 5⟩, ⟨.LT, "<", .monostate, 1, 7⟩,
       ⟨.INTEGER, "3", .integer 3, 1, 9⟩, ⟨.NEWLINE, "\n", .monostate, 1, 10⟩,
       ⟨.END_OF_FILE, "", .monostate, 2, 1⟩] 40 0 =
      .ok (.binaryExpr
        (.binaryExpr (.literalExpr (.int 1)) ⟨.LT, "<", .monostate, 1, 3⟩
          (.literalExpr (.int 2)))
        ⟨.LT, "<", .monostate, 1, 7⟩ (.literalExpr (.int 3)), 5) ∧
    (run 100 "print(1 < 2 < 3)\n" Interpreter.new false).2.1 =
      "Runtime Error [line 1]: Operands must be numbers\n" ∧
    (run 100 "print(1 < 2.5, 2 >= 3)\n" Interpreter.new false).1.stdout = "True False\n" :=
  ⟨(C26_ordering_numeric_only ⟨.LT, "<", .monostate, 4, 3⟩ (.int 1) (.bool true)
      (by decide)).2.1 (Or.inr rfl),
   Parser.ok_of_code (by decide!),
   run_within 40 100 _ _ _
     (fun r => r.2.1 = "Runtime Error [line 1]: Operands must be numbers\n") (by decide!),
   run_within 40 100 _ _ _ (fun r => r.1.stdout = "True False\n") (by decide!)⟩

/-- C25 (the DOUBLE_SLASH case converts both integers to `double` before it
divides): `(2^53 + 1) // 1` is `2^53`, printed as `9007199254740992`, not
`9007199254740993`. -/
theorem C25_floor_division_through_double :
    binarySwitch ⟨.DOUBLE_SLASH, "//", .monostate, 1, 24⟩ (.int (2 ^ 53 + 1)) (.int 1) =
      .ok (.int (2 ^ 53)) ∧
    (run 100 "print(9007199254740993 // 1)\n" Interpreter.new false).1.stdout =
      "9007199254740992\n" := by
  decide!

theorem returnFree_ok {α : Type} (a : α) : ReturnFree (Except.ok a : Except Exn α) :=
  ⟨fun _ h => by cases h⟩

theorem returnFree_pure {α : Type} (a : α) : ReturnFree (pure a : Except Exn α) :=
  returnFree_ok a

theorem returnFree_runtime {α : Type} (msg : String) (line : Nat) :
    ReturnFree (Except.error (.RuntimeError msg line) : Except Exn α) :=
  ⟨fun _ h => by cases h⟩

theorem returnFree_undefined {α : Type} :
    ReturnFree (Except.error .undefinedBehaviour : Except Exn α) :=
  ⟨fun _ h => by cases h⟩

theorem returnFree_outOfFuel {α : Type} :
    ReturnFree (Except.error .outOfFuel : Except Exn α) :=
  ⟨fun _ h => by cases h⟩

theorem returnFree_bind {α β : Type} {x : Except Exn α} {f : α → Except Exn β}
    (hx : ReturnFree x) (hf : ∀ a, ReturnFree (f a)) : ReturnFree (x >>= f) := by
  cases x with
  | error e => exact ⟨fun v h => hx.ne v (by cases h; rfl)⟩
  | ok a => exact hf a

theorem returnFree_of_eq {α β : Type} {r : Interpreter × Except Exn α} {st : Interpreter}
    {e : Exn} (h : ReturnFree r.2) (hr : r = (st, .error e)) :
    ReturnFree (Except.error e : Except Exn β) := by
  refine ⟨fun v hv => ?_⟩
  cases hv
  exact h.ne v (by rw [hr])

theorem returnFree_getInt (v : PyValue) : ReturnFree v.getInt := by
  cases v <;> exact ⟨fun _ h => by cases h⟩

theorem returnFree_getString (v : PyValue) : ReturnFree v.getString := by
  cases v <;> exact ⟨fun _ h => by cases h⟩

theorem returnFree_asDouble (v : PyValue) : ReturnFree v.asDouble := by
  cases v <;> exact ⟨fun _ h => by cases h⟩

theorem returnFree_castToInt (d : Double) : ReturnFree (castToInt d) := by
  unfold castToInt
  split
  · exact returnFree_ok _
  · exact returnFree_undefined

theorem returnFree_binarySwitch (op : Token) (l r : PyValue) :
    ReturnFree (binarySwitch op l r) := by
  unfold binarySwitch
  repeat' first
    | exact returnFree_pure _
    | exact returnFree_getInt _
    | exact returnFree_getString _
    | exact returnFree_asDouble _
    | exact returnFree_castToInt _
    | exact returnFree_runtime _ _
    | exact returnFree_undefined
    | with_reducible apply returnFree_bind
    | intro _
    | split

theorem returnFree_unarySwitch (op : Token) (v : PyValue) :
    ReturnFree (unarySwitch op v) := by
  unfold unarySwitch
  repeat' first
    | exact returnFree_pure _
    | exact returnFree_runtime _ _
    | split

theorem returnFree_get (name : String) :
    ∀ (heap : EnvHeap) (env : Nat), ReturnFree (Environment.get heap env name)
  | [], env => returnFree_undefined
  | o :: rest, env => by
    rw [Environment.get]
    split
    · split
      · exact returnFree_ok _
      · split
        · exact returnFree_get name rest _
        · exact returnFree_runtime _ _
    · exact returnFree_get name rest env

theorem returnFree_callFunction (fuel : Nat) (st : Interpreter) (fn : PyFunction)
    (args : List PyValue) (paren : Token) :
    ReturnFree (callFunction fuel st fn args paren).2 := by
  cases fuel with
  | zero =>
    rw [callFunction]
    exact returnFree_outOfFuel
  | succ n =>
    rw [callFunction]
    split
    · exact returnFree_runtime _ _
    · simp only
      split
      · exact returnFree_ok _
      · rename_i hne _
        exact ⟨fun w h => hne w (by cases h; rfl)⟩
      · exact returnFree_ok _

theorem returnFree_evaluate : ∀ fuel : Nat,
    (∀ (st : Interpreter) (e : Expr), ReturnFree (evaluate fuel st e).2) ∧
    (∀ (st : Interpreter) (es : List Expr), ReturnFree (evaluateArguments fuel st es).2) := by
  intro fuel
  induction fuel with
  | zero =>
    refine ⟨?_, ?_⟩
    · intro st e
      rw [evaluate]
      exact returnFree_outOfFuel
    · intro st es
      rw [evaluateArguments]
      exact returnFree_outOfFuel
  | succ n ih =>
    obtain ⟨ihe, iha⟩ := ih
    refine ⟨?_, ?_⟩
    · intro st e
      cases e with
      | binaryExpr left op right =>
        rw [evaluate]
        split
        · rename_i hx
          exact returnFree_of_eq (ihe _ _) hx
        · split
          · rename_i hx
            exact returnFree_of_eq (ihe _ _) hx
          · exact returnFree_binarySwitch _ _ _
      | unaryExpr op operand =>
        rw [evaluate]
        split
        · rename_i hx
          exact returnFree_of_eq (ihe _ _) hx
        · exact returnFree_unarySwitch _ _
      | literalExpr value =>
        rw [evaluate]
        exact returnFree_ok _
      | variableExpr name =>
        rw [evaluate]
        exact returnFree_get _ _ _
      | assignExpr name value =>
        rw [evaluate]
        split
        · rename_i hx
          exact returnFree_of_eq (ihe _ _) hx
        · exact returnFree_ok _
      | callExpr callee paren arguments =>
        rw [evaluate]
        split
        · rename_i hx
          exact returnFree_of_eq (ihe _ _) hx
        · split
          · rename_i hx
            exact returnFree_of_eq (iha _ _) hx
          · split
            · split
              · exact returnFree_callFunction _ _ _ _ _
              · exact returnFree_undefined
            · exact returnFree_runtime _ _
      | groupingExpr expression =>
        rw [evaluate]
        exact ihe st expression
    · intro st es
      cases es with
      | nil =>
        rw [evaluateArguments]
        exact returnFree_ok _
      | cons a rest =>
        rw [evaluateArguments]
        split
        · rename_i hx
          exact returnFree_of_eq (ihe _ _) hx
        · split
          · rename_i hx
            exact returnFree_of_eq (iha _ _) hx
          · exact returnFree_ok _

/-! ### Return -/

theorem executeStatements_error {fuel : Nat} {st st1 : Interpreter} {s : Stmt} {x : Exn}
    (rest : List Stmt) (h : execute fuel st s = (st1, .error x)) :
    executeStatements (fuel + 1) st (s :: rest) = (st1, .error x) := by
  rw [executeStatements, h]

theorem executeStatements_ok {fuel : Nat} {st st1 : Interpreter} {s : Stmt}
    (rest : List Stmt) (h : execute fuel st s = (st1, .ok ())) :
    executeStatements (fuel + 1) st (s :: rest) = executeStatements fuel st1 rest := by
  rw [executeStatements, h]

theorem execute_block_error {fuel : Nat} {st st1 : Interpreter} {ss : List Stmt} {x : Exn}
    (h : executeStatements fuel
      { st with envs := { values := [], enclosing := some st.currentEnv } :: st.envs,
                currentEnv := st.envs.length } ss = (st1, .error x)) :
    execute (fuel + 2) st (.blockStmt ss) =
      ({ st1 with currentEnv := st.currentEnv }, .error x) := by
  rw [execute, executeBlock]
  simp only [h]

theorem execute_if_true {fuel : Nat} {st st1 : Interpreter} {c : Expr} {v : PyValue}
    (t : Stmt) (elifs : List (Expr × Stmt)) (els : Option Stmt)
    (h : evaluate fuel st c = (st1, .ok v)) (hv : isTruthy v = true) :
    execute (fuel + 1) st (.ifStmt c t elifs els) = execute fuel st1 t := by
  rw [execute, h]
  simp only [hv, if_true]

theorem execute_if_false {fuel : Nat} {st st1 : Interpreter} {c : Expr} {v : PyValue}
    (t : Stmt) (elifs : List (Expr × Stmt)) (els : Option Stmt)
    (h : evaluate fuel st c = (st1, .ok v)) (hv : isTruthy v = false) :
    execute (fuel + 1) st (.ifStmt c t elifs els) = executeElifs fuel st1 elifs els := by
  rw [execute, h]
  simp only [hv, Bool.false_eq_true, if_false]

theorem executeElifs_true {fuel : Nat} {st st1 : Interpreter} {c : Expr} {v : PyValue}
    (b : Stmt) (rest : List (Expr × Stmt)) (els : Option Stmt)
    (h : evaluate fuel st c = (st1, .ok v)) (hv : isTruthy v = true) :
    executeElifs (fuel + 1) st ((c, b) :: rest) els = execute fuel st1 b := by
  rw [executeElifs, h]
  simp only [hv, if_true]

theorem executeElifs_false {fuel : Nat} {st st1 : Interpreter} {c : Expr} {v : PyValue}
    (b : Stmt) (rest : List (Expr × Stmt)) (els : Option Stmt)
    (h : evaluate fuel st c = (st1, .ok v)) (hv : isTruthy v = false) :
    executeElifs (fuel + 1) st ((c, b) :: rest) els = executeElifs fuel st1 rest els := by
  rw [executeElifs, h]
  simp only [hv, Bool.false_eq_true, if_false]

theorem execute_while_error {fuel : Nat} {st st1 st2 : Interpreter} {c : Expr} {v : PyValue}
    {body : Stmt} {x : Exn} (h : evaluate fuel st c = (st1, .ok v)) (hv : isTruthy v = true)
    (hb : execute fuel st1 body = (st2, .error x)) :
    execute (fuel + 2) st (.whileStmt c body) = (st2, .error x) := by
  rw [execute, executeWhile, h]
  simp only [hv, if_true, hb]

theorem execute_while_ok {fuel : Nat} {st st1 st2 : Interpreter} {c : Expr} {v : PyValue}
    {body : Stmt} (h : evaluate fuel st c = (st1, .ok v)) (hv : isTruthy v = true)
    (hb : execute fuel st1 body = (st2, .ok ())) :
    execute (fuel + 2) st (.whileStmt c body) = execute (fuel + 1) st2 (.whileStmt c body) := by
  rw [execute, executeWhile, h]
  simp only [hv, if_true, hb]
  rw [execute]

/-- C21: a `return` statement throws the exception that carries the value of
its expression (None without expression). Every construct around it passes an
exception on and executes nothing after it: a statement list stops at the
statement that throws, a block restores the current environment and rethrows,
an `if` statement ends as the branch taken ends, a `while` loop ends when its
body throws. `callFunction` catches the exception of a `return` in its body
and makes it the value of the call; a body that ends normally gives None; and
no call and no expression ever ends with the exception of a `return`, so the
statement of the caller that contains the call goes on. -/
theorem C21_return_caught_at_call_boundary :
    (∀ (fuel : Nat) (st : Interpreter) (kw : Token),
      execute (fuel + 1) st (.returnStmt kw Option.none) =
        (st, .error (.ReturnException .none))) ∧
    (∀ (fuel : Nat) (st st1 : Interpreter) (kw : Token) (e : Expr) (v : PyValue),
      evaluate fuel st e = (st1, .ok v) →
      execute (fuel + 1) st (.returnStmt kw (some e)) = (st1, .error (.ReturnException v))) ∧
    (∀ (fuel : Nat) (st st1 : Interpreter) (s : Stmt) (rest : List Stmt) (x : Exn),
      execute fuel st s = (st1, .error x) →
      executeStatements (fuel + 1) st (s :: rest) = (st1, .error x)) ∧
    (∀ (fuel : Nat) (st st1 : Interpreter) (s : Stmt) (rest : List Stmt),
      execute fuel st s = (st1, .ok ()) →
      executeStatements (fuel + 1) st (s :: rest) = executeStatements fuel st1 rest) ∧
    (∀ (fuel : Nat) (st st1 : Interpreter) (ss : List Stmt) (x : Exn),
      executeStatements fuel
        { st with envs := { values := [], enclosing := some st.currentEnv } :: st.envs,
                  currentEnv := st.envs.length } ss = (st1, .error x) →
      execute (fuel + 2) st (.blockStmt ss) =
        ({ st1 with currentEnv := st.currentEnv }, .error x)) ∧
    (∀ (fuel : Nat) (st st1 : Interpreter) (c : Expr) (v : PyValue) (t : Stmt)
        (elifs : List (Expr × Stmt)) (els : Option Stmt),
      evaluate fuel st c = (st1, .ok v) →
      (isTruthy v = true →
        execute (fuel + 1) st (.ifStmt c t elifs els) = execute fuel st1 t ∧
        executeElifs (fuel + 1) st ((c, t) :: elifs) els = execute fuel st1 t) ∧
      (isTruthy v = false →
        execute (fuel + 1) st (.ifStmt c t elifs els) = executeElifs fuel st1 elifs els ∧
        executeElifs (fuel + 1) st ((c, t) :: elifs) els = executeElifs fuel st1 elifs els)) ∧
    (∀ (fuel : Nat) (st : Interpreter) (s : Stmt),
      executeElifs (fuel + 1) st [] (some s) = execute fuel st s) ∧
    (∀ (fuel : Nat) (st st1 st2 : Interpreter) (c : Expr) (v : PyValue) (body : Stmt),
      evaluate fuel st c = (st1, .ok v) → isTruthy v = true →
      (∀ x, execute fuel st1 body = (st2, .error x) →
        execute (fuel + 2) st (.whileStmt c body) = (st2, .error x)) ∧
      (execute fuel st1 body = (st2, .ok ()) →
        execute (fuel + 2) st (.whileStmt c body) =
          execute (fuel + 1) st2 (.whileStmt c body))) ∧
    (∀ (fuel : Nat) (st st1 : Interpreter) (fn : PyFunction) (args : List PyValue)
        (paren : Token),
      args.length = fn.params.length →
      (∀ v, executeStatements fuel
          { st with envs := { values := bindParams [] fn.params args,
                              enclosing := some st.globalEnv } :: st.envs,
                    currentEnv := st.envs.length } fn.declaration =
            (st1, .error (.ReturnException v)) →
        callFunction (fuel + 2) st fn args paren =
          ({ st1 with currentEnv := st.currentEnv }, .ok v)) ∧
      (executeStatements fuel
          { st with envs := { values := bindParams [] fn.params args,
                              enclosing := some st.globalEnv } :: st.envs,
                    currentEnv := st.envs.length } fn.declaration = (st1, .ok ()) →
        callFunction (fuel + 2) st fn args paren =
          ({ st1 with currentEnv := st.currentEnv }, .ok .none))) ∧
    (∀ (fuel : Nat) (st : Interpreter) (fn : PyFunction) (args : List PyValue) (paren : Token)
        (v : PyValue),
      (callFunction fuel st fn args paren).2 ≠ .error (.ReturnException v)) ∧
    (∀ (fuel : Nat) (st : Interpreter) (e : Expr) (v : PyValue),
      (evaluate fuel st e).2 ≠ .error (.ReturnException v)) := by
  refine ⟨?_, ?_, ?_, ?_, ?_, ?_, ?_, ?_, ?_, ?_, ?_⟩
  · intro fuel st kw
    rw [execute]
  · intro fuel st st1 kw e v h
    rw [execute, h]
  · intro fuel st st1 s rest x h
    exact executeStatements_error rest h
  · intro fuel st st1 s rest h
    exact executeStatements_ok rest h
  · intro fuel st st1 ss x h
    exact execute_block_error h
  · intro fuel st st1 c v t elifs els h
    exact ⟨fun hv => ⟨execute_if_true t elifs els h hv, executeElifs_true t elifs els h hv⟩,
      fun hv => ⟨execute_if_false t elifs els h hv, executeElifs_false t elifs els h hv⟩⟩
  · intro fuel st s
    rw [executeElifs]
  · intro fuel st st1 st2 c v body h hv
    exact ⟨fun x hb => execute_while_error h hv hb, fun hb => execute_while_ok h hv hb⟩
  · intro fuel st st1 fn args paren ha
    refine ⟨?_, ?_⟩
    · intro v h
      rw [callFunction_frame fuel st fn args paren ha, h]
    · intro h
      rw [callFunction_frame fuel st fn args paren ha, h]
  · intro fuel st fn args paren v
    exact (returnFree_callFunction fuel st fn args paren).ne v
  · intro fuel st e v
    exact ((returnFree_evaluate fuel).1 st e).ne v

/-- Witness of C21: a `return` without expression, and the program
`def f(x): while x: (if x: return 5; print(0)); print(1)` followed by
`print(f(1), 2)`, given as its syntax tree: the call has the value 5, neither
`print(0)` nor `print(1)` runs, and the statement of the caller prints both
operands. -/
theorem C21_return_caught_at_call_boundary_witness :
    execute 1 Interpreter.new (.returnStmt ⟨.RETURN, "return", .monostate, 1, 1⟩ Option.none) =
      (Interpreter.new, .error (.ReturnException .none)) ∧
    (interpret 30 Interpreter.new
      [.functionStmt ⟨.IDENTIFIER, "f", .monostate, 1, 5⟩ [⟨.IDENTIFIER, "x", .monostate, 1, 7⟩]
        [.whileStmt (.variableExpr ⟨.IDENTIFIER, "x", .monostate, 2, 11⟩)
          (.blockStmt
            [.ifStmt (.variableExpr ⟨.IDENTIFIER, "x", .monostate, 3, 12⟩)
              (.blockStmt [.returnStmt ⟨.RETURN, "return", .monostate, 4, 13⟩
                (some (.literalExpr (.int 5)))]) [] Option.none,
             .printStmt [.literalExpr (.int 0)]]),
         .printStmt [.literalExpr (.int 1)]],
       .printStmt [.callExpr (.variableExpr ⟨.IDENTIFIER, "f", .monostate, 7, 7⟩)
         ⟨.RPAREN, ")", .monostate, 7, 10⟩ [.literalExpr (.int 1)],
         .literalExpr (.int 2)]]).1.stdout = "5 2\n" ∧
    (run 100 "def f():\n return\nprint(f())\n" Interpreter.new false).1.stdout = "None\n" ∧
    (run 100 "def f():\n 1\nprint(f())\n" Interpreter.new false).1.stdout = "None\n" :=
  ⟨C21_return_caught_at_call_boundary.1 0 Interpreter.new ⟨.RETURN, "return", .monostate, 1, 1⟩,
   by decide!,
   run_within 40 100 _ _ _ (fun r => r.1.stdout = "None\n") (by decide!),
   run_within 40 100 _ _ _ (fun r => r.1.stdout = "None\n") (by decide!)⟩

/-! ### Assert -/

/-- C22: when the condition of an `assert` statement evaluates to a truthy
value, the statement ends normally in the state left by the condition (with
the last-value flag cleared), whatever the message expression is: the message
is not evaluated. When the condition evaluates to a falsey value, the
statement throws an assertion error with the line of the `assert` keyword; its
text is `AssertionError` without message, and `AssertionError: ` followed by
the string form of the value of the message otherwise. -/
theorem C22_assert_semantics (fuel : Nat) (st st1 : Interpreter) (keyword : Token)
    (condition : Expr) (c : PyValue) (hc : evaluate fuel st condition = (st1, .ok c)) :
    (isTruthy c = true → ∀ message : Option Expr,
      execute (fuel + 1) st (.assertStmt keyword condition message) =
        ({ st1 with lastValueSet := false }, .ok ())) ∧
    (isTruthy c = false →
      execute (fuel + 1) st (.assertStmt keyword condition Option.none) =
        (st1, .error (.AssertionError "AssertionError" keyword.line)) ∧
      ∀ (m : Expr) (st2 : Interpreter) (v : PyValue), evaluate fuel st1 m = (st2, .ok v) →
        execute (fuel + 1) st (.assertStmt keyword condition (some m)) =
          (st2, .error (.AssertionError
            ("AssertionError: " ++ pyValueToString st2.functions v) keyword.line))) := by
  refine ⟨?_, ?_⟩
  · intro hv message
    rw [execute, hc]
    simp only [hv, Bool.not_true, Bool.false_eq_true, if_false]
  · intro hv
    refine ⟨?_, ?_⟩
    · rw [execute, hc]
      simp only [hv, Bool.not_false, if_true]
    · intro m st2 v hm
      rw [execute, hc]
      simp only [hv, Bool.not_false, if_true, hm]

/-- Witness of C22: `assert 0` on line 2 for the keyword token of that line,
and the runs of `assert 1, 1/0` (nothing happens, the division is not
evaluated) followed by `assert 0`, and of an `assert` with a message. -/
theorem C22_assert_semantics_witness :
    execute 2 Interpreter.new
      (.assertStmt ⟨.ASSERT, "assert", .monostate, 2, 1⟩ (.literalExpr (.int 0)) Option.none) =
      (Interpreter.new, .error (.AssertionError "AssertionError" 2)) ∧
    (run 100 "assert 1, 1/0\nassert 0\n" Interpreter.new false).2 =
      ("AssertionError (line 2)\n", .rethrown "AssertionError" 2) ∧
    (run 100 "assert \"\", 3\n" Interpreter.new false).2 =
      ("AssertionError: 3 (line 1)\n", .rethrown "AssertionError: 3" 1) :=
  ⟨((C22_assert_semantics 1 Interpreter.new Interpreter.new
      ⟨.ASSERT, "assert", .monostate, 2, 1⟩ (.literalExpr (.int 0)) (.int 0) rfl).2 rfl).1,
   run_within 40 100 _ _ _
     (fun r => r.2 = ("AssertionError (line 2)\n", .rethrown "AssertionError" 2)) (by decide!),
   run_within 40 100 _ _ _
     (fun r => r.2 = ("AssertionError: 3 (line 1)\n", .rethrown "AssertionError: 3" 1)) (by decide!)⟩

theorem extends_refl (st : Interpreter) : Extends st st := ⟨⟨[], rfl⟩⟩

theorem extends_trans {a b c : Interpreter} (h1 : Extends a b) (h2 : Extends b c) :
    Extends a c := by
  obtain ⟨l1, e1⟩ := h1.suffix
  obtain ⟨l2, e2⟩ := h2.suffix
  exact ⟨⟨l2 ++ l1, by rw [e2, e1, List.append_assoc]⟩⟩

theorem extends_fst {α : Type} {st st1 : Interpreter} {r : Res α} {x : Except Exn α}
    (h : Extends st r.1) (hr : r = (st1, x)) : Extends st st1 := by
  rw [hr] at h
  exact h

theorem extends_length {st st1 : Interpreter} (h : Extends st st1) :
    st.functions.length ≤ st1.functions.length := by
  obtain ⟨l, e⟩ := h.suffix
  rw [e, List.length_append]
  omega

theorem extends_deref {st st1 : Interpreter} (h : Extends st st1) {ptr : Nat} {f : PyFunction}
    (hf : deref st.functions ptr = some f) : deref st1.functions ptr = some f := by
  obtain ⟨l, e⟩ := h.suffix
  unfold deref at hf ⊢
  split at hf
  · rename_i hlt
    rw [e, if_pos (by rw [List.length_append]; omega), List.length_append]
    rw [List.getElem?_append_right (by omega)]
    rw [← hf]
    congr 1
    omega
  · cases hf

theorem extendsAll : ∀ fuel : Nat, ExtendsAll fuel := by
  intro fuel
  induction fuel with
  | zero =>
    refine ⟨?_, ?_, ?_, ?_, ?_, ?_, ?_, ?_, ?_⟩ <;> intros
    · rw [evaluate]; exact extends_refl _
    · rw [evaluateArguments]; exact extends_refl _
    · rw [callFunction]; exact extends_refl _
    · rw [executeBlock]; exact extends_refl _
    · rw [executeStatements]; exact extends_refl _
    · rw [printExpressions]; exact extends_refl _
    · rw [executeElifs]; exact extends_refl _
    · rw [executeWhile]; exact extends_refl _
    · rw [execute]; exact extends_refl _
  | succ n ih =>
    obtain ⟨ie, ia, ic, ib, is, ip, il, iw, ix⟩ := ih
    refine ⟨?_, ?_, ?_, ?_, ?_, ?_, ?_, ?_, ?_⟩
    · intro st e
      cases e with
      | binaryExpr left op right =>
        rw [evaluate]
        split
        · rename_i hx
          exact extends_fst (ie _ _) hx
        · rename_i hx
          split
          · rename_i hy
            exact extends_trans (extends_fst (ie _ _) hx) (extends_fst (ie _ _) hy)
          · rename_i hy
            exact extends_trans (extends_fst (ie _ _) hx) (extends_fst (ie _ _) hy)
      | unaryExpr op operand =>
        rw [evaluate]
        split
        · rename_i hx
          exact extends_fst (ie _ _) hx
        · rename_i hx
          exact extends_fst (ie _ _) hx
      | literalExpr value =>
        rw [evaluate]
        exact extends_refl _
      | variableExpr name =>
        rw [evaluate]
        exact extends_refl _
      | assignExpr name value =>
        rw [evaluate]
        split
        · rename_i hx
          exact extends_fst (ie _ _) hx
        · rename_i hx
          exact ⟨(extends_fst (ie _ _) hx).suffix⟩
      | callExpr callee paren arguments =>
        rw [evaluate]
        split
        · rename_i hx
          exact extends_fst (ie _ _) hx
        · rename_i hx
          split
          · rename_i hy
            exact extends_trans (extends_fst (ie _ _) hx) (extends_fst (ia _ _) hy)
          · rename_i hy
            have h2 := extends_trans (extends_fst (ie _ _) hx) (extends_fst (ia _ _) hy)
            split
            · split
              · exact extends_trans h2 (ic _ _ _ _)
              · exact h2
            · exact h2
      | groupingExpr expression =>
        rw [evaluate]
        exact ie _ _
    · intro st es
      cases es with
      | nil =>
        rw [evaluateArguments]
        exact extends_refl _
      | cons a rest =>
        rw [evaluateArguments]
        split
        · rename_i hx
          exact extends_fst (ie _ _) hx
        · rename_i hx
          split
          · rename_i hy
            exact extends_trans (extends_fst (ie _ _) hx) (extends_fst (ia _ _) hy)
          · rename_i hy
            exact extends_trans (extends_fst (ie _ _) hx) (extends_fst (ia _ _) hy)
    · intro st fn args paren
      rw [callFunction]
      split
      · exact extends_refl _
      · simp only
        split <;> rename_i hx <;> exact ⟨(extends_fst (ib _ _ _) hx).suffix⟩
    · intro st ss env
      rw [executeBlock]
      split <;> rename_i hx <;> exact ⟨(extends_fst (is _ _) hx).suffix⟩
    · intro st ss
      cases ss with
      | nil =>
        rw [executeStatements]
        exact extends_refl _
      | cons s rest =>
        rw [executeStatements]
        split
        · rename_i hx
          exact extends_fst (ix _ _) hx
        · rename_i hx
          exact extends_trans (extends_fst (ix _ _) hx) (is _ _)
    · intro st es first
      cases es with
      | nil =>
        rw [printExpressions]
        exact extends_refl _
      | cons e rest =>
        rw [printExpressions]
        have h0 : Extends st (if first = true then st else { st with stdout := st.stdout ++ " " }) := by
          split
          · exact extends_refl _
          · exact ⟨⟨[], rfl⟩⟩
        split
        · rename_i hx
          exact extends_trans h0 (extends_fst (ie _ _) hx)
        · rename_i hx
          exact extends_trans (extends_trans h0 (extends_fst (ie _ _) hx))
            ⟨(ip _ _ _).suffix⟩
    · intro st elifs els
      cases elifs with
      | nil =>
        cases els with
        | none =>
          rw [executeElifs]
          exact extends_refl _
        | some s =>
          rw [executeElifs]
          exact ix _ _
      | cons p rest =>
        obtain ⟨c, b⟩ := p
        rw [executeElifs]
        split
        · rename_i hx
          exact extends_fst (ie _ _) hx
        · rename_i hx
          split
          · exact extends_trans (extends_fst (ie _ _) hx) (ix _ _)
          · exact extends_trans (extends_fst (ie _ _) hx) (il _ _ _)
    · intro st c body
      rw [executeWhile]
      split
      · rename_i hx
        exact extends_fst (ie _ _) hx
      · rename_i hx
        split
        · split
          · rename_i hy
            exact extends_trans (extends_fst (ie _ _) hx) (extends_fst (ix _ _) hy)
          · rename_i hy
            exact extends_trans (extends_trans (extends_fst (ie _ _) hx)
              (extends_fst (ix _ _) hy)) (iw _ _ _)
        · exact extends_fst (ie _ _) hx
    · intro st s
      cases s with
      | expressionStmt e =>
        rw [execute]
        split
        · rename_i hx
          exact extends_fst (ie _ _) hx
        · rename_i hx
          exact ⟨(extends_fst (ie _ _) hx).suffix⟩
      | printStmt es =>
        rw [execute]
        split
        · rename_i hx
          exact extends_fst (ip _ _ _) hx
        · rename_i hx
          exact ⟨(extends_fst (ip _ _ _) hx).suffix⟩
      | varStmt name initializer =>
        rw [execute]
        split
        · rename_i hx
          exact extends_fst (ie _ _) hx
        · rename_i hx
          exact ⟨(extends_fst (ie _ _) hx).suffix⟩
      | blockStmt ss =>
        rw [execute]
        exact ⟨(ib _ _ _).suffix⟩
      | ifStmt c t elifs els =>
        rw [execute]
        split
        · rename_i hx
          exact extends_fst (ie _ _) hx
        · rename_i hx
          split
          · exact extends_trans (extends_fst (ie _ _) hx) (ix _ _)
          · exact extends_trans (extends_fst (ie _ _) hx) (il _ _ _)
      | whileStmt c body =>
        rw [execute]
        exact iw _ _ _
      | functionStmt name params body =>
        rw [execute]
        exact ⟨⟨[_], rfl⟩⟩
      | returnStmt kw value =>
        cases value with
        | none =>
          rw [execute]
          exact extends_refl _
        | some e =>
          rw [execute]
          split
          · rename_i hx
            exact extends_fst (ie _ _) hx
          · rename_i hx
            exact extends_fst (ie _ _) hx
      | assertStmt kw c message =>
        rw [execute]
        split
        · rename_i hx
          exact extends_fst (ie _ _) hx
        · rename_i hx
          split
          · split
            · exact extends_fst (ie _ _) hx
            · split
              · rename_i hy
                exact extends_trans (extends_fst (ie _ _) hx) (extends_fst (ie _ _) hy)
              · rename_i hy
                exact extends_trans (extends_fst (ie _ _) hx) (extends_fst (ie _ _) hy)
          · exact ⟨(extends_fst (ie _ _) hx).suffix⟩

/-- C28, counterexample: the function `m` defines `h` in its body and returns
it; the two values obtained from two calls of `m`, that is from two executions
of the same `def h` statement, compare unequal. -/
theorem C28_same_def_twice_unequal :
    (run 100 "def m():\n def h():\n  1\n return h\nprint(m() == m())\n"
      Interpreter.new false).1.stdout = "False\n" :=
  run_within 40 100 _ _ _ (fun r => r.1.stdout = "False\n") (by decide!)

/-- C28, amended: `==` on two function values compares their handles, and the
handle is the address of the function object, not of the definition: every
execution of a `def` statement creates a new object, at an address not in use
before, and binds the name to it; no piece of the evaluator removes or moves
an object. Hence the value made by one execution of a `def` statement and the
value made by any later execution of a `def` statement (the same statement or
another one, with whatever name, parameters and body) compare unequal, and a
value compares equal to itself. -/
theorem C28_function_equality_is_object_identity :
    (∀ (op : Token) (p q : Nat), op.type = .EQ →
      binarySwitch op (.function p) (.function q) = .ok (.bool (p == q))) ∧
    (∀ (fuel : Nat) (st : Interpreter) (name : Token) (params : List Token) (body : List Stmt),
      execute (fuel + 1) st (.functionStmt name params body) =
        ({ st with
           functions := { name := name.lexeme, params := params.map (fun p => p.lexeme),
                          declaration := body } :: st.functions,
           envs := Environment.define st.envs st.currentEnv name.lexeme
                     (.function st.functions.length),
           lastValueSet := false }, .ok ()) ∧
      deref st.functions st.functions.length = Option.none ∧
      Extends st (execute (fuel + 1) st (.functionStmt name params body)).1) ∧
    (∀ fuel : Nat, ExtendsAll fuel) ∧
    (∀ (st0 st1 st2 : Interpreter), Extends st0 st1 → Extends st1 st2 → Extends st0 st2) ∧
    (∀ (fuel1 fuel2 : Nat) (st st2 : Interpreter) (name1 name2 : Token)
        (params1 params2 : List Token) (body1 body2 : List Stmt) (op : Token),
      op.type = .EQ →
      Extends (execute (fuel1 + 1) st (.functionStmt name1 params1 body1)).1 st2 →
      (∃ p q f1 f2,
        deref (execute (fuel2 + 1) st2 (.functionStmt name2 params2 body2)).1.functions p =
          some f1 ∧
        deref (execute (fuel2 + 1) st2 (.functionStmt name2 params2 body2)).1.functions q =
          some f2 ∧
        p = st.functions.length ∧ q = st2.functions.length ∧
        f1.declaration = body1 ∧ f2.declaration = body2 ∧
        binarySwitch op (.function p) (.function q) = .ok (.bool false) ∧
        binarySwitch op (.function p) (.function p) = .ok (.bool true))) := by
  have heq : ∀ (op : Token) (p q : Nat), op.type = .EQ →
      binarySwitch op (.function p) (.function q) = .ok (.bool (p == q)) := by
    intro op p q h
    simp [binarySwitch, h, pure, Except.pure]
  refine ⟨heq, ?_, extendsAll, fun _ _ _ => extends_trans, ?_⟩
  · intro fuel st name params body
    refine ⟨by rw [execute], deref_fresh _, ?_⟩
    exact (extendsAll (fuel + 1)).2.2.2.2.2.2.2.2 _ _
  · intro fuel1 fuel2 st st2 name1 name2 params1 params2 body1 body2 op hop hext
    have h1 : (execute (fuel1 + 1) st (.functionStmt name1 params1 body1)).1.functions =
        { name := name1.lexeme, params := params1.map (fun p => p.lexeme),
          declaration := body1 } :: st.functions := by
      rw [execute]
    have h2 : (execute (fuel2 + 1) st2 (.functionStmt name2 params2 body2)).1.functions =
        { name := name2.lexeme, params := params2.map (fun p => p.lexeme),
          declaration := body2 } :: st2.functions := by
      rw [execute]
    have hlen : st.functions.length < st2.functions.length := by
      have := extends_length hext
      rw [h1] at this
      simpa using this
    have hd1 : ∃ f1, deref
        (execute (fuel1 + 1) st (.functionStmt name1 params1 body1)).1.functions
        st.functions.length = some f1 ∧ f1.declaration = body1 := by
      rw [h1]
      exact ⟨_, deref_newest _ _, rfl⟩
    obtain ⟨f1, hd1, hb1⟩ := hd1
    have hx2 : Extends st2 (execute (fuel2 + 1) st2 (.functionStmt name2 params2 body2)).1 :=
      (extendsAll (fuel2 + 1)).2.2.2.2.2.2.2.2 _ _
    refine ⟨st.functions.length, st2.functions.length, f1,
      ⟨name2.lexeme, params2.map (fun p => p.lexeme), body2⟩,
      extends_deref hx2 (extends_deref hext hd1), ?_, rfl, rfl, hb1, rfl, ?_, ?_⟩
    · rw [h2]
      exact deref_newest _ _
    · rw [heq op _ _ hop]
      simp only [Except.ok.injEq, PyValue.bool.injEq, beq_eq_false_iff_ne, ne_eq]
      omega
    · rw [heq op _ _ hop]
      simp

/-- Witness of C28: the handles 0 and 1 compare unequal, a handle compares
equal to itself, and in a run two names for one function object compare
equal. -/
theorem C28_function_equality_is_object_identity_witness :
    binarySwitch ⟨.EQ, "==", .monostate, 1, 3⟩ (.function 0) (.function 1) =
      .ok (.bool false) ∧
    binarySwitch ⟨.EQ, "==", .monostate, 1, 3⟩ (.function 1) (.function 1) =
      .ok (.bool true) ∧
    (run 100 "def f():\n 1\ng = f\nprint(g == f)\n" Interpreter.new false).1.stdout =
      "True\n" :=
  ⟨C28_function_equality_is_object_identity.1 ⟨.EQ, "==", .monostate, 1, 3⟩ 0 1 rfl,
   C28_function_equality_is_object_identity.1 ⟨.EQ, "==", .monostate, 1, 3⟩ 1 1 rfl,
   run_within 40 100 _ _ _ (fun r => r.1.stdout = "True\n") (by decide!)⟩

namespace Lexer

theorem layoutOk_plain {t : Token} (h : Plain t.type) : LayoutOk t :=
  ⟨fun h1 => h1.elim (fun h2 => absurd h2 h.1) (fun h2 => absurd h2 h.2.1),
   fun h1 => absurd h1 h.2.2⟩

theorem layoutsOk_append {l : List Token} {x : Token} (h : LayoutsOk l) (hx : LayoutOk x) :
    LayoutsOk (l ++ [x]) := by
  intro t ht
  rcases List.mem_append.mp ht with h1 | h1
  · exact h t h1
  · rw [List.mem_singleton.mp h1]; exact hx

theorem layoutsOk_addToken (lx : Lexer) (ty : TokenType) (lit : Literal) (hp : Plain ty)
    (h : LayoutsOk lx.tokens) : LayoutsOk (lx.addToken ty lit).tokens :=
  layoutsOk_append h (layoutOk_plain hp)

theorem layoutsOk_identifier (lx : Lexer) (h : LayoutsOk lx.tokens) :
    LayoutsOk lx.identifier.tokens := by
  simp only [identifier]
  split
  · next ty hk => exact layoutsOk_addToken _ _ _ (keywordsFind_plain _ _ hk) h
  · exact layoutsOk_addToken _ _ _ (by simp [Plain]) h

theorem layoutsOk_number (lx lx1 : Lexer) (hn : lx.number = .ok lx1)
    (h : LayoutsOk lx.tokens) : LayoutsOk lx1.tokens := by
  obtain ⟨lx3, ty, lit, h1, h2, _, h5⟩ := number_spec _ _ hn
  subst h1
  exact layoutsOk_addToken _ _ _ (number_plain h5) (h2 ▸ h)

theorem layoutsOk_string (lx lx1 : Lexer) (q : Char) (hs : lx.string q = .ok lx1)
    (h : LayoutsOk lx.tokens) : LayoutsOk lx1.tokens := by
  unfold string at hs
  split at hs
  · simp at hs
  · simp only [Except.ok.injEq] at hs; subst hs
    exact layoutsOk_addToken _ _ _ (by simp [Plain]) h

theorem layoutsOk_newline (lx : Lexer) (ht : lx.text = ['\n']) (h : LayoutsOk lx.tokens) :
    LayoutsOk lx.addNewline.tokens := by
  unfold addNewline
  split
  · exact h
  · split
    · refine layoutsOk_append h ⟨fun h1 => ?_, fun _ => ⟨?_, rfl⟩⟩
      · rcases h1 with h1 | h1 <;> cases h1
      · show String.mk lx.text = "\n"
        rw [ht]
    · exact h

theorem layoutsOk_scanSwitch (c : Char) (lx : Lexer) (ht : c = '\n' → lx.text = ['\n'])
    (h : LayoutsOk lx.tokens) :
    ∀ lx1, scanSwitch c lx = .ok lx1 → LayoutsOk lx1.tokens := by
  unfold scanSwitch
  repeat' first
    | with_reducible apply ite_ok_cond
    | (intro hc; with_reducible apply ite_ok_cond)
  all_goals intro hc x hx
  all_goals first
    | (simp at hx; done)
    | exact layoutsOk_string _ _ _ hx h
    | exact layoutsOk_number _ _ hx h
    | (simp only [Except.ok.injEq] at hx; subst hx
       first
        | exact layoutsOk_addToken _ _ _ (by simp [Plain]) h
        | exact h
        | exact layoutsOk_identifier _ h
        | exact layoutsOk_newline _ (ht hc) h)

theorem text_scanToken (lx : Lexer) (h : lx.peek = '\n') :
    ({ lx.advance with startRest := lx.rest, startColumn := lx.column } : Lexer).text =
      ['\n'] := by
  unfold peek at h
  unfold text advance
  cases hr : lx.rest with
  | nil => rw [hr] at h; exact absurd h (by decide)
  | cons c r =>
    rw [hr] at h
    simp only at h
    subst h
    simp

theorem layoutsOk_scanToken (lx lx1 : Lexer) (hs : lx.scanToken = .ok lx1)
    (h : LayoutsOk lx.tokens) : LayoutsOk lx1.tokens :=
  layoutsOk_scanSwitch lx.peek
    { lx.advance with startRest := lx.rest, startColumn := lx.column }
    (text_scanToken lx) h lx1 hs

theorem layoutOk_indent (line column : Nat) :
    LayoutOk ⟨.INDENT, "", .monostate, line, column⟩ :=
  ⟨fun _ => ⟨rfl, rfl⟩, fun h => by cases h⟩

theorem layoutOk_dedent (line column : Nat) :
    LayoutOk ⟨.DEDENT, "", .monostate, line, column⟩ :=
  ⟨fun _ => ⟨rfl, rfl⟩, fun h => by cases h⟩

theorem layoutsOk_popIndents (indent line column : Nat) :
    ∀ (stack : List Nat) (tokens : List Token), LayoutsOk tokens →
      LayoutsOk (popIndents indent line column stack tokens).2
  | [], _, h => h
  | top :: below, tokens, h => by
    unfold popIndents
    split
    · exact layoutsOk_popIndents indent line column below _
        (layoutsOk_append h (layoutOk_dedent _ _))
    · exact h

theorem layoutsOk_handleIndentation (lx : Lexer) (h : LayoutsOk lx.tokens) :
    ∀ lx1, lx.handleIndentation = .ok lx1 → LayoutsOk lx1.tokens := by
  unfold handleIndentation
  simp only
  repeat' with_reducible apply ite_ok
  all_goals intro x hx
  all_goals first
    | (simp at hx; done)
    | (simp only [Except.ok.injEq] at hx; subst hx
       first
        | exact h
        | exact layoutsOk_append h (layoutOk_indent _ _)
        | exact layoutsOk_popIndents _ _ _ _ _ h)

theorem layoutsOk_loopBody (lx : Lexer) (h : LayoutsOk lx.tokens) :
    ∀ lx1, lx.loopBody = .ok lx1 → LayoutsOk lx1.tokens := by
  unfold loopBody
  with_reducible apply ite_ok
  · intro x hx
    cases hh : lx.handleIndentation with
    | error e => rw [hh] at hx; simp at hx
    | ok lx2 =>
      rw [hh] at hx
      simp only at hx
      have h2 := layoutsOk_handleIndentation lx h lx2 hh
      revert x
      with_reducible apply ite_ok
      · intro y hy
        simp only [Except.ok.injEq] at hy; subst hy; exact h2
      · with_reducible apply ite_ok
        · intro y hy
          simp only [Except.ok.injEq] at hy; subst hy
          split <;> split <;> exact h2
        · intro y hy
          exact layoutsOk_scanToken _ _ hy h2
  · intro x hx
    exact layoutsOk_scanToken _ _ hx h

theorem layoutsOk_tokenizeLoop : ∀ (fuel : Nat) (lx : Lexer), LayoutsOk lx.tokens →
    ∀ lx1, tokenizeLoop fuel lx = .ok lx1 → LayoutsOk lx1.tokens
  | 0, lx, h => by
    unfold tokenizeLoop
    with_reducible apply ite_ok
    · intro x hx
      simp only [Except.ok.injEq] at hx; subst hx; exact h
    · intro x hx
      simp at hx
  | fuel + 1, lx, h => by
    unfold tokenizeLoop
    with_reducible apply ite_ok
    · intro x hx
      simp only [Except.ok.injEq] at hx; subst hx; exact h
    · intro x hx
      cases hb : lx.loopBody with
      | error e => rw [hb] at hx; simp at hx
      | ok lx2 =>
        rw [hb] at hx
        exact layoutsOk_tokenizeLoop fuel lx2 (layoutsOk_loopBody _ h _ hb) x hx

theorem layoutsOk_remainingDedents (line column : Nat) :
    ∀ (stack : List Nat) (tokens : List Token), LayoutsOk tokens →
      LayoutsOk (remainingDedents line column stack tokens)
  | [], _, h => by simpa [remainingDedents] using h
  | [_], _, h => by simpa [remainingDedents] using h
  | _ :: b :: below, tokens, h => by
    unfold remainingDedents
    exact layoutsOk_remainingDedents line column (b :: below) _
      (layoutsOk_append h (layoutOk_dedent _ _))

end Lexer

/-- C29, counterexample: the NEWLINE token that ends the line `x` has the
newline character as its lexeme, not the empty string. -/
theorem C29_newline_lexeme_not_empty :
    Lexer.tokenize "x\n".data = .ok
      [⟨.IDENTIFIER, "x", .monostate, 1, 1⟩, ⟨.NEWLINE, "\n", .monostate, 1, 2⟩,
       ⟨.END_OF_FILE, "", .monostate, 2, 1⟩] := by
  decide!

namespace Lexer

/-- The end of `tokenize`: after the closing DEDENT tokens, END_OF_FILE is
appended, with a NEWLINE of empty lexeme before it exactly when there is a
token before and it is not a NEWLINE. -/
theorem finish_cases (lx : Lexer) :
    (lx.finish = remainingDedents lx.line lx.column lx.indentStack lx.tokens ++
        [⟨.END_OF_FILE, "", .monostate, lx.line, lx.column⟩] ∧
      ∀ back, (remainingDedents lx.line lx.column lx.indentStack lx.tokens).getLast? =
        some back → back.type = .NEWLINE) ∨
    (lx.finish = remainingDedents lx.line lx.column lx.indentStack lx.tokens ++
        [⟨.NEWLINE, "", .monostate, lx.line, lx.column⟩,
         ⟨.END_OF_FILE, "", .monostate, lx.line, lx.column⟩] ∧
      ∃ back, (remainingDedents lx.line lx.column lx.indentStack lx.tokens).getLast? =
        some back ∧ back.type ≠ .NEWLINE) := by
  unfold finish
  simp only
  cases hg : (remainingDedents lx.line lx.column lx.indentStack lx.tokens).getLast? with
  | none =>
    left
    refine ⟨by simp, fun back hb => by cases hb⟩
  | some back =>
    by_cases hb : back.type ≠ .NEWLINE
    · right
      refine ⟨by simp [hb], back, rfl, hb⟩
    · left
      refine ⟨by simp [hb], fun b hb1 => ?_⟩
      simp only [Option.some.injEq] at hb1
      subst hb1
      simpa using hb

end Lexer

/-- C29, amended: a token vector that `tokenize` returns is made of a front
part, the tokens emitted by the main loop followed by the closing DEDENT
tokens, and of the tokens appended at the end of the source. In the front part
every INDENT and DEDENT token has the empty lexeme, every NEWLINE token has the
newline character it was scanned from as its lexeme, and none of them carries
a payload. After the front part comes END_OF_FILE, preceded by one NEWLINE
token with the empty lexeme exactly when the front part is not empty and does
not end in a NEWLINE. Hence no INDENT, DEDENT or NEWLINE token of the vector
carries a payload, and a NEWLINE token has the newline character as lexeme
unless it is the appended one, which stands directly before END_OF_FILE. -/
theorem C29_layout_tokens (source : List Char) (tokens : List Token)
    (h : Lexer.tokenize source = .ok tokens) :
    (∃ (lx : Lexer) (front : List Token),
      Lexer.tokenizeLoop source.length (Lexer.new source) = .ok lx ∧
      front = Lexer.remainingDedents lx.line lx.column lx.indentStack lx.tokens ∧
      (∀ t ∈ front,
        (t.type = .INDENT ∨ t.type = .DEDENT → t.lexeme = "" ∧ t.literal = .monostate) ∧
        (t.type = .NEWLINE → t.lexeme = "\n" ∧ t.literal = .monostate)) ∧
      ((tokens = front ++ [⟨.END_OF_FILE, "", .monostate, lx.line, lx.column⟩] ∧
          ∀ back, front.getLast? = some back → back.type = .NEWLINE) ∨
       (tokens = front ++ [⟨.NEWLINE, "", .monostate, lx.line, lx.column⟩,
            ⟨.END_OF_FILE, "", .monostate, lx.line, lx.column⟩] ∧
          ∃ back, front.getLast? = some back ∧ back.type ≠ .NEWLINE))) ∧
    (∀ t ∈ tokens,
      (t.type = .INDENT ∨ t.type = .DEDENT → t.lexeme = "") ∧
      (t.type = .INDENT ∨ t.type = .DEDENT ∨ t.type = .NEWLINE → t.literal = .monostate)) ∧
    (∀ (i : Nat) (t : Token), tokens[i]? = some t → t.type = .NEWLINE →
      t.lexeme = "\n" ∨ (t.lexeme = "" ∧ i + 2 = tokens.length)) := by
  unfold Lexer.tokenize at h
  cases hl : Lexer.tokenizeLoop source.length (Lexer.new source) with
  | error e => rw [hl] at h; simp at h
  | ok lx =>
    rw [hl] at h
    simp only [Except.ok.injEq] at h
    subst h
    have hp : Lexer.LayoutsOk lx.tokens :=
      Lexer.layoutsOk_tokenizeLoop _ _ (fun t ht => by simp [Lexer.new] at ht) _ hl
    have hr : Lexer.LayoutsOk
        (Lexer.remainingDedents lx.line lx.column lx.indentStack lx.tokens) :=
      Lexer.layoutsOk_remainingDedents lx.line lx.column lx.indentStack lx.tokens hp
    have hc := Lexer.finish_cases lx
    obtain ⟨front, hfr⟩ : ∃ front : List Token,
        front = Lexer.remainingDedents lx.line lx.column lx.indentStack lx.tokens := ⟨_, rfl⟩
    rw [← hfr] at hr hc
    refine ⟨⟨lx, front, rfl, hfr, fun t ht => hr t ht, hc⟩, ?_, ?_⟩
    · have hnl : ∀ (line column : Nat) (t : Token),
          t = ⟨.NEWLINE, "", .monostate, line, column⟩ ∨
            t = ⟨.END_OF_FILE, "", .monostate, line, column⟩ →
          (t.type = .INDENT ∨ t.type = .DEDENT → t.lexeme = "") ∧
          (t.type = .INDENT ∨ t.type = .DEDENT ∨ t.type = .NEWLINE →
            t.literal = .monostate) := by
        intro line column t ht
        rcases ht with ht | ht <;> subst ht <;> exact ⟨fun _ => rfl, fun _ => rfl⟩
      have hfront : ∀ t ∈ front,
          (t.type = .INDENT ∨ t.type = .DEDENT → t.lexeme = "") ∧
          (t.type = .INDENT ∨ t.type = .DEDENT ∨ t.type = .NEWLINE →
            t.literal = .monostate) := by
        intro t ht
        refine ⟨fun h1 => ((hr t ht).1 h1).1, fun h1 => ?_⟩
        rcases h1 with h1 | h1 | h1
        · exact ((hr t ht).1 (Or.inl h1)).2
        · exact ((hr t ht).1 (Or.inr h1)).2
        · exact ((hr t ht).2 h1).2
      intro t ht
      rcases hc with ⟨he, _⟩ | ⟨he, _⟩
      · rw [he] at ht
        rcases List.mem_append.mp ht with h1 | h1
        · exact hfront t h1
        · exact hnl lx.line lx.column t (Or.inr (List.mem_singleton.mp h1))
      · rw [he] at ht
        rcases List.mem_append.mp ht with h1 | h1
        · exact hfront t h1
        · simp only [List.mem_cons, List.mem_singleton, List.not_mem_nil, or_false] at h1
          exact hnl lx.line lx.column t h1
    · intro i t hi hty
      by_cases hlt : i < front.length
      · left
        have hi2 : front[i]? = some t := by
          rcases hc with ⟨he, _⟩ | ⟨he, _⟩ <;> rw [he, List.getElem?_append_left hlt] at hi <;>
            exact hi
        have hm : t ∈ front := by
          obtain ⟨hb, he⟩ := List.getElem?_eq_some.mp hi2
          exact he ▸ List.getElem_mem hb
        exact ((hr t hm).2 hty).1
      · right
        have hge : front.length ≤ i := Nat.le_of_not_lt hlt
        rcases hc with ⟨he, _⟩ | ⟨he, _⟩
        · rw [he, List.getElem?_append_right hge] at hi
          cases hk : i - front.length with
          | zero =>
            rw [hk] at hi
            simp only [List.getElem?_cons_zero, Option.some.injEq] at hi
            subst hi
            cases hty
          | succ k =>
            rw [hk] at hi
            simp at hi
        · rw [he, List.getElem?_append_right hge] at hi
          cases hk : i - front.length with
          | zero =>
            rw [hk] at hi
            simp only [List.getElem?_cons_zero, Option.some.injEq] at hi
            subst hi
            refine ⟨rfl, ?_⟩
            rw [he]
            simp only [List.length_append, List.length_cons, List.length_nil]
            omega
          | succ k =>
            rw [hk] at hi
            cases k with
            | zero =>
              simp only [List.getElem?_cons_succ, List.getElem?_cons_zero,
                Option.some.injEq] at hi
              subst hi
              cases hty
            | succ k2 => simp at hi

/-- Witness of C29 on the source `if x:`, newline, ` y`, newline: the vector
has an INDENT, a DEDENT, two NEWLINE tokens scanned at the end of a line and
one NEWLINE token appended at the end. The theorem is applied to the NEWLINE
token scanned at the end of the first line (index 3), which has the newline
character as lexeme, and to the appended NEWLINE token (index 8), which stands
directly before END_OF_FILE. -/
theorem C29_layout_tokens_witness :
    Lexer.tokenize "if x:\n y\n".data = .ok
      [⟨.IF, "if", .monostate, 1, 1⟩, ⟨.IDENTIFIER, "x", .monostate, 1, 4⟩,
       ⟨.COLON, ":", .monostate, 1, 5⟩, ⟨.NEWLINE, "\n", .monostate, 1, 6⟩,
       ⟨.INDENT, "", .monostate, 2, 2⟩, ⟨.IDENTIFIER, "y", .monostate, 2, 2⟩,
       ⟨.NEWLINE, "\n", .monostate, 2, 3⟩, ⟨.DEDENT, "", .monostate, 3, 1⟩,
       ⟨.NEWLINE, "", .monostate, 3, 1⟩, ⟨.END_OF_FILE, "", .monostate, 3, 1⟩] ∧
    ((⟨.NEWLINE, "\n", .monostate, 1, 6⟩ : Token).lexeme = "\n" ∨
      ((⟨.NEWLINE, "\n", .monostate, 1, 6⟩ : Token).lexeme = "" ∧ 3 + 2 = 10)) ∧
    ((⟨.NEWLINE, "", .monostate, 3, 1⟩ : Token).lexeme = "\n" ∨
      ((⟨.NEWLINE, "", .monostate, 3, 1⟩ : Token).lexeme = "" ∧ 8 + 2 = 10)) :=
  have h : Lexer.tokenize "if x:\n y\n".data = .ok
      [⟨.IF, "if", .monostate, 1, 1⟩, ⟨.IDENTIFIER, "x", .monostate, 1, 4⟩,
       ⟨.COLON, ":", .monostate, 1, 5⟩, ⟨.NEWLINE, "\n", .monostate, 1, 6⟩,
       ⟨.INDENT, "", .monostate, 2, 2⟩, ⟨.IDENTIFIER, "y", .monostate, 2, 2⟩,
       ⟨.NEWLINE, "\n", .monostate, 2, 3⟩, ⟨.DEDENT, "", .monostate, 3, 1⟩,
       ⟨.NEWLINE, "", .monostate, 3, 1⟩, ⟨.END_OF_FILE, "", .monostate, 3, 1⟩] := by decide!
  ⟨h, (C29_layout_tokens _ _ h).2.2 3 ⟨.NEWLINE, "\n", .monostate, 1, 6⟩ rfl rfl,
    (C29_layout_tokens _ _ h).2.2 8 ⟨.NEWLINE, "", .monostate, 3, 1⟩ rfl rfl⟩

namespace Lexer

theorem stackOk_new (source : List Char) : StackOk (Lexer.new source).indentStack := by
  simp [StackOk, Lexer.new]

theorem stackOk_pop {indent top : Nat} {below : List Nat} (h : StackOk (top :: below))
    (hlt : indent < top) : StackOk below := by
  obtain ⟨_, hl, hc⟩ := h
  cases below with
  | nil =>
    simp at hl
    omega
  | cons b r =>
    refine ⟨by simp, ?_, (List.chain'_cons.mp hc).2⟩
    rw [List.getLast?_cons_cons] at hl
    exact hl

theorem stackOk_push {indent : Nat} {stack : List Nat} (h : StackOk stack)
    (hlt : stack.headD 0 < indent) : StackOk (indent :: stack) := by
  obtain ⟨hn, hl, hc⟩ := h
  cases stack with
  | nil => exact absurd rfl hn
  | cons b r =>
    refine ⟨by simp, ?_, List.chain'_cons.mpr ⟨by simpa using hlt, hc⟩⟩
    rw [List.getLast?_cons_cons]
    exact hl

theorem stackOk_popIndents (indent line column : Nat) :
    ∀ (stack : List Nat) (tokens : List Token), StackOk stack →
      StackOk (popIndents indent line column stack tokens).1
  | [], _, h => absurd rfl h.1
  | top :: below, tokens, h => by
    unfold popIndents
    split
    · rename_i hlt
      exact stackOk_popIndents indent line column below _ (stackOk_pop h hlt)
    · exact h

theorem stackOk_handleIndentation (lx : Lexer) (h : StackOk lx.indentStack) :
    ∀ lx1, lx.handleIndentation = .ok lx1 → StackOk lx1.indentStack := by
  unfold handleIndentation
  simp only
  repeat' first
    | with_reducible apply ite_ok_cond
    | (intro hc; with_reducible apply ite_ok_cond)
  all_goals intro hc x hx
  all_goals first
    | (simp at hx; done)
    | (simp only [Except.ok.injEq] at hx; subst hx
       first
        | exact h
        | exact stackOk_push h hc
        | exact stackOk_popIndents _ _ _ _ _ h)

theorem stackOk_scanToken (lx lx1 : Lexer) (h : StackOk lx.indentStack)
    (hs : lx.scanToken = .ok lx1) : StackOk lx1.indentStack := by
  rw [(emits_scanToken lx lx1 hs).1]
  exact h

theorem stackOk_loopBody (lx : Lexer) (h : StackOk lx.indentStack) :
    ∀ lx1, lx.loopBody = .ok lx1 → StackOk lx1.indentStack := by
  unfold loopBody
  with_reducible apply ite_ok
  · intro x hx
    cases hh : lx.handleIndentation with
    | error e => rw [hh] at hx; simp at hx
    | ok lx2 =>
      rw [hh] at hx
      simp only at hx
      have h2 := stackOk_handleIndentation lx h lx2 hh
      revert x
      with_reducible apply ite_ok
      · intro y hy
        simp only [Except.ok.injEq] at hy; subst hy; exact h2
      · with_reducible apply ite_ok
        · intro y hy
          simp only [Except.ok.injEq] at hy; subst hy
          split <;> split <;> exact h2
        · intro y hy
          exact stackOk_scanToken _ _ h2 hy
  · intro x hx
    exact stackOk_scanToken _ _ h hx

theorem stackOk_reachable {source : List Char} {lx : Lexer} (h : Reachable source lx) :
    StackOk lx.indentStack := by
  induction h with
  | start => exact stackOk_new source
  | indentation _ hs ih => exact stackOk_handleIndentation _ ih _ hs
  | token _ hs ih => exact stackOk_scanToken _ _ ih hs
  | iteration _ hs ih => exact stackOk_loopBody _ ih _ hs

theorem reachable_tokenizeLoop {source : List Char} :
    ∀ (fuel : Nat) (lx lx1 : Lexer), Reachable source lx → tokenizeLoop fuel lx = .ok lx1 →
      Reachable source lx1
  | 0, lx, lx1, hr, h => by
    unfold tokenizeLoop at h
    split at h
    · simp only [Except.ok.injEq] at h; subst h; exact hr
    · simp at h
  | fuel + 1, lx, lx1, hr, h => by
    unfold tokenizeLoop at h
    split at h
    · simp only [Except.ok.injEq] at h; subst h; exact hr
    · cases hb : lx.loopBody with
      | error e => rw [hb] at h; simp at h
      | ok lx2 =>
        rw [hb] at h
        exact reachable_tokenizeLoop fuel lx2 lx1 (Reachable.iteration hr hb) h

theorem remainingDedents_length (line column : Nat) :
    ∀ (stack : List Nat) (tokens : List Token), stack ≠ [] →
      (remainingDedents line column stack tokens).length + 1 = tokens.length + stack.length
  | [], _, h => absurd rfl h
  | [_], tokens, _ => by simp [remainingDedents]
  | _ :: b :: below, tokens, _ => by
    unfold remainingDedents
    have ih := remainingDedents_length line column (b :: below)
      (tokens ++ [⟨.DEDENT, "", .monostate, line, column⟩]) (by simp)
    rw [ih]
    simp
    omega

end Lexer

/-- C30: in every state that the lexer of a source goes through (after the
constructor, after `handleIndentation`, after `scanToken`, after an iteration
of the main loop, and at the end of the main loop) the indentation stack is
not empty, its bottom entry is 0 and every entry is larger than the one
beneath it. Every single pop of `handleIndentation` (it pops only an entry
larger than the width of the line) leaves such a stack, so it never removes
the bottom entry, and the loop at the end of `tokenize` emits one DEDENT for
every entry but the bottom one. -/
theorem C30_indent_stack_invariant (source : List Char) :
    (∀ lx, Lexer.Reachable source lx →
      lx.indentStack ≠ [] ∧ lx.indentStack.getLast? = some 0 ∧
        lx.indentStack.Chain' (fun a b => b < a)) ∧
    (∀ fuel lx, Lexer.tokenizeLoop fuel (Lexer.new source) = .ok lx →
      Lexer.Reachable source lx) ∧
    (∀ (indent top : Nat) (below : List Nat), Lexer.StackOk (top :: below) → indent < top →
      Lexer.StackOk below) ∧
    (∀ (indent line column : Nat) (stack : List Nat) (tokens : List Token),
      Lexer.StackOk stack →
      Lexer.StackOk (Lexer.popIndents indent line column stack tokens).1) ∧
    (∀ lx, Lexer.Reachable source lx → ∀ (line column : Nat) (tokens : List Token),
      (Lexer.remainingDedents line column lx.indentStack tokens).length + 1 =
        tokens.length + lx.indentStack.length) := by
  refine ⟨fun lx h => Lexer.stackOk_reachable h,
    fun fuel lx h => Lexer.reachable_tokenizeLoop fuel _ lx Lexer.Reachable.start h,
    fun indent top below h hlt => Lexer.stackOk_pop h hlt,
    fun indent line column stack tokens h => Lexer.stackOk_popIndents _ _ _ _ _ h,
    fun lx h line column tokens =>
      Lexer.remainingDedents_length line column _ tokens (Lexer.stackOk_reachable h).1⟩

theorem takeWhile_zero (l : List Char) :
    ∃ k, l.takeWhile (fun c => c == '0') = List.replicate k '0' := by
  induction l with
  | nil => exact ⟨0, rfl⟩
  | cons c r ih =>
    obtain ⟨k, hk⟩ := ih
    by_cases h : c = '0'
    · subst h
      exact ⟨k + 1, by simp [List.takeWhile_cons, hk, List.replicate_succ]⟩
    · exact ⟨0, by simp [List.takeWhile_cons, h]⟩

theorem fraction_split (F : List Char) :
    ∃ k, F = (F.reverse.dropWhile (fun c => c == '0')).reverse ++ List.replicate k '0' := by
  obtain ⟨k, hk⟩ := takeWhile_zero F.reverse
  refine ⟨k, ?_⟩
  have h := congrArg List.reverse (List.takeWhile_append_dropWhile (fun c => c == '0') F.reverse)
  rw [List.reverse_append, List.reverse_reverse, hk, List.reverse_replicate] at h
  exact h.symm

theorem dropWhile_head (l : List Char) (c : Char)
    (h : (l.dropWhile (fun c => c == '0')).head? = some c) : c ≠ '0' := by
  induction l with
  | nil => simp at h
  | cons a r ih =>
    by_cases ha : a = '0'
    · subst ha
      simp only [List.dropWhile_cons, beq_self_eq_true, if_true] at h
      exact ih h
    · simp [List.dropWhile_cons, ha] at h
      rw [← h]
      exact ha

theorem findIdx_zeros_then (k : Nat) (c : Char) (rest : List Char) (hc : c ≠ '0') :
    (List.replicate k '0' ++ c :: rest).findIdx? (fun c => c != '0') = some k := by
  induction k with
  | zero => simp [List.findIdx?_cons, hc]
  | succ k ih =>
    rw [List.replicate_succ, List.cons_append, List.findIdx?_cons]
    simp only [bne_self_eq_false, Bool.false_eq_true, if_false]
    rw [List.findIdx?_succ, ih]
    rfl

theorem indexOf_dot (pre rest : List Char) (h : '.' ∉ pre) :
    (pre ++ '.' :: rest).indexOf? '.' = some pre.length := by
  unfold List.indexOf?
  induction pre with
  | nil => simp [List.findIdx?_cons]
  | cons a r ih =>
    have ha : a ≠ '.' := fun e => h (by rw [e]; exact List.mem_cons_self _ _)
    have hr : '.' ∉ r := fun e => h (List.mem_cons_of_mem _ e)
    rw [List.cons_append, List.findIdx?_cons]
    simp only [beq_iff_eq, ha, if_false]
    rw [List.findIdx?_succ, ih hr]
    rfl

/-- The value of `trimFloat` on a text `pre . G 0…0` whose part `pre` has no
dot and whose digits `G` do not end with a zero. -/
theorem trimFloat_split (pre G : List Char) (k : Nat) (h : '.' ∉ pre)
    (hG : ∀ c, G.getLast? = some c → c ≠ '0') :
    trimFloat (pre ++ '.' :: (G ++ List.replicate k '0')) =
      pre ++ '.' :: (if G = [] then (List.replicate k '0').take 1 else G) := by
  unfold trimFloat
  rw [indexOf_dot pre _ h]
  simp only
  have hrev : (pre ++ '.' :: (G ++ List.replicate k '0')).reverse =
      List.replicate k '0' ++ (G.reverse ++ '.' :: pre.reverse) := by
    simp [List.reverse_append, List.reverse_replicate]
  rw [hrev]
  cases hg : G.reverse with
  | nil =>
    have hG0 : G = [] := by simpa using hg
    subst hG0
    rw [List.nil_append, findIdx_zeros_then k '.' _ (by decide)]
    simp only [List.nil_append, List.length_append, List.length_cons, List.length_replicate,
      if_true]
    rw [if_neg (by omega)]
    rw [List.take_append_eq_append_take]
    simp only [List.take_of_length_le (Nat.le_add_right pre.length 2), List.append_cancel_left_eq]
    rw [show pre.length + 2 - pre.length = 2 by omega]
    cases k with
    | zero => rfl
    | succ k => simp [List.replicate_succ]
  | cons g r =>
    have hne : G ≠ [] := by
      intro e
      rw [e] at hg
      cases hg
    have hgl : G.getLast? = some g := by
      rw [← List.head?_reverse, hg]
      rfl
    rw [List.cons_append, findIdx_zeros_then k g _ (hG g hgl)]
    simp only [if_neg hne, List.length_append, List.length_cons, List.length_replicate]
    have hlen : 0 < G.length := List.length_pos.mpr hne
    rw [if_pos (by omega)]
    have e : pre.length + (G.length + k + 1) - 1 - k + 1 = pre.length + (1 + G.length) := by
      omega
    rw [e, List.take_append_eq_append_take]
    simp only [List.take_of_length_le (Nat.le_add_right pre.length (1 + G.length)),
      List.append_cancel_left_eq]
    rw [show pre.length + (1 + G.length) - pre.length = G.length + 1 by omega,
      List.take_succ_cons, List.take_left']
    rfl

/-- C33: on a text `[-]D.F` with a non-empty run of digits `D` and six digits
`F`, `trimFloat` (the trimming in `pyValueToString`) keeps the sign, `D` and
the dot, and of `F` it keeps `keptFraction F`: `F` without its trailing zeros,
or the first digit of `F` when all six are zeros. What is kept is not empty
and differs from `F` only by zeros at the end, so the text denotes the same
number. -/
theorem C33_float_trimming (negative : Bool) (D F : List Char) (_hD : D ≠ [])
    (hDd : ∀ c ∈ D, c.isDigit = true) (_hFd : ∀ c ∈ F, c.isDigit = true)
    (hF : F.length = 6) :
    trimFloat ((if negative then ['-'] else []) ++ D ++ '.' :: F) =
      (if negative then ['-'] else []) ++ D ++ '.' :: keptFraction F ∧
    keptFraction F ≠ [] ∧
    (∃ k, F = keptFraction F ++ List.replicate k '0') ∧
    (keptFraction F = F.take 1 ∨ ∀ c, (keptFraction F).getLast? = some c → c ≠ '0') := by
  have hpre : '.' ∉ (if negative then ['-'] else []) ++ D := by
    intro hm
    rcases List.mem_append.mp hm with h1 | h1
    · cases negative <;> simp at h1
    · exact absurd (hDd _ h1) (by decide)
  obtain ⟨k, hk⟩ := fraction_split F
  have hG : ∀ c, ((F.reverse.dropWhile (fun c => c == '0')).reverse).getLast? = some c →
      c ≠ '0' := by
    intro c hc
    rw [List.getLast?_reverse] at hc
    exact dropWhile_head _ _ hc
  have ht := trimFloat_split _ _ k hpre hG
  rw [← hk] at ht
  by_cases hg : (F.reverse.dropWhile (fun c => c == '0')).reverse = []
  · have hk0 : F = List.replicate k '0' := by
      rw [hg] at hk
      simpa using hk
    have hkp : 0 < k := by
      have := congrArg List.length hk0
      rw [hF, List.length_replicate] at this
      omega
    have hkept : keptFraction F = ['0'] := by
      unfold keptFraction
      rw [if_pos hg, hk0]
      obtain ⟨j, rfl⟩ : ∃ j, k = j + 1 := ⟨k - 1, by omega⟩
      rfl
    refine ⟨?_, ?_, ⟨k - 1, ?_⟩, Or.inl ?_⟩
    · rw [ht, if_pos hg, hkept]
      obtain ⟨j, rfl⟩ : ∃ j, k = j + 1 := ⟨k - 1, by omega⟩
      rfl
    · rw [hkept]
      simp
    · rw [hkept]
      obtain ⟨j, rfl⟩ : ∃ j, k = j + 1 := ⟨k - 1, by omega⟩
      rw [hk0]
      rfl
    · unfold keptFraction
      rw [if_pos hg]
  · have hkept : keptFraction F = (F.reverse.dropWhile (fun c => c == '0')).reverse := by
      unfold keptFraction
      rw [if_neg hg]
    refine ⟨?_, ?_, ⟨k, ?_⟩, Or.inr ?_⟩
    · rw [ht, if_neg hg, hkept]
    · rw [hkept]
      exact hg
    · rw [hkept]
      exact hk
    · rw [hkept]
      exact hG

/-- Witness of C33 on `1.000000`, with the examples `1.500000`,
`100.000000` and a negative number, and the string form of the float 2.5. -/
theorem C33_float_trimming_witness :
    trimFloat "1.000000".data = "1.0".data ∧
    trimFloat "1.500000".data = "1.5".data ∧
    trimFloat "100.000000".data = "100.0".data ∧
    trimFloat "-0.125000".data = "-0.125".data ∧
    pyValueToString [] (.float (Double.ofInt 1)) = "1.0" :=
  ⟨(C33_float_trimming false ['1'] ['0', '0', '0', '0', '0', '0'] (by decide) (by decide)
      (by decide) rfl).1,
   by decide, by decide, by decide, by decide!⟩

/-! ### Equality and inequality -/

/-- C36: for every pair of values the EQ case and the NE case both return a
boolean, never an error, and the boolean of NE is the negation of that of EQ;
so `l != r` has the value of `not (l == r)`. -/
theorem C36_ne_negates_eq (opE opN opNot : Token) (l r : PyValue)
    (hE : opE.type = .EQ) (hN : opN.type = .NE) (hNot : opNot.type = .NOT) :
    (∃ b, binarySwitch opE l r = .ok (.bool b) ∧ binarySwitch opN l r = .ok (.bool (!b))) ∧
    (binarySwitch opE l r >>= unarySwitch opNot) = binarySwitch opN l r ∧
    (∀ (fuel : Nat) (st st1 st2 : Interpreter) (left right : Expr),
      evaluate fuel st left = (st1, .ok l) → evaluate fuel st1 right = (st2, .ok r) →
      (evaluate (fuel + 2) st (.unaryExpr opNot (.binaryExpr left opE right))).2 =
        (evaluate (fuel + 1) st (.binaryExpr left opN right)).2) := by
  have h1 : ∃ b, binarySwitch opE l r = .ok (.bool b) ∧
      binarySwitch opN l r = .ok (.bool (!b)) := by
    cases l <;> cases r <;>
      simp [binarySwitch, hE, hN, PyValue.holdsInt, PyValue.holdsDouble, PyValue.asDouble,
        PyValue.getInt, bind, Except.bind, pure, Except.pure, bne]
  obtain ⟨b, hb1, hb2⟩ := h1
  have hu : unarySwitch opNot (.bool b) = .ok (.bool (!b)) := by
    simp [unarySwitch, hNot, isTruthy, pure, Except.pure]
  refine ⟨⟨b, hb1, hb2⟩, ?_, ?_⟩
  · rw [hb1, hb2]
    exact hu
  · intro fuel st st1 st2 left right hl hr
    have e1 := evaluate_binary opE hl hr
    rw [hb1] at e1
    have e2 : evaluate (fuel + 1) st (.binaryExpr left opE right) = (st2, .ok (.bool b)) := e1
    rw [evaluate_unary opNot e2, evaluate_binary opN hl hr, hu, hb2]

/-- Witness of C36 on the integer 1 and the float 1.0 (equal as numbers), and
the output of a run with pairs of several kinds. -/
theorem C36_ne_negates_eq_witness :
    (∃ b, binarySwitch ⟨.EQ, "==", .monostate, 1, 3⟩ (.int 1) (.float (Double.ofInt 1)) =
        .ok (.bool b) ∧
      binarySwitch ⟨.NE, "!=", .monostate, 1, 3⟩ (.int 1) (.float (Double.ofInt 1)) =
        .ok (.bool (!b))) ∧
    (run 100 "print(1 != 1.0, 'a' != 1, True == 1)\n" Interpreter.new false).1.stdout =
      "False True False\n" :=
  ⟨(C36_ne_negates_eq ⟨.EQ, "==", .monostate, 1, 3⟩ ⟨.NE, "!=", .monostate, 1, 3⟩
      ⟨.NOT, "not", .monostate, 1, 1⟩ (.int 1) (.float (Double.ofInt 1)) rfl rfl rfl).1,
   run_within 40 100 _ _ _ (fun r => r.1.stdout = "False True False\n") (by decide!)⟩

/-! ### Arithmetic on values that are not numbers -/

/-- C37, the failing inputs: the arithmetic cases read a `long long` out of
every operand that does not hold a `double`, without a test. A string divided
by an integer, None minus a float, a float times a string, an integer floor
divided by a boolean, a function modulo a float and a boolean raised to an
integer power end with `std::bad_variant_access`, which `run` does not catch;
only MINUS and STAR on two operands none of which is a float reach their
`RuntimeError` "Operands must be numbers". -/
theorem C37_arithmetic_bad_variant_access (s : String) (i : Int) (d : Double) (b : Bool)
    (p : Nat) :
    binarySwitch ⟨.SLASH, "/", .monostate, 1, 5⟩ (.str s) (.int i) = .error .bad_variant_access ∧
    binarySwitch ⟨.MINUS, "-", .monostate, 1, 6⟩ .none (.float d) = .error .bad_variant_access ∧
    binarySwitch ⟨.STAR, "*", .monostate, 1, 6⟩ (.float d) (.str s) = .error .bad_variant_access ∧
    binarySwitch ⟨.DOUBLE_SLASH, "//", .monostate, 1, 3⟩ (.int i) (.bool b) =
      .error .bad_variant_access ∧
    binarySwitch ⟨.PERCENT, "%", .monostate, 1, 3⟩ (.function p) (.float d) =
      .error .bad_variant_access ∧
    binarySwitch ⟨.DOUBLE_STAR, "**", .monostate, 1, 6⟩ (.bool b) (.int i) =
      .error .bad_variant_access ∧
    binarySwitch ⟨.MINUS, "-", .monostate, 1, 6⟩ .none (.int i) =
      .error (.RuntimeError "Operands must be numbers" 1) ∧
    (run 100 "'a' / 2\n" Interpreter.new false).2 =
      ("", .uncaughtEvaluator .bad_variant_access) := by
  refine ⟨?_, ?_, ?_, ?_, ?_, ?_, ?_, by decide!⟩ <;>
    simp [binarySwitch, PyValue.holdsInt, PyValue.holdsDouble, PyValue.holdsString,
      PyValue.asDouble, PyValue.getInt, PyValue.getString, bind, Except.bind, pure,
      Except.pure]

namespace Lexer

theorem visits_reachable {source : List Char} {lx : Lexer} (h : Visits source lx) :
    Reachable source lx := by
  induction h with
  | start => exact Reachable.start
  | step _ _ hb ih => exact Reachable.iteration ih hb

theorem visits_tokenizeLoop {source : List Char} {lx : Lexer} (h : Visits source lx) :
    lx.rest.length ≤ source.length ∧
      ∀ f, source.length ≤ f → tokenizeLoop f (Lexer.new source) = tokenizeLoop f lx := by
  induction h with
  | start => exact ⟨le_refl _, fun _ _ => rfl⟩
  | step _ hne hb ih =>
    have hlt := loopBody_length _ hne _ hb
    refine ⟨by omega, fun f hf => ?_⟩
    rw [ih.2 f hf]
    exact tokenizeLoop_step _ _ hne hb f (by omega)

theorem tokenize_error_of_visits {source : List Char} {lx : Lexer} {e : LexExn}
    (h : Visits source lx) (hne : lx.rest ≠ []) (hb : lx.loopBody = .error e) :
    tokenize source = .error e := by
  obtain ⟨hl, hf⟩ := visits_tokenizeLoop h
  have hpos : 0 < lx.rest.length := List.length_pos.mpr hne
  unfold tokenize
  rw [hf _ (le_refl _)]
  obtain ⟨n, hn⟩ : ∃ n, source.length = n + 1 := ⟨source.length - 1, by omega⟩
  rw [hn, tokenizeLoop_succ n lx hne, hb]

theorem popIndents_member (w line column : Nat) :
    ∀ (stack : List Nat) (tokens : List Token), stack.Chain' (fun a b => b < a) →
      (popIndents w line column stack tokens).1 = stack.dropWhile (fun x => decide (w < x)) ∧
      (popIndents w line column stack tokens).2 =
        tokens ++ List.replicate (stack.countP (fun x => decide (w < x)))
          ⟨.DEDENT, "", .monostate, line, column⟩
  | [], tokens, _ => by simp [popIndents]
  | top :: below, tokens, hc => by
    unfold popIndents
    by_cases h : w < top
    · rw [if_pos h]
      have ih := popIndents_member w line column below
        (tokens ++ [⟨.DEDENT, "", .monostate, line, column⟩]) (List.Chain'.tail hc)
      refine ⟨?_, ?_⟩
      · rw [ih.1, List.dropWhile_cons, if_pos (by simpa using h)]
      · rw [ih.2, List.countP_cons, if_pos (by simpa using h), List.append_assoc,
          List.replicate_succ']
        simp [List.replicate_succ, ← List.replicate_succ']
    · rw [if_neg h]
      have hall : ∀ x ∈ below, ¬ w < x := by
        intro x hx
        have hrel : ∀ y ∈ below, y < top := by
          have hp := List.chain'_iff_pairwise.mp hc
          exact (List.pairwise_cons.mp hp).1
        have := hrel x hx
        omega
      refine ⟨?_, ?_⟩
      · rw [List.dropWhile_cons, if_neg (by simpa using h)]
      · rw [List.countP_cons, if_neg (by simpa using h)]
        have : below.countP (fun x => decide (w < x)) = 0 := by
          rw [List.countP_eq_zero]
          intro x hx
          simpa using hall x hx
        rw [this]
        simp

theorem visits_stateAfter (source : List Char) :
    ∀ (n : Nat) (lx lx1 : Lexer), Visits source lx → stateAfter n lx = some lx1 →
      Visits source lx1
  | 0, lx, lx1, hv, h => by
    simp only [stateAfter, Option.some.injEq] at h
    exact h ▸ hv
  | n + 1, lx, lx1, hv, h => by
    unfold stateAfter at h
    by_cases hr : lx.rest = []
    · rw [if_pos hr] at h
      cases h
    · rw [if_neg hr] at h
      cases hb : lx.loopBody with
      | error e => rw [hb] at h; cases h
      | ok lx2 =>
        rw [hb] at h
        exact visits_stateAfter source n lx2 lx1 (Visits.step hv hr hb) h

theorem countIndent_line (c : Char) (rest : List Char) (h1 : c ≠ ' ') (h2 : c ≠ '\t') :
    ∀ (ws : List Char) (i col : Nat), (∀ x ∈ ws, x = ' ' ∨ x = '\t') →
      countIndent (ws ++ c :: rest) i col =
        (c :: rest, i + ws.count ' ' + 8 * ws.count '\t', col + ws.length)
  | [], i, col, _ => by
    simp only [List.nil_append]
    unfold countIndent
    rw [if_neg h1, if_neg h2]
    simp
  | x :: ws, i, col, h => by
    have hx := h x (List.mem_cons_self _ _)
    have ih := fun i col => countIndent_line c rest h1 h2 ws i col
      (fun y hy => h y (List.mem_cons_of_mem _ hy))
    simp only [List.cons_append]
    unfold countIndent
    rcases hx with hx | hx
    · subst hx
      rw [if_pos rfl, ih]
      simp [List.count_cons]
      omega
    · subst hx
      rw [if_neg (by decide), if_pos rfl, ih]
      simp [List.count_cons]
      omega

theorem dropWhile_head_of_mem (w : Nat) :
    ∀ (stack : List Nat), stack.Chain' (fun a b => b < a) → w ∈ stack →
      (stack.dropWhile (fun x => decide (w < x))).head? = some w
  | [], _, h => by simp at h
  | top :: below, hc, h => by
    by_cases ht : w < top
    · rw [List.dropWhile_cons, if_pos (by simpa using ht)]
      have hm : w ∈ below := by
        rcases List.mem_cons.mp h with h1 | h1
        · omega
        · exact h1
      exact dropWhile_head_of_mem w below (List.Chain'.tail hc) hm
    · rw [List.dropWhile_cons, if_neg (by simpa using ht)]
      rcases List.mem_cons.mp h with h1 | h1
      · rw [h1]; rfl
      · have hrel : ∀ y ∈ below, y < top :=
          (List.pairwise_cons.mp (List.chain'_iff_pairwise.mp hc)).1
        have := hrel w h1
        omega

theorem dropWhile_head_mem (w : Nat) (stack : List Nat)
    (h : (stack.dropWhile (fun x => decide (w < x))).head? = some w) : w ∈ stack := by
  have hs : stack.dropWhile (fun x => decide (w < x)) <:+ stack := List.dropWhile_suffix _
  cases hd : stack.dropWhile (fun x => decide (w < x)) with
  | nil => rw [hd] at h; cases h
  | cons a r =>
    rw [hd] at h hs
    simp only [List.head?_cons, Option.some.injEq] at h
    subst h
    exact hs.subset (List.mem_cons_self _ _)

end Lexer

/-- C31: at the start of a line made of spaces and tabs `ws`, then a
character `c` that is not a space, a tab, a newline or `#`, in a state whose
indentation stack is well formed and whose top is larger than the width `w` of
`ws` (one per space, eight per tab): when `w` is an entry of the stack,
`handleIndentation` pops the entries larger than `w`, appends one DEDENT token
for each of them and leaves `w` on top, with the cursor at `c`; when `w` is no
entry of the stack it throws the `LexerError` "Inconsistent indentation", and
`tokenize` of any source whose main loop reaches this state ends with that
error. -/
theorem C31_dedent_discipline (lx : Lexer) (ws rest : List Char) (c : Char)
    (hline : lx.rest = ws ++ c :: rest) (hws : ∀ x ∈ ws, x = ' ' ∨ x = '\t')
    (hc : c ≠ ' ' ∧ c ≠ '\t' ∧ c ≠ '\n' ∧ c ≠ '#')
    (hs : Lexer.StackOk lx.indentStack)
    (hlt : ws.count ' ' + 8 * ws.count '\t' < lx.indentStack.headD 0) :
    (ws.count ' ' + 8 * ws.count '\t' ∈ lx.indentStack →
      ∃ lx1, lx.handleIndentation = .ok lx1 ∧
        lx1.tokens = lx.tokens ++ List.replicate
          (lx.indentStack.countP (fun x => decide (ws.count ' ' + 8 * ws.count '\t' < x)))
          ⟨.DEDENT, "", .monostate, lx.line, lx.column + ws.length⟩ ∧
        lx1.indentStack =
          lx.indentStack.dropWhile (fun x => decide (ws.count ' ' + 8 * ws.count '\t' < x)) ∧
        lx1.indentStack.head? = some (ws.count ' ' + 8 * ws.count '\t') ∧
        lx1.rest = c :: rest ∧ lx1.atLineStart = false) ∧
    (ws.count ' ' + 8 * ws.count '\t' ∉ lx.indentStack →
      lx.handleIndentation =
        .error (.LexerError "Inconsistent indentation" lx.line (lx.column + ws.length)) ∧
      ∀ source, Lexer.Visits source lx → lx.atLineStart = true →
        Lexer.tokenize source =
          .error (.LexerError "Inconsistent indentation" lx.line (lx.column + ws.length))) := by
  have hcount := Lexer.countIndent_line c rest hc.1 hc.2.1 ws 0 lx.column hws
  rw [← hline, Nat.zero_add] at hcount
  have hpop := Lexer.popIndents_member (ws.count ' ' + 8 * ws.count '\t') lx.line
    (lx.column + ws.length) lx.indentStack lx.tokens hs.2.2
  have hne : lx.rest ≠ [] := by
    rw [hline]
    simp
  have hnot : ¬ lx.indentStack.headD 0 < ws.count ' ' + 8 * ws.count '\t' := by omega
  have hskip : (({ lx with rest := c :: rest, column := lx.column + ws.length } : Lexer).isAtEnd ||
      decide (({ lx with rest := c :: rest, column := lx.column + ws.length } : Lexer).peek = '\n') ||
      decide (({ lx with rest := c :: rest, column := lx.column + ws.length } : Lexer).peek = '#'))
      = false := by
    simp [Lexer.isAtEnd, Lexer.peek, hc.2.2.1, hc.2.2.2]
  have hstep : lx.handleIndentation =
      if ((Lexer.popIndents (ws.count ' ' + 8 * ws.count '\t') lx.line (lx.column + ws.length)
            lx.indentStack lx.tokens).1.isEmpty ||
          decide ((Lexer.popIndents (ws.count ' ' + 8 * ws.count '\t') lx.line
            (lx.column + ws.length) lx.indentStack lx.tokens).1.headD 0
              ≠ ws.count ' ' + 8 * ws.count '\t')) = true then
        .error (.LexerError "Inconsistent indentation" lx.line (lx.column + ws.length))
      else .ok { lx with
        rest := c :: rest, column := lx.column + ws.length,
        indentStack := (Lexer.popIndents (ws.count ' ' + 8 * ws.count '\t') lx.line
          (lx.column + ws.length) lx.indentStack lx.tokens).1,
        tokens := (Lexer.popIndents (ws.count ' ' + 8 * ws.count '\t') lx.line
          (lx.column + ws.length) lx.indentStack lx.tokens).2,
        startRest := c :: rest, startColumn := lx.column + ws.length,
        atLineStart := false } := by
    unfold Lexer.handleIndentation
    simp only [hcount]
    rw [hskip]
    simp only [Bool.false_eq_true, if_false]
    rw [if_neg hnot, if_pos hlt]
    rfl
  refine ⟨?_, ?_⟩
  · intro hm
    have hh := Lexer.dropWhile_head_of_mem _ lx.indentStack hs.2.2 hm
    have hcond : ¬ ((Lexer.popIndents (ws.count ' ' + 8 * ws.count '\t') lx.line
          (lx.column + ws.length) lx.indentStack lx.tokens).1.isEmpty ||
        decide ((Lexer.popIndents (ws.count ' ' + 8 * ws.count '\t') lx.line
          (lx.column + ws.length) lx.indentStack lx.tokens).1.headD 0
            ≠ ws.count ' ' + 8 * ws.count '\t')) = true := by
      rw [hpop.1]
      cases hd : lx.indentStack.dropWhile
          (fun x => decide (ws.count ' ' + 8 * ws.count '\t' < x)) with
      | nil => rw [hd] at hh; cases hh
      | cons a r =>
        rw [hd] at hh
        simp only [List.head?_cons, Option.some.injEq] at hh
        simp [hh]
    rw [if_neg hcond] at hstep
    refine ⟨_, hstep, hpop.2, hpop.1, ?_, rfl, rfl⟩
    show (Lexer.popIndents _ _ _ _ _).1.head? = _
    rw [hpop.1]
    exact hh
  · intro hm
    have hcond : ((Lexer.popIndents (ws.count ' ' + 8 * ws.count '\t') lx.line
          (lx.column + ws.length) lx.indentStack lx.tokens).1.isEmpty ||
        decide ((Lexer.popIndents (ws.count ' ' + 8 * ws.count '\t') lx.line
          (lx.column + ws.length) lx.indentStack lx.tokens).1.headD 0
            ≠ ws.count ' ' + 8 * ws.count '\t')) = true := by
      rw [hpop.1]
      cases hd : lx.indentStack.dropWhile
          (fun x => decide (ws.count ' ' + 8 * ws.count '\t' < x)) with
      | nil => rfl
      | cons a r =>
        have hna : a ≠ ws.count ' ' + 8 * ws.count '\t' := by
          intro ha
          apply hm
          apply Lexer.dropWhile_head_mem
          rw [hd, ha]
          rfl
        simp [hna]
    rw [if_pos hcond] at hstep
    refine ⟨hstep, ?_⟩
    intro source hv hst
    apply Lexer.tokenize_error_of_visits hv hne
    unfold Lexer.loopBody
    rw [if_pos hst, hstep]

/-- The dedent discipline on two sources. After `if x:`, a line `y` indented by
eight columns and a line `z` indented by four: four is no entry of the stack
`[8, 0]`, and tokenizing ends with the error. After `if x:`, `if y:` and `z`
at widths 0, 4, 8, a line `w` at width 0 pops two entries and emits two DEDENT
tokens. -/
theorem C31_dedent_discipline_witness :
    Lexer.tokenize "if x:\n        y\n    z\n".toList =
      .error (.LexerError "Inconsistent indentation" 3 5) ∧
    Lexer.Visits "if x:\n        y\n    z\n".toList
      ((Lexer.stateAfter 7 (Lexer.new "if x:\n        y\n    z\n".toList)).getD (Lexer.new [])) ∧
    ∃ lx1, Lexer.handleIndentation
        ((Lexer.stateAfter 12 (Lexer.new "if x:\n    if y:\n        z\nw\n".toList)).getD
          (Lexer.new [])) = .ok lx1 ∧
      lx1.indentStack = [0] ∧
      (lx1.tokens.drop 12).map (fun t => t.type) = [.DEDENT, .DEDENT] ∧
      lx1.rest = ['w', '\n'] :=
  have hv : Lexer.Visits "if x:\n        y\n    z\n".toList
      ((Lexer.stateAfter 7 (Lexer.new "if x:\n        y\n    z\n".toList)).getD
        (Lexer.new [])) :=
    Lexer.visits_stateAfter _ 7 _ _ Lexer.Visits.start (by decide!)
  have h1 := (C31_dedent_discipline
    ((Lexer.stateAfter 7 (Lexer.new "if x:\n        y\n    z\n".toList)).getD (Lexer.new []))
    [' ', ' ', ' ', ' '] ['\n'] 'z' (by decide!) (by decide) (by decide)
    ⟨by decide!, by decide!, by
      rw [show ((Lexer.stateAfter 7 (Lexer.new "if x:\n        y\n    z\n".toList)).getD
        (Lexer.new [])).indentStack = [8, 0] by decide!]
      simp⟩
    (by decide!)).2 (by decide!)
  have h2 := (C31_dedent_discipline
    ((Lexer.stateAfter 12 (Lexer.new "if x:\n    if y:\n        z\nw\n".toList)).getD
      (Lexer.new []))
    [] ['\n'] 'w' (by decide!) (by decide) (by decide)
    ⟨by decide!, by decide!, by
      rw [show ((Lexer.stateAfter 12 (Lexer.new "if x:\n    if y:\n        z\nw\n".toList)).getD
        (Lexer.new [])).indentStack = [8, 4, 0] by decide!]
      simp⟩
    (by decide!)).1 (by decide!)
  ⟨(h1.2 _ hv (by decide!)).trans (by decide!), hv,
    h2.choose, h2.choose_spec.1,
    h2.choose_spec.2.2.1.trans (by decide!),
    (congrArg (fun ts => (ts.drop 12).map (fun t => t.type)) h2.choose_spec.2.1).trans
      (by decide!),
    h2.choose_spec.2.2.2.2.1⟩

/-- C34, the failing input: in the source of the two lines `'a\` and `b'`
(a string literal with a backslash followed by a newline character inside)
and the line `x`, tokenizing succeeds, the NEWLINE token scanned from the
second newline character has line 1 although one newline character precedes
it, and the identifier `x` has line 2 although two newline characters precede
it; with the string literal `'ab'` on one line the identifier of the next line
has line 2 after one newline character. -/
theorem C34_line_not_counted_after_backslash :
    (Lexer.tokenize "'a\\\nb'\nx\n".toList).map
        (fun ts => ts.map (fun t => (t.type, t.lexeme, t.line, t.column))) =
      .ok [(.STRING, "'a\\\nb'", 1, 1), (.NEWLINE, "\n", 1, 7), (.IDENTIFIER, "x", 2, 1),
        (.NEWLINE, "\n", 2, 2), (.END_OF_FILE, "", 3, 1)] ∧
    ("'a\\\nb'\nx\n".toList.take 7).count '\n' = 2 ∧
    "'a\\\nb'\nx\n".toList.drop 7 = ['x', '\n'] ∧
    (Lexer.tokenize "'ab'\nx\n".toList).map
        (fun ts => ts.map (fun t => (t.type, t.lexeme, t.line, t.column))) =
      .ok [(.STRING, "'ab'", 1, 1), (.NEWLINE, "\n", 1, 5), (.IDENTIFIER, "x", 2, 1),
        (.NEWLINE, "\n", 2, 2), (.END_OF_FILE, "", 3, 1)] := by
  decide!

/-- C35, the failing input: the source `"a\` newline `b"` opens a string
literal whose closing quote comes only after a newline character of the
source, and `tokenize` returns tokens, the STRING token holding that newline in
its payload; without the backslash the same source is rejected with the
`LexerError` "Unterminated string". -/
theorem C35_newline_after_backslash_accepted :
    (Lexer.tokenize "\"a\\\nb\"".toList).map
        (fun ts => ts.map (fun t => (t.type, t.literal))) =
      .ok [(.STRING, .string "a\nb"), (.NEWLINE, .monostate), (.END_OF_FILE, .monostate)] ∧
    Lexer.tokenize "\"a\nb\"".toList = .error (.LexerError "Unterminated string" 1 1) ∧
    Lexer.tokenize "\"unterminated".toList = .error (.LexerError "Unterminated string" 1 1) := by
  decide!

/-- C38, the failing input: for the source `if x:` newline `    y` without a
final newline, `tokenize` puts the closing DEDENT before the NEWLINE that it
adds, and `parse` ends with the `ParseError` "Expected newline after
expression" at that DEDENT; with a final newline the NEWLINE comes before the
DEDENT and `parse` returns one statement. -/
theorem C38_missing_final_newline_in_block :
    (Lexer.tokenize "if x:\n    y".toList).map (fun ts => ts.map (fun t => t.type)) =
      .ok [.IF, .IDENTIFIER, .COLON, .NEWLINE, .INDENT, .IDENTIFIER, .DEDENT, .NEWLINE,
        .END_OF_FILE] ∧
    (Lexer.tokenize "if x:\n    y\n".toList).map (fun ts => ts.map (fun t => t.type)) =
      .ok [.IF, .IDENTIFIER, .COLON, .NEWLINE, .INDENT, .IDENTIFIER, .NEWLINE, .DEDENT,
        .NEWLINE, .END_OF_FILE] ∧
    (Lexer.tokenize "if x:\n    y".toList).toOption.map
        (fun ts => (Parser.parse ts).map Stmt.codeList) =
      some (.error (.ParseError "[line 2] Error at '': Expected newline after expression"
        ⟨.DEDENT, "", .monostate, 2, 6⟩)) ∧
    (Lexer.tokenize "if x:\n    y\n".toList).toOption.map
        (fun ts => (Parser.parse ts).map Stmt.codeList) =
      some (.ok (Stmt.codeList [.ifStmt (.variableExpr ⟨.IDENTIFIER, "x", .monostate, 1, 4⟩)
        (.blockStmt [.expressionStmt (.variableExpr ⟨.IDENTIFIER, "y", .monostate, 2, 5⟩)])
        [] none])) := by
  decide!

namespace Lexer

/-! ### No END_OF_FILE token is scanned -/

theorem noEOF_append {l : List Token} {x : Token} (h : NoEOF l) (hx : x.type ≠ .END_OF_FILE) :
    NoEOF (l ++ [x]) := by
  intro t ht
  rcases List.mem_append.mp ht with h1 | h1
  · exact h t h1
  · rw [List.mem_singleton.mp h1]; exact hx

theorem noEOF_addToken (lx : Lexer) (ty : TokenType) (lit : Literal)
    (hp : ty ≠ .END_OF_FILE) (h : NoEOF lx.tokens) : NoEOF (lx.addToken ty lit).tokens :=
  noEOF_append h hp

theorem keywordsFind_mem (s : String) (ty : TokenType) (h : keywordsFind s = some ty) :
    ty ∈ keywords.map (fun kv => kv.2) := by
  unfold keywordsFind at h
  cases hf : keywords.find? (fun kv => kv.1 = s) with
  | none => rw [hf] at h; cases h
  | some kv =>
    rw [hf] at h
    simp only [Option.map_some', Option.some.injEq] at h
    exact List.mem_map.mpr ⟨kv, List.mem_of_find?_eq_some hf, h⟩

theorem keywordsFind_ne (s : String) (ty : TokenType) (h : keywordsFind s = some ty) :
    ty ≠ .END_OF_FILE := by
  intro he
  have hm := keywordsFind_mem s ty h
  rw [he] at hm
  revert hm
  decide

theorem noEOF_identifier (lx : Lexer) (h : NoEOF lx.tokens) : NoEOF lx.identifier.tokens := by
  simp only [identifier]
  split
  · next ty hk => exact noEOF_addToken _ _ _ (keywordsFind_ne _ _ hk) h
  · exact noEOF_addToken _ _ _ (by decide) h

theorem noEOF_number (lx lx1 : Lexer) (hn : lx.number = .ok lx1) (h : NoEOF lx.tokens) :
    NoEOF lx1.tokens := by
  obtain ⟨lx3, ty, lit, h1, h2, _, h5⟩ := number_spec _ _ hn
  subst h1
  refine noEOF_addToken _ _ _ ?_ (h2 ▸ h)
  rcases h5 with ⟨h5, _⟩ | ⟨h5, _⟩ <;> subst h5 <;> decide

theorem noEOF_string (lx lx1 : Lexer) (q : Char) (hs : lx.string q = .ok lx1)
    (h : NoEOF lx.tokens) : NoEOF lx1.tokens := by
  unfold string at hs
  split at hs
  · simp at hs
  · simp only [Except.ok.injEq] at hs; subst hs
    exact noEOF_addToken _ _ _ (by decide) h

theorem noEOF_newline (lx : Lexer) (h : NoEOF lx.tokens) : NoEOF lx.addNewline.tokens := by
  unfold addNewline
  split
  · exact h
  · split
    · exact noEOF_addToken _ _ _ (by decide) h
    · exact h

theorem noEOF_scanSwitch (c : Char) (lx : Lexer) (h : NoEOF lx.tokens) :
    ∀ lx1, scanSwitch c lx = .ok lx1 → NoEOF lx1.tokens := by
  unfold scanSwitch
  repeat' with_reducible apply ite_ok
  all_goals intro x hx
  all_goals first
    | (simp only [Except.ok.injEq] at hx; subst hx
       first
        | with_reducible exact h
        | with_reducible exact noEOF_identifier _ h
        | exact noEOF_addToken _ _ _ (by decide) h
        | exact noEOF_newline _ h
        | exact h)
    | with_reducible exact noEOF_string _ _ _ hx h
    | with_reducible exact noEOF_number _ _ hx h
    | simp at hx

theorem noEOF_scanToken (lx lx1 : Lexer) (hs : lx.scanToken = .ok lx1)
    (h : NoEOF lx.tokens) : NoEOF lx1.tokens :=
  noEOF_scanSwitch lx.peek
    { lx.advance with startRest := lx.rest, startColumn := lx.column } h lx1 hs

theorem noEOF_popIndents (indent line column : Nat) :
    ∀ (stack : List Nat) (tokens : List Token), NoEOF tokens →
      NoEOF (popIndents indent line column stack tokens).2
  | [], _, h => h
  | top :: below, tokens, h => by
    unfold popIndents
    split
    · exact noEOF_popIndents indent line column below _ (noEOF_append h (by simp))
    · exact h

theorem noEOF_handleIndentation (lx : Lexer) (h : NoEOF lx.tokens) :
    ∀ lx1, lx.handleIndentation = .ok lx1 → NoEOF lx1.tokens := by
  unfold handleIndentation
  simp only
  repeat' with_reducible apply ite_ok
  all_goals intro x hx
  all_goals first
    | (simp at hx; done)
    | (simp only [Except.ok.injEq] at hx; subst hx
       first
        | exact h
        | exact noEOF_append h (by simp)
        | exact noEOF_popIndents _ _ _ _ _ h)

theorem noEOF_loopBody (lx : Lexer) (h : NoEOF lx.tokens) :
    ∀ lx1, lx.loopBody = .ok lx1 → NoEOF lx1.tokens := by
  unfold loopBody
  with_reducible apply ite_ok
  · intro x hx
    cases hh : lx.handleIndentation with
    | error e => rw [hh] at hx; simp at hx
    | ok lx2 =>
      rw [hh] at hx
      simp only at hx
      have h2 := noEOF_handleIndentation lx h lx2 hh
      revert x
      with_reducible apply ite_ok
      · intro y hy
        simp only [Except.ok.injEq] at hy; subst hy; exact h2
      · with_reducible apply ite_ok
        · intro y hy
          simp only [Except.ok.injEq] at hy; subst hy
          split <;> split <;> exact h2
        · intro y hy
          exact noEOF_scanToken _ _ hy h2
  · intro x hx
    exact noEOF_scanToken _ _ hx h

theorem noEOF_tokenizeLoop : ∀ (fuel : Nat) (lx : Lexer), NoEOF lx.tokens →
    ∀ lx1, tokenizeLoop fuel lx = .ok lx1 → NoEOF lx1.tokens
  | 0, lx, h => by
    unfold tokenizeLoop
    with_reducible apply ite_ok
    · intro x hx
      simp only [Except.ok.injEq] at hx; subst hx; exact h
    · intro x hx
      simp at hx
  | fuel + 1, lx, h => by
    unfold tokenizeLoop
    with_reducible apply ite_ok
    · intro x hx
      simp only [Except.ok.injEq] at hx; subst hx; exact h
    · intro x hx
      cases hb : lx.loopBody with
      | error e => rw [hb] at hx; simp at hx
      | ok lx2 =>
        rw [hb] at hx
        exact noEOF_tokenizeLoop fuel lx2 (noEOF_loopBody _ h _ hb) x hx

theorem noEOF_remainingDedents (line column : Nat) :
    ∀ (stack : List Nat) (tokens : List Token), NoEOF tokens →
      NoEOF (remainingDedents line column stack tokens)
  | [], _, h => by simpa [remainingDedents] using h
  | [_], _, h => by simpa [remainingDedents] using h
  | _ :: b :: below, tokens, h => by
    unfold remainingDedents
    exact noEOF_remainingDedents line column (b :: below) _ (noEOF_append h (by simp))

/-- The vector that `finish` returns is a vector without END_OF_FILE followed
by one END_OF_FILE token. -/
theorem finish_shape (lx : Lexer) (h : NoEOF lx.tokens) :
    ∃ front, lx.finish = front ++ [⟨.END_OF_FILE, "", .monostate, lx.line, lx.column⟩] ∧
      NoEOF front := by
  have hr := noEOF_remainingDedents lx.line lx.column lx.indentStack lx.tokens h
  unfold finish
  simp only
  refine ⟨_, rfl, ?_⟩
  split
  · exact hr
  · split
    · exact noEOF_append hr (by simp)
    · exact hr

/-! ### The step budget is enough -/

theorem ite_ne {α ε : Type} {c : Prop} [Decidable c] {a b : Except ε α} (e : Except ε α)
    (ha : c → a ≠ e) (hb : ¬c → b ≠ e) : (if c then a else b) ≠ e := by
  split
  · exact ha ‹_›
  · exact hb ‹_›

theorem string_fuel (lx : Lexer) (q : Char) : lx.string q ≠ .error .outOfFuel := by
  unfold string
  split
  · simp [Lexer.error]
  · simp

theorem numberExponent_fuel (lx2 : Lexer) (b : Bool) :
    numberExponent lx2 b ≠ .error .outOfFuel := by
  unfold numberExponent
  simp only
  repeat' split
  all_goals simp [Lexer.error]

theorem number_fuel (lx : Lexer) : lx.number ≠ .error .outOfFuel :=
  numberExponent_fuel _ _

theorem scanSwitch_fuel (c : Char) (lx : Lexer) : scanSwitch c lx ≠ .error .outOfFuel := by
  unfold scanSwitch
  repeat' first
    | with_reducible apply ite_ne
    | (intro hc; with_reducible apply ite_ne)
  all_goals intro hc
  all_goals first
    | with_reducible exact string_fuel _ _
    | with_reducible exact number_fuel _
    | exact fun h => Except.noConfusion h
    | simp [Lexer.error]

theorem scanToken_fuel (lx : Lexer) : lx.scanToken ≠ .error .outOfFuel :=
  scanSwitch_fuel _ _

theorem handleIndentation_fuel (lx : Lexer) : lx.handleIndentation ≠ .error .outOfFuel := by
  unfold handleIndentation
  simp only
  repeat' first
    | with_reducible apply ite_ne
    | (intro hc; with_reducible apply ite_ne)
  all_goals intro hc
  all_goals simp [Lexer.error]

theorem loopBody_fuel (lx : Lexer) : lx.loopBody ≠ .error .outOfFuel := by
  unfold loopBody
  with_reducible apply ite_ne
  · intro _
    cases hh : lx.handleIndentation with
    | error e =>
      simp only
      intro he
      simp only [Except.error.injEq] at he
      exact handleIndentation_fuel lx (hh.trans (congrArg _ he))
    | ok lx2 =>
      simp only
      with_reducible apply ite_ne
      · intro _; simp
      · intro _
        with_reducible apply ite_ne
        · intro _; simp
        · intro _; exact scanToken_fuel _
  · intro _; exact scanToken_fuel _

theorem tokenizeLoop_enough : ∀ (n : Nat) (lx : Lexer), lx.rest.length ≤ n →
    tokenizeLoop n lx ≠ .error .outOfFuel
  | 0, lx, h => by
    have : lx.rest = [] := List.length_eq_zero.mp (Nat.le_zero.mp h)
    rw [tokenizeLoop_atEnd 0 lx this]
    simp
  | n + 1, lx, h => by
    by_cases he : lx.rest = []
    · rw [tokenizeLoop_atEnd _ lx he]; simp
    · rw [tokenizeLoop_succ n lx he]
      cases hb : lx.loopBody with
      | error e =>
        simp only
        intro h1
        simp only [Except.error.injEq] at h1
        exact loopBody_fuel lx (hb.trans (congrArg _ h1))
      | ok lx1 =>
        have := loopBody_length lx he lx1 hb
        exact tokenizeLoop_enough n lx1 (by omega)

/-! ### The lexer with the reads of the source checked -/

theorem advanceChecked_cons (lx : Lexer) (h : lx.rest ≠ []) :
    lx.advanceChecked = .ok lx.advance := by
  unfold advanceChecked readChecked
  cases hr : lx.rest with
  | nil => exact absurd hr h
  | cons c r => rfl

theorem advanceChecked_peek (lx : Lexer) (h : lx.peek ≠ Char.ofNat 0) :
    lx.advanceChecked = .ok lx.advance := by
  apply advanceChecked_cons
  intro hr
  apply h
  unfold peek
  rw [hr]

theorem matchChecked_eq (lx : Lexer) (e : Char) :
    lx.matchChecked e = .ok (lx.matchChar e, if lx.matchChar e then lx.advance else lx) := by
  unfold matchChecked matchChar readChecked isAtEnd
  cases hr : lx.rest with
  | nil => rfl
  | cons c r =>
    by_cases hc : c = e
    · simp [hc, advance, hr, bind, Except.bind, pure, Except.pure]
    · simp [hc, bind, Except.bind, pure, Except.pure]

theorem skipWhile_nil (p : Char → Bool) (lx : Lexer) (h : lx.rest = []) :
    lx.skipWhile p = lx := by
  obtain ⟨rest, sr, toks, line, col, scol, stack, als⟩ := lx
  simp only at h
  subst h
  rfl

theorem skipWhile_stop (p : Char → Bool) (lx : Lexer) (c : Char) (r : List Char)
    (h : lx.rest = c :: r) (hp : p c = false) : lx.skipWhile p = lx := by
  obtain ⟨rest, sr, toks, line, col, scol, stack, als⟩ := lx
  simp only at h
  subst h
  simp [skipWhile, advanceWhile, hp]

theorem skipWhile_step (p : Char → Bool) (lx : Lexer) (c : Char) (r : List Char)
    (h : lx.rest = c :: r) (hp : p c = true) : lx.skipWhile p = lx.advance.skipWhile p := by
  obtain ⟨rest, sr, toks, line, col, scol, stack, als⟩ := lx
  simp only at h
  subst h
  simp [skipWhile, advanceWhile, hp, advance]

theorem whileChecked_eq (p : Char → Bool) (cond : Lexer → Bool)
    (hc : ∀ lx : Lexer, cond lx = match lx.rest with
      | [] => false
      | c :: _ => p c) :
    ∀ (n : Nat) (lx : Lexer), lx.rest.length < n →
      whileChecked cond n lx = .ok (lx.skipWhile p)
  | 0, lx, h => by omega
  | n + 1, lx, h => by
    unfold whileChecked
    rw [hc lx]
    cases hr : lx.rest with
    | nil =>
      simp only [Bool.false_eq_true, if_false]
      rw [skipWhile_nil p lx hr]
      rfl
    | cons c r =>
      simp only
      by_cases hp : p c = true
      · rw [if_pos hp, advanceChecked_cons lx (by rw [hr]; simp)]
        have hl : lx.advance.rest.length < n := by
          simp only [advance, hr, List.tail_cons]
          rw [hr] at h
          simp only [List.length_cons] at h
          omega
        rw [skipWhile_step p lx c r hr hp]
        exact whileChecked_eq p cond hc n lx.advance hl
      · rw [if_neg hp, skipWhile_stop p lx c r hr (by simpa using hp)]
        rfl

theorem whileChecked_peek (p : Char → Bool) (h0 : p (Char.ofNat 0) = false) (lx : Lexer) :
    whileChecked (fun l => p l.peek) (lx.rest.length + 1) lx = .ok (lx.skipWhile p) := by
  apply whileChecked_eq p _ _ _ _ (Nat.lt_succ_self _)
  intro l
  unfold peek
  cases l.rest with
  | nil => exact h0
  | cons c r => rfl

theorem skipCommentChecked_eq (lx : Lexer) : lx.skipCommentChecked = .ok lx.skipComment := by
  unfold skipCommentChecked skipComment
  apply whileChecked_eq _ _ _ _ _ (Nat.lt_succ_self _)
  intro l
  unfold peek isAtEnd
  cases l.rest with
  | nil => rfl
  | cons c r => by_cases hcn : c = '\n' <;> simp [hcn]

theorem identifierChecked_eq (lx : Lexer) : lx.identifierChecked = .ok lx.identifier := by
  unfold identifierChecked identifier
  have h := whileChecked_peek (fun c => c.isAlphanum || c = '_') (by decide) lx
  simp only [Bool.decide_eq_true] at h ⊢
  rw [h]
  simp only [bind, Except.bind, pure, Except.pure]
  generalize keywordsFind _ = k
  cases k <;> rfl

theorem countIndentChecked_eq : ∀ (n : Nat) (lx : Lexer) (i : Nat), lx.rest.length < n →
    countIndentChecked n lx i =
      .ok ({ lx with rest := (countIndent lx.rest i lx.column).1,
                     column := (countIndent lx.rest i lx.column).2.2 },
        (countIndent lx.rest i lx.column).2.1)
  | 0, lx, i, h => by omega
  | n + 1, lx, i, h => by
    obtain ⟨rest, sr, toks, line, col, scol, stack, als⟩ := lx
    unfold countIndentChecked
    cases rest with
    | nil => simp [isAtEnd, countIndent, pure, Except.pure]
    | cons c r =>
      simp only [List.length_cons] at h
      have ih := fun i => countIndentChecked_eq n
        (⟨c :: r, sr, toks, line, col, scol, stack, als⟩ : Lexer).advance i
        (by simp only [advance, List.tail_cons]; omega)
      by_cases h1 : c = ' '
      · subst h1
        simp only [isAtEnd, peek, List.isEmpty_cons, Bool.not_false, decide_True, Bool.true_or,
          Bool.and_self, if_true]
        rw [advanceChecked_cons _ (by simp)]
        simp only [bind, Except.bind]
        rw [ih]
        simp [advance, countIndent]
      · by_cases h2 : c = '\t'
        · subst h2
          simp only [isAtEnd, peek, List.isEmpty_cons, Bool.not_false, decide_True,
            Bool.or_true, Bool.and_self, if_true]
          rw [advanceChecked_cons _ (by simp)]
          simp only [bind, Except.bind]
          rw [ih]
          simp [advance, countIndent]
        · simp [isAtEnd, peek, h1, h2, countIndent, pure, Except.pure]

theorem lift_ite {α : Type} (c : Prop) [Decidable c] (a b : Except LexExn α) :
    lift (if c then a else b) = if c then lift a else lift b := by
  split <;> rfl

theorem handleIndentationChecked_eq (lx : Lexer) :
    lx.handleIndentationChecked = lift lx.handleIndentation := by
  unfold handleIndentationChecked handleIndentation
  rw [countIndentChecked_eq _ lx 0 (Nat.lt_succ_self _)]
  simp only [bind, Except.bind, pure, Except.pure, lift_ite]
  rfl

theorem digits_eq (lx : Lexer) :
    whileChecked (fun l => l.peek.isDigit) (lx.rest.length + 1) lx =
      .ok (lx.skipWhile Char.isDigit) :=
  whileChecked_peek Char.isDigit (by decide) lx

theorem numberExponentChecked_eq (lx2 : Lexer) (b : Bool) :
    numberExponentChecked lx2 b = lift (numberExponent lx2 b) := by
  unfold numberExponentChecked numberExponent
  by_cases he : (decide (lx2.peek = 'e') || decide (lx2.peek = 'E')) = true
  · rw [if_pos he, if_pos he]
    have h0 : lx2.peek ≠ Char.ofNat 0 := by
      intro h
      rw [h] at he
      revert he
      decide
    rw [advanceChecked_peek lx2 h0]
    simp only [bind, Except.bind]
    by_cases hs : (decide (lx2.advance.peek = '+') || decide (lx2.advance.peek = '-')) = true
    · have h1 : lx2.advance.peek ≠ Char.ofNat 0 := by
        intro h
        rw [h] at hs
        revert hs
        decide
      rw [if_pos hs, if_pos hs, advanceChecked_peek _ h1]
      simp only
      split
      · rfl
      · rw [digits_eq]
        simp only
        generalize stod _ = k
        cases k <;> rfl
    · rw [if_neg hs, if_neg hs]
      simp only [pure, Except.pure]
      split
      · rfl
      · rw [digits_eq]
        simp only
        generalize stod _ = k
        cases k <;> rfl
  · rw [if_neg he, if_neg he]
    split
    · generalize stod _ = k
      cases k <;> rfl
    · generalize stoll _ = k
      cases k <;> rfl

theorem numberChecked_eq (lx : Lexer) : lx.numberChecked = lift lx.number := by
  unfold numberChecked number
  rw [digits_eq]
  simp only [bind, Except.bind]
  by_cases hf : (decide ((lx.skipWhile Char.isDigit).peek = '.') &&
      (lx.skipWhile Char.isDigit).peekNext.isDigit) = true
  · have h0 : (lx.skipWhile Char.isDigit).peek ≠ Char.ofNat 0 := by
      intro h
      rw [h] at hf
      simp at hf
    rw [if_pos hf, if_pos hf, advanceChecked_peek _ h0]
    simp only
    rw [digits_eq]
    exact numberExponentChecked_eq _ _
  · rw [if_neg hf, if_neg hf]
    exact numberExponentChecked_eq _ _

theorem stringLoopChecked_eq (q : Char) : ∀ (n : Nat) (lx : Lexer) (value : List Char),
    lx.rest.length < n →
    (stringLoopChecked q n lx value >>= stringClose) =
      lift (match stringLoop q lx.rest value lx.column with
        | .error message => .error (lx.error message)
        | .ok (rest, value, column) =>
          .ok ({ lx with rest := rest, column := column }.addToken .STRING
            (.string (String.mk value))))
  | 0, lx, value, h => by omega
  | n + 1, lx, value, h => by
    obtain ⟨rest, sr, toks, line, col, scol, stack, als⟩ := lx
    unfold stringLoopChecked
    cases rest with
    | nil => rfl
    | cons c r =>
      simp only [List.length_cons] at h
      unfold stringLoop
      by_cases h1 : c = q
      · subst h1
        simp [isAtEnd, peek, stringLoop, stringClose, lift, bind, Except.bind, pure, Except.pure,
          advanceChecked, readChecked, advance]
      · by_cases h2 : c = '\n'
        · subst h2
          simp [isAtEnd, peek, stringLoop, h1, lift, bind, Except.bind, Lexer.error]
        · by_cases h3 : c = '\\'
          · subst h3
            cases r with
            | nil =>
              simp [isAtEnd, peek, stringLoop, h1, lift, bind, Except.bind, Lexer.error,
                advanceChecked, readChecked, advance, pure, Except.pure]
            | cons esc r2 =>
              have ih := stringLoopChecked_eq q n
                (⟨r2, sr, toks, line, col + 2, scol, stack, als⟩ : Lexer)
                (value ++ [unescape esc])
                (by simp only [List.length_cons] at h ⊢; omega)
              simp only [Lexer.error] at ih
              simp [isAtEnd, peek, stringLoop, h1, bind, Except.bind, Lexer.error,
                advanceChecked, readChecked, advance, pure, Except.pure]
              simpa [bind, Except.bind] using ih
          · have ih := stringLoopChecked_eq q n
              (⟨r, sr, toks, line, col + 1, scol, stack, als⟩ : Lexer)
              (value ++ [c]) (by simp only; omega)
            simp only [Lexer.error] at ih
            simp [isAtEnd, peek, stringLoop, h1, h2, h3, bind, Except.bind, Lexer.error,
              advanceChecked, readChecked, advance, pure, Except.pure]
            simpa [bind, Except.bind] using ih

theorem stringChecked_eq (lx : Lexer) (q : Char) : lx.stringChecked q = lift (lx.string q) := by
  have h := stringLoopChecked_eq q (lx.rest.length + 1) lx [] (Nat.lt_succ_self _)
  unfold stringChecked string
  unfold stringClose at h
  exact h

theorem matchCase_eq (lx : Lexer) (e : Char) (yes : TokenType) (otherwise : Checked Lexer) :
    matchCase lx e yes otherwise =
      if lx.matchChar e then .ok (lx.advance.addToken yes .monostate) else otherwise := by
  unfold matchCase
  rw [matchChecked_eq]
  simp only [bind, Except.bind, pure, Except.pure]
  split <;> rfl

theorem scanSwitchChecked_eq (c : Char) (lx : Lexer) :
    scanSwitchChecked c lx = lift (scanSwitch c lx) := by
  unfold scanSwitchChecked scanSwitch
  simp only [matchCase_eq, skipCommentChecked_eq, stringChecked_eq, numberChecked_eq,
    identifierChecked_eq, pure, Except.pure, lift_ite]
  rfl

theorem scanTokenChecked_eq (lx : Lexer) (h : lx.rest ≠ []) :
    lx.scanTokenChecked = lift lx.scanToken := by
  unfold scanTokenChecked scanToken
  rw [advanceChecked_cons lx h]
  have hr : lx.readChecked = .ok lx.peek := by
    unfold readChecked peek
    cases hr : lx.rest with
    | nil => exact absurd hr h
    | cons c r => rfl
  rw [hr]
  exact scanSwitchChecked_eq _ _

theorem loopBodyChecked_eq (lx : Lexer) (h : lx.rest ≠ []) :
    lx.loopBodyChecked = lift lx.loopBody := by
  unfold loopBodyChecked loopBody
  split
  · rw [handleIndentationChecked_eq]
    cases hh : lx.handleIndentation with
    | error e => rfl
    | ok lx1 =>
      simp only [lift, bind, Except.bind]
      by_cases he : lx1.isAtEnd = true
      · rw [if_pos he, if_pos he]
        rfl
      · rw [if_neg he, if_neg he]
        have hne : lx1.rest ≠ [] := by
          simpa [isAtEnd] using he
        split
        · rw [skipCommentChecked_eq]
          by_cases hc : lx1.peek = '#'
          · simp only [if_pos hc, pure, Except.pure]
            by_cases hn : (!lx1.skipComment.isAtEnd && decide (lx1.skipComment.peek = '\n')) = true
            · have hne2 : lx1.skipComment.rest ≠ [] := by
                intro hr
                simp [isAtEnd, hr] at hn
              rw [if_pos hn, if_pos hn, advanceChecked_cons _ hne2]
              rfl
            · rw [if_neg hn, if_neg hn]
          · simp only [if_neg hc, pure, Except.pure]
            by_cases hn : (!lx1.isAtEnd && decide (lx1.peek = '\n')) = true
            · rw [if_pos hn, if_pos hn, advanceChecked_cons _ hne]
              rfl
            · rw [if_neg hn, if_neg hn]
        · exact scanTokenChecked_eq lx1 hne
  · exact scanTokenChecked_eq lx h

theorem tokenizeLoopChecked_eq : ∀ (n : Nat) (lx : Lexer),
    tokenizeLoopChecked n lx = lift (tokenizeLoop n lx)
  | 0, lx => by
    unfold tokenizeLoopChecked tokenizeLoop
    split <;> rfl
  | n + 1, lx => by
    unfold tokenizeLoopChecked tokenizeLoop
    by_cases he : lx.isAtEnd = true
    · rw [if_pos he, if_pos he]
      rfl
    · rw [if_neg he, if_neg he, loopBodyChecked_eq lx (by simpa [isAtEnd] using he)]
      cases hb : lx.loopBody with
      | error e => rfl
      | ok lx1 => exact tokenizeLoopChecked_eq n lx1

theorem tokenizeChecked_eq (source : List Char) :
    tokenizeChecked source = lift (tokenize source) := by
  unfold tokenizeChecked tokenize
  rw [tokenizeLoopChecked_eq]
  cases tokenizeLoop source.length (Lexer.new source) <;> rfl

end Lexer

/-- C39: the lexer is total. For every source, `tokenize` ends within its step
budget: its result is not the exhaustion of the budget, and the main loop gives
the same result with any larger budget. Every iteration of the main loop that
starts before the end of the source and returns leaves strictly fewer
characters unread, and at the end of the source the loop stops without an
iteration. The lexer in which every read `source[current]` is checked against
the length of the source has the same outcome as `tokenize`, so no read is made
outside the source. A token vector that is returned is a vector without
END_OF_FILE token followed by one END_OF_FILE token. -/
theorem C39_lexer_total (source : List Char) :
    Lexer.tokenize source ≠ .error .outOfFuel ∧
    (∀ fuel, source.length ≤ fuel →
      Lexer.tokenizeLoop fuel (Lexer.new source) =
        Lexer.tokenizeLoop source.length (Lexer.new source)) ∧
    (∀ lx lx1 : Lexer, lx.rest ≠ [] → lx.loopBody = .ok lx1 →
      lx1.rest.length < lx.rest.length) ∧
    (∀ fuel (lx : Lexer), lx.rest = [] → Lexer.tokenizeLoop fuel lx = .ok lx) ∧
    Lexer.tokenizeChecked source = Lexer.lift (Lexer.tokenize source) ∧
    Lexer.tokenizeChecked source ≠ .error Option.none ∧
    (∀ tokens, Lexer.tokenize source = .ok tokens →
      ∃ front last, tokens = front ++ [last] ∧ last.type = .END_OF_FILE ∧
        ∀ t ∈ front, t.type ≠ .END_OF_FILE) := by
  refine ⟨?_, ?_, ?_, ?_, Lexer.tokenizeChecked_eq source, ?_, ?_⟩
  · unfold Lexer.tokenize
    cases hl : Lexer.tokenizeLoop source.length (Lexer.new source) with
    | error e =>
      simp only
      intro he
      simp only [Except.error.injEq] at he
      exact Lexer.tokenizeLoop_enough source.length (Lexer.new source) (Nat.le_refl _)
        (hl.trans (congrArg _ he))
    | ok lx => simp
  · intro fuel hf
    exact Lexer.tokenizeLoop_fuel source.length (Lexer.new source) fuel (Nat.le_refl _) hf
  · intro lx lx1 hne hb
    exact Lexer.loopBody_length lx hne lx1 hb
  · intro fuel lx h
    exact Lexer.tokenizeLoop_atEnd fuel lx h
  · rw [Lexer.tokenizeChecked_eq]
    cases Lexer.tokenize source <;> simp [Lexer.lift]
  · intro tokens h
    unfold Lexer.tokenize at h
    cases hl : Lexer.tokenizeLoop source.length (Lexer.new source) with
    | error e => rw [hl] at h; simp at h
    | ok lx =>
      rw [hl] at h
      simp only [Except.ok.injEq] at h
      subst h
      have hp : Lexer.NoEOF lx.tokens :=
        Lexer.noEOF_tokenizeLoop _ _ (fun t ht => by simp [Lexer.new] at ht) _ hl
      obtain ⟨front, hf, hn⟩ := Lexer.finish_shape lx hp
      exact ⟨front, _, hf, rfl, hn⟩

namespace Parser

/-! ### Every run of the statement grammar ends -/

theorem isAtEnd_ok {tokens : List Token} {N : Nat} (hw : WellFormed tokens N) {c : Nat}
    (hc : c ≤ N) : ∃ b, isAtEnd tokens c = .ok b := by
  obtain ⟨t, _, hp⟩ := peek_ok hw hc
  exact ⟨decide (t.type = .END_OF_FILE), by rw [isAtEnd, hp]; rfl⟩

theorem previous_ok {tokens : List Token} {N : Nat} (hw : WellFormed tokens N) {c : Nat}
    (hc : c ≤ N) : ∃ t, previous tokens (c + 1) = .ok t := by
  obtain ⟨t, ht, _⟩ := peek_ok hw hc
  exact ⟨t, previous_succ ht⟩

theorem skipNewlines_fine {tokens : List Token} {N : Nat} (hw : WellFormed tokens N) :
    ∀ (fuel c : Nat), c ≤ N → N - c + 1 ≤ fuel → Fine N c (skipNewlines tokens fuel c)
  | 0, c, _, hf => by omega
  | fuel + 1, c, hc, hf => by
    rw [skipNewlines]
    rcases matchType_cases hw hc .NEWLINE with h | ⟨hlt, h, _⟩
    · simp only [h, ok_bind, Bool.false_eq_true, if_false]
      exact ⟨le_refl _, hc⟩
    · simp only [h, ok_bind, if_true]
      exact fine_mono (skipNewlines_fine hw fuel (c + 1) hlt (by omega)) (by omega)

theorem parameters_fine {tokens : List Token} {N : Nat} (hw : WellFormed tokens N) :
    ∀ (fuel c : Nat) (l : List Token), c ≤ N → N - c + 1 ≤ fuel →
      Fine N (c + 1) (parameters tokens fuel c l)
  | 0, c, _, _, hf => by omega
  | fuel + 1, c, l, hc, hf => by
    rw [parameters]
    apply fine_bind (consume_fine hw hc .IDENTIFIER _)
    intro p c1 h1 h2
    rcases matchType_cases hw h2 .COMMA with h | ⟨hlt, h, _⟩
    · simp only [h, ok_bind, Bool.false_eq_true, if_false]
      exact ⟨h1, h2⟩
    · simp only [h, ok_bind, if_true]
      exact fine_mono (parameters_fine hw fuel (c1 + 1) _ hlt (by omega)) (by omega)

theorem expressionStatement_fine {tokens : List Token} {N : Nat} (hw : WellFormed tokens N)
    (fuel c : Nat) (hc : c ≤ N) (hf : 15 * (N - c) + 12 ≤ fuel) :
    Fine N (c + 1) (expressionStatement tokens fuel c) := by
  unfold expressionStatement
  have hT := (total_all hw fuel).1
  apply fine_bind (hT c hc hf)
  intro e c1 h1 h2
  rcases matchAny_cases hw h2 [.PLUS_ASSIGN, .MINUS_ASSIGN, .STAR_ASSIGN, .SLASH_ASSIGN]
    with h | ⟨hlt, h, t, ht, _⟩
  · simp only [h, ok_bind, Bool.false_eq_true, if_false]
    apply fine_bind (consume_fine hw h2 .NEWLINE _)
    intro _ c3 h3 h4
    exact ⟨by omega, h4⟩
  · simp only [h, ok_bind, if_true, previous_succ ht]
    cases asVariable e with
    | none => trivial
    | some name =>
      simp only
      apply fine_bind (hT (c1 + 1) hlt (by omega))
      intro v c3 h3 h4
      apply fine_bind (consume_fine hw h4 .NEWLINE _)
      intro _ c5 h5 h6
      exact ⟨by omega, h6⟩

theorem printStatement_fine {tokens : List Token} {N : Nat} (hw : WellFormed tokens N)
    (fuel c : Nat) (hc : c ≤ N) (hf : 15 * (N - c) + 13 ≤ fuel) :
    Fine N (c + 1) (printStatement tokens fuel c) := by
  unfold printStatement
  have hT := (total_all hw fuel).2.2.2.2.2.2.2.2.2.2.2.2.2.2.2.2.2.2.1
  apply fine_bind (consume_fine hw hc .LPAREN _)
  intro _ c1 h1 h2
  rcases check_cases hw h2 .RPAREN with h | ⟨hlt, h, _⟩
  · simp only [h, ok_bind, Bool.not_false, if_true]
    apply fine_bind (hT c1 [] h2 (by omega))
    intro l c2 h3 h4
    apply fine_bind (consume_fine hw h4 .RPAREN _)
    intro _ c3 h5 h6
    apply fine_bind (consume_fine hw h6 .NEWLINE _)
    intro _ c4 h7 h8
    exact ⟨by omega, h8⟩
  · simp only [h, ok_bind, Bool.not_true, Bool.false_eq_true, if_false, pure, Except.pure]
    apply fine_bind (consume_fine hw h2 .RPAREN _)
    intro _ c3 h5 h6
    apply fine_bind (consume_fine hw h6 .NEWLINE _)
    intro _ c4 h7 h8
    exact ⟨by omega, h8⟩

theorem returnStatement_fine {tokens : List Token} {N : Nat} (hw : WellFormed tokens N)
    (fuel c : Nat) (hc : c + 1 ≤ N) (hf : 15 * (N - (c + 1)) + 12 ≤ fuel) :
    Fine N (c + 2) (returnStatement tokens fuel (c + 1)) := by
  unfold returnStatement
  obtain ⟨t, ht⟩ := previous_ok hw (Nat.le_of_succ_le hc)
  have hT := (total_all hw fuel).1
  rw [ht, ok_bind]
  rcases check_cases hw hc .NEWLINE with h | ⟨hlt, h, _⟩
  · simp only [h, ok_bind, Bool.not_false, if_true]
    apply fine_bind (hT (c + 1) hc hf)
    intro v c1 h1 h2
    simp only [pure, Except.pure, ok_bind]
    apply fine_bind (consume_fine hw h2 .NEWLINE _)
    intro _ c3 h3 h4
    exact ⟨by omega, h4⟩
  · simp only [h, ok_bind, Bool.not_true, Bool.false_eq_true, if_false, pure, Except.pure]
    apply fine_bind (consume_fine hw hc .NEWLINE _)
    intro _ c3 h3 h4
    exact ⟨h3, h4⟩

theorem assertStatement_fine {tokens : List Token} {N : Nat} (hw : WellFormed tokens N)
    (fuel c : Nat) (hc : c + 1 ≤ N) (hf : 15 * (N - (c + 1)) + 12 ≤ fuel) :
    Fine N (c + 2) (assertStatement tokens fuel (c + 1)) := by
  unfold assertStatement
  obtain ⟨t, ht⟩ := previous_ok hw (Nat.le_of_succ_le hc)
  have hT := (total_all hw fuel).1
  rw [ht, ok_bind]
  apply fine_bind (hT (c + 1) hc hf)
  intro e c1 h1 h2
  rcases matchType_cases hw h2 .COMMA with h | ⟨hlt, h, _⟩
  · simp only [h, ok_bind, Bool.false_eq_true, if_false, pure, Except.pure]
    apply fine_bind (consume_fine hw h2 .NEWLINE _)
    intro _ c3 h3 h4
    exact ⟨by omega, h4⟩
  · simp only [h, ok_bind, if_true]
    apply fine_bind (hT (c1 + 1) hlt (by omega))
    intro v c3 h3 h4
    simp only [pure, Except.pure, ok_bind]
    apply fine_bind (consume_fine hw h4 .NEWLINE _)
    intro _ c5 h5 h6
    exact ⟨by omega, h6⟩

theorem stmtTotal_all {tokens : List Token} {N : Nat} (hw : WellFormed tokens N) :
    ∀ fuel, StmtTotal tokens N fuel := by
  intro fuel
  induction fuel with
  | zero =>
    unfold StmtTotal
    refine ⟨?_, ?_, ?_, ?_, ?_, ?_, ?_, ?_⟩ <;> intros <;> omega
  | succ fuel ih =>
    obtain ⟨iDeclaration, iStatement, iIf, iElif, iWhile, iFunction, iBlock, iBlockLoop⟩ := ih
    have iExpression := (total_all hw fuel).1
    refine ⟨?_, ?_, ?_, ?_, ?_, ?_, ?_, ?_⟩
    · -- declaration
      intro c hc hf
      rw [declaration]
      rcases matchType_cases hw hc .DEF with h | ⟨hlt, h, _⟩
      · simp only [h, ok_bind, Bool.false_eq_true, if_false]
        exact iStatement c hc (by omega)
      · simp only [h, ok_bind, if_true]
        exact fine_mono (iFunction (c + 1) hlt (by omega)) (by omega)
    · -- statement
      intro c hc hf
      rw [statement]
      rcases matchType_cases hw hc .PRINT with h | ⟨hlt, h, _⟩
      rotate_left
      · simp only [h, ok_bind, if_true]
        exact fine_mono (printStatement_fine hw fuel (c + 1) hlt (by omega)) (by omega)
      simp only [h, ok_bind, Bool.false_eq_true, if_false]
      rcases matchType_cases hw hc .IF with h | ⟨hlt, h, _⟩
      rotate_left
      · simp only [h, ok_bind, if_true]
        exact fine_mono (iIf (c + 1) hlt (by omega)) (by omega)
      simp only [h, ok_bind, Bool.false_eq_true, if_false]
      rcases matchType_cases hw hc .WHILE with h | ⟨hlt, h, _⟩
      rotate_left
      · simp only [h, ok_bind, if_true]
        exact fine_mono (iWhile (c + 1) hlt (by omega)) (by omega)
      simp only [h, ok_bind, Bool.false_eq_true, if_false]
      rcases matchType_cases hw hc .RETURN with h | ⟨hlt, h, _⟩
      rotate_left
      · simp only [h, ok_bind, if_true]
        exact fine_mono (returnStatement_fine hw fuel c hlt (by omega)) (by omega)
      simp only [h, ok_bind, Bool.false_eq_true, if_false]
      rcases matchType_cases hw hc .ASSERT with h | ⟨hlt, h, _⟩
      rotate_left
      · simp only [h, ok_bind, if_true]
        exact fine_mono (assertStatement_fine hw fuel c hlt (by omega)) (by omega)
      simp only [h, ok_bind, Bool.false_eq_true, if_false]
      exact expressionStatement_fine hw fuel c hc (by omega)
    · -- ifStatement
      intro c hc hf
      rw [ifStatement]
      apply fine_bind (iExpression c hc (by omega))
      intro e c1 h1 h2
      apply fine_bind (consume_fine hw h2 .COLON _)
      intro _ c2 h3 h4
      apply fine_bind (consume_fine hw h4 .NEWLINE _)
      intro _ c3 h5 h6
      apply fine_bind (consume_fine hw h6 .INDENT _)
      intro _ c4 h7 h8
      apply fine_bind (iBlock c4 h8 (by omega))
      intro b c5 h9 h10
      apply fine_bind (iElif c5 [] h10 (by omega))
      intro l c6 h11 h12
      rcases matchType_cases hw h12 .ELSE with h | ⟨hlt, h, _⟩
      · simp only [h, ok_bind, Bool.false_eq_true, if_false]
        exact ⟨by omega, h12⟩
      · simp only [h, ok_bind, if_true]
        apply fine_bind (consume_fine hw hlt .COLON _)
        intro _ c8 h13 h14
        apply fine_bind (consume_fine hw h14 .NEWLINE _)
        intro _ c9 h15 h16
        apply fine_bind (consume_fine hw h16 .INDENT _)
        intro _ c10 h17 h18
        apply fine_bind (iBlock c10 h18 (by omega))
        intro b2 c11 h19 h20
        exact ⟨by omega, h20⟩
    · -- elifLoop
      intro c l hc hf
      rw [elifLoop]
      rcases matchType_cases hw hc .ELIF with h | ⟨hlt, h, _⟩
      · simp only [h, ok_bind, Bool.false_eq_true, if_false]
        exact ⟨le_refl _, hc⟩
      · simp only [h, ok_bind, if_true]
        apply fine_bind (iExpression (c + 1) hlt (by omega))
        intro e c2 h1 h2
        apply fine_bind (consume_fine hw h2 .COLON _)
        intro _ c3 h3 h4
        apply fine_bind (consume_fine hw h4 .NEWLINE _)
        intro _ c4 h5 h6
        apply fine_bind (consume_fine hw h6 .INDENT _)
        intro _ c5 h7 h8
        apply fine_bind (iBlock c5 h8 (by omega))
        intro b c6 h9 h10
        exact fine_mono (iElif c6 _ h10 (by omega)) (by omega)
    · -- whileStatement
      intro c hc hf
      rw [whileStatement]
      apply fine_bind (iExpression c hc (by omega))
      intro e c1 h1 h2
      apply fine_bind (consume_fine hw h2 .COLON _)
      intro _ c2 h3 h4
      apply fine_bind (consume_fine hw h4 .NEWLINE _)
      intro _ c3 h5 h6
      apply fine_bind (consume_fine hw h6 .INDENT _)
      intro _ c4 h7 h8
      apply fine_bind (iBlock c4 h8 (by omega))
      intro b c5 h9 h10
      exact ⟨by omega, h10⟩
    · -- functionDeclaration
      intro c hc hf
      rw [functionDeclaration]
      apply fine_bind (consume_fine hw hc .IDENTIFIER _)
      intro name c1 h1 h2
      apply fine_bind (consume_fine hw h2 .LPAREN _)
      intro _ c2 h3 h4
      have hrest : ∀ (ps : List Token) (c3 : Nat), c2 ≤ c3 → c3 ≤ N →
          Fine N (c + 1) (do
            let (_, current4) ← consume tokens c3 .RPAREN "Expected ')' after parameters"
            let (_, current5) ← consume tokens current4 .COLON "Expected ':' after parameters"
            let (_, current6) ← consume tokens current5 .NEWLINE "Expected newline after ':'"
            let (_, current7) ← consume tokens current6 .INDENT
              "Expected indented block for function body"
            let (body, current8) ← block tokens fuel current7
            pure (Stmt.functionStmt name ps body, current8)) := by
        intro ps c3 h5 h6
        apply fine_bind (consume_fine hw h6 .RPAREN _)
        intro _ c4 h7 h8
        apply fine_bind (consume_fine hw h8 .COLON _)
        intro _ c5 h9 h10
        apply fine_bind (consume_fine hw h10 .NEWLINE _)
        intro _ c6 h11 h12
        apply fine_bind (consume_fine hw h12 .INDENT _)
        intro _ c7 h13 h14
        apply fine_bind (iBlock c7 h14 (by omega))
        intro b c8 h15 h16
        exact ⟨by omega, h16⟩
      rcases check_cases hw h4 .RPAREN with h | ⟨hlt, h, _⟩
      · simp only [h, ok_bind, Bool.not_false, if_true]
        apply fine_bind (parameters_fine hw fuel c2 [] h4 (by omega))
        intro ps c3 h5 h6
        exact hrest ps c3 (by omega) h6
      · simp only [h, ok_bind, Bool.not_true, Bool.false_eq_true, if_false, pure, Except.pure]
        exact hrest [] c2 (le_refl _) h4
    · -- block
      intro c hc hf
      rw [block]
      apply fine_bind (iBlockLoop c [] hc (by omega))
      intro l c1 h1 h2
      obtain ⟨b, hb⟩ := isAtEnd_ok hw h2
      simp only [hb, ok_bind]
      cases b with
      | true =>
        simp only [Bool.not_true, Bool.false_eq_true, if_false]
        exact ⟨h1, h2⟩
      | false =>
        simp only [Bool.not_false, if_true]
        apply fine_bind (consume_fine hw h2 .DEDENT _)
        intro _ c2 h3 h4
        exact ⟨by omega, h4⟩
    · -- blockLoop
      intro c l hc hf
      rw [blockLoop]
      obtain ⟨b, hb⟩ := isAtEnd_ok hw hc
      rcases check_cases hw hc .DEDENT with h | ⟨hlt, h, _⟩
      rotate_left
      · simp only [h, hb, ok_bind, Bool.not_true, Bool.false_and, Bool.false_eq_true, if_false]
        exact ⟨le_refl _, hc⟩
      simp only [h, hb, ok_bind, Bool.not_false, Bool.true_and]
      cases b with
      | true =>
        simp only [Bool.not_true, Bool.false_eq_true, if_false]
        exact ⟨le_refl _, hc⟩
      | false =>
        simp only [Bool.not_false, if_true]
        apply fine_bind (skipNewlines_fine hw fuel c hc (by omega))
        intro _ c1 h1 h2
        rcases check_cases hw h2 .DEDENT with h | ⟨hlt, h, _⟩
        · simp only [h, ok_bind, Bool.false_eq_true, if_false]
          apply fine_bind (iDeclaration c1 h2 (by omega))
          intro s c2 h3 h4
          exact fine_mono (iBlockLoop c2 _ h4 (by omega)) (by omega)
        · simp only [h, ok_bind, if_true]
          exact ⟨h1, h2⟩

theorem parseLoop_fine {tokens : List Token} {N : Nat} (hw : WellFormed tokens N) :
    ∀ (fuel c : Nat) (l : List Stmt), c ≤ N → 15 * (N - c) + 15 ≤ fuel →
      Fine N c (parseLoop tokens fuel c l)
  | 0, c, _, _, hf => by omega
  | fuel + 1, c, l, hc, hf => by
    rw [parseLoop]
    obtain ⟨b, hb⟩ := isAtEnd_ok hw hc
    simp only [hb, ok_bind]
    cases b with
    | true =>
      simp only [Bool.not_true, Bool.false_eq_true, if_false]
      exact ⟨le_refl _, hc⟩
    | false =>
      simp only [Bool.not_false, if_true]
      apply fine_bind ((stmtTotal_all hw fuel).1 c hc (by omega))
      intro s c1 h1 h2
      apply fine_bind (skipNewlines_fine hw fuel c1 h2 (by omega))
      intro _ c2 h3 h4
      exact fine_mono (parseLoop_fine hw fuel c2 _ h4 (by omega)) (by omega)

/-- The method `parse` on a vector with END_OF_FILE at index `N` and fitting
payloads returns statements or throws a `ParseError`. -/
theorem parse_fine {tokens : List Token} {N : Nat} (hw : WellFormed tokens N) :
    (∃ statements, parse tokens = .ok statements) ∨
      ∃ message token, parse tokens = .error (.ParseError message token) := by
  have hN : N < tokens.length := by
    obtain ⟨⟨t, ht, _⟩, _⟩ := hw
    by_contra h
    rw [List.getElem?_eq_none (Nat.le_of_not_lt h)] at ht
    cases ht
  unfold parse
  have h1 := skipNewlines_fine hw (parseFuel tokens) 0 (Nat.zero_le _)
    (by unfold parseFuel; omega)
  cases hs : skipNewlines tokens (parseFuel tokens) 0 with
  | error e =>
    rw [hs] at h1
    cases e with
    | ParseError m t => exact Or.inr ⟨m, t, rfl⟩
    | _ => exact h1.elim
  | ok p =>
    rw [hs] at h1
    obtain ⟨u, c⟩ := p
    have h2 := parseLoop_fine hw (parseFuel tokens) c [] h1.2 (by unfold parseFuel; omega)
    simp only [ok_bind]
    cases hp : parseLoop tokens (parseFuel tokens) c [] with
    | error e =>
      rw [hp] at h2
      cases e with
      | ParseError m t => exact Or.inr ⟨m, t, rfl⟩
      | _ => exact h2.elim
    | ok q => exact Or.inl ⟨q.1, rfl⟩

end Parser

/-- C40, counterexample: on the vector of an INTEGER token without payload, a
NEWLINE and END_OF_FILE, `parse` ends with `std::bad_variant_access`, which is
neither a statement forest nor a `ParseError`. -/
theorem C40_parse_bad_variant_access :
    (Parser.parse [⟨.INTEGER, "1", .monostate, 1, 1⟩, ⟨.NEWLINE, "\n", .monostate, 1, 2⟩,
      ⟨.END_OF_FILE, "", .monostate, 2, 1⟩]).map Stmt.codeList =
      .error .bad_variant_access := by
  decide!

/-- C40, amended: for every token vector with an END_OF_FILE token at index
`N` (the last token, in particular) in which every INTEGER, FLOAT and STRING
token carries a payload of its kind, `parse` returns statements or throws a
`ParseError`: it does not run out of its step budget, reads no token outside
the vector and no token before the first, and throws no other exception. A
declaration parsed at a cursor not behind `N` with enough steps ends with a
`ParseError` or returns with the cursor advanced by at least one token and not
behind `N`; whatever the number of steps, a declaration that is returned has
moved the cursor so; and the loop of `parse` leaves the cursor not behind `N`. -/
theorem C40_parser_total (tokens : List Token) (N : Nat)
    (hN : ∃ t, tokens[N]? = some t ∧ t.type = .END_OF_FILE)
    (hp : ∀ t ∈ tokens, Parser.payloadOk t = true) :
    ((∃ statements, Parser.parse tokens = .ok statements) ∨
      ∃ message token, Parser.parse tokens = .error (.ParseError message token)) ∧
    (∀ fuel c, c ≤ N → 15 * (N - c) + 14 ≤ fuel →
      (∃ s c1, Parser.declaration tokens fuel c = .ok (s, c1) ∧ c + 1 ≤ c1 ∧ c1 ≤ N) ∨
      ∃ message token, Parser.declaration tokens fuel c = .error (.ParseError message token)) ∧
    (∀ fuel c s c1, c ≤ N → Parser.declaration tokens fuel c = .ok (s, c1) →
      c + 1 ≤ c1 ∧ c1 ≤ N) ∧
    (∀ fuel c l, c ≤ N → 15 * (N - c) + 15 ≤ fuel →
      (∃ statements c1, Parser.parseLoop tokens fuel c l = .ok (statements, c1) ∧
        c ≤ c1 ∧ c1 ≤ N) ∨
      ∃ message token, Parser.parseLoop tokens fuel c l = .error (.ParseError message token)) := by
  have hw : Parser.WellFormed tokens N := ⟨hN, hp⟩
  have key : ∀ {α : Type} {lo : Nat} {r : Except ParseExn (α × Nat)}, Parser.Fine N lo r →
      (∃ a c1, r = .ok (a, c1) ∧ lo ≤ c1 ∧ c1 ≤ N) ∨
        ∃ message token, r = .error (.ParseError message token) := by
    intro α lo r h
    cases r with
    | error e =>
      cases e with
      | ParseError m t => exact Or.inr ⟨m, t, rfl⟩
      | _ => exact h.elim
    | ok p => exact Or.inl ⟨p.1, p.2, rfl, h.1, h.2⟩
  refine ⟨Parser.parse_fine hw, ?_, ?_, ?_⟩
  · intro fuel c hc hf
    exact key ((Parser.stmtTotal_all hw fuel).1 c hc hf)
  · intro fuel c s c1 hc h
    have h1 := Parser.declaration_mono h (fuel + (15 * (N - c) + 14)) (Nat.le_add_right _ _)
    have h2 := (Parser.stmtTotal_all hw (fuel + (15 * (N - c) + 14))).1 c hc
      (Nat.le_add_left _ _)
    rw [h1] at h2
    exact h2
  · intro fuel c l hc hf
    exact key (Parser.parseLoop_fine hw fuel c l hc hf)

/-- Witness of C40 on the tokens of the line `x = 1`: `parse` returns. -/
theorem C40_parser_total_witness :
    ((∃ statements, Parser.parse [⟨.IDENTIFIER, "x", .monostate, 1, 1⟩,
        ⟨.ASSIGN, "=", .monostate, 1, 3⟩, ⟨.INTEGER, "1", .integer 1, 1, 5⟩,
        ⟨.NEWLINE, "\n", .monostate, 1, 6⟩, ⟨.END_OF_FILE, "", .monostate, 2, 1⟩] =
          .ok statements) ∨
      ∃ message token, Parser.parse [⟨.IDENTIFIER, "x", .monostate, 1, 1⟩,
        ⟨.ASSIGN, "=", .monostate, 1, 3⟩, ⟨.INTEGER, "1", .integer 1, 1, 5⟩,
        ⟨.NEWLINE, "\n", .monostate, 1, 6⟩, ⟨.END_OF_FILE, "", .monostate, 2, 1⟩] =
          .error (.ParseError message token)) ∧
    (Parser.parse [⟨.IDENTIFIER, "x", .monostate, 1, 1⟩,
        ⟨.ASSIGN, "=", .monostate, 1, 3⟩, ⟨.INTEGER, "1", .integer 1, 1, 5⟩,
        ⟨.NEWLINE, "\n", .monostate, 1, 6⟩, ⟨.END_OF_FILE, "", .monostate, 2, 1⟩]).map
      Stmt.codeList = .ok (Stmt.codeList [.expressionStmt
        (.assignExpr ⟨.IDENTIFIER, "x", .monostate, 1, 1⟩ (.literalExpr (.int 1)))]) :=
  ⟨(C40_parser_total [⟨.IDENTIFIER, "x", .monostate, 1, 1⟩,
      ⟨.ASSIGN, "=", .monostate, 1, 3⟩, ⟨.INTEGER, "1", .integer 1, 1, 5⟩,
      ⟨.NEWLINE, "\n", .monostate, 1, 6⟩, ⟨.END_OF_FILE, "", .monostate, 2, 1⟩] 4
      ⟨_, rfl, rfl⟩ (by decide)).1, by decide!⟩

theorem factCheck_0 : factCheck 0 = true := by decide!

theorem factCheck_1 : factCheck 1 = true := by decide!

theorem factCheck_2 : factCheck 2 = true := by decide!

theorem factCheck_3 : factCheck 3 = true := by decide!

theorem factCheck_4 : factCheck 4 = true := by decide!

theorem factCheck_5 : factCheck 5 = true := by decide!

theorem factCheck_6 : factCheck 6 = true := by decide!

theorem factCheck_7 : factCheck 7 = true := by decide!

theorem factCheck_8 : factCheck 8 = true := by decide!

theorem factCheck_9 : factCheck 9 = true := by decide!

theorem factCheck_10 : factCheck 10 = true := by decide!

theorem factCheck_11 : factCheck 11 = true := by decide!

theorem factCheck_12 : factCheck 12 = true := by decide!

theorem factCheck_13 : factCheck 13 = true := by decide!

theorem factCheck_14 : factCheck 14 = true := by decide!

theorem factCheck_15 : factCheck 15 = true := by decide!

theorem factCheck_16 : factCheck 16 = true := by decide!

theorem factCheck_17 : factCheck 17 = true := by decide!

theorem factCheck_18 : factCheck 18 = true := by decide!

theorem factCheck_19 : factCheck 19 = true := by decide!

theorem factCheck_20 : factCheck 20 = true := by decide!

theorem factCheck_all : ∀ n, n ≤ 20 → factCheck n = true
  | 0, _ => factCheck_0
  | 1, _ => factCheck_1
  | 2, _ => factCheck_2
  | 3, _ => factCheck_3
  | 4, _ => factCheck_4
  | 5, _ => factCheck_5
  | 6, _ => factCheck_6
  | 7, _ => factCheck_7
  | 8, _ => factCheck_8
  | 9, _ => factCheck_9
  | 10, _ => factCheck_10
  | 11, _ => factCheck_11
  | 12, _ => factCheck_12
  | 13, _ => factCheck_13
  | 14, _ => factCheck_14
  | 15, _ => factCheck_15
  | 16, _ => factCheck_16
  | 17, _ => factCheck_17
  | 18, _ => factCheck_18
  | 19, _ => factCheck_19
  | 20, _ => factCheck_20
  | n + 21, h => absurd h (by omega)

/-- C32: for every `n` from 0 to 20, `run` on the factorial program with the
literal `n` returns without an error (nothing is written to the error stream,
no exception leaves it) and the output written is the decimal text of `n!`
followed by a newline. -/
theorem C32_factorial_end_to_end (n : Nat) (hn : n ≤ 20) :
    (run 200 (factSource n) Interpreter.new false).1.stdout =
      intToString n.factorial ++ "\n" ∧
    (run 200 (factSource n) Interpreter.new false).2 = ("", .returned) := by
  have h := factCheck_all n hn
  unfold factCheck at h
  unfold run
  cases ht : Lexer.tokenize (factSource n).data with
  | error e => rw [ht] at h; cases h
  | ok tokens =>
    rw [ht] at h
    simp only [Bool.and_eq_true, decide_eq_true_eq] at h
    obtain ⟨hle, h⟩ := h
    cases hp : Parser.parseWith 40 tokens with
    | error e => rw [hp] at h; cases h
    | ok statements =>
      rw [hp] at h
      have hparse : Parser.parse tokens = .ok statements :=
        (Parser.parse_of_parseWith tokens 40 (by rw [hp]; simp) hle).trans hp
      simp only [hparse]
      dsimp only at h ⊢
      generalize interpret 200 _ statements = res at h ⊢
      obtain ⟨st, r⟩ := res
      cases r with
      | error e => cases h
      | ok u =>
        simp only [beq_iff_eq] at h
        simp [h]

/-- Witness of C32 at `n = 5`: the program ends with `print(fact(5))` and the
output is `120` and a newline. -/
theorem C32_factorial_end_to_end_witness :
    factSource 5 = "def fact(n):\n    if n <= 1:\n        return 1\n    return n * fact(n - 1)\nprint(fact(5))\n" ∧
    (run 200 (factSource 5) Interpreter.new false).1.stdout = "120\n" ∧
    (run 200 (factSource 5) Interpreter.new false).2 = ("", .returned) :=
  ⟨by decide!, (C32_factorial_end_to_end 5 (by decide)).1.trans (by decide!),
    (C32_factorial_end_to_end 5 (by decide)).2⟩

end MiniPython
